import Mathlib

/-!
# FOSSEE workshop front end: particle simulator, camera, charts, metric animators,
gamification and recommendations

A shallow embedding of the numeric core of `webgl-3d.js`, `data-visualization.js`,
`script.js`, `gamification.js` and `ai-recommendations.js`.

Conventions of the embedding.

* JavaScript numbers are modelled in two ways.  Where the code computes a
  continuous quantity (a position, a coordinate, a camera angle, a level) the
  numbers are exact: rationals for the particle simulator and the camera, and an
  arbitrary linearly ordered field with a floor function for the chart geometry
  (so that the theorems hold for the reals with the real `π`, and the definitions
  still evaluate on `ℚ`).  Where a statement is about a printed number, an exact
  equality or a comparison that rounding can decide (the doughnut slices and
  labels, the metric animator of `script.js`, the dashboard animator), the
  numbers are IEEE 754 doubles: the namespace `Float64` rounds every operation to
  the nearest double, ties to the even significand, and the functions are
  modelled again in the namespaces `Rounded`.  A double is the rational it
  stands for; the sign of zero is not modelled.
* A number that is not finite (`Infinity` or `NaN`: a division by zero, an
  overflow) is modelled by `none`.
* `Math.pow` is left by the language to the engine; the metric animator takes it
  as a parameter, and the general statements ask only that it is accurate to one
  unit in the last place.  `Float64.pow` is the correctly rounded power.
* `Math.random`, `Date.now` and the frame timestamps are inputs of the model.
* `setTimeout` is modelled by a list of pending timers kept in the state, and
  `setInterval` by a list of interval timers, each of which may fire in any order.
* A call of a method that no file of the repository defines throws a
  `TypeError`: `completeQuest` ends with such a call, and the quest methods
  return a `Completion`, the state they leave behind and whether they threw.
* An object literal used as a lookup table is modelled by the finite list of its
  own entries together with the names it inherits from `Object.prototype`: a key
  it holds reads as its value, an inherited name as a function, any other key as
  `undefined`.
* The lower-casing of strings (`toLowerCase`) follows Unicode; it is a parameter
  of the functions that use it.
* `Array.prototype.sort` is stable; with a consistent comparator it is modelled
  by insertion sort.
-/

namespace Fossee

/-! ## Particle simulator (`webgl-3d.js`) -/

namespace WebGL3D

/-- A three component array such as `position`, `velocity` or `gravity`. -/
structure Vec3 where
  x : ℚ
  y : ℚ
  z : ℚ
  deriving DecidableEq, Repr

/-- An entry of `particleSystem.effects`.  Fields that some entries omit are
optional; an omitted flag is `false` (JavaScript `undefined` is falsy). -/
structure Effect where
  particleCount : ℚ
  emissionRate : ℚ
  lifetime : ℚ
  startVelocity : Option Vec3
  gravity : Option Vec3
  color : List ℚ
  size : ℚ
  burst : Bool
  followPath : Bool
  sparkle : Bool
  deriving DecidableEq, Repr

/-- A particle object as built by `emitParticles`. -/
structure Particle where
  position : Vec3
  velocity : Vec3
  life : ℚ
  size : ℚ
  color : List ℚ
  gravity : Option Vec3
  deriving DecidableEq, Repr

/-- An emitter object as built by `triggerParticleEffect`. -/
structure Emitter where
  position : Vec3
  effect : String
  active : Bool
  duration : ℚ
  startTime : ℚ
  deriving DecidableEq, Repr

/-- The object `this.particleSystem`; `effects` is the `Map` in insertion order. -/
structure ParticleSystem where
  particles : List Particle
  maxParticles : ℕ
  emitters : List Emitter
  effects : List (String × Effect)
  deriving DecidableEq, Repr

/-- A pending `setTimeout` callback of `triggerParticleEffect`: it will set
`active = false` on the emitter at index `emitter`, `delay` milliseconds after
it was scheduled. -/
structure Timer where
  emitter : ℕ
  delay : ℚ
  deriving DecidableEq, Repr

/-- The part of the engine the particle simulator reads and writes: the particle
system, the pending timers, and the number of `Math.random` calls made so far. -/
structure Engine where
  particleSystem : ParticleSystem
  timers : List Timer
  randomCalls : ℕ
  deriving DecidableEq, Repr

/-- The table built by `setupParticleEffects`. -/
def setupParticleEffects : List (String × Effect) :=
  [ ("knowledge-flow",
      { particleCount := 200, emissionRate := 10, lifetime := 3.0,
        startVelocity := some ⟨0, 0.5, 0⟩, gravity := some ⟨0, -0.1, 0⟩,
        color := [0.2, 0.8, 1.0, 1.0], size := 0.05,
        burst := false, followPath := false, sparkle := false }),
    ("skill-burst",
      { particleCount := 500, emissionRate := 50, lifetime := 2.0,
        startVelocity := some ⟨0, 0, 0⟩, gravity := some ⟨0, 0, 0⟩,
        color := [1.0, 0.6, 0.2, 1.0], size := 0.08,
        burst := true, followPath := false, sparkle := false }),
    ("learning-path",
      { particleCount := 300, emissionRate := 15, lifetime := 4.0,
        startVelocity := none, gravity := none,
        color := [0.6, 1.0, 0.4, 1.0], size := 0.03,
        burst := false, followPath := true, sparkle := false }),
    ("achievement",
      { particleCount := 100, emissionRate := 20, lifetime := 2.5,
        startVelocity := some ⟨0, 1.0, 0⟩, gravity := some ⟨0, -0.2, 0⟩,
        color := [1.0, 0.8, 0.2, 1.0], size := 0.1,
        burst := false, followPath := false, sparkle := true }) ]

/-- The state after `initParticleSystem`: empty pool, `maxParticles = 1000`,
no emitter, the four effects. -/
def initParticleSystem : Engine :=
  { particleSystem :=
      { particles := [], maxParticles := 1000, emitters := [],
        effects := setupParticleEffects },
    timers := [],
    randomCalls := 0 }

/-- The callback of the `filter` in `updateParticleSystem`: the particle after
the update, or `none` when the callback returns `false` (the particle is
dropped).  The position moves by the velocity before gravity changes it. -/
def updateParticle (p : Particle) : Option Particle :=
  let life := p.life - 0.016
  if life ≤ 0 then none
  else
    let position : Vec3 :=
      ⟨p.position.x + p.velocity.x * 0.016,
       p.position.y + p.velocity.y * 0.016,
       p.position.z + p.velocity.z * 0.016⟩
    let velocity : Vec3 :=
      match p.gravity with
      | some g =>
        ⟨p.velocity.x + g.x * 0.016, p.velocity.y + g.y * 0.016,
         p.velocity.z + g.z * 0.016⟩
      | none => p.velocity
    some { p with life := life, position := position, velocity := velocity }

/-- The particle object built in the body of the loop of `emitParticles`;
`rand` is the stream of `Math.random` results and `k` the number of calls made
before. -/
def newParticle (rand : ℕ → ℚ) (k : ℕ) (effect : Effect) (emitter : Emitter) : Particle :=
  { position := emitter.position,
    velocity := ⟨(rand k - 0.5) * 2, rand (k + 1) * 2, (rand (k + 2) - 0.5) * 2⟩,
    life := effect.lifetime,
    size := effect.size,
    color := effect.color,
    gravity := some (effect.gravity.getD ⟨0, 0, 0⟩) }

/-- The loop `for (let i = 0; i < effect.emissionRate / 60; i++)` of
`emitParticles`, from counter `i`, with at most `fuel` iterations. -/
def emitLoop (rand : ℕ → ℚ) (effect : Effect) (emitter : Emitter) :
    ℕ → ℕ → Engine → Engine
  | 0, _, e => e
  | fuel + 1, i, e =>
    if (i : ℚ) < effect.emissionRate / 60 then
      if e.particleSystem.particles.length ≥ e.particleSystem.maxParticles then e
      else
        emitLoop rand effect emitter fuel (i + 1)
          { e with
            particleSystem :=
              { e.particleSystem with
                particles :=
                  e.particleSystem.particles ++ [newParticle rand e.randomCalls effect emitter] },
            randomCalls := e.randomCalls + 3 }
    else e

/-- The method `emitParticles(emitter)`.  The loop counter stops below
`emissionRate / 60`, so `⌈emissionRate / 60⌉` iterations are enough fuel. -/
def emitParticles (rand : ℕ → ℚ) (emitter : Emitter) (e : Engine) : Engine :=
  match e.particleSystem.effects.lookup emitter.effect with
  | none => e
  | some effect => emitLoop rand effect emitter ⌈effect.emissionRate / 60⌉₊ 0 e

/-- The method `updateParticleSystem(time)`: one tick. -/
def updateParticleSystem (rand : ℕ → ℚ) (_time : ℚ) (e : Engine) : Engine :=
  let e1 : Engine :=
    { e with
      particleSystem :=
        { e.particleSystem with
          particles := e.particleSystem.particles.filterMap updateParticle } }
  e1.particleSystem.emitters.foldl
    (fun acc emitter => if emitter.active then emitParticles rand emitter acc else acc) e1

/-- The method `triggerParticleEffect(effectName)`; `now` is `Date.now()`. -/
def triggerParticleEffect (effectName : String) (now : ℚ) (e : Engine) : Engine :=
  match e.particleSystem.effects.lookup effectName with
  | none => e
  | some effect =>
    let emitter : Emitter :=
      { position := ⟨0, 0, 0⟩,
        effect := effectName,
        active := true,
        duration := if effect.burst then 0.5 else 3.0,
        startTime := now / 1000 }
    { e with
      particleSystem :=
        { e.particleSystem with emitters := e.particleSystem.emitters ++ [emitter] },
      timers :=
        e.timers ++ [{ emitter := e.particleSystem.emitters.length,
                       delay := emitter.duration * 1000 }] }

/-- The `setTimeout` callback of `triggerParticleEffect` runs: the `k`-th
pending timer is removed and its emitter is deactivated. -/
def fireTimer (k : ℕ) (e : Engine) : Engine :=
  match e.timers.get? k with
  | none => e
  | some t =>
    { e with
      particleSystem :=
        { e.particleSystem with
          emitters := e.particleSystem.emitters.modify (fun em => { em with active := false })
            t.emitter },
      timers := e.timers.eraseIdx k }

/-- What can happen to the particle simulator. -/
inductive Op where
  | trigger (effectName : String) (now : ℚ)
  | tick (time : ℚ)
  | timeout (k : ℕ)
  deriving DecidableEq, Repr

/-- One operation. -/
def Op.apply (rand : ℕ → ℚ) (e : Engine) : Op → Engine
  | .trigger effectName now => triggerParticleEffect effectName now e
  | .tick time => updateParticleSystem rand time e
  | .timeout k => fireTimer k e

/-- A sequence of operations, from the initial particle system. -/
def run (rand : ℕ → ℚ) (ops : List Op) : Engine :=
  ops.foldl (Op.apply rand) initParticleSystem

/-- The invariant of the particle simulator: the configured capacity, the
effects table of `setupParticleEffects`, a pool within capacity, and only live
particles in the pool. -/
def PoolInv (e : Engine) : Prop :=
  e.particleSystem.maxParticles = 1000 ∧
  e.particleSystem.effects = setupParticleEffects ∧
  e.particleSystem.particles.length ≤ e.particleSystem.maxParticles ∧
  ∀ p ∈ e.particleSystem.particles, 0 < p.life

/-- An engine whose pool holds `maxParticles = 1000` particles. -/
def fullPool : Engine :=
  { initParticleSystem with
    particleSystem :=
      { initParticleSystem.particleSystem with
        particles := List.replicate 1000
          { position := ⟨0, 0, 0⟩, velocity := ⟨0, 0, 0⟩, life := 2, size := 0.08,
            color := [], gravity := none } } }

/-- The engine with its emitter list replaced by `emitters`. -/
def withEmitters (emitters : List Emitter) (e : Engine) : Engine :=
  { e with particleSystem := { e.particleSystem with emitters := emitters } }

/-! ### Camera and pointer interaction (`setupCanvasInteraction`) -/

/-- The object `this.scene.camera`. -/
structure Camera where
  x : ℚ
  y : ℚ
  z : ℚ
  rotX : ℚ
  rotY : ℚ
  deriving DecidableEq, Repr

/-- The camera together with the local variables `isDragging`, `lastX` and
`lastY` that the handlers of `setupCanvasInteraction` close over. -/
structure Interaction where
  camera : Camera
  isDragging : Bool
  lastX : ℚ
  lastY : ℚ
  deriving DecidableEq, Repr

/-- The method `resetCamera()`; the constructor builds the same camera. -/
def resetCamera (s : Interaction) : Interaction :=
  { s with camera := { x := 0, y := 0, z := 5, rotX := 0, rotY := 0 } }

/-- The state when `setupCanvasInteraction` has run: the constructor's camera,
no drag session. -/
def setupCanvasInteraction : Interaction :=
  { camera := { x := 0, y := 0, z := 5, rotX := 0, rotY := 0 },
    isDragging := false, lastX := 0, lastY := 0 }

/-- The `mousedown` handler. -/
def mousedown (clientX clientY : ℚ) (s : Interaction) : Interaction :=
  { s with isDragging := true, lastX := clientX, lastY := clientY }

/-- The `mousemove` handler. -/
def mousemove (clientX clientY : ℚ) (s : Interaction) : Interaction :=
  if s.isDragging then
    let deltaX := clientX - s.lastX
    let deltaY := clientY - s.lastY
    { s with
      camera :=
        { s.camera with
          rotY := s.camera.rotY + deltaX * 0.01,
          rotX := s.camera.rotX + deltaY * 0.01 },
      lastX := clientX,
      lastY := clientY }
  else s

/-- The `mouseup` handler. -/
def mouseup (s : Interaction) : Interaction :=
  { s with isDragging := false }

/-- The `wheel` handler. -/
def wheel (deltaY : ℚ) (s : Interaction) : Interaction :=
  let z := s.camera.z + deltaY * 0.01
  { s with camera := { s.camera with z := max 1 (min 10 z) } }

/-- The events the canvas and the reset button deliver. -/
inductive CanvasEvent where
  | mousedown (clientX clientY : ℚ)
  | mousemove (clientX clientY : ℚ)
  | mouseup
  | wheel (deltaY : ℚ)
  | resetView
  deriving DecidableEq, Repr

/-- One event. -/
def CanvasEvent.apply (s : Interaction) : CanvasEvent → Interaction
  | .mousedown clientX clientY => WebGL3D.mousedown clientX clientY s
  | .mousemove clientX clientY => WebGL3D.mousemove clientX clientY s
  | .mouseup => WebGL3D.mouseup s
  | .wheel deltaY => WebGL3D.wheel deltaY s
  | .resetView => resetCamera s

/-- A sequence of events, from the state `setupCanvasInteraction` leaves. -/
def handleEvents (events : List CanvasEvent) : Interaction :=
  events.foldl CanvasEvent.apply setupCanvasInteraction

end WebGL3D

/-! ## Chart drawing (`data-visualization.js`) -/

namespace DataVisualization

/-- The members of the JavaScript `Math` object the charts use, over the number
type `α`. -/
structure JSMath (α : Type) where
  PI : α
  cos : α → α
  sin : α → α

section Charts

variable {α : Type} [LinearOrderedField α] [FloorRing α]

/-- The JavaScript quotient `a / b` when it is finite; `none` when `b` is zero
(the quotient is then `Infinity`, `-Infinity` or `NaN`). -/
def div? (a b : α) : Option α :=
  if b = 0 then none else some (a / b)

/-- The function `Math.round`: the nearest integer, halves rounded up. -/
def mathRound (x : α) : ℤ :=
  ⌊x + 1 / 2⌋

/-- The skills dataset object passed to `drawDoughnutChart`. -/
structure DoughnutData (α : Type) where
  labels : List String
  data : List α
  colors : List String

/-- What one iteration of the `forEach` of `drawDoughnutChart` draws: the slice
between `startAngle` and `endAngle` (the two `arc` calls) filled with
`fillStyle`, and the text `label` at `(labelX, labelY)`; `percent` is the
number `Math.round((value / total) * 100)` the label prints.  Here the numbers
are exact, which serves for the position of the label; the angles and the text
as the doubles of the code give them are those of `Rounded.Slice`. -/
structure Slice (α : Type) where
  fillStyle : Option String
  startAngle : α
  endAngle : α
  percent : ℤ
  label : String
  labelX : α
  labelY : α

/-- The `forEach` of `drawDoughnutChart` over the remaining values, at index
`index` with the running `currentAngle`. -/
def doughnutSlices (M : JSMath α) (centerX centerY radius innerRadius total : α)
    (colors : List String) : List α → ℕ → α → Option (List (Slice α))
  | [], _, _ => some []
  | value :: rest, index, currentAngle =>
    match div? value total with
    | none => none
    | some share =>
      let sliceAngle := share * 2 * M.PI
      let labelAngle := currentAngle + sliceAngle / 2
      let labelX := centerX + M.cos labelAngle * (radius + innerRadius) / 2
      let labelY := centerY + M.sin labelAngle * (radius + innerRadius) / 2
      let percent := mathRound (share * 100)
      match doughnutSlices M centerX centerY radius innerRadius total colors rest (index + 1)
          (currentAngle + sliceAngle) with
      | none => none
      | some slices =>
        some ({ fillStyle := colors.get? index,
                startAngle := currentAngle,
                endAngle := currentAngle + sliceAngle,
                percent := percent,
                label := toString percent ++ "%",
                labelX := labelX,
                labelY := labelY } :: slices)

/-- The method `drawDoughnutChart(ctx, data, options)`: the slices it draws, in
order, or `none` when a slice has a non-finite angle.  Exact arithmetic;
`Rounded.drawDoughnutChart` is the method in double precision. -/
def drawDoughnutChart (M : JSMath α) (data : DoughnutData α) (width height : α) :
    Option (List (Slice α)) :=
  let centerX := width / 2
  let centerY := height / 2
  let radius := min width height / 2 - 20
  let innerRadius := radius * (6 / 10)
  let currentAngle := -M.PI / 2
  let total := data.data.foldl (fun sum value => sum + value) 0
  doughnutSlices M centerX centerY radius innerRadius total data.colors data.data 0 currentAngle

/-- The enrollment dataset object passed to `drawLineChart`; `data` is
`datasets[0].data`. -/
structure LineData (α : Type) where
  labels : List String
  data : List α

/-- The options `drawLineChart` reads. -/
structure LineOptions (α : Type) where
  width : α
  height : α
  showPoints : Bool
  gradient : Bool

/-- The coordinates `drawLineChart` computes: the vertices of the data line, the
centres of the point markers, and the labels with their positions. -/
structure LineChart (α : Type) where
  line : List (α × α)
  points : List (α × α)
  labels : List (String × α × α)

/-- The quotient `value / maxValue` of `drawLineChart`, where `maxValue` is
`Math.max(...points)`, which is `-Infinity` (here `⊥`) for no points. -/
def divMax (value : α) : WithBot α → Option α
  | none => some 0
  | some maxValue => div? value maxValue

/-- The coordinates of the data points of `drawLineChart` from index `index` on. -/
def linePoints (padding height chartHeight stepX : α) (maxValue : WithBot α) :
    List α → ℕ → Option (List (α × α))
  | [], _ => some []
  | value :: rest, index =>
    match divMax value maxValue with
    | none => none
    | some normalized =>
      match linePoints padding height chartHeight stepX maxValue rest (index + 1) with
      | none => none
      | some coords =>
        some ((padding + (index : α) * stepX, height - padding - normalized * chartHeight) :: coords)

/-- The positions of the labels of `drawLineChart` from index `index` on. -/
def lineLabels (padding height stepX : α) : List String → ℕ → List (String × α × α)
  | [], _ => []
  | label :: rest, index =>
    (label, padding + (index : α) * stepX, height - 10) ::
      lineLabels padding height stepX rest (index + 1)

/-- The method `drawLineChart(ctx, data, options)`: the coordinates it computes,
or `none` when one of them is not finite. -/
def drawLineChart (data : LineData α) (options : LineOptions α) : Option (LineChart α) :=
  let padding : α := 40
  let chartWidth := options.width - 2 * padding
  let chartHeight := options.height - 2 * padding
  let points := data.data
  let maxValue : WithBot α := points.maximum
  match div? chartWidth ((points.length : α) - 1) with
  | none => none
  | some stepX =>
    match linePoints padding options.height chartHeight stepX maxValue points 0 with
    | none => none
    | some coords =>
      some { line := coords,
             points := if options.showPoints then coords else [],
             labels := lineLabels padding options.height stepX data.labels 0 }

/-- An element of the `skills` array passed to `drawRadarChart`. -/
structure Skill (α : Type) where
  name : String
  level : α

/-- What `drawRadarChart` draws: the vertices of the background polygons, one
list for each `level` from `1` to `levels`; the two ends of each axis line; the
vertices of the data polygon; and the labels, each with its `textAlign`, its
text and its position. -/
structure RadarChart (α : Type) where
  rings : List (List (α × α))
  axes : List ((α × α) × (α × α))
  polygon : List (α × α)
  labels : List (String × String × α × α)

/-- The value of `angle` in the loops of `drawRadarChart` for counter `i` and
`n = skills.length`.  The loop bodies run only for `i < n`, so `n` is not zero
where the quotient is computed. -/
def radarAngle (M : JSMath α) (n i : ℕ) : α :=
  ((i : α) / (n : α)) * 2 * M.PI - M.PI / 2

/-- The method `drawRadarChart(ctx, skills, options)`. -/
def drawRadarChart (M : JSMath α) (skills : List (Skill α)) (width height : α) :
    RadarChart α :=
  let centerX := width / 2
  let centerY := height / 2
  let radius := min width height / 2 - 30
  let levels : ℕ := 5
  let n := skills.length
  { rings :=
      (List.range' 1 levels).map fun (level : ℕ) =>
        let levelRadius := (radius / (levels : α)) * (level : α)
        (List.range n).map fun i =>
          let angle := radarAngle M n i
          (centerX + M.cos angle * levelRadius, centerY + M.sin angle * levelRadius),
    axes :=
      (List.range n).map fun i =>
        let angle := radarAngle M n i
        ((centerX, centerY), (centerX + M.cos angle * radius, centerY + M.sin angle * radius)),
    polygon :=
      skills.enum.map fun entry =>
        let angle := radarAngle M n entry.1
        let value := entry.2.level
        (centerX + M.cos angle * radius * value, centerY + M.sin angle * radius * value),
    labels :=
      skills.enum.map fun entry =>
        let angle := radarAngle M n entry.1
        let labelRadius := radius + 15
        let x := centerX + M.cos angle * labelRadius
        let y := centerY + M.sin angle * labelRadius
        (if x > centerX then "left" else if x < centerX then "right" else "center",
         entry.2.name, x, y) }

end Charts

end DataVisualization

/-! ## Metric animator (`script.js`) -/

namespace Script

/-- Inserts a comma after every third digit of a digit list given least
significant digit first; `k` digits of the current group are already out. -/
def groupDigits : ℕ → List Char → List Char
  | _, [] => []
  | k, c :: cs => if k = 3 then ',' :: c :: groupDigits 1 cs else c :: groupDigits (k + 1) cs

/-- The method `toLocaleString()` on an integer, in the `en-US` locale: decimal
digits in groups of three separated by commas. -/
def toLocaleString (n : ℤ) : String :=
  (if n < 0 then "-" else "") ++
    String.mk (groupDigits 0 (Nat.toDigits 10 n.natAbs).reverse).reverse

/-- The element `animateNumber` writes to and the frame it has pending:
`textContent` is the text displayed, `frameRequested` tells whether a
`requestAnimationFrame` callback is pending, and `requests` counts the calls of
`requestAnimationFrame` made so far. -/
structure Animation where
  textContent : String
  frameRequested : Bool
  requests : ℕ
  deriving DecidableEq, Repr

/-- The value of `progress` in the callback `animate`, or `none` when the
quotient `elapsed / duration` is not finite. -/
def progress (duration startTime currentTime : ℚ) : Option ℚ :=
  let elapsed := currentTime - startTime
  if duration = 0 then none else some (min (elapsed / duration) 1)

/-- The value of `current` in the callback `animate` at a given `progress`, in
exact arithmetic; `Rounded.currentValue` is the value the doubles of the code
give. -/
def currentValue (target : ℤ) (progress : ℚ) : ℤ :=
  let start : ℚ := 0
  let easeOutQuart := 1 - (1 - progress) ^ 4
  ⌊start + ((target : ℚ) - start) * easeOutQuart⌋

/-- The callback `animate(currentTime)` of `animateNumber`, run when its frame
arrives. -/
def animate (target : ℤ) (duration startTime currentTime : ℚ) (s : Animation) :
    Option Animation :=
  match progress duration startTime currentTime with
  | none => none
  | some p =>
    let current := currentValue target p
    let s1 : Animation := { s with textContent := toLocaleString current, frameRequested := false }
    if p < 1 then
      some { s1 with frameRequested := true, requests := s1.requests + 1 }
    else
      some { s1 with textContent := toLocaleString target }

/-- The call `animateNumber(element, target, duration)`: it requests the first
frame and writes nothing. -/
def animateNumber (textContent : String) : Animation :=
  { textContent := textContent, frameRequested := true, requests := 1 }

/-- The animation after the browser has produced `k` frames with timestamps
`frames 0`, ..., `frames (k - 1)`: a frame runs the callback when one is
pending and does nothing otherwise. -/
def runFrames (target : ℤ) (duration startTime : ℚ) (textContent : String)
    (frames : ℕ → ℚ) : ℕ → Option Animation
  | 0 => some (animateNumber textContent)
  | k + 1 =>
    match runFrames target duration startTime textContent frames k with
    | none => none
    | some s =>
      if s.frameRequested then animate target duration startTime (frames k) s else some s

end Script

/-! ## Gamification (`gamification.js`) -/

namespace Gamification

/-- An entry of the `achievements` map with a time condition; `condition` takes
the hour `new Date().getHours()`. -/
structure Achievement where
  id : String
  name : String
  description : String
  points : ℚ
  rarity : String
  category : String
  condition : ℕ → Bool

/-- The method `checkNightActivity()`, at hour `hour`. -/
def checkNightActivity (hour : ℕ) : Bool :=
  decide (hour ≥ 22) || decide (hour ≤ 6)

/-- The method `checkEarlyActivity()`, at hour `hour`. -/
def checkEarlyActivity (hour : ℕ) : Bool :=
  decide (hour ≤ 7)

/-- The entry `early_bird` of the `achievements` map. -/
def earlyBird : Achievement :=
  { id := "early_bird",
    name := "Early Bird",
    description := "Complete a workshop before 7 AM",
    points := 150,
    rarity := "common",
    category := "time",
    condition := checkEarlyActivity }

/-- An entry of `levelSystem.levels`. -/
structure LevelData where
  level : ℕ
  minExp : ℚ
  title : String
  benefits : List String
  deriving DecidableEq, Repr

/-- The table `levelSystem.levels`. -/
def levels : List LevelData :=
  [ { level := 1, minExp := 0, title := "Curious Beginner",
      benefits := ["Access to basic workshops"] },
    { level := 2, minExp := 500, title := "Eager Learner",
      benefits := ["Unlock intermediate workshops", "Custom profile badge"] },
    { level := 3, minExp := 1200, title := "Skilled Practitioner",
      benefits := ["Access to advanced workshops", "Priority support"] },
    { level := 4, minExp := 2500, title := "Expert Developer",
      benefits := ["Exclusive masterclasses", "Mentor opportunities"] },
    { level := 5, minExp := 5000, title := "Knowledge Master",
      benefits := ["Workshop creation tools", "Special recognition"] },
    { level := 6, minExp := 10000, title := "Community Leader",
      benefits := ["Lead study groups", "Beta features access"] },
    { level := 7, minExp := 20000, title := "Innovation Pioneer",
      benefits := ["Research collaborations", "Conference invites"] },
    { level := 8, minExp := 40000, title := "FOSSEE Champion",
      benefits := ["All-access pass", "Lifetime benefits"] } ]

/-- The loop of `calculateLevel` over the remaining levels, with the current
value of `level`; it stops at the first level whose `minExp` is not reached. -/
def calculateLevelLoop (experience : ℚ) : List LevelData → ℕ → ℕ
  | [], level => level
  | levelData :: rest, level =>
    if experience ≥ levelData.minExp then calculateLevelLoop experience rest levelData.level
    else level

/-- The function `levelSystem.calculateLevel(experience)`. -/
def calculateLevel (experience : ℚ) : ℕ :=
  calculateLevelLoop experience levels 1

/-- The object `getProgressToNextLevel` returns. -/
structure LevelProgress where
  progress : ℚ
  pointsNeeded : ℚ
  deriving DecidableEq, Repr

/-- The function `levelSystem.getProgressToNextLevel(experience)`; `none` when
the level found has no entry in the table (reading `minExp` of `undefined`
throws) or when the quotient is not finite. -/
def getProgressToNextLevel (experience : ℚ) : Option LevelProgress :=
  let currentLevel := calculateLevel experience
  match levels.find? (fun l => l.level == currentLevel + 1) with
  | none => some { progress := 100, pointsNeeded := 0 }
  | some nextLevelData =>
    match levels.find? (fun l => l.level == currentLevel) with
    | none => none
    | some currentLevelData =>
      let pointsInCurrentLevel := experience - currentLevelData.minExp
      let pointsNeededForNext := nextLevelData.minExp - currentLevelData.minExp
      if pointsNeededForNext = 0 then none
      else
        some { progress := (pointsInCurrentLevel / pointsNeededForNext) * 100,
               pointsNeeded := nextLevelData.minExp - experience }

/-- The object `quest.reward`. -/
structure Reward where
  points : ℚ
  badge : Option String
  deriving DecidableEq, Repr

/-- A value of the `quests` map; `completed` is absent at first, which reads as
`false`. -/
structure Quest where
  id : String
  name : String
  type : String
  progress : ℚ
  target : ℚ
  reward : Reward
  completed : Bool
  deriving DecidableEq, Repr

/-- The part of the engine the quest functions read and write: the `quests` map
in insertion order, `userProfile.totalPoints`, `userProfile.badges`, and the
record of the runs of `completeQuest` that reached the reward, each with the
quest key and the points it awarded. -/
structure QuestState where
  quests : List (String × Quest)
  totalPoints : ℚ
  badges : List String
  completions : List (String × ℚ)
  deriving DecidableEq, Repr

/-- The map built by `setupQuestSystem`. -/
def setupQuestSystem : List (String × Quest) :=
  [ ("daily_learner",
      { id := "daily_learner", name := "Daily Learning Challenge", type := "daily",
        progress := 0, target := 1, reward := { points := 50, badge := none },
        completed := false }),
    ("weekly_warrior",
      { id := "weekly_warrior", name := "Weekly Learning Warrior", type := "weekly",
        progress := 0, target := 5, reward := { points := 300, badge := some "weekly_champion" },
        completed := false }),
    ("skill_explorer",
      { id := "skill_explorer", name := "Skill Explorer", type := "ongoing",
        progress := 0, target := 3, reward := { points := 200, badge := some "explorer" },
        completed := false }),
    ("social_learner",
      { id := "social_learner", name := "Social Learner", type := "ongoing",
        progress := 0, target := 10, reward := { points := 250, badge := some "social_learner" },
        completed := false }) ]

/-- The quest state of a new profile: the quests of `setupQuestSystem`, no
points, no badge. -/
def initialQuestState : QuestState :=
  { quests := setupQuestSystem, totalPoints := 0, badges := [], completions := [] }

/-- The table `questActions` of `questApplies`. -/
def questActions : List (String × List String) :=
  [ ("daily_learner", ["workshop_completion", "skill_practice", "community_participation"]),
    ("weekly_warrior", ["workshop_completion"]),
    ("skill_explorer", ["workshop_completion"]),
    ("social_learner", ["community_participation", "help_given"]) ]

/-- The method `questApplies(quest, action)`. -/
def questApplies (quest : Quest) (action : String) : Bool :=
  match questActions.lookup quest.id with
  | none => false
  | some actions => actions.contains action

/-- The quest object stored under `key` replaced by `quest` (a write to a field
of the object the map holds). -/
def setQuest (key : String) (quest : Quest) (quests : List (String × Quest)) :
    List (String × Quest) :=
  quests.map (fun entry => if entry.1 = key then (entry.1, quest) else entry)

/-- The method `awardPoints(reason, points)`. -/
def awardPoints (points : ℚ) (s : QuestState) : QuestState :=
  { s with totalPoints := s.totalPoints + points }

/-- The method `awardBadge(badgeId)`. -/
def awardBadge (badgeId : String) (s : QuestState) : QuestState :=
  if s.badges.contains badgeId then s else { s with badges := s.badges ++ [badgeId] }

/-- How a call of a quest method ends: it returns, or it throws a `TypeError`;
in both cases with the quest state it leaves behind. -/
inductive Completion where
  | returned (s : QuestState)
  | threw (s : QuestState)
  deriving DecidableEq, Repr

/-- The quest state a call leaves behind. -/
def Completion.state : Completion → QuestState
  | Completion.returned s => s
  | Completion.threw s => s

/-- The method `completeQuest(questId)`.  Its last statement calls
`this.showQuestCompletionNotification(quest)`, a method that no file of the
repository defines: once the quest is marked and the reward awarded, the call
throws a `TypeError`. -/
def completeQuest (questId : String) (s : QuestState) : Completion :=
  match s.quests.lookup questId with
  | none => Completion.returned s
  | some quest =>
    let s1 : QuestState :=
      { s with
        quests := setQuest questId { quest with completed := true } s.quests,
        completions := s.completions ++ [(questId, quest.reward.points)] }
    let s2 := awardPoints quest.reward.points s1
    match quest.reward.badge with
    | some badge => Completion.threw (awardBadge badge s2)
    | none => Completion.threw s2

/-- The callback of the `forEach` of `updateQuestProgress` for the entry stored
under `key`. -/
def updateQuest (action : String) (amount : ℚ) (s : QuestState) (key : String) : Completion :=
  match s.quests.lookup key with
  | none => Completion.returned s
  | some quest =>
    if questApplies quest action then
      let progress := min (quest.progress + amount) quest.target
      let s1 : QuestState :=
        { s with quests := setQuest key { quest with progress := progress } s.quests }
      if progress ≥ quest.target ∧ quest.completed = false then completeQuest key s1
      else Completion.returned s1
    else Completion.returned s

/-- The `forEach` of `updateQuestProgress` over the remaining keys: a callback
that throws ends the loop, and the entries after it are not visited. -/
def forEachQuest (action : String) (amount : ℚ) : List String → QuestState → Completion
  | [], s => Completion.returned s
  | key :: rest, s =>
    match updateQuest action amount s key with
    | Completion.returned s1 => forEachQuest action amount rest s1
    | Completion.threw s1 => Completion.threw s1

/-- The method `updateQuestProgress(action, amount)`. -/
def updateQuestProgress (action : String) (amount : ℚ) (s : QuestState) : Completion :=
  forEachQuest action amount (s.quests.map (fun entry => entry.1)) s

/-- A sequence of calls of `updateQuestProgress`, each with its action and its
amount, from the quest state of a new profile.  A call that throws leaves its
state behind for the next call. -/
def runQuests (calls : List (String × ℚ)) : QuestState :=
  calls.foldl (fun s call => (updateQuestProgress call.1 call.2 s).state) initialQuestState

/-- The invariant of the quest state: every progress is within `[0, target]`, a
quest not marked completed has no logged run of `completeQuest`, no quest has two
logged runs, `totalPoints` is the sum of the logged rewards, the rewards and the
keys are those of `setupQuestSystem`. -/
def QuestInv (s : QuestState) : Prop :=
  (∀ entry ∈ s.quests, 0 ≤ entry.2.progress ∧ entry.2.progress ≤ entry.2.target) ∧
  (∀ entry ∈ s.quests, entry.2.completed = false → entry.1 ∉ s.completions.map (fun c => c.1)) ∧
  (s.completions.map (fun c => c.1)).Nodup ∧
  s.totalPoints = (s.completions.map (fun c => c.2)).sum ∧
  (∀ entry ∈ s.quests,
    ∃ quest, (entry.1, quest) ∈ setupQuestSystem ∧ quest.reward = entry.2.reward) ∧
  (∀ c ∈ s.completions,
    ∃ quest, (c.1, quest) ∈ setupQuestSystem ∧ quest.reward.points = c.2) ∧
  s.quests.map (fun entry => entry.1) = setupQuestSystem.map (fun entry => entry.1)

end Gamification


/-! ## Recommendation engine (`ai-recommendations.js`) -/

namespace AIRecommendations

/-- The object `this.userProfile`. -/
structure UserProfile where
  skills : List String
  interests : List String
  experienceLevel : String
  preferredDuration : String
  completedWorkshops : List ℕ
  timeSlotPreferences : List String
  learningStyle : String
  deriving DecidableEq, Repr

/-- An element of `this.workshopData`. -/
structure Workshop where
  id : ℕ
  title : String
  skills : List String
  difficulty : String
  duration : String
  category : String
  prerequisites : List String
  rating : ℚ
  completionRate : ℚ
  features : List ℚ
  deriving DecidableEq, Repr

/-- The object `this.modelWeights`. -/
structure ModelWeights where
  skillMatch : ℚ
  interestAlignment : ℚ
  difficultyFit : ℚ
  completionRate : ℚ
  timePreference : ℚ
  deriving DecidableEq, Repr

/-- The weights the constructor sets. -/
def modelWeights : ModelWeights :=
  { skillMatch := 0.3, interestAlignment := 0.25, difficultyFit := 0.2, completionRate := 0.15,
    timePreference := 0.1 }

/-- How a call of a method of the engine ends: it returns a value, it throws a
`TypeError`, or its result is one that ECMAScript leaves to the implementation
(a `sort` whose comparator is not consistent). -/
inductive Outcome (α : Type) where
  | value (a : α)
  | typeError
  | unspecified
  deriving DecidableEq, Repr

/-- The names of the properties every object literal inherits from
`Object.prototype`. -/
def objectPrototypeKeys : List String :=
  ["constructor", "__defineGetter__", "__defineSetter__", "hasOwnProperty",
   "__lookupGetter__", "__lookupSetter__", "isPrototypeOf", "propertyIsEnumerable",
   "toString", "valueOf", "__proto__", "toLocaleString"]

/-- What the property access `table[key]` on an object literal yields: the value
of an entry of the literal, a property inherited from `Object.prototype` (a
function, or for `__proto__` the prototype object: truthy, not a number, and
without a property `min`, `max` or `includes`), or `undefined`. -/
inductive Property (α : Type) where
  | own (value : α)
  | inherited
  | undefined
  deriving DecidableEq, Repr

/-- The property access `table[key]` on the object literal with the entries
`table`. -/
def getProperty {α : Type} (table : List (String × α)) (key : String) : Property α :=
  match table.lookup key with
  | some value => Property.own value
  | none => if objectPrototypeKeys.contains key then Property.inherited else Property.undefined

/-- The string method `includes`: `sub` occurs in `s`. -/
def stringIncludes (s sub : String) : Bool :=
  s.toList.tails.any (fun rest => sub.toList.isPrefixOf rest)

/-- The method `calculateSkillMatch(workshop)`; `toLowerCase` is the string
method of that name, which follows the Unicode case mapping of the platform.
The quotient is computed only when `userSkills` is not empty, so its divisor is
not zero. -/
def calculateSkillMatch (toLowerCase : String → String) (profile : UserProfile)
    (workshop : Workshop) : ℚ :=
  let userSkills := profile.skills
  let workshopSkills := workshop.skills
  if userSkills.length = 0 then 0.5
  else
    let intersection := userSkills.filter (fun skill =>
      workshopSkills.any (fun ws => stringIncludes (toLowerCase ws) (toLowerCase skill)))
    (intersection.length : ℚ) / ((max userSkills.length workshopSkills.length : ℕ) : ℚ)

/-- The table `categoryMap` of `calculateInterestAlignment`. -/
def categoryMap : List (String × List String) :=
  [ ("data-science", ["ai-ml", "analytics"]),
    ("ai-ml", ["data-science", "automation"]),
    ("web-development", ["frontend", "backend", "fullstack"]) ]

/-- The method `calculateInterestAlignment(workshop)`.  When `categoryMap[category]`
is an inherited property, `relatedCategories` has no method `includes`, and the
first call of the callback of `some` throws a `TypeError`. -/
def calculateInterestAlignment (profile : UserProfile) (workshop : Workshop) : Outcome ℚ :=
  let userInterests := profile.interests
  let category := workshop.category
  if userInterests.contains category then Outcome.value 1.0
  else
    match getProperty categoryMap category with
    | Property.inherited =>
      if userInterests.isEmpty then Outcome.value 0.3 else Outcome.typeError
    | Property.own relatedCategories =>
      let hasRelatedInterest :=
        userInterests.any (fun interest => relatedCategories.contains interest)
      Outcome.value (if hasRelatedInterest then 0.7 else 0.3)
    | Property.undefined =>
      let relatedCategories : List String := []
      let hasRelatedInterest :=
        userInterests.any (fun interest => relatedCategories.contains interest)
      Outcome.value (if hasRelatedInterest then 0.7 else 0.3)

/-- The table `levelMap` of `calculateDifficultyFit`. -/
def levelMap : List (String × ℚ) :=
  [("beginner", 1), ("intermediate", 2), ("advanced", 3)]

/-- The expression `levelMap[level] || 1` as an operand of the subtraction in
`calculateDifficultyFit`: a number, or `none` when it is an inherited property,
which in arithmetic is `NaN`. -/
def levelNumber (level : String) : Option ℚ :=
  match getProperty levelMap level with
  | Property.own n => some (if n = 0 then 1 else n)
  | Property.inherited => none
  | Property.undefined => some 1

/-- The method `calculateDifficultyFit(workshop)`; `none` is `NaN`
(`Math.abs` and `Math.max` of `NaN` are `NaN`). -/
def calculateDifficultyFit (profile : UserProfile) (workshop : Workshop) : Option ℚ :=
  let userLevel := profile.experienceLevel
  let workshopDifficulty := workshop.difficulty
  match levelNumber userLevel, levelNumber workshopDifficulty with
  | some userLevelNum, some workshopLevelNum =>
    let difference := |userLevelNum - workshopLevelNum|
    some (max 0 (1 - difference * 0.3))
  | _, _ => none

/-- The method `parseDuration(duration)`: the first run of decimal digits of the
string as a number, or `4` when there is none.  (`parseInt` rounds a number above
`2^53`; such a duration is far outside every range of `preferenceMap`, where
`calculateTimePreference` is `0` for the rounded and for the exact number.) -/
def parseDuration (duration : String) : ℕ :=
  let digits := (duration.toList.dropWhile (fun c => !c.isDigit)).takeWhile Char.isDigit
  if digits.isEmpty then 4 else digits.foldl (fun n c => 10 * n + (c.toNat - 48)) 0

/-- The table `preferenceMap` of `calculateTimePreference`: the bounds `min` and
`max` of each preference. -/
def preferenceMap : List (String × ℚ × ℚ) :=
  [("short", 0, 3), ("medium", 3, 6), ("long", 6, 12)]

/-- The method `calculateTimePreference(workshop)`; `none` is `NaN`.  When
`preferenceMap[userPreference]` is an inherited property, `range.min` and
`range.max` are `undefined`: both comparisons are false and the distance is
`NaN`. -/
def calculateTimePreference (profile : UserProfile) (workshop : Workshop) : Option ℚ :=
  let userPreference := profile.preferredDuration
  let workshopDuration : ℚ := parseDuration workshop.duration
  let score (range : ℚ × ℚ) : ℚ :=
    if workshopDuration ≥ range.1 ∧ workshopDuration ≤ range.2 then 1.0
    else
      let distance := min |workshopDuration - range.1| |workshopDuration - range.2|
      max 0 (1 - distance * 0.2)
  match getProperty preferenceMap userPreference with
  | Property.own range => some (score range)
  | Property.inherited => none
  | Property.undefined => some (score (3, 6))

/-- The method `calculateRecommendationScore(workshop)`: the score, `none` when
it is `NaN`; a `TypeError` of `calculateInterestAlignment` leaves the method. -/
def calculateRecommendationScore (toLowerCase : String → String) (profile : UserProfile)
    (workshop : Workshop) : Outcome (Option ℚ) :=
  let skillScore := calculateSkillMatch toLowerCase profile workshop
  match calculateInterestAlignment profile workshop with
  | Outcome.typeError => Outcome.typeError
  | Outcome.unspecified => Outcome.unspecified
  | Outcome.value interestScore =>
    let completionScore := workshop.completionRate
    match calculateDifficultyFit profile workshop, calculateTimePreference profile workshop with
    | some difficultyScore, some timeScore =>
      Outcome.value (some
        (skillScore * modelWeights.skillMatch +
          interestScore * modelWeights.interestAlignment +
          difficultyScore * modelWeights.difficultyFit +
          completionScore * modelWeights.completionRate +
          timeScore * modelWeights.timePreference))
    | _, _ => Outcome.value none

/-- A workshop extended with its `recommendationScore`; `none` is `NaN`. -/
structure Recommendation where
  workshop : Workshop
  recommendationScore : Option ℚ
  deriving DecidableEq, Repr

/-- What `generateRecommendations` does: the list it passes to
`displayRecommendations` and the list it returns. -/
structure Recommendations where
  displayed : List Recommendation
  returned : List Recommendation
  deriving DecidableEq, Repr

/-- The array method `sort` with the comparator `(a, b) => key(b) - key(a)`.
When every key is a number, the comparator is consistent and the result is the
stable sort by decreasing key.  When every key is `NaN`, every comparison is
`NaN`, which `sort` reads as `0`: the array keeps its order.  When `NaN` stands
among numbers the comparator is in general not consistent, and the order is left
to the implementation. -/
def sortDescending {β : Type} (key : β → Option ℚ) (l : List β) : Outcome (List β) :=
  if l.all (fun b => (key b).isSome) then
    Outcome.value (l.insertionSort (fun a b => (key b).getD 0 ≤ (key a).getD 0))
  else if l.all (fun b => (key b).isNone) then Outcome.value l
  else Outcome.unspecified

/-- The `map` of `generateRecommendations`: every workshop with its score. -/
def scoreAll (toLowerCase : String → String) (profile : UserProfile) :
    List Workshop → Outcome (List Recommendation)
  | [] => Outcome.value []
  | workshop :: rest =>
    match calculateRecommendationScore toLowerCase profile workshop with
    | Outcome.typeError => Outcome.typeError
    | Outcome.unspecified => Outcome.unspecified
    | Outcome.value score =>
      match scoreAll toLowerCase profile rest with
      | Outcome.typeError => Outcome.typeError
      | Outcome.unspecified => Outcome.unspecified
      | Outcome.value scored =>
        Outcome.value ({ workshop := workshop, recommendationScore := score } :: scored)

/-- The method `generateRecommendations()`. -/
def generateRecommendations (toLowerCase : String → String) (profile : UserProfile)
    (workshopData : List Workshop) : Outcome Recommendations :=
  match scoreAll toLowerCase profile workshopData with
  | Outcome.typeError => Outcome.typeError
  | Outcome.unspecified => Outcome.unspecified
  | Outcome.value scored =>
    match sortDescending (fun r : Recommendation => r.recommendationScore) scored with
    | Outcome.typeError => Outcome.typeError
    | Outcome.unspecified => Outcome.unspecified
    | Outcome.value recommendations =>
      Outcome.value { displayed := recommendations.take 3, returned := recommendations }

/-- The number `confidence` of `createRecommendationCard`; `none` is `NaN`, which
the badge prints as `NaN% match`. -/
def confidence (recommendation : Recommendation) : Option ℤ :=
  recommendation.recommendationScore.map (fun score => DataVisualization.mathRound (score * 100))

/-- The method `getPersonalizedLearningPath()`. -/
def getPersonalizedLearningPath (profile : UserProfile) (workshopData : List Workshop) :
    Outcome (List Workshop) :=
  match sortDescending (calculateDifficultyFit profile)
      (workshopData.filter (fun workshop =>
        !profile.completedWorkshops.contains workshop.id)) with
  | Outcome.typeError => Outcome.typeError
  | Outcome.unspecified => Outcome.unspecified
  | Outcome.value path => Outcome.value (path.take 5)

/-- The array `loadWorkshopData` stores in `workshopData`. -/
def loadWorkshopData : List Workshop :=
  [ { id := 1, title := "Python for Data Science",
      skills := ["python", "data-analysis", "pandas", "numpy"],
      difficulty := "intermediate", duration := "6 hours", category := "data-science",
      prerequisites := ["basic-python"], rating := 4.8, completionRate := 0.85,
      features := [0.8, 0.6, 0.7, 0.9, 0.5] },
    { id := 2, title := "Machine Learning Fundamentals",
      skills := ["machine-learning", "python", "scikit-learn"],
      difficulty := "advanced", duration := "8 hours", category := "ai-ml",
      prerequisites := ["python", "statistics"], rating := 4.9, completionRate := 0.78,
      features := [0.9, 0.8, 0.9, 0.8, 0.7] },
    { id := 3, title := "Web Development with JavaScript",
      skills := ["javascript", "html", "css", "react"],
      difficulty := "beginner", duration := "4 hours", category := "web-development",
      prerequisites := [], rating := 4.6, completionRate := 0.92,
      features := [0.6, 0.7, 0.4, 0.9, 0.8] } ]

/-- The profile `loadUserProfile` returns when nothing is stored. -/
def defaultProfile : UserProfile :=
  { skills := [], interests := [], experienceLevel := "beginner", preferredDuration := "medium",
    completedWorkshops := [], timeSlotPreferences := [], learningStyle := "visual" }

/-- The names a score reads as keys of an object literal are not names inherited
from `Object.prototype`. -/
def PlainKeys (profile : UserProfile) (workshop : Workshop) : Prop :=
  profile.experienceLevel ∉ objectPrototypeKeys ∧
  profile.preferredDuration ∉ objectPrototypeKeys ∧
  workshop.difficulty ∉ objectPrototypeKeys ∧
  workshop.category ∉ objectPrototypeKeys

/-- The default profile with the experience level `constructor`, as a stored
profile can set it. -/
def constructorProfile : UserProfile :=
  { defaultProfile with experienceLevel := "constructor" }

end AIRecommendations


/-! ## Dashboard metric animator (`data-visualization.js`, `animateValue`) -/

namespace DataVisualization

/-- The number method `toFixed(digits)`: the sign, the integer part, and `digits`
decimals, the last one rounded half up. -/
def toFixed (x : ℚ) (digits : ℕ) : String :=
  let n : ℕ := ⌊|x| * 10 ^ digits + 1 / 2⌋.toNat
  let whole := n / 10 ^ digits
  let fraction := Nat.toDigits 10 (n % 10 ^ digits)
  let padded := List.replicate (digits - fraction.length) '0' ++ fraction
  (if x < 0 then "-" else "") ++ toString whole ++
    (if digits = 0 then "" else "." ++ String.mk padded)

/-- The text the interval callback of `animateValue` writes:
`decimals > 0 ? current.toFixed(decimals) : Math.floor(current)`. -/
def displayValue (current : ℚ) (decimals : ℕ) : String :=
  if decimals > 0 then toFixed current decimals else toString ⌊current⌋

/-- The variables one call of `animateValue` closes over: `current`,
`increment`, the parameters `end` (here `stop`) and `decimals`, and whether
`clearInterval(timer)` has run. -/
structure ValueTimer where
  current : ℚ
  increment : ℚ
  stop : ℚ
  decimals : ℕ
  cleared : Bool
  deriving DecidableEq, Repr

/-- An element a metric is shown in: its text, the interval timers started on
it, in the order of the calls of `animateValue`, and the writes made to it, each
with the index of its timer. -/
structure MetricElement where
  textContent : String
  timers : List ValueTimer
  writes : List (ℕ × String)
  deriving DecidableEq, Repr

/-- The update of `current` in the interval callback of `animateValue`, in exact
arithmetic; `Rounded.tickTimer` is the update with the rounded addition of the
code. -/
def tickTimer (t : ValueTimer) : ValueTimer :=
  let current := t.current + t.increment
  if current ≥ t.stop then { t with current := t.stop, cleared := true }
  else { t with current := current }

/-- The timer a call of `animateValue` sets up, or `none` when `increment` is
not finite.  Exact arithmetic; `Rounded.newTimer` is the timer with the rounded
increment of the code. -/
def newTimer (start stop duration : ℚ) (decimals : ℕ) : Option ValueTimer :=
  let range := stop - start
  match div? range (duration / 16) with
  | none => none
  | some increment =>
    some { current := start, increment := increment, stop := stop, decimals := decimals,
           cleared := false }

/-- The method `animateValue(elementId, start, end, duration, decimals)` on an
element that exists. -/
def animateValue (start stop duration : ℚ) (decimals : ℕ) (el : MetricElement) :
    Option MetricElement :=
  match newTimer start stop duration decimals with
  | none => none
  | some timer => some { el with timers := el.timers ++ [timer] }

/-- The interval of timer `i` elapses: its callback runs unless the interval has
been cleared. -/
def intervalTick (i : ℕ) (el : MetricElement) : MetricElement :=
  match el.timers.get? i with
  | none => el
  | some t =>
    if t.cleared then el
    else
      let t1 := tickTimer t
      { textContent := displayValue t1.current t1.decimals,
        timers := el.timers.set i t1,
        writes := el.writes ++ [(i, displayValue t1.current t1.decimals)] }

/-- The timer of the call `animateValue('active-users', 0, 1247, 2000)` of
`animateMetrics` when its value is `current`. -/
def activeUsersTimer (current : ℚ) : ValueTimer :=
  { current := current, increment := 1247 * 16 / 2000, stop := 1247, decimals := 0,
    cleared := false }

end DataVisualization

/-! ## Frame rate readout (`webgl-3d.js`, `startRenderLoop`) -/

namespace WebGL3D

/-- The frame counter of `startRenderLoop` and the text of the element
`fps-counter`. -/
structure RenderLoop where
  frameCount : ℕ
  fpsCounter : String
  deriving DecidableEq, Repr

/-- The text written to `fps-counter` at frame `frameCount`, `now` being
`Date.now()`: `Math.round(60000 / (now - (startTime + (frameCount - 60) * 16.67)))`.
The quotient by zero is `Infinity`. -/
def fpsText (startTime now : ℚ) (frameCount : ℕ) : String :=
  let elapsed := now - (startTime + ((frameCount : ℚ) - 60) * 16.67)
  if elapsed = 0 then "Infinity"
  else toString (DataVisualization.mathRound (60000 / elapsed))

/-- The part of the callback `render` that counts frames and updates the
readout; `now` is `Date.now()`. -/
def render (startTime now : ℚ) (s : RenderLoop) : RenderLoop :=
  let frameCount := s.frameCount + 1
  if frameCount % 60 = 0 then
    { frameCount := frameCount, fpsCounter := fpsText startTime now frameCount }
  else { s with frameCount := frameCount }

/-- The render loop after `n` frames, frame `j` (from `0`) running at time
`times j`; `fpsCounter` is the text of the readout before the first frame. -/
def startRenderLoop (startTime : ℚ) (times : ℕ → ℚ) (fpsCounter : String) : ℕ → RenderLoop
  | 0 => { frameCount := 0, fpsCounter := fpsCounter }
  | n + 1 => render startTime (times n) (startRenderLoop startTime times fpsCounter n)

end WebGL3D


/-! ## Double precision arithmetic

The claims about a printed number or an exact equality depend on the rounding
of IEEE 754 doubles.  For them the functions are modelled again with every
arithmetic operation rounded to the nearest double. -/

namespace Float64

/-- The integer nearest to `q`; of two nearest integers the even one. -/
def roundHalfEven (q : ℚ) : ℤ :=
  let n := ⌊q⌋
  let r := q - n
  if r < 1 / 2 then n else if 1 / 2 < r then n + 1 else if n % 2 = 0 then n else n + 1

/-- The exponent of the spacing of the doubles around `x`: the binary exponent
of `x`, at least `-1022` (below it the doubles are subnormal), less the `52`
fraction bits. -/
def ulpExponent (x : ℚ) : ℤ :=
  max (Int.log 2 |x|) (-1022) - 52

/-- The double nearest to the rational `x`, ties to the even significand;
`none` when the result overflows to an infinity. -/
def round (x : ℚ) : Option ℚ :=
  let y := (roundHalfEven (x / 2 ^ ulpExponent x) : ℚ) * 2 ^ ulpExponent x
  if |y| < 2 ^ (1024 : ℤ) then some y else none

/-- The sum `a + b` of two doubles, when it is finite. -/
def add (a b : ℚ) : Option ℚ := round (a + b)

/-- The difference `a - b` of two doubles, when it is finite. -/
def sub (a b : ℚ) : Option ℚ := round (a - b)

/-- The product `a * b` of two doubles, when it is finite. -/
def mul (a b : ℚ) : Option ℚ := round (a * b)

/-- The quotient `a / b` of two doubles, when it is finite; the quotient by zero
is an infinity or `NaN`. -/
def div (a b : ℚ) : Option ℚ := if b = 0 then none else round (a / b)

/-- The double `Math.PI`. -/
def PI : ℚ := 884279719003555 / 281474976710656

/-- The function `Math.pow` with a natural exponent, taken to be correctly
rounded. -/
def pow (x : ℚ) (n : ℕ) : Option ℚ := round (x ^ n)

/-- A number is a double when rounding leaves it as it is. -/
def IsDouble (x : ℚ) : Prop := round x = some x

/-- The number `Number.EPSILON`, the spacing of the doubles at `1`. -/
def epsilon : ℚ := 2 ^ (-52 : ℤ)

end Float64

/-! ## Doughnut chart and dashboard animator in double precision
(`data-visualization.js`) -/

namespace DataVisualization

namespace Rounded

/-- The reduction `data.data.reduce((sum, value) => sum + value, 0)` over the
remaining values, with the running `sum`; `none` when a sum is not finite. -/
def total : List ℚ → ℚ → Option ℚ
  | [], sum => some sum
  | value :: rest, sum =>
    match Float64.add sum value with
    | none => none
    | some next => total rest next

/-- What one iteration of the `forEach` of `drawDoughnutChart` draws, as far as
the angles and the label text go: the arcs between `startAngle` and `endAngle`,
the number `sliceAngle`, and the text `label` with the number `percent` it
prints. -/
structure Slice where
  startAngle : ℚ
  endAngle : ℚ
  sliceAngle : ℚ
  percent : ℤ
  label : String
  deriving DecidableEq, Repr

/-- The callback of the `forEach` of `drawDoughnutChart` for one `value`, with
the running `currentAngle`: `sliceAngle` is `(value / total) * 2 * Math.PI`, the
arcs end at `currentAngle + sliceAngle`, and the label prints
`Math.round((value / total) * 100)`.  The result is `none` when one of these
numbers is not finite. -/
def drawSlice (total value currentAngle : ℚ) : Option Slice :=
  (Float64.div value total).bind fun share =>
  (Float64.mul share 2).bind fun doubled =>
  (Float64.mul doubled Float64.PI).bind fun sliceAngle =>
  (Float64.add currentAngle sliceAngle).bind fun endAngle =>
  (Float64.mul share 100).bind fun scaled =>
  some { startAngle := currentAngle,
         endAngle := endAngle,
         sliceAngle := sliceAngle,
         percent := mathRound scaled,
         label := toString (mathRound scaled) ++ "%" }

/-- The `forEach` of `drawDoughnutChart` over the remaining values, with the
running `currentAngle`. -/
def doughnutSlices (total : ℚ) : List ℚ → ℚ → Option (List Slice)
  | [], _ => some []
  | value :: rest, currentAngle =>
    match drawSlice total value currentAngle with
    | none => none
    | some slice =>
      match doughnutSlices total rest slice.endAngle with
      | none => none
      | some slices => some (slice :: slices)

/-- The method `drawDoughnutChart(ctx, data, options)` on the values `data.data`,
in double precision: the slices it draws, in order.  The result is `none` when a
number it computes is not finite (an infinity or `NaN`); the drawing is then not
followed further. -/
def drawDoughnutChart (data : List ℚ) : Option (List Slice) :=
  match Float64.div (-Float64.PI) 2 with
  | none => none
  | some currentAngle =>
    match total data 0 with
    | none => none
    | some sum => doughnutSlices sum data currentAngle

/-- What the slice drawn for `value` has to do with the exact quotient
`value / total`: its angle is `(value / total) * 2 * Math.PI` up to the rounding
of three operations, its end angle is the rounded sum of its start angle and its
angle, and its label prints `Math.round` of the double `(value / total) * 100`,
which is the exact product up to the rounding of two operations. -/
def SliceSpec (total value : ℚ) (s : Slice) : Prop :=
  0 ≤ s.sliceAngle ∧ s.sliceAngle ≤ 32 ∧
  |s.sliceAngle - value / total * (2 * Float64.PI)|
    ≤ 4 * 2 ^ (-53 : ℤ) * (value / total * (2 * Float64.PI)) + 16 * 2 ^ (-1075 : ℤ) ∧
  |s.endAngle - (s.startAngle + s.sliceAngle)|
    ≤ 2 ^ (-53 : ℤ) * |s.startAngle + s.sliceAngle| ∧
  (∃ share scaled : ℚ,
    Float64.div value total = some share ∧ Float64.mul share 100 = some scaled ∧
    s.percent = mathRound scaled ∧
    |scaled - value / total * 100| ≤ 3 * 2 ^ (-53 : ℤ) * (value / total * 100)
      + 114 * 2 ^ (-1075 : ℤ)) ∧
  s.label = toString s.percent ++ "%"

/-- The timer a call of `animateValue` sets up, in double precision: `range` is
`end - start`, `increment` is `range / (duration / 16)`, and `current` starts at
`start`; `none` when one of these numbers is not finite. -/
def newTimer (start stop duration : ℚ) (decimals : ℕ) : Option ValueTimer :=
  (Float64.sub stop start).bind fun range =>
  (Float64.div duration 16).bind fun steps =>
  (Float64.div range steps).bind fun increment =>
  some { current := start, increment := increment, stop := stop, decimals := decimals,
         cleared := false }

/-- The update of `current` in the interval callback of `animateValue`, in double
precision: `current += increment`, and when `current >= end` the value becomes
`end` and the interval is cleared.  After it the callback writes
`displayValue current decimals`. -/
def tickTimer (t : ValueTimer) : Option ValueTimer :=
  (Float64.add t.current t.increment).bind fun current =>
  if current ≥ t.stop then some { t with current := t.stop, cleared := true }
  else some { t with current := current }

/-- A timer after `k` of its intervals have elapsed: each runs the callback
unless the interval has been cleared. -/
def ticks : ℕ → ValueTimer → Option ValueTimer
  | 0, t => some t
  | k + 1, t => (ticks k t).bind fun t1 => if t1.cleared then some t1 else tickTimer t1

/-- The text the element shows after `k ≥ 1` intervals of a timer have elapsed:
what the last callback that ran wrote,
`decimals > 0 ? current.toFixed(decimals) : Math.floor(current)`. -/
def shownText (k : ℕ) (t : ValueTimer) : Option String :=
  (ticks k t).map fun t1 => displayValue t1.current t1.decimals

end Rounded

end DataVisualization

/-! ## Metric animator in double precision (`script.js`) -/

namespace Script

namespace Rounded

/-- What is taken of an implementation `pow` of `Math.pow`, which the language
leaves to the engine up to an approximation: on a base `0 ≤ x ≤ 2` the fourth
power is finite and within the relative error `2^-52` (one unit in the last
place) of the exact power, or within `2^-1074` where the power underflows. -/
def PowAccurate (pow : ℚ → ℕ → Option ℚ) : Prop :=
  ∀ x : ℚ, 0 ≤ x → x ≤ 2 →
    ∃ y, pow x 4 = some y ∧ |y - x ^ 4| ≤ 2 ^ (-52 : ℤ) * x ^ 4 + 2 ^ (-1074 : ℤ)

/-- The value of `progress` in the callback `animate`:
`Math.min(elapsed / duration, 1)` with `elapsed = currentTime - startTime`;
`none` when one of these numbers is not finite. -/
def progress (duration startTime currentTime : ℚ) : Option ℚ :=
  (Float64.sub currentTime startTime).bind fun elapsed =>
  (Float64.div elapsed duration).bind fun quotient =>
  some (min quotient 1)

/-- The value of `easeOutQuart` in the callback `animate`:
`1 - Math.pow(1 - progress, 4)`. -/
def easeOutQuart (pow : ℚ → ℕ → Option ℚ) (progress : ℚ) : Option ℚ :=
  (Float64.sub 1 progress).bind fun rest =>
  (pow rest 4).bind fun power =>
  Float64.sub 1 power

/-- The argument of `Math.floor` in the callback `animate`:
`start + (target - start) * easeOutQuart` with `start = 0`. -/
def eased (target : ℤ) (easeOutQuart : ℚ) : Option ℚ :=
  let start : ℚ := 0
  (Float64.sub (target : ℚ) start).bind fun range =>
  (Float64.mul range easeOutQuart).bind fun product =>
  Float64.add start product

/-- The value of `current` in the callback `animate` at a given `progress`. -/
def currentValue (pow : ℚ → ℕ → Option ℚ) (target : ℤ) (progress : ℚ) : Option ℤ :=
  (easeOutQuart pow progress).bind fun ease =>
  (eased target ease).bind fun value =>
  some ⌊value⌋

/-- The callback `animate(currentTime)` of `animateNumber`, run when its frame
arrives, in double precision. -/
def animate (pow : ℚ → ℕ → Option ℚ) (target : ℤ) (duration startTime currentTime : ℚ)
    (s : Animation) : Option Animation :=
  (progress duration startTime currentTime).bind fun p =>
  (currentValue pow target p).bind fun current =>
    let s1 : Animation := { s with textContent := toLocaleString current, frameRequested := false }
    if p < 1 then
      some { s1 with frameRequested := true, requests := s1.requests + 1 }
    else
      some { s1 with textContent := toLocaleString target }

end Rounded

end Script

/-! ## Theorems: particle simulator and camera -/

namespace WebGL3D

/-- What `emitLoop` leaves alone and what it adds. -/
theorem emitLoop_frame (rand : ℕ → ℚ) (effect : Effect) (emitter : Emitter) :
    ∀ (fuel i : ℕ) (e : Engine),
      (emitLoop rand effect emitter fuel i e).particleSystem.maxParticles
          = e.particleSystem.maxParticles ∧
      (emitLoop rand effect emitter fuel i e).particleSystem.effects
          = e.particleSystem.effects ∧
      (emitLoop rand effect emitter fuel i e).particleSystem.emitters
          = e.particleSystem.emitters ∧
      (emitLoop rand effect emitter fuel i e).timers = e.timers ∧
      ∃ added : List Particle,
        (emitLoop rand effect emitter fuel i e).particleSystem.particles
          = e.particleSystem.particles ++ added ∧
        (∀ p ∈ added, p.life = effect.lifetime) ∧
        added.length ≤ e.particleSystem.maxParticles - e.particleSystem.particles.length := by
  intro fuel
  induction fuel with
  | zero =>
    intro i e
    exact ⟨rfl, rfl, rfl, rfl, [], by simp [emitLoop], by simp, by simp⟩
  | succ fuel ih =>
    intro i e
    unfold emitLoop
    by_cases hi : (i : ℚ) < effect.emissionRate / 60
    · by_cases hfull : e.particleSystem.particles.length ≥ e.particleSystem.maxParticles
      · rw [if_pos hi, if_pos hfull]
        exact ⟨rfl, rfl, rfl, rfl, [], by simp, by simp, by simp⟩
      · rw [if_pos hi, if_neg hfull]
        obtain ⟨h1, h2, h3, h4, added, h5, h6, h7⟩ := ih (i + 1)
          { e with
            particleSystem :=
              { e.particleSystem with
                particles :=
                  e.particleSystem.particles ++ [newParticle rand e.randomCalls effect emitter] },
            randomCalls := e.randomCalls + 3 }
        refine ⟨h1, h2, h3, h4, newParticle rand e.randomCalls effect emitter :: added, ?_, ?_, ?_⟩
        · rw [h5]; simp
        · intro p hp
          rcases List.mem_cons.mp hp with rfl | hp
          · rfl
          · exact h6 p hp
        · simp only [List.length_append, List.length_singleton, List.length_cons] at h7 ⊢
          omega
    · rw [if_neg hi]
      exact ⟨rfl, rfl, rfl, rfl, [], by simp, by simp, by simp⟩

/-- What `emitParticles` leaves alone and what it adds. -/
theorem emitParticles_frame (rand : ℕ → ℚ) (emitter : Emitter) (e : Engine) :
    (emitParticles rand emitter e).particleSystem.maxParticles = e.particleSystem.maxParticles ∧
    (emitParticles rand emitter e).particleSystem.effects = e.particleSystem.effects ∧
    (emitParticles rand emitter e).particleSystem.emitters = e.particleSystem.emitters ∧
    (emitParticles rand emitter e).timers = e.timers ∧
    ∃ added : List Particle,
      (emitParticles rand emitter e).particleSystem.particles
        = e.particleSystem.particles ++ added ∧
      (∀ p ∈ added, ∃ effect, e.particleSystem.effects.lookup emitter.effect = some effect ∧
        p.life = effect.lifetime) ∧
      added.length ≤ e.particleSystem.maxParticles - e.particleSystem.particles.length := by
  unfold emitParticles
  cases hl : e.particleSystem.effects.lookup emitter.effect with
  | none => exact ⟨rfl, rfl, rfl, rfl, [], by simp, by simp, by simp⟩
  | some effect =>
    obtain ⟨h1, h2, h3, h4, added, h5, h6, h7⟩ :=
      emitLoop_frame rand effect emitter ⌈effect.emissionRate / 60⌉₊ 0 e
    exact ⟨h1, h2, h3, h4, added, h5, fun p hp => ⟨effect, rfl, h6 p hp⟩, h7⟩

/-- The emission phase of a tick over a list of emitters. -/
theorem emitAll_frame (rand : ℕ → ℚ) (emitters : List Emitter) :
    ∀ e : Engine,
      let r := emitters.foldl
        (fun acc emitter => if emitter.active then emitParticles rand emitter acc else acc) e
      r.particleSystem.maxParticles = e.particleSystem.maxParticles ∧
      r.particleSystem.effects = e.particleSystem.effects ∧
      r.particleSystem.emitters = e.particleSystem.emitters ∧
      r.timers = e.timers ∧
      ∃ added : List Particle,
        r.particleSystem.particles = e.particleSystem.particles ++ added ∧
        (∀ p ∈ added, ∃ name effect, e.particleSystem.effects.lookup name = some effect ∧
          p.life = effect.lifetime) ∧
        added.length ≤ e.particleSystem.maxParticles - e.particleSystem.particles.length := by
  induction emitters with
  | nil =>
    intro e
    exact ⟨rfl, rfl, rfl, rfl, [], by simp, by simp, by simp⟩
  | cons em rest ih =>
    intro e
    simp only [List.foldl_cons]
    by_cases ha : em.active
    · simp only [ha, if_true]
      obtain ⟨a1, a2, a3, a4, add1, a5, a6, a7⟩ := emitParticles_frame rand em e
      obtain ⟨b1, b2, b3, b4, add2, b5, b6, b7⟩ := ih (emitParticles rand em e)
      refine ⟨b1.trans a1, b2.trans a2, b3.trans a3, b4.trans a4, add1 ++ add2, ?_, ?_, ?_⟩
      · rw [b5, a5, List.append_assoc]
      · intro p hp
        rcases List.mem_append.mp hp with hp | hp
        · obtain ⟨effect, h, hlife⟩ := a6 p hp
          exact ⟨em.effect, effect, h, hlife⟩
        · obtain ⟨name, effect, h, hlife⟩ := b6 p hp
          exact ⟨name, effect, a2 ▸ h, hlife⟩
      · rw [a1, a5] at b7
        simp only [List.length_append] at b7 ⊢
        omega
    · simp only [ha]
      exact ih e


/-- One tick: what it leaves alone, which particles it keeps and what it adds. -/
theorem updateParticleSystem_frame (rand : ℕ → ℚ) (time : ℚ) (e : Engine) :
    (updateParticleSystem rand time e).particleSystem.maxParticles
      = e.particleSystem.maxParticles ∧
    (updateParticleSystem rand time e).particleSystem.effects = e.particleSystem.effects ∧
    (updateParticleSystem rand time e).particleSystem.emitters = e.particleSystem.emitters ∧
    (updateParticleSystem rand time e).timers = e.timers ∧
    ∃ added : List Particle,
      (updateParticleSystem rand time e).particleSystem.particles
        = e.particleSystem.particles.filterMap updateParticle ++ added ∧
      (∀ p ∈ added, ∃ name effect, e.particleSystem.effects.lookup name = some effect ∧
        p.life = effect.lifetime) ∧
      added.length ≤ e.particleSystem.maxParticles
        - (e.particleSystem.particles.filterMap updateParticle).length := by
  unfold updateParticleSystem
  exact emitAll_frame rand _ _

/-- A particle kept by the tick has lost exactly `0.016` of life and has life left. -/
theorem updateParticle_some {p q : Particle} (h : updateParticle p = some q) :
    q.life = p.life - 0.016 ∧ 0 < q.life := by
  unfold updateParticle at h
  by_cases hl : p.life - 0.016 ≤ 0
  · simp [hl] at h
  · simp only [hl, if_false, Option.some.injEq] at h
    subst h
    exact ⟨rfl, lt_of_not_ge hl⟩

/-- A particle is kept by the tick exactly when more than `0.016` of life is left. -/
theorem updateParticle_isSome (p : Particle) :
    (updateParticle p).isSome = decide (0 < p.life - 0.016) := by
  unfold updateParticle
  by_cases hl : p.life - 0.016 ≤ 0
  · rw [if_pos hl, decide_eq_false (not_lt.mpr hl)]
    rfl
  · rw [if_neg hl, decide_eq_true (lt_of_not_ge hl)]
    rfl

/-- The particles `filterMap` keeps, matched with their updates. -/
theorem filterMap_updateParticle (l : List Particle) :
    List.Forall₂ (fun p q => updateParticle p = some q)
      (l.filter (fun p => decide (0 < p.life - 0.016))) (l.filterMap updateParticle) := by
  induction l with
  | nil => simp
  | cons p rest ih =>
    cases hp : updateParticle p with
    | none =>
      have h := updateParticle_isSome p
      rw [hp] at h
      simp only [Option.isSome_none] at h
      rw [List.filter_cons_of_neg (by simpa using h.symm), List.filterMap_cons_none hp]
      exact ih
    | some q =>
      have h := updateParticle_isSome p
      rw [hp] at h
      simp only [Option.isSome_some] at h
      rw [List.filter_cons_of_pos (by simpa using h.symm), List.filterMap_cons_some hp]
      exact List.Forall₂.cons hp ih

/-- An entry found by `lookup` is an entry of the table. -/
theorem mem_of_lookup {k : String} {v : Effect} :
    ∀ l : List (String × Effect), l.lookup k = some v → ∃ k', (k', v) ∈ l := by
  intro l
  induction l with
  | nil => intro h; simp at h
  | cons kv rest ih =>
    intro h
    obtain ⟨k', v'⟩ := kv
    rw [List.lookup_cons] at h
    cases hk : (k == k') with
    | true =>
      rw [hk] at h
      simp only [Option.some.injEq] at h
      exact ⟨k', by simp [h]⟩
    | false =>
      rw [hk] at h
      obtain ⟨k'', hmem⟩ := ih h
      exact ⟨k'', List.mem_cons_of_mem _ hmem⟩

/-- Every effect of the table has a positive lifetime. -/
theorem lifetime_pos {name : String} {effect : Effect}
    (h : setupParticleEffects.lookup name = some effect) : 0 < effect.lifetime := by
  obtain ⟨k', hmem⟩ := mem_of_lookup _ h
  simp only [setupParticleEffects, List.mem_cons, Prod.mk.injEq, List.mem_singleton,
    List.not_mem_nil, or_false] at hmem
  rcases hmem with ⟨_, rfl⟩ | ⟨_, rfl⟩ | ⟨_, rfl⟩ | ⟨_, rfl⟩ <;> norm_num

/-- The initial particle system satisfies the invariant. -/
theorem poolInv_init : PoolInv initParticleSystem := by
  refine ⟨rfl, rfl, ?_, ?_⟩ <;> simp [initParticleSystem]

/-- A trigger keeps the invariant. -/
theorem poolInv_trigger (effectName : String) (now : ℚ) {e : Engine} (h : PoolInv e) :
    PoolInv (triggerParticleEffect effectName now e) := by
  unfold triggerParticleEffect
  cases e.particleSystem.effects.lookup effectName with
  | none => exact h
  | some effect => exact h

/-- A timer callback keeps the invariant. -/
theorem poolInv_fireTimer (k : ℕ) {e : Engine} (h : PoolInv e) : PoolInv (fireTimer k e) := by
  unfold fireTimer
  cases e.timers.get? k with
  | none => exact h
  | some t => exact h

/-- A tick keeps the invariant. -/
theorem poolInv_update (rand : ℕ → ℚ) (time : ℚ) {e : Engine} (h : PoolInv e) :
    PoolInv (updateParticleSystem rand time e) := by
  obtain ⟨hmax, heff, hlen, hlife⟩ := h
  obtain ⟨h1, h2, -, -, added, h5, h6, h7⟩ := updateParticleSystem_frame rand time e
  refine ⟨h1.trans hmax, h2.trans heff, ?_, ?_⟩
  · rw [h1, h5, List.length_append]
    have := List.length_filterMap_le updateParticle e.particleSystem.particles
    omega
  · intro p hp
    rw [h5] at hp
    rcases List.mem_append.mp hp with hp | hp
    · obtain ⟨q, -, hq⟩ := List.mem_filterMap.mp hp
      exact (updateParticle_some hq).2
    · obtain ⟨name, effect, hl, hlife'⟩ := h6 p hp
      rw [heff] at hl
      rw [hlife']
      exact lifetime_pos hl

/-- Every reachable engine satisfies the invariant. -/
theorem poolInv_run (rand : ℕ → ℚ) (ops : List Op) : PoolInv (run rand ops) := by
  unfold run
  induction ops using List.reverseRecOn with
  | nil => exact poolInv_init
  | append_singleton ops op ih =>
    rw [List.foldl_append]
    simp only [List.foldl_cons, List.foldl_nil]
    cases op with
    | trigger effectName now => exact poolInv_trigger effectName now ih
    | tick time => exact poolInv_update rand time ih
    | timeout k => exact poolInv_fireTimer k ih

/-- Claim C1 (particle pool bound).  From the initial particle system, after any
sequence of triggers, ticks and timer callbacks the capacity is still `1000` and
the pool holds at most that many particles; and `emitParticles` on an engine
whose pool is full returns the engine unchanged (it is a total function: no
error can be raised). -/
theorem particle_pool_bound (rand : ℕ → ℚ) (ops : List Op) :
    (run rand ops).particleSystem.maxParticles = 1000 ∧
    (run rand ops).particleSystem.particles.length
      ≤ (run rand ops).particleSystem.maxParticles ∧
    ∀ (emitter : Emitter) (e : Engine),
      e.particleSystem.maxParticles ≤ e.particleSystem.particles.length →
        emitParticles rand emitter e = e := by
  obtain ⟨hmax, -, hlen, -⟩ := poolInv_run rand ops
  refine ⟨hmax, hlen, ?_⟩
  intro emitter e hfull
  unfold emitParticles
  cases e.particleSystem.effects.lookup emitter.effect with
  | none => rfl
  | some effect =>
    show emitLoop rand effect emitter ⌈effect.emissionRate / 60⌉₊ 0 e = e
    cases ⌈effect.emissionRate / 60⌉₊ with
    | zero => rfl
    | succ fuel =>
      unfold emitLoop
      by_cases hi : ((0 : ℕ) : ℚ) < effect.emissionRate / 60
      · rw [if_pos hi, if_pos hfull]
      · rw [if_neg hi]

/-- The full-pool case of claim C1 at a pool of `1000` particles. -/
theorem particle_pool_bound_witness :
    fullPool.particleSystem.maxParticles ≤ fullPool.particleSystem.particles.length ∧
    emitParticles (fun _ => 0) ⟨⟨0, 0, 0⟩, "skill-burst", true, 0.5, 0⟩ fullPool = fullPool :=
  ⟨by
    show 1000 ≤ (List.replicate 1000 _).length
    rw [List.length_replicate],
   (particle_pool_bound (fun _ => 0) []).2.2 _ _ (by
    show 1000 ≤ (List.replicate 1000 _).length
    rw [List.length_replicate])⟩

/-- The entry `skill-burst` of the effects table. -/
theorem lookup_skill_burst :
    setupParticleEffects.lookup "skill-burst" =
      some { particleCount := 500, emissionRate := 50, lifetime := 2.0,
             startVelocity := some ⟨0, 0, 0⟩, gravity := some ⟨0, 0, 0⟩,
             color := [1.0, 0.6, 0.2, 1.0], size := 0.08,
             burst := true, followPath := false, sparkle := false } := by
  rfl

/-- Modifying the element just appended. -/
theorem modify_append_singleton (f : Emitter → Emitter) (em : Emitter) :
    ∀ l : List Emitter, (l ++ [em]).modify f l.length = l ++ [f em] := by
  intro l
  induction l with
  | nil => rfl
  | cons a rest ih =>
    simp only [List.cons_append, List.length_cons, List.modify_succ_cons, ih]

/-- The particles an emitter spawns start with the lifetime of its effect. -/
theorem emitParticles_life (rand : ℕ → ℚ) (emitter : Emitter) (e : Engine) (effect : Effect)
    (h : e.particleSystem.effects.lookup emitter.effect = some effect) :
    ∃ added : List Particle,
      (emitParticles rand emitter e).particleSystem.particles
        = e.particleSystem.particles ++ added ∧
      ∀ p ∈ added, p.life = effect.lifetime := by
  obtain ⟨-, -, -, -, added, h5, h6, -⟩ := emitParticles_frame rand emitter e
  refine ⟨added, h5, ?_⟩
  intro p hp
  obtain ⟨effect', h', hlife⟩ := h6 p hp
  rw [h] at h'
  cases h'
  exact hlife

/-- Claim C10 (trigger creates one emitter).  For an effect name found in the
effects table, `triggerParticleEffect` appends exactly one emitter, active, with
that effect name and duration `0.5` when the effect is a burst and `3.0`
otherwise, schedules one timer for that emitter after `duration * 1000`
milliseconds, whose callback deactivates that emitter, and leaves the pool
alone.  In every reachable engine, triggering `skill-burst` gives duration `0.5`
(a timer after `500` ms), and the particles an emitter of that effect spawns
start with life `2.0`. -/
theorem trigger_creates_one_emitter (e : Engine) (effectName : String) (effect : Effect)
    (now : ℚ) (rand : ℕ → ℚ) (ops : List Op) (source : Emitter)
    (h : e.particleSystem.effects.lookup effectName = some effect) :
    (∃ em : Emitter,
      em.active = true ∧ em.effect = effectName ∧
      em.duration = (if effect.burst then 0.5 else 3.0) ∧
      (triggerParticleEffect effectName now e).particleSystem.emitters
        = e.particleSystem.emitters ++ [em] ∧
      (triggerParticleEffect effectName now e).timers
        = e.timers ++ [{ emitter := e.particleSystem.emitters.length,
                         delay := em.duration * 1000 }] ∧
      (fireTimer e.timers.length (triggerParticleEffect effectName now e)).particleSystem.emitters
        = e.particleSystem.emitters ++ [{ em with active := false }]) ∧
    (triggerParticleEffect effectName now e).particleSystem.particles
      = e.particleSystem.particles ∧
    (∃ em : Emitter,
      (triggerParticleEffect "skill-burst" now (run rand ops)).particleSystem.emitters
        = (run rand ops).particleSystem.emitters ++ [em] ∧
      em.duration = 0.5 ∧
      (triggerParticleEffect "skill-burst" now (run rand ops)).timers
        = (run rand ops).timers ++
            [{ emitter := (run rand ops).particleSystem.emitters.length, delay := 500 }]) ∧
    (∃ added : List Particle,
      (emitParticles rand { source with effect := "skill-burst" }
          (run rand ops)).particleSystem.particles
        = (run rand ops).particleSystem.particles ++ added ∧
      ∀ p ∈ added, p.life = 2.0) := by
  have hsb : (run rand ops).particleSystem.effects.lookup "skill-burst" = _ :=
    (poolInv_run rand ops).2.1 ▸ lookup_skill_burst
  refine ⟨?_, ?_, ?_, ?_⟩
  · unfold triggerParticleEffect
    rw [h]
    refine ⟨_, rfl, rfl, rfl, rfl, rfl, ?_⟩
    unfold fireTimer
    simp only [List.get?_eq_getElem?, List.getElem?_concat_length]
    exact modify_append_singleton _ _ _
  · unfold triggerParticleEffect
    rw [h]
  · unfold triggerParticleEffect
    rw [hsb]
    refine ⟨_, rfl, ?_, ?_⟩
    · simp
    · simp only [if_true]
      norm_num
  · exact emitParticles_life rand { source with effect := "skill-burst" } (run rand ops) _ hsb

/-- Claim C10 at `skill-burst` in the initial particle system. -/
theorem trigger_creates_one_emitter_witness :
    initParticleSystem.particleSystem.effects.lookup "skill-burst" =
      some { particleCount := 500, emissionRate := 50, lifetime := 2.0,
             startVelocity := some ⟨0, 0, 0⟩, gravity := some ⟨0, 0, 0⟩,
             color := [1.0, 0.6, 0.2, 1.0], size := 0.08,
             burst := true, followPath := false, sparkle := false } ∧
    (triggerParticleEffect "skill-burst" 0 initParticleSystem).particleSystem.particles
      = initParticleSystem.particleSystem.particles :=
  ⟨lookup_skill_burst,
   (trigger_creates_one_emitter initParticleSystem "skill-burst" _ 0 (fun _ => 0) []
      ⟨⟨0, 0, 0⟩, "", true, 0, 0⟩ lookup_skill_burst).2.1⟩

/-- Every handler keeps the camera distance in `[1, 10]`. -/
theorem zoomInv_foldl (events : List CanvasEvent) :
    ∀ s : Interaction, 1 ≤ s.camera.z ∧ s.camera.z ≤ 10 →
      1 ≤ (events.foldl CanvasEvent.apply s).camera.z ∧
      (events.foldl CanvasEvent.apply s).camera.z ≤ 10 := by
  induction events with
  | nil => intro s h; exact h
  | cons ev rest ih =>
    intro s h
    rw [List.foldl_cons]
    apply ih
    cases ev with
    | mousedown clientX clientY => exact h
    | mousemove clientX clientY =>
      show 1 ≤ (mousemove clientX clientY s).camera.z ∧ (mousemove clientX clientY s).camera.z ≤ 10
      unfold mousemove
      by_cases hd : s.isDragging
      · rw [if_pos hd]; exact h
      · rw [if_neg hd]; exact h
    | mouseup => exact h
    | wheel deltaY =>
      show 1 ≤ max 1 (min 10 (s.camera.z + deltaY * 0.01)) ∧
        max 1 (min 10 (s.camera.z + deltaY * 0.01)) ≤ 10
      exact ⟨le_max_left _ _, max_le (by norm_num) (min_le_left _ _)⟩
    | resetView =>
      show (1 : ℚ) ≤ 5 ∧ (5 : ℚ) ≤ 10
      norm_num

/-- Claim C3 (camera zoom clamp).  After every sequence of mouse, wheel and
reset events, with arbitrary rational wheel deltas, the camera distance `z` lies
in `[1, 10]`. -/
theorem camera_zoom_clamp (events : List CanvasEvent) :
    1 ≤ (handleEvents events).camera.z ∧ (handleEvents events).camera.z ≤ 10 := by
  unfold handleEvents
  apply zoomInv_foldl
  show (1 : ℚ) ≤ 5 ∧ (5 : ℚ) ≤ 10
  norm_num

end WebGL3D

/-! ## Theorems: chart drawing -/

namespace DataVisualization

section ChartTheorems

variable {α : Type} [LinearOrderedField α]

/-- A quotient by a non-zero number is finite. -/
theorem div?_of_ne (a : α) {b : α} (h : b ≠ 0) : div? a b = some (a / b) := by
  unfold div?
  rw [if_neg h]

/-- A quotient by zero is not finite. -/
theorem div?_zero (a : α) : div? a 0 = none := by
  unfold div?
  rw [if_pos rfl]

/-- The `reduce` of `drawDoughnutChart` is the sum of the values. -/
theorem foldl_add_eq_sum (l : List α) (a : α) :
    l.foldl (fun sum value => sum + value) a = a + l.sum := by
  induction l generalizing a with
  | nil => simp
  | cons v rest ih => rw [List.foldl_cons, ih, List.sum_cons, add_assoc]

/-- A single data point: the step `chartWidth / (points.length - 1)` divides by zero. -/
theorem drawLineChart_single (data : LineData α) (options : LineOptions α)
    (h : data.data.length = 1) : drawLineChart data options = none := by
  unfold drawLineChart
  simp only [h, Nat.cast_one, sub_self, div?_zero]

/-- With a finite step and a non-zero maximum every data point has finite
coordinates. -/
theorem linePoints_isSome (padding height chartHeight stepX maxValue : α) (hmax : maxValue ≠ 0) :
    ∀ (values : List α) (index : ℕ),
      ∃ coords : List (α × α),
        linePoints padding height chartHeight stepX (maxValue : WithBot α) values index
          = some coords ∧
        coords.length = values.length := by
  intro values
  induction values with
  | nil => intro index; exact ⟨[], rfl, rfl⟩
  | cons value rest ih =>
    intro index
    obtain ⟨coords, hc, hlen⟩ := ih (index + 1)
    have hdiv : divMax value (maxValue : WithBot α) = some (value / maxValue) :=
      div?_of_ne value hmax
    rw [linePoints, hdiv]
    simp only [hc]
    exact ⟨_, rfl, by rw [List.length_cons, List.length_cons, hlen]⟩

/-- Two or more data points with a non-zero maximum: every coordinate
`drawLineChart` computes is finite. -/
theorem drawLineChart_finite (data : LineData α) (options : LineOptions α) (maxValue : α)
    (hlen : 2 ≤ data.data.length) (hmax : data.data.maximum = (maxValue : WithBot α))
    (hne : maxValue ≠ 0) :
    ∃ chart : LineChart α,
      drawLineChart data options = some chart ∧
      chart.line.length = data.data.length ∧
      chart.labels.length = data.labels.length := by
  have hstep : ((data.data.length : ℕ) : α) - 1 ≠ 0 := by
    have h2 : (2 : α) ≤ ((data.data.length : ℕ) : α) := by exact_mod_cast hlen
    intro h
    linarith
  have hlabels : ∀ (labels : List String) (index : ℕ) (stepX : α),
      (lineLabels 40 options.height stepX labels index).length = labels.length := by
    intro labels
    induction labels with
    | nil => intro index stepX; rfl
    | cons label rest ih =>
      intro index stepX
      rw [lineLabels, List.length_cons, List.length_cons, ih]
  obtain ⟨coords, hc, hclen⟩ :=
    linePoints_isSome 40 options.height (options.height - 2 * 40)
      ((options.width - 2 * 40) / (((data.data.length : ℕ) : α) - 1)) maxValue hne data.data 0
  unfold drawLineChart
  simp only [div?_of_ne _ hstep, hmax, hc]
  exact ⟨_, rfl, hclen, hlabels _ _ _⟩

variable [FloorRing α]

/-- What the slice loop draws when the total is not zero. -/
theorem doughnutSlices_spec (M : JSMath α) (centerX centerY radius innerRadius total : α)
    (colors : List String) (htotal : total ≠ 0) :
    ∀ (values : List α) (index : ℕ) (currentAngle : α),
      ∃ slices : List (Slice α),
        doughnutSlices M centerX centerY radius innerRadius total colors values index currentAngle
          = some slices ∧
        List.Forall₂
          (fun value slice =>
            slice.endAngle - slice.startAngle = value / total * 2 * M.PI ∧
            slice.percent = mathRound (value / total * 100) ∧
            slice.label = toString slice.percent ++ "%") values slices ∧
        List.Chain' (fun a b => b.startAngle = a.endAngle) slices ∧
        (∀ s ∈ slices.head?, s.startAngle = currentAngle) ∧
        (∀ s ∈ slices.getLast?, s.endAngle = currentAngle + values.sum / total * 2 * M.PI) := by
  intro values
  induction values with
  | nil =>
    intro index currentAngle
    exact ⟨[], rfl, List.Forall₂.nil, List.chain'_nil, by simp, by simp⟩
  | cons value rest ih =>
    intro index currentAngle
    obtain ⟨slices, hs, hall, hchain, hhead, hlast⟩ :=
      ih (index + 1) (currentAngle + value / total * 2 * M.PI)
    rw [doughnutSlices, div?_of_ne value htotal]
    simp only [hs]
    refine ⟨_, rfl, ?_, ?_, ?_, ?_⟩
    · refine List.Forall₂.cons ⟨?_, rfl, rfl⟩ hall
      show currentAngle + value / total * 2 * M.PI - currentAngle = _
      ring
    · cases slices with
      | nil => exact List.chain'_singleton _
      | cons s rest' =>
        refine List.Chain'.cons ?_ hchain
        exact hhead s (by simp)
    · intro s hs'
      simp only [List.head?_cons, Option.mem_def, Option.some.injEq] at hs'
      subst hs'
      rfl
    · intro s hs'
      cases slices with
      | nil =>
        cases hall
        simp only [List.getLast?_singleton, Option.mem_def, Option.some.injEq] at hs'
        subst hs'
        show currentAngle + value / total * 2 * M.PI = _
        simp
      | cons s' rest' =>
        rw [List.getLast?_cons_cons] at hs'
        rw [hlast s hs', List.sum_cons]
        ring

/-- `Math.round` is within one half of its argument. -/
theorem mathRound_bounds (x : α) :
    x - 1 / 2 < (mathRound x : α) ∧ (mathRound x : α) ≤ x + 1 / 2 := by
  unfold mathRound
  constructor
  · have := Int.lt_floor_add_one (x + 1 / 2)
    linarith
  · exact Int.floor_le (x + 1 / 2)

/-- The slices of a chart whose total is not zero, value by value. -/
theorem drawDoughnutChart_slices (M : JSMath α) (data : DoughnutData α) (width height : α)
    (hne : data.data.sum ≠ 0) :
    ∃ slices : List (Slice α),
      drawDoughnutChart M data width height = some slices ∧
      List.Forall₂
        (fun value slice =>
          slice.endAngle - slice.startAngle = value / data.data.sum * 2 * M.PI ∧
          slice.percent = mathRound (value / data.data.sum * 100) ∧
          slice.label = toString slice.percent ++ "%") data.data slices := by
  have hfold : data.data.foldl (fun sum value => sum + value) 0 = data.data.sum := by
    rw [foldl_add_eq_sum, zero_add]
  obtain ⟨slices, hs, hall, -, -, -⟩ :=
    doughnutSlices_spec M (width / 2) (height / 2) (min width height / 2 - 20)
      ((min width height / 2 - 20) * (6 / 10)) data.data.sum data.colors hne data.data 0
      (-M.PI / 2)
  refine ⟨slices, ?_, hall⟩
  unfold drawDoughnutChart
  simp only [hfold]
  exact hs

/-- Claim C6 at a single data point: the dataset `[120]` is not empty and its
maximum `120` is not zero, yet `drawLineChart` computes a coordinate that is not
finite, because `stepX` divides by `points.length - 1 = 0`. -/
theorem line_chart_single_point_not_finite :
    List.maximum ([120] : List ℚ) = ((120 : ℚ) : WithBot ℚ) ∧
    drawLineChart (⟨["Jan"], [120]⟩ : LineData ℚ) ⟨400, 200, true, true⟩ = none := by
  refine ⟨?_, drawLineChart_single _ _ rfl⟩
  rw [List.maximum_singleton]

end ChartTheorems

end DataVisualization

/-! ## Theorems: metric animator -/

namespace Script

/-- Before the duration has elapsed the callback writes the eased value and
requests another frame. -/
theorem animate_running (target : ℤ) (duration startTime currentTime : ℚ) (s : Animation)
    (hD : 0 < duration) (ht : currentTime < startTime + duration) :
    animate target duration startTime currentTime s =
      some { textContent :=
               toLocaleString (currentValue target (min ((currentTime - startTime) / duration) 1)),
             frameRequested := true,
             requests := s.requests + 1 } := by
  have hp : min ((currentTime - startTime) / duration) 1 < 1 := by
    apply min_lt_of_left_lt
    rw [div_lt_one hD]
    linarith
  unfold animate progress
  simp only [ne_of_gt hD, if_false, hp, if_true]

/-- Once the duration has elapsed the callback writes the target and requests
no frame. -/
theorem animate_done (target : ℤ) (duration startTime currentTime : ℚ) (s : Animation)
    (hD : 0 < duration) (ht : startTime + duration ≤ currentTime) :
    animate target duration startTime currentTime s =
      some { textContent := toLocaleString target,
             frameRequested := false,
             requests := s.requests } := by
  have hp : ¬ min ((currentTime - startTime) / duration) 1 < 1 := by
    rw [not_lt]
    apply le_min _ le_rfl
    rw [one_le_div hD]
    linarith
  unfold animate progress
  simp only [ne_of_gt hD, if_false, hp]

/-- While no frame has reached the end of the animation, every frame runs the
callback and leaves one more request pending. -/
theorem runFrames_running (target : ℤ) (duration startTime : ℚ) (textContent : String)
    (frames : ℕ → ℚ) (hD : 0 < duration) :
    ∀ k : ℕ, (∀ j, j < k → frames j < startTime + duration) →
      ∃ text : String,
        runFrames target duration startTime textContent frames k =
          some { textContent := text, frameRequested := true, requests := k + 1 } := by
  intro k
  induction k with
  | zero => intro _; exact ⟨textContent, rfl⟩
  | succ k ih =>
    intro h
    obtain ⟨text, hk⟩ := ih (fun j hj => h j (Nat.lt_succ_of_lt hj))
    rw [runFrames, hk]
    simp only [if_true]
    rw [animate_running target duration startTime (frames k) _ hD (h k (Nat.lt_succ_self k))]
    exact ⟨_, rfl⟩

/-- After the callback has stopped requesting frames nothing changes. -/
theorem runFrames_stable (target : ℤ) (duration startTime : ℚ) (textContent : String)
    (frames : ℕ → ℚ) (n : ℕ) (s : Animation) (hs : s.frameRequested = false)
    (hn : runFrames target duration startTime textContent frames n = some s) :
    ∀ m : ℕ, n ≤ m → runFrames target duration startTime textContent frames m = some s := by
  intro m hm
  induction m, hm using Nat.le_induction with
  | base => exact hn
  | succ m _ ih =>
    rw [runFrames, ih]
    simp only [hs, Bool.false_eq_true, if_false]

/-- Claim C7 (metric animator termination).  For a positive duration and frame
timestamps that reach `startTime + duration`, there is a number `N ≥ 1` of
frames such that frame `N` is the first one at or after the end of the
animation and, from then on for ever, the element shows exactly the target
(formatted by `toLocaleString`), no frame is pending, and `requestAnimationFrame`
has been called `N` times in all. -/
theorem animateNumber_terminates (target : ℤ) (duration startTime : ℚ) (textContent : String)
    (frames : ℕ → ℚ) (hD : 0 < duration) (hreach : ∃ n, startTime + duration ≤ frames n) :
    ∃ N : ℕ, 0 < N ∧ startTime + duration ≤ frames (N - 1) ∧
      ∀ m : ℕ, N ≤ m →
        runFrames target duration startTime textContent frames m =
          some { textContent := toLocaleString target, frameRequested := false, requests := N } := by
  classical
  let n0 := Nat.find hreach
  have hn0 : startTime + duration ≤ frames n0 := Nat.find_spec hreach
  have hbefore : ∀ j, j < n0 → frames j < startTime + duration := fun j hj =>
    lt_of_not_ge (Nat.find_min hreach hj)
  obtain ⟨text, hrun⟩ :=
    runFrames_running target duration startTime textContent frames hD n0 hbefore
  have hlast : runFrames target duration startTime textContent frames (n0 + 1) =
      some { textContent := toLocaleString target, frameRequested := false,
             requests := n0 + 1 } := by
    rw [runFrames, hrun]
    simp only [if_true]
    rw [animate_done target duration startTime (frames n0) _ hD hn0]
  exact ⟨n0 + 1, Nat.succ_pos n0, hn0,
    runFrames_stable target duration startTime textContent frames (n0 + 1) _ rfl hlast⟩

/-- Claim C7 for target `1247`, duration `2000` and a frame every `500` ms. -/
theorem animateNumber_terminates_witness :
    (0 : ℚ) < 2000 ∧ (∃ n : ℕ, (0 : ℚ) + 2000 ≤ (fun k : ℕ => 500 * (k : ℚ)) n) ∧
    ∃ N : ℕ, 0 < N ∧ (0 : ℚ) + 2000 ≤ (fun k : ℕ => 500 * (k : ℚ)) (N - 1) ∧
      ∀ m : ℕ, N ≤ m →
        runFrames 1247 2000 0 "0" (fun k : ℕ => 500 * (k : ℚ)) m =
          some { textContent := toLocaleString 1247, frameRequested := false, requests := N } :=
  ⟨by norm_num, ⟨4, by norm_num⟩,
   animateNumber_terminates 1247 2000 0 "0" (fun k : ℕ => 500 * (k : ℚ)) (by norm_num)
     ⟨4, by norm_num⟩⟩

end Script

/-! ## Theorems: particle simulator and camera, continued -/

namespace WebGL3D

/-- Claim C11 (unknown effect is a no-op).  For an effect name that is not a key
of the effects table, `triggerParticleEffect` returns the engine it was given:
the emitter list, the pool, the effects table and the pending timers are all
unchanged. -/
theorem unknown_effect_noop (e : Engine) (effectName : String) (now : ℚ)
    (h : e.particleSystem.effects.lookup effectName = none) :
    triggerParticleEffect effectName now e = e := by
  unfold triggerParticleEffect
  rw [h]

/-- Claim C11 at the name `fireworks` in the initial particle system. -/
theorem unknown_effect_noop_witness :
    initParticleSystem.particleSystem.effects.lookup "fireworks" = none ∧
    triggerParticleEffect "fireworks" 0 initParticleSystem = initParticleSystem :=
  ⟨by rfl, unknown_effect_noop initParticleSystem "fireworks" 0 (by rfl)⟩

/-- The loop of `emitParticles` adds at most one particle for each unit of fuel. -/
theorem emitLoop_length_le (rand : ℕ → ℚ) (effect : Effect) (emitter : Emitter) :
    ∀ (fuel i : ℕ) (e : Engine),
      (emitLoop rand effect emitter fuel i e).particleSystem.particles.length
        ≤ e.particleSystem.particles.length + fuel := by
  intro fuel
  induction fuel with
  | zero => intro i e; exact le_rfl
  | succ fuel ih =>
    intro i e
    unfold emitLoop
    by_cases hi : (i : ℚ) < effect.emissionRate / 60
    · by_cases hfull : e.particleSystem.particles.length ≥ e.particleSystem.maxParticles
      · rw [if_pos hi, if_pos hfull]
        omega
      · rw [if_pos hi, if_neg hfull]
        refine le_trans (ih (i + 1) _) ?_
        simp only [List.length_append, List.length_singleton]
        omega
    · rw [if_neg hi]
      omega

/-- With room in the pool, the loop of `emitParticles` adds one particle for
every counter below `emissionRate / 60`. -/
theorem emitLoop_length_eq (rand : ℕ → ℚ) (effect : Effect) (emitter : Emitter) :
    ∀ (fuel i : ℕ) (e : Engine),
      i + fuel = ⌈effect.emissionRate / 60⌉₊ →
      e.particleSystem.particles.length + fuel ≤ e.particleSystem.maxParticles →
      (emitLoop rand effect emitter fuel i e).particleSystem.particles.length
        = e.particleSystem.particles.length + fuel := by
  intro fuel
  induction fuel with
  | zero => intro i e _ _; rfl
  | succ fuel ih =>
    intro i e hfuel hroom
    have hi : (i : ℚ) < effect.emissionRate / 60 := by
      rw [← Nat.lt_ceil]
      omega
    have hfull : ¬ e.particleSystem.particles.length ≥ e.particleSystem.maxParticles := by
      omega
    unfold emitLoop
    rw [if_pos hi, if_neg hfull, ih (i + 1) _ (by omega)]
    · simp only [List.length_append, List.length_singleton]
      omega
    · simp only [List.length_append, List.length_singleton]
      omega

/-- The loop of `emitParticles` has stopped when its fuel `⌈emissionRate / 60⌉`
is used up: more fuel changes nothing. -/
theorem emitLoop_fuel (rand : ℕ → ℚ) (effect : Effect) (emitter : Emitter) (extra : ℕ) :
    ∀ (fuel i : ℕ) (e : Engine),
      i + fuel = ⌈effect.emissionRate / 60⌉₊ →
      emitLoop rand effect emitter (fuel + extra) i e = emitLoop rand effect emitter fuel i e := by
  intro fuel
  induction fuel with
  | zero =>
    intro i e hfuel
    have hi : ¬ (i : ℚ) < effect.emissionRate / 60 := by
      rw [← Nat.lt_ceil]
      omega
    cases extra with
    | zero => rfl
    | succ extra =>
      rw [Nat.zero_add]
      unfold emitLoop
      rw [if_neg hi]
  | succ fuel ih =>
    intro i e hfuel
    rw [Nat.add_right_comm]
    unfold emitLoop
    by_cases hi : (i : ℚ) < effect.emissionRate / 60
    · by_cases hfull : e.particleSystem.particles.length ≥ e.particleSystem.maxParticles
      · simp only [if_pos hi, if_pos hfull]
      · simp only [if_pos hi, if_neg hfull]
        exact ih (i + 1) _ (by omega)
    · simp only [if_neg hi]

/-- The number of particles `emitParticles` adds for an emitter whose effect is
in the table: at most `⌈emissionRate / 60⌉`, and exactly that many when the pool
has room for them. -/
theorem emitParticles_length (rand : ℕ → ℚ) (emitter : Emitter) (e : Engine) (effect : Effect)
    (h : e.particleSystem.effects.lookup emitter.effect = some effect) :
    (emitParticles rand emitter e).particleSystem.particles.length
        ≤ e.particleSystem.particles.length + ⌈effect.emissionRate / 60⌉₊ ∧
    (e.particleSystem.particles.length + ⌈effect.emissionRate / 60⌉₊
        ≤ e.particleSystem.maxParticles →
      (emitParticles rand emitter e).particleSystem.particles.length
        = e.particleSystem.particles.length + ⌈effect.emissionRate / 60⌉₊) := by
  unfold emitParticles
  rw [h]
  exact ⟨emitLoop_length_le rand effect emitter _ 0 e,
    emitLoop_length_eq rand effect emitter _ 0 e (Nat.zero_add _)⟩

/-- The entry `knowledge-flow` of the effects table. -/
theorem lookup_knowledge_flow :
    setupParticleEffects.lookup "knowledge-flow" =
      some { particleCount := 200, emissionRate := 10, lifetime := 3.0,
             startVelocity := some ⟨0, 0.5, 0⟩, gravity := some ⟨0, -0.1, 0⟩,
             color := [0.2, 0.8, 1.0, 1.0], size := 0.05,
             burst := false, followPath := false, sparkle := false } := by
  rfl

/-- Claim C12, amended (spawn count per tick).  For an emitter whose effect is in
the table, `emitParticles` adds one particle for every loop counter
`i = 0, 1, ...` below `emissionRate / 60`, that is `⌈emissionRate / 60⌉`
particles, when the pool has room for them, and never more than that; so over
any number of ticks (60 in particular) one emitter adds at most
`⌈emissionRate / 60⌉` particles per tick. -/
theorem spawn_count_per_tick (rand : ℕ → ℚ) (emitter : Emitter) (e : Engine) (effect : Effect)
    (states : List Engine)
    (h : e.particleSystem.effects.lookup emitter.effect = some effect)
    (hstates : ∀ s ∈ states, s.particleSystem.effects = e.particleSystem.effects) :
    (e.particleSystem.particles.length + ⌈effect.emissionRate / 60⌉₊
        ≤ e.particleSystem.maxParticles →
      (emitParticles rand emitter e).particleSystem.particles.length
        = e.particleSystem.particles.length + ⌈effect.emissionRate / 60⌉₊) ∧
    (emitParticles rand emitter e).particleSystem.particles.length
        ≤ e.particleSystem.particles.length + ⌈effect.emissionRate / 60⌉₊ ∧
    (states.map (fun s =>
        (emitParticles rand emitter s).particleSystem.particles.length
          - s.particleSystem.particles.length)).sum
      ≤ states.length * ⌈effect.emissionRate / 60⌉₊ := by
  refine ⟨(emitParticles_length rand emitter e effect h).2,
    (emitParticles_length rand emitter e effect h).1, ?_⟩
  induction states with
  | nil => simp
  | cons s rest ih =>
    have hs : s.particleSystem.effects.lookup emitter.effect = some effect := by
      rw [hstates s (List.mem_cons_self s rest)]
      exact h
    have h1 := (emitParticles_length rand emitter s effect hs).1
    have h2 := ih (fun t ht => hstates t (List.mem_cons_of_mem s ht))
    rw [List.map_cons, List.sum_cons, List.length_cons, Nat.succ_mul]
    omega

/-- The amended claim C12 at `knowledge-flow` in the initial particle system. -/
theorem spawn_count_per_tick_witness :
    initParticleSystem.particleSystem.effects.lookup "knowledge-flow" =
      some { particleCount := 200, emissionRate := 10, lifetime := 3.0,
             startVelocity := some ⟨0, 0.5, 0⟩, gravity := some ⟨0, -0.1, 0⟩,
             color := [0.2, 0.8, 1.0, 1.0], size := 0.05,
             burst := false, followPath := false, sparkle := false } ∧
    (emitParticles (fun _ => 0) ⟨⟨0, 0, 0⟩, "knowledge-flow", true, 3, 0⟩
        initParticleSystem).particleSystem.particles.length ≤ 0 + ⌈(10 : ℚ) / 60⌉₊ :=
  ⟨lookup_knowledge_flow,
   (spawn_count_per_tick (fun _ => 0) ⟨⟨0, 0, 0⟩, "knowledge-flow", true, 3, 0⟩
      initParticleSystem _ [initParticleSystem] lookup_knowledge_flow
      (fun s hs => by rw [List.mem_singleton.mp hs])).2.1⟩

/-- Claim C12 as stated fails: `knowledge-flow` has `emissionRate = 10`, so
`⌊10 / 60⌋ = 0`, yet one call of `emitParticles` on the empty pool adds one
particle. -/
theorem spawn_count_per_tick_counterexample :
    (setupParticleEffects.lookup "knowledge-flow").map (fun effect => effect.emissionRate)
      = some 10 ∧
    ⌊(10 : ℚ) / 60⌋ = 0 ∧
    initParticleSystem.particleSystem.particles.length = 0 ∧
    (emitParticles (fun _ => 0) ⟨⟨0, 0, 0⟩, "knowledge-flow", true, 3, 0⟩
        initParticleSystem).particleSystem.particles.length = 1 := by
  have hceil : ⌈(10 : ℚ) / 60⌉₊ = 1 := by
    rw [Nat.ceil_eq_iff (by norm_num)]
    norm_num
  refine ⟨by rw [lookup_knowledge_flow]; rfl, ?_, rfl, ?_⟩
  · rw [Int.floor_eq_iff]
    norm_num
  · have h := (emitParticles_length (fun _ => 0) ⟨⟨0, 0, 0⟩, "knowledge-flow", true, 3, 0⟩
      initParticleSystem _ lookup_knowledge_flow).2
    rw [hceil] at h
    exact h (by decide)

/-- Claim C13, amended (particle motion step).  For a surviving particle with a
gravity vector, one tick applies, in this order, `life -= 0.016`,
`position += velocity * 0.016` with the velocity before the tick, and
`velocity += gravity * 0.016`; so the new position is
`oldPosition + oldVelocity * 0.016` in each component. -/
theorem particle_motion_step (p : Particle) (g : Vec3) (hg : p.gravity = some g)
    (hlife : 0 < p.life - 0.016) :
    updateParticle p =
      some { p with
             life := p.life - 0.016,
             position :=
               ⟨p.position.x + p.velocity.x * 0.016,
                p.position.y + p.velocity.y * 0.016,
                p.position.z + p.velocity.z * 0.016⟩,
             velocity :=
               ⟨p.velocity.x + g.x * 0.016,
                p.velocity.y + g.y * 0.016,
                p.velocity.z + g.z * 0.016⟩ } := by
  unfold updateParticle
  rw [if_neg (not_le.mpr hlife)]
  simp only [hg]

/-- The amended claim C13 at a particle rising at speed `1` under gravity `-0.1`. -/
theorem particle_motion_step_witness :
    updateParticle
        { position := ⟨0, 0, 0⟩, velocity := ⟨0, 1, 0⟩, life := 3, size := 0.05,
          color := [0.2, 0.8, 1.0, 1.0], gravity := some ⟨0, -0.1, 0⟩ } =
      some { position := ⟨0 + 0 * 0.016, 0 + 1 * 0.016, 0 + 0 * 0.016⟩,
             velocity := ⟨0 + 0 * 0.016, 1 + -0.1 * 0.016, 0 + 0 * 0.016⟩,
             life := 3 - 0.016, size := 0.05,
             color := [0.2, 0.8, 1.0, 1.0], gravity := some ⟨0, -0.1, 0⟩ } :=
  particle_motion_step
    { position := ⟨0, 0, 0⟩, velocity := ⟨0, 1, 0⟩, life := 3, size := 0.05,
      color := [0.2, 0.8, 1.0, 1.0], gravity := some ⟨0, -0.1, 0⟩ } ⟨0, -0.1, 0⟩ rfl
    (by norm_num)

/-- Claim C13 as stated fails: a particle at height `0` rising at speed `1` under
gravity `-0.1` is moved to `0 + 1 * 0.016`, not to
`0 + (1 + -0.1 * 0.016) * 0.016`. -/
theorem particle_motion_step_counterexample :
    (updateParticle
        { position := ⟨0, 0, 0⟩, velocity := ⟨0, 1, 0⟩, life := 3, size := 0.05,
          color := [0.2, 0.8, 1.0, 1.0], gravity := some ⟨0, -0.1, 0⟩ }).map
      (fun q => q.position.y) = some (0 + 1 * 0.016) ∧
    (0 + 1 * 0.016 : ℚ) ≠ 0 + (1 + -0.1 * 0.016) * 0.016 := by
  constructor
  · unfold updateParticle
    rw [if_neg (by norm_num)]
    rfl
  · norm_num

/-- `emitLoop` does not read the emitter list. -/
theorem emitLoop_withEmitters (rand : ℕ → ℚ) (effect : Effect) (emitter : Emitter)
    (emitters : List Emitter) :
    ∀ (fuel i : ℕ) (e : Engine),
      emitLoop rand effect emitter fuel i (withEmitters emitters e)
        = withEmitters emitters (emitLoop rand effect emitter fuel i e) := by
  intro fuel
  induction fuel with
  | zero => intro i e; rfl
  | succ fuel ih =>
    intro i e
    unfold emitLoop
    by_cases hi : (i : ℚ) < effect.emissionRate / 60
    · by_cases hfull : e.particleSystem.particles.length ≥ e.particleSystem.maxParticles
      · have hfull' : (withEmitters emitters e).particleSystem.particles.length
            ≥ (withEmitters emitters e).particleSystem.maxParticles := hfull
        simp only [if_pos hi, if_pos hfull, if_pos hfull']
      · have hfull' : ¬ (withEmitters emitters e).particleSystem.particles.length
            ≥ (withEmitters emitters e).particleSystem.maxParticles := hfull
        simp only [if_pos hi, if_neg hfull, if_neg hfull']
        exact ih (i + 1)
          { e with
            particleSystem :=
              { e.particleSystem with
                particles :=
                  e.particleSystem.particles ++ [newParticle rand e.randomCalls effect emitter] },
            randomCalls := e.randomCalls + 3 }
    · simp only [if_neg hi]

/-- `emitParticles` does not read the emitter list. -/
theorem emitParticles_withEmitters (rand : ℕ → ℚ) (emitter : Emitter)
    (emitters : List Emitter) (e : Engine) :
    emitParticles rand emitter (withEmitters emitters e)
      = withEmitters emitters (emitParticles rand emitter e) := by
  unfold emitParticles
  show (match e.particleSystem.effects.lookup emitter.effect with
    | none => withEmitters emitters e
    | some effect =>
      emitLoop rand effect emitter ⌈effect.emissionRate / 60⌉₊ 0 (withEmitters emitters e)) = _
  cases e.particleSystem.effects.lookup emitter.effect with
  | none => rfl
  | some effect => exact emitLoop_withEmitters rand effect emitter emitters _ 0 e

/-- The emission phase of a tick does not read the emitter list of the engine
it updates. -/
theorem emitAll_withEmitters (rand : ℕ → ℚ) (emitters : List Emitter) :
    ∀ (sources : List Emitter) (e : Engine),
      sources.foldl
          (fun acc emitter => if emitter.active then emitParticles rand emitter acc else acc)
          (withEmitters emitters e)
        = withEmitters emitters
            (sources.foldl
              (fun acc emitter => if emitter.active then emitParticles rand emitter acc else acc)
              e) := by
  intro sources
  induction sources with
  | nil => intro e; rfl
  | cons em rest ih =>
    intro e
    simp only [List.foldl_cons]
    by_cases ha : em.active
    · simp only [ha, if_true]
      rw [emitParticles_withEmitters, ih]
    · simp only [ha]
      exact ih e

/-- In the emission phase an inactive emitter can be left out. -/
theorem emitAll_skip_inactive (rand : ℕ → ℚ) (pre post : List Emitter) (em : Emitter)
    (hem : em.active = false) (e : Engine) :
    (pre ++ em :: post).foldl
        (fun acc emitter => if emitter.active then emitParticles rand emitter acc else acc) e
      = (pre ++ post).foldl
        (fun acc emitter => if emitter.active then emitParticles rand emitter acc else acc) e := by
  rw [List.foldl_append, List.foldl_append, List.foldl_cons]
  simp only [hem, Bool.false_eq_true, if_false]

/-- Claim C14 (inactive emitters).  When the emitter list holds an inactive
emitter, a tick gives the same engine, emitter list apart, as a tick without that
emitter, so the inactive emitter adds no particle; and whether that emitter is
inactive or active, the pool after the tick starts with the same updated
survivors of the old pool. -/
theorem inactive_emitter_adds_nothing (rand : ℕ → ℚ) (time : ℚ) (e : Engine)
    (pre post : List Emitter) (em : Emitter)
    (hlist : e.particleSystem.emitters = pre ++ em :: post) (hem : em.active = false) :
    updateParticleSystem rand time (withEmitters (pre ++ post) e)
      = withEmitters (pre ++ post) (updateParticleSystem rand time e) ∧
    (∃ added : List Particle,
      (updateParticleSystem rand time e).particleSystem.particles
        = e.particleSystem.particles.filterMap updateParticle ++ added) ∧
    (∃ added : List Particle,
      (updateParticleSystem rand time
          (withEmitters (pre ++ { em with active := true } :: post) e)).particleSystem.particles
        = e.particleSystem.particles.filterMap updateParticle ++ added) := by
  refine ⟨?_, ?_, ?_⟩
  · have hleft : updateParticleSystem rand time (withEmitters (pre ++ post) e)
        = (pre ++ post).foldl
            (fun acc emitter => if emitter.active then emitParticles rand emitter acc else acc)
            (withEmitters (pre ++ post)
              { e with
                particleSystem :=
                  { e.particleSystem with
                    particles := e.particleSystem.particles.filterMap updateParticle } }) := rfl
    have hright : updateParticleSystem rand time e
        = e.particleSystem.emitters.foldl
            (fun acc emitter => if emitter.active then emitParticles rand emitter acc else acc)
            { e with
              particleSystem :=
                { e.particleSystem with
                  particles := e.particleSystem.particles.filterMap updateParticle } } := rfl
    rw [hleft, hright, emitAll_withEmitters, hlist, emitAll_skip_inactive rand pre post em hem]
  · obtain ⟨-, -, -, -, added, h, -, -⟩ := updateParticleSystem_frame rand time e
    exact ⟨added, h⟩
  · obtain ⟨-, -, -, -, added, h, -, -⟩ := updateParticleSystem_frame rand time
      (withEmitters (pre ++ { em with active := true } :: post) e)
    exact ⟨added, h⟩

/-- Claim C14 at a `skill-burst` emitter whose timer has fired. -/
theorem inactive_emitter_adds_nothing_witness :
    updateParticleSystem (fun _ => 0) 0 (withEmitters ([] ++ []) (fireTimer 0
        (triggerParticleEffect "skill-burst" 0 initParticleSystem)))
      = withEmitters ([] ++ []) (updateParticleSystem (fun _ => 0) 0 (fireTimer 0
        (triggerParticleEffect "skill-burst" 0 initParticleSystem))) :=
  (inactive_emitter_adds_nothing (fun _ => 0) 0
    (fireTimer 0 (triggerParticleEffect "skill-burst" 0 initParticleSystem)) [] []
    ⟨⟨0, 0, 0⟩, "skill-burst", false, 0.5, 0 / 1000⟩ rfl rfl).1

/-- Claim C20 (drag rotation).  A `mousemove` while dragging adds
`0.01 * (clientX - lastX)` to `rotY` and `0.01 * (clientY - lastY)` to `rotX`,
records the cursor position and changes nothing else (`z` in particular); a
`mousemove` while not dragging changes nothing.  `mousedown` opens the drag
session at its cursor position, `mouseup` closes it, and none is open at first. -/
theorem drag_rotation (camera : Camera) (lastX lastY clientX clientY : ℚ) (s : Interaction) :
    mousemove clientX clientY ⟨camera, true, lastX, lastY⟩ =
      ⟨{ camera with
         rotY := camera.rotY + 0.01 * (clientX - lastX),
         rotX := camera.rotX + 0.01 * (clientY - lastY) },
       true, clientX, clientY⟩ ∧
    (mousemove clientX clientY ⟨camera, true, lastX, lastY⟩).camera.z = camera.z ∧
    mousemove clientX clientY ⟨camera, false, lastX, lastY⟩ = ⟨camera, false, lastX, lastY⟩ ∧
    mousedown lastX lastY s = ⟨s.camera, true, lastX, lastY⟩ ∧
    (mouseup s).isDragging = false ∧
    mousemove clientX clientY (mouseup s) = mouseup s ∧
    setupCanvasInteraction.isDragging = false := by
  refine ⟨?_, rfl, rfl, rfl, rfl, rfl, rfl⟩
  unfold mousemove
  simp only [if_true]
  rw [mul_comm (0.01 : ℚ) (clientX - lastX), mul_comm (0.01 : ℚ) (clientY - lastY)]

end WebGL3D

/-! ## Theorems: chart drawing, continued -/

namespace DataVisualization

section ChartTheorems2

variable {α : Type} [LinearOrderedField α]

/-- The label at position `i` of the rest of the labels. -/
theorem lineLabels_getElem? (padding height stepX : α) :
    ∀ (labels : List String) (index i : ℕ) (label : String),
      labels[i]? = some label →
      (lineLabels padding height stepX labels index)[i]?
        = some (label, padding + ((index + i : ℕ) : α) * stepX, height - 10) := by
  intro labels
  induction labels with
  | nil => intro index i label h; simp at h
  | cons first rest ih =>
    intro index i label h
    cases i with
    | zero =>
      simp only [List.getElem?_cons_zero, Option.some.injEq] at h
      subst h
      simp [lineLabels]
    | succ i =>
      simp only [List.getElem?_cons_succ] at h
      rw [lineLabels, List.getElem?_cons_succ, ih (index + 1) i label h]
      have : index + 1 + i = index + (i + 1) := by omega
      rw [this]

/-- The labels of `drawLineChart` are as many as `data.labels`. -/
theorem lineLabels_length (padding height stepX : α) :
    ∀ (labels : List String) (index : ℕ),
      (lineLabels padding height stepX labels index).length = labels.length := by
  intro labels
  induction labels with
  | nil => intro index; rfl
  | cons label rest ih =>
    intro index
    rw [lineLabels, List.length_cons, List.length_cons, ih]

/-- The data point at position `i` of the rest of the points. -/
theorem linePoints_getElem? (padding height chartHeight stepX maxValue : α) (hmax : maxValue ≠ 0) :
    ∀ (values : List α) (index : ℕ) (coords : List (α × α)),
      linePoints padding height chartHeight stepX (maxValue : WithBot α) values index
        = some coords →
      ∀ (i : ℕ) (value : α), values[i]? = some value →
        coords[i]? = some (padding + ((index + i : ℕ) : α) * stepX,
          height - padding - value / maxValue * chartHeight) := by
  intro values
  induction values with
  | nil => intro index coords _ i value h; simp at h
  | cons first rest ih =>
    intro index coords hc i value h
    have hdiv : divMax first (maxValue : WithBot α) = some (first / maxValue) :=
      div?_of_ne first hmax
    obtain ⟨tail, ht, -⟩ :=
      linePoints_isSome padding height chartHeight stepX maxValue hmax rest (index + 1)
    rw [linePoints, hdiv] at hc
    simp only [ht, Option.some.injEq] at hc
    subst hc
    cases i with
    | zero =>
      simp only [List.getElem?_cons_zero, Option.some.injEq] at h
      subst h
      simp
    | succ i =>
      simp only [List.getElem?_cons_succ] at h
      rw [List.getElem?_cons_succ, ih (index + 1) tail ht i value h]
      have : index + 1 + i = index + (i + 1) := by omega
      rw [this]

/-- Claim C15, amended (empty line-chart dataset).  With no data points,
`drawLineChart` divides by `0 - 1`, not by zero, computes no vertex of the data
line and no point marker, and still draws every label of `data.labels`, label
`i` at `x = 40 - i * (width - 2 * 40)` and `y = height - 10`. -/
theorem line_chart_empty_dataset (data : LineData α) (options : LineOptions α)
    (hempty : data.data = []) :
    ∃ chart : LineChart α,
      drawLineChart data options = some chart ∧
      chart.line = [] ∧ chart.points = [] ∧
      chart.labels.length = data.labels.length ∧
      ∀ (i : ℕ) (label : String), data.labels[i]? = some label →
        chart.labels[i]?
          = some (label, 40 - (i : α) * (options.width - 2 * 40), options.height - 10) := by
  have hstep : div? (options.width - 2 * 40) (((data.data.length : ℕ) : α) - 1)
      = some (-(options.width - 2 * 40)) := by
    rw [hempty, List.length_nil, Nat.cast_zero, zero_sub, div?_of_ne _ (by norm_num)]
    rw [div_neg, div_one]
  unfold drawLineChart
  simp only [hstep]
  rw [hempty]
  simp only [linePoints, ite_self]
  refine ⟨_, rfl, rfl, rfl, lineLabels_length _ _ _ _ _, ?_⟩
  intro i label h
  show (lineLabels 40 options.height (-(options.width - 2 * 40)) data.labels 0)[i]? = _
  rw [lineLabels_getElem? _ _ _ _ 0 i label h, Nat.zero_add]
  have hx : (40 : α) + ((i : ℕ) : α) * -(options.width - 2 * 40)
      = 40 - (i : α) * (options.width - 2 * 40) := by ring
  rw [hx]

/-- The amended claim C15 at two labels and no data. -/
theorem line_chart_empty_dataset_witness :
    ∃ chart : LineChart ℚ,
      drawLineChart ⟨["Jan", "Feb"], []⟩ ⟨400, 200, true, true⟩ = some chart ∧
      chart.line = [] ∧ chart.points = [] ∧
      chart.labels.length = 2 ∧
      ∀ (i : ℕ) (label : String), (["Jan", "Feb"] : List String)[i]? = some label →
        chart.labels[i]? = some (label, 40 - (i : ℚ) * (400 - 2 * 40), 200 - 10) :=
  line_chart_empty_dataset ⟨["Jan", "Feb"], []⟩ ⟨400, 200, true, true⟩ rfl

/-- Claim C15 as stated fails: with the label `Jan` and no data point the label
is still drawn, at `(40, 190)`. -/
theorem line_chart_empty_dataset_counterexample :
    (drawLineChart (⟨["Jan"], []⟩ : LineData ℚ) ⟨400, 200, true, true⟩).map
      (fun chart => chart.labels) = some [("Jan", 40, 190)] := by
  have hstep : div? ((400 : ℚ) - 2 * 40) (((([] : List ℚ).length : ℕ) : ℚ) - 1) = some (-320) := by
    rw [List.length_nil, Nat.cast_zero, zero_sub, div?_of_ne _ (by norm_num)]
    norm_num
  unfold drawLineChart
  simp only [hstep, linePoints, lineLabels, Option.map_some']
  norm_num


/-- Claim C17 (line-chart point mapping).  For `n ≥ 2` points with maximum
`M > 0`, point `i` of the data line is at
`x = 40 + i * (width - 2 * 40) / (n - 1)` and
`y = height - 40 - (value_i / M) * (height - 2 * 40)`; the dots, when shown, are
the vertices of the line; the first point has `x = 40`, the last has
`x = width - 40`, and a point of value `M` has `y = 40`. -/
theorem line_chart_point_mapping (data : LineData α) (options : LineOptions α) (maxValue : α)
    (hlen : 2 ≤ data.data.length) (hmax : data.data.maximum = (maxValue : WithBot α))
    (hpos : 0 < maxValue) :
    ∃ chart : LineChart α,
      drawLineChart data options = some chart ∧
      chart.line.length = data.data.length ∧
      (∀ (i : ℕ) (value : α), data.data[i]? = some value →
        chart.line[i]? =
          some (40 + (i : α) * (options.width - 2 * 40) / ((data.data.length : α) - 1),
                options.height - 40 - value / maxValue * (options.height - 2 * 40))) ∧
      (options.showPoints = true → chart.points = chart.line) ∧
      (∃ y, chart.line.head? = some (40, y)) ∧
      (∃ y, chart.line.getLast? = some (options.width - 40, y)) ∧
      (∀ i : ℕ, data.data[i]? = some maxValue → ∃ x, chart.line[i]? = some (x, 40)) := by
  have hne : maxValue ≠ 0 := ne_of_gt hpos
  have hstep : ((data.data.length : ℕ) : α) - 1 ≠ 0 := by
    have h2 : (2 : α) ≤ ((data.data.length : ℕ) : α) := by exact_mod_cast hlen
    intro h
    linarith
  obtain ⟨coords, hc, hclen⟩ :=
    linePoints_isSome 40 options.height (options.height - 2 * 40)
      ((options.width - 2 * 40) / (((data.data.length : ℕ) : α) - 1)) maxValue hne data.data 0
  have hget : ∀ (i : ℕ) (value : α), data.data[i]? = some value →
      coords[i]? =
        some (40 + (i : α) * (options.width - 2 * 40) / ((data.data.length : α) - 1),
              options.height - 40 - value / maxValue * (options.height - 2 * 40)) := by
    intro i value h
    rw [linePoints_getElem? _ _ _ _ maxValue hne data.data 0 coords hc i value h, Nat.zero_add,
      mul_div_assoc]
  have hdraw : drawLineChart data options =
      some { line := coords,
             points := if options.showPoints then coords else [],
             labels := lineLabels 40 options.height
               ((options.width - 2 * 40) / (((data.data.length : ℕ) : α) - 1)) data.labels 0 } := by
    unfold drawLineChart
    simp only [div?_of_ne _ hstep, hmax, hc]
  refine ⟨_, hdraw, hclen, hget, ?_, ?_, ?_, ?_⟩
  · intro hshow
    simp only [hshow, if_true]
  · obtain ⟨first, hfirst⟩ : ∃ first, data.data[0]? = some first := by
      cases hd : data.data with
      | nil => rw [hd] at hlen; simp at hlen
      | cons first _ => exact ⟨first, by simp⟩
    refine ⟨options.height - 40 - first / maxValue * (options.height - 2 * 40), ?_⟩
    show coords.head? = _
    rw [List.head?_eq_getElem?, hget 0 first hfirst]
    simp
  · obtain ⟨last, hlast⟩ : ∃ last, data.data[data.data.length - 1]? = some last :=
      ⟨data.data[data.data.length - 1], List.getElem?_eq_getElem (by omega)⟩
    refine ⟨options.height - 40 - last / maxValue * (options.height - 2 * 40), ?_⟩
    show coords.getLast? = _
    rw [List.getLast?_eq_getElem?, hclen, hget _ last hlast]
    have hcast : ((data.data.length - 1 : ℕ) : α) = (data.data.length : α) - 1 := by
      rw [Nat.cast_sub (by omega), Nat.cast_one]
    rw [hcast, mul_comm, mul_div_assoc, div_self hstep]
    simp only [mul_one, Option.some.injEq, Prod.mk.injEq, and_true]
    ring
  · intro i hi
    refine ⟨40 + (i : α) * (options.width - 2 * 40) / ((data.data.length : α) - 1), ?_⟩
    show coords[i]? = _
    rw [hget i maxValue hi, div_self hne]
    simp only [one_mul, Option.some.injEq, Prod.mk.injEq, true_and]
    ring

/-- Claim C17 at three points with maximum `180`. -/
theorem line_chart_point_mapping_witness :
    ∃ chart : LineChart ℚ,
      drawLineChart ⟨["Jan", "Feb", "Mar"], [120, 150, 180]⟩ ⟨400, 200, true, true⟩
        = some chart ∧
      chart.line.length = 3 ∧
      chart.points = chart.line ∧
      (∃ y, chart.line.head? = some (40, y)) ∧
      (∃ y, chart.line.getLast? = some (400 - 40, y)) := by
  obtain ⟨chart, h1, h2, -, h4, h5, h6, -⟩ :=
    line_chart_point_mapping (⟨["Jan", "Feb", "Mar"], [120, 150, 180]⟩ : LineData ℚ)
      ⟨400, 200, true, true⟩ 180 (by decide)
      (by
        show List.maximum ([120, 150, 180] : List ℚ) = _
        rw [List.maximum_cons, List.maximum_cons, List.maximum_singleton]
        norm_cast)
      (by norm_num)
  exact ⟨chart, h1, h2, h4 rfl, h5, h6⟩


/-- The angle of axis `i` of `n`, written as `2π·i/n - π/2`. -/
theorem radarAngle_eq (M : JSMath α) (n i : ℕ) :
    radarAngle M n i = 2 * M.PI * (i : α) / (n : α) - M.PI / 2 := by
  unfold radarAngle
  ring

/-- Claim C19 (radar geometry).  `drawRadarChart` draws 5 rings of `N` vertices,
vertex `i` of ring `k` (from `k = 0`) at angle `2π·i/N - π/2` and distance
`radius * (k + 1) / 5` from the centre; `N` axis lines from the centre to
distance `radius`; and a data polygon whose vertex `i` is at the same angle and
at distance `level_i * radius`.  A level in `[0, 1]` gives a distance of at most
`radius` in absolute value.  When `cos² + sin² = 1`, a point at angle `t` and
distance `d` in this sense has squared Euclidean distance `d²` from the centre. -/
theorem radar_geometry (M : JSMath α) (skills : List (Skill α)) (width height : α) :
    (drawRadarChart M skills width height).rings.length = 5 ∧
    (∀ k i : ℕ, k < 5 → i < skills.length →
      ∃ ring : List (α × α),
        (drawRadarChart M skills width height).rings[k]? = some ring ∧
        ring.length = skills.length ∧
        ring[i]? = some
          (width / 2 + M.cos (2 * M.PI * (i : α) / (skills.length : α) - M.PI / 2)
              * ((min width height / 2 - 30) * ((k : α) + 1) / 5),
           height / 2 + M.sin (2 * M.PI * (i : α) / (skills.length : α) - M.PI / 2)
              * ((min width height / 2 - 30) * ((k : α) + 1) / 5))) ∧
    (drawRadarChart M skills width height).axes.length = skills.length ∧
    (∀ i : ℕ, i < skills.length →
      (drawRadarChart M skills width height).axes[i]? = some
        ((width / 2, height / 2),
         (width / 2 + M.cos (2 * M.PI * (i : α) / (skills.length : α) - M.PI / 2)
              * (min width height / 2 - 30),
          height / 2 + M.sin (2 * M.PI * (i : α) / (skills.length : α) - M.PI / 2)
              * (min width height / 2 - 30)))) ∧
    (drawRadarChart M skills width height).polygon.length = skills.length ∧
    (∀ (i : ℕ) (skill : Skill α), skills[i]? = some skill →
      (drawRadarChart M skills width height).polygon[i]? = some
        (width / 2 + M.cos (2 * M.PI * (i : α) / (skills.length : α) - M.PI / 2)
            * (skill.level * (min width height / 2 - 30)),
         height / 2 + M.sin (2 * M.PI * (i : α) / (skills.length : α) - M.PI / 2)
            * (skill.level * (min width height / 2 - 30)))) ∧
    (∀ skill ∈ skills, 0 ≤ skill.level → skill.level ≤ 1 →
      |skill.level * (min width height / 2 - 30)| ≤ |min width height / 2 - 30|) ∧
    ((∀ t, M.cos t ^ 2 + M.sin t ^ 2 = 1) →
      ∀ t d : α,
        (width / 2 + M.cos t * d - width / 2) ^ 2 + (height / 2 + M.sin t * d - height / 2) ^ 2
          = d ^ 2) := by
  refine ⟨?_, ?_, ?_, ?_, ?_, ?_, ?_, ?_⟩
  · simp only [drawRadarChart, List.length_map, List.length_range']
  · intro k i hk hi
    simp only [drawRadarChart, List.getElem?_map, List.getElem?_range' 1 1 hk, Option.map_some']
    refine ⟨_, rfl, ?_, ?_⟩
    · rw [List.length_map, List.length_range]
    · simp only [List.getElem?_map, List.getElem?_range hi, Option.map_some', radarAngle_eq]
      congr 3 <;> (push_cast; ring)
  · simp only [drawRadarChart, List.length_map, List.length_range]
  · intro i hi
    simp only [drawRadarChart, List.getElem?_map, List.getElem?_range hi, Option.map_some',
      radarAngle_eq]
  · simp only [drawRadarChart, List.length_map, List.enum_length]
  · intro i skill hskill
    simp only [drawRadarChart, List.getElem?_map, List.getElem?_enum, hskill, Option.map_some',
      radarAngle_eq]
    congr 3 <;> ring
  · intro skill _ h0 h1
    rw [abs_mul, abs_of_nonneg h0]
    exact mul_le_of_le_one_left (abs_nonneg _) h1
  · intro hunit t d
    have h := hunit t
    have : (width / 2 + M.cos t * d - width / 2) ^ 2
        + (height / 2 + M.sin t * d - height / 2) ^ 2
        = (M.cos t ^ 2 + M.sin t ^ 2) * d ^ 2 := by ring
    rw [this, h, one_mul]

variable [FloorRing α]

/-- Where the slice loop puts the labels when the total is not zero. -/
theorem doughnutSlices_labels (M : JSMath α) (centerX centerY radius innerRadius total : α)
    (colors : List String) :
    ∀ (values : List α) (index : ℕ) (currentAngle : α) (slices : List (Slice α)),
      doughnutSlices M centerX centerY radius innerRadius total colors values index currentAngle
        = some slices →
      ∀ s ∈ slices,
        s.labelX = centerX
          + M.cos (s.startAngle + (s.endAngle - s.startAngle) / 2) * (radius + innerRadius) / 2 ∧
        s.labelY = centerY
          + M.sin (s.startAngle + (s.endAngle - s.startAngle) / 2) * (radius + innerRadius) / 2 := by
  intro values
  induction values with
  | nil =>
    intro index currentAngle slices h s hs
    simp only [doughnutSlices, Option.some.injEq] at h
    subst h
    simp at hs
  | cons value rest ih =>
    intro index currentAngle slices h s hs
    rw [doughnutSlices] at h
    cases hd : div? value total with
    | none => simp [hd] at h
    | some share =>
      cases hr : doughnutSlices M centerX centerY radius innerRadius total colors rest
          (index + 1) (currentAngle + share * 2 * M.PI) with
      | none => simp [hd, hr] at h
      | some tail =>
        simp only [hd, hr, Option.some.injEq] at h
        subst h
        rcases List.mem_cons.mp hs with rfl | hs
        · constructor
          · show centerX + M.cos (currentAngle + share * 2 * M.PI / 2) * (radius + innerRadius) / 2
              = centerX + M.cos (currentAngle
                  + (currentAngle + share * 2 * M.PI - currentAngle) / 2)
                * (radius + innerRadius) / 2
            rw [add_sub_cancel_left]
          · show centerY + M.sin (currentAngle + share * 2 * M.PI / 2) * (radius + innerRadius) / 2
              = centerY + M.sin (currentAngle
                  + (currentAngle + share * 2 * M.PI - currentAngle) / 2)
                * (radius + innerRadius) / 2
            rw [add_sub_cancel_left]
        · exact ih (index + 1) _ tail hr s hs

/-- Claim C18, amended (doughnut label position).  Every slice has its label at
the slice's angular midpoint and at distance `(radius + innerRadius) / 2`, which
is `4/5` of the chart radius, from the centre. -/
theorem doughnut_label_position (M : JSMath α) (data : DoughnutData α) (width height : α)
    (htotal : 0 < data.data.sum) :
    ∃ slices : List (Slice α),
      drawDoughnutChart M data width height = some slices ∧
      slices.length = data.data.length ∧
      ∀ s ∈ slices,
        s.labelX = width / 2
          + M.cos (s.startAngle + (s.endAngle - s.startAngle) / 2)
            * (4 / 5 * (min width height / 2 - 20)) ∧
        s.labelY = height / 2
          + M.sin (s.startAngle + (s.endAngle - s.startAngle) / 2)
            * (4 / 5 * (min width height / 2 - 20)) := by
  obtain ⟨slices, hs, hall⟩ := drawDoughnutChart_slices M data width height (ne_of_gt htotal)
  refine ⟨slices, hs, hall.length_eq.symm, ?_⟩
  intro s hmem
  have h := doughnutSlices_labels M (width / 2) (height / 2) (min width height / 2 - 20)
    ((min width height / 2 - 20) * (6 / 10))
    (data.data.foldl (fun sum value => sum + value) 0) data.colors data.data 0 (-M.PI / 2)
    slices hs s hmem
  rw [h.1, h.2]
  constructor <;> ring

/-- The amended claim C18 at the skills data. -/
theorem doughnut_label_position_witness :
    ∃ slices : List (Slice ℚ),
      drawDoughnutChart ⟨22 / 7, fun _ => 3 / 5, fun _ => 4 / 5⟩
        ⟨[], [35, 28, 22, 18, 15, 12], []⟩ 300 300 = some slices ∧
      slices.length = 6 ∧
      ∀ s ∈ slices,
        s.labelX = 300 / 2 + 3 / 5 * (4 / 5 * (min 300 300 / 2 - 20)) ∧
        s.labelY = 300 / 2 + 4 / 5 * (4 / 5 * (min 300 300 / 2 - 20)) :=
  doughnut_label_position ⟨22 / 7, fun _ => 3 / 5, fun _ => 4 / 5⟩
    ⟨[], [35, 28, 22, 18, 15, 12], []⟩ 300 300 (by norm_num)

/-- Claim C18 as stated fails, with the real `π`, `cos` and `sin`: the single
slice of the dataset `[1]` on a `300 × 300` canvas has its midpoint at angle
`π/2` and its label at `(150, 254)`, at distance `104` from the centre, while
half the chart radius gives `y = 215`. -/
theorem doughnut_label_position_counterexample :
    ∃ s : Slice ℝ,
      drawDoughnutChart ⟨Real.pi, Real.cos, Real.sin⟩ ⟨["Python"], [1], ["#3498db"]⟩ 300 300
        = some [s] ∧
      s.startAngle + (s.endAngle - s.startAngle) / 2 = Real.pi / 2 ∧
      s.labelX = 150 ∧ s.labelY = 254 ∧
      (150 : ℝ) + Real.sin (Real.pi / 2) * (min 300 300 / 2 - 20) / 2 = 215 := by
  have hmin : min (300 : ℝ) 300 = 300 := min_self 300
  have hdiv : div? (1 : ℝ) (0 + 1) = some 1 := by
    rw [div?_of_ne _ (by norm_num)]
    norm_num
  have hangle : -Real.pi / 2 + 1 * 2 * Real.pi / 2 = Real.pi / 2 := by ring
  have hdraw : ∃ s : Slice ℝ,
      drawDoughnutChart ⟨Real.pi, Real.cos, Real.sin⟩ ⟨["Python"], [1], ["#3498db"]⟩ 300 300
        = some [s] ∧
      s.startAngle = -Real.pi / 2 ∧
      s.endAngle = -Real.pi / 2 + 1 * 2 * Real.pi ∧
      s.labelX = (300 : ℝ) / 2 + Real.cos (-Real.pi / 2 + 1 * 2 * Real.pi / 2)
        * (min 300 300 / 2 - 20 + (min 300 300 / 2 - 20) * (6 / 10)) / 2 ∧
      s.labelY = (300 : ℝ) / 2 + Real.sin (-Real.pi / 2 + 1 * 2 * Real.pi / 2)
        * (min 300 300 / 2 - 20 + (min 300 300 / 2 - 20) * (6 / 10)) / 2 := by
    unfold drawDoughnutChart
    simp only [List.foldl_cons, List.foldl_nil, doughnutSlices, hdiv]
    exact ⟨_, rfl, rfl, rfl, rfl, rfl⟩
  obtain ⟨s, hs, hstart, hend, hx, hy⟩ := hdraw
  refine ⟨s, hs, ?_, ?_, ?_, ?_⟩
  · rw [hstart, hend]
    ring
  · rw [hx, hangle, Real.cos_pi_div_two, hmin]
    norm_num
  · rw [hy, hangle, Real.sin_pi_div_two, hmin]
    norm_num
  · rw [Real.sin_pi_div_two, hmin]
    norm_num

end ChartTheorems2

end DataVisualization

/-! ## Theorems: gamification -/

namespace Gamification

/-- Claim C24 at hour 7: the achievement `early_bird` is described as
'Complete a workshop before 7 AM', and its condition `checkEarlyActivity` holds
at hour `7` (from 7:00 to 7:59), which is not before 7 AM.  The condition holds
exactly at the hours `h ≤ 7`, so hour `7` is the only hour at which it differs
from `h < 7`. -/
theorem early_bird_at_seven :
    earlyBird.description = "Complete a workshop before 7 AM" ∧
    earlyBird.condition 7 = true ∧ ¬ (7 < 7) ∧
    (∀ h : ℕ, earlyBird.condition h = true ↔ h ≤ 7) ∧
    (∀ h : ℕ, h ≠ 7 → (earlyBird.condition h = true ↔ h < 7)) := by
  refine ⟨by decide, by decide, by decide, ?_, ?_⟩
  · intro h
    show checkEarlyActivity h = true ↔ h ≤ 7
    unfold checkEarlyActivity
    exact decide_eq_true_iff
  · intro h hne
    show checkEarlyActivity h = true ↔ h < 7
    unfold checkEarlyActivity
    rw [decide_eq_true_iff]
    omega

/-- The loop of `calculateLevel`, unfolded over the table. -/
theorem calculateLevel_unfold (e : ℚ) :
    calculateLevel e =
      if 0 ≤ e then
        if 500 ≤ e then
          if 1200 ≤ e then
            if 2500 ≤ e then
              if 5000 ≤ e then
                if 10000 ≤ e then
                  if 20000 ≤ e then
                    if 40000 ≤ e then 8 else 7
                  else 6
                else 5
              else 4
            else 3
          else 2
        else 1
      else 1 := by
  simp only [calculateLevel, levels, calculateLevelLoop, ge_iff_le]

/-- The level of each interval of experience. -/
theorem calculateLevel_cases (e : ℚ) :
    (e < 500 → calculateLevel e = 1) ∧
    (500 ≤ e → e < 1200 → calculateLevel e = 2) ∧
    (1200 ≤ e → e < 2500 → calculateLevel e = 3) ∧
    (2500 ≤ e → e < 5000 → calculateLevel e = 4) ∧
    (5000 ≤ e → e < 10000 → calculateLevel e = 5) ∧
    (10000 ≤ e → e < 20000 → calculateLevel e = 6) ∧
    (20000 ≤ e → e < 40000 → calculateLevel e = 7) ∧
    (40000 ≤ e → calculateLevel e = 8) := by
  rw [calculateLevel_unfold]
  refine ⟨?_, ?_, ?_, ?_, ?_, ?_, ?_, ?_⟩
  · intro h
    rw [if_neg (not_le.mpr h)]
    simp
  · intro h1 h2
    rw [if_pos (by linarith), if_pos h1, if_neg (not_le.mpr h2)]
  · intro h1 h2
    rw [if_pos (by linarith), if_pos (by linarith), if_pos h1, if_neg (not_le.mpr h2)]
  · intro h1 h2
    rw [if_pos (by linarith), if_pos (by linarith), if_pos (by linarith), if_pos h1,
      if_neg (not_le.mpr h2)]
  · intro h1 h2
    rw [if_pos (by linarith), if_pos (by linarith), if_pos (by linarith), if_pos (by linarith),
      if_pos h1, if_neg (not_le.mpr h2)]
  · intro h1 h2
    rw [if_pos (by linarith), if_pos (by linarith), if_pos (by linarith), if_pos (by linarith),
      if_pos (by linarith), if_pos h1, if_neg (not_le.mpr h2)]
  · intro h1 h2
    rw [if_pos (by linarith), if_pos (by linarith), if_pos (by linarith), if_pos (by linarith),
      if_pos (by linarith), if_pos (by linarith), if_pos h1, if_neg (not_le.mpr h2)]
  · intro h1
    rw [if_pos (by linarith), if_pos (by linarith), if_pos (by linarith), if_pos (by linarith),
      if_pos (by linarith), if_pos (by linarith), if_pos (by linarith), if_pos h1]

/-- The interval of experience a level stands for. -/
theorem calculateLevel_interval (e : ℚ) :
    (calculateLevel e = 1 ∧ e < 500) ∨
    (calculateLevel e = 2 ∧ 500 ≤ e ∧ e < 1200) ∨
    (calculateLevel e = 3 ∧ 1200 ≤ e ∧ e < 2500) ∨
    (calculateLevel e = 4 ∧ 2500 ≤ e ∧ e < 5000) ∨
    (calculateLevel e = 5 ∧ 5000 ≤ e ∧ e < 10000) ∨
    (calculateLevel e = 6 ∧ 10000 ≤ e ∧ e < 20000) ∨
    (calculateLevel e = 7 ∧ 20000 ≤ e ∧ e < 40000) ∨
    (calculateLevel e = 8 ∧ 40000 ≤ e) := by
  obtain ⟨c1, c2, c3, c4, c5, c6, c7, c8⟩ := calculateLevel_cases e
  by_cases h1 : e < 500
  · exact Or.inl ⟨c1 h1, h1⟩
  by_cases h2 : e < 1200
  · exact Or.inr (Or.inl ⟨c2 (not_lt.mp h1) h2, not_lt.mp h1, h2⟩)
  by_cases h3 : e < 2500
  · exact Or.inr (Or.inr (Or.inl ⟨c3 (not_lt.mp h2) h3, not_lt.mp h2, h3⟩))
  by_cases h4 : e < 5000
  · exact Or.inr (Or.inr (Or.inr (Or.inl ⟨c4 (not_lt.mp h3) h4, not_lt.mp h3, h4⟩)))
  by_cases h5 : e < 10000
  · exact Or.inr (Or.inr (Or.inr (Or.inr (Or.inl ⟨c5 (not_lt.mp h4) h5, not_lt.mp h4, h5⟩))))
  by_cases h6 : e < 20000
  · exact Or.inr (Or.inr (Or.inr (Or.inr (Or.inr (Or.inl
      ⟨c6 (not_lt.mp h5) h6, not_lt.mp h5, h6⟩)))))
  by_cases h7 : e < 40000
  · exact Or.inr (Or.inr (Or.inr (Or.inr (Or.inr (Or.inr (Or.inl
      ⟨c7 (not_lt.mp h6) h7, not_lt.mp h6, h7⟩))))))
  · exact Or.inr (Or.inr (Or.inr (Or.inr (Or.inr (Or.inr (Or.inr
      ⟨c8 (not_lt.mp h7), not_lt.mp h7⟩))))))

/-- The members of the level table. -/
theorem mem_levels {l : LevelData} (h : l ∈ levels) :
    (l.level = 1 ∧ l.minExp = 0) ∨ (l.level = 2 ∧ l.minExp = 500) ∨
    (l.level = 3 ∧ l.minExp = 1200) ∨ (l.level = 4 ∧ l.minExp = 2500) ∨
    (l.level = 5 ∧ l.minExp = 5000) ∨ (l.level = 6 ∧ l.minExp = 10000) ∨
    (l.level = 7 ∧ l.minExp = 20000) ∨ (l.level = 8 ∧ l.minExp = 40000) := by
  simp only [levels, List.mem_cons, List.mem_singleton, List.not_mem_nil, or_false] at h
  rcases h with rfl | rfl | rfl | rfl | rfl | rfl | rfl | rfl <;> simp

/-- No level of the table that `experience` has reached is above the level
`calculateLevel` finds. -/
theorem calculateLevel_greatest (e : ℚ) {l : LevelData} (hl : l ∈ levels) (he : l.minExp ≤ e) :
    l.level ≤ calculateLevel e := by
  rcases mem_levels hl with ⟨h1, h2⟩ | ⟨h1, h2⟩ | ⟨h1, h2⟩ | ⟨h1, h2⟩ | ⟨h1, h2⟩ | ⟨h1, h2⟩ |
      ⟨h1, h2⟩ | ⟨h1, h2⟩ <;>
    rw [h2] at he <;>
    rcases calculateLevel_interval e with ⟨c, b⟩ | ⟨c, b⟩ | ⟨c, b⟩ | ⟨c, b⟩ | ⟨c, b⟩ | ⟨c, b⟩ |
      ⟨c, b⟩ | ⟨c, b⟩ <;>
    rw [h1, c] <;>
    first
      | decide
      | (exfalso; linarith [b.1, b.2])
      | (exfalso; linarith)

/-- The level `calculateLevel` finds is a level of the table that a non-negative
`experience` has reached. -/
theorem calculateLevel_reached (e : ℚ) (he : 0 ≤ e) :
    ∃ l ∈ levels, l.level = calculateLevel e ∧ l.minExp ≤ e := by
  rcases calculateLevel_interval e with ⟨c, b⟩ | ⟨c, b⟩ | ⟨c, b⟩ | ⟨c, b⟩ | ⟨c, b⟩ | ⟨c, b⟩ |
      ⟨c, b⟩ | ⟨c, b⟩
  · exact ⟨_, List.mem_cons_self _ _, c.symm, he⟩
  · exact ⟨levels.get ⟨1, by decide⟩, List.get_mem _ _ _, c.symm, b.1⟩
  · exact ⟨levels.get ⟨2, by decide⟩, List.get_mem _ _ _, c.symm, b.1⟩
  · exact ⟨levels.get ⟨3, by decide⟩, List.get_mem _ _ _, c.symm, b.1⟩
  · exact ⟨levels.get ⟨4, by decide⟩, List.get_mem _ _ _, c.symm, b.1⟩
  · exact ⟨levels.get ⟨5, by decide⟩, List.get_mem _ _ _, c.symm, b.1⟩
  · exact ⟨levels.get ⟨6, by decide⟩, List.get_mem _ _ _, c.symm, b.1⟩
  · exact ⟨levels.get ⟨7, by decide⟩, List.get_mem _ _ _, c.symm, b⟩

/-- Claim C27 (level from experience).  For every experience `e ≥ 0`,
`calculateLevel e` is between `1` and `8`, it is the level of an entry of the
table whose `minExp` is at most `e`, no entry with `minExp ≤ e` has a greater
level, `calculateLevel` is monotone, and the thresholds are `0`, `500`, `1200`,
`2500`, `5000`, `10000`, `20000`, `40000`. -/
theorem level_from_experience (e : ℚ) (he : 0 ≤ e) :
    1 ≤ calculateLevel e ∧ calculateLevel e ≤ 8 ∧
    (∃ l ∈ levels, l.level = calculateLevel e ∧ l.minExp ≤ e) ∧
    (∀ l ∈ levels, l.minExp ≤ e → l.level ≤ calculateLevel e) ∧
    (∀ a b : ℚ, a ≤ b → calculateLevel a ≤ calculateLevel b) ∧
    levels.map (fun l => (l.level, l.minExp)) =
      [(1, 0), (2, 500), (3, 1200), (4, 2500), (5, 5000), (6, 10000), (7, 20000),
       (8, 40000)] := by
  have hrange : ∀ x : ℚ, 1 ≤ calculateLevel x ∧ calculateLevel x ≤ 8 := by
    intro x
    rcases calculateLevel_interval x with ⟨c, _⟩ | ⟨c, _⟩ | ⟨c, _⟩ | ⟨c, _⟩ | ⟨c, _⟩ | ⟨c, _⟩ |
      ⟨c, _⟩ | ⟨c, _⟩ <;> rw [c] <;> decide
  refine ⟨(hrange e).1, (hrange e).2, calculateLevel_reached e he,
    fun l hl hle => calculateLevel_greatest e hl hle, ?_, rfl⟩
  intro a b hab
  by_cases ha : 0 ≤ a
  · obtain ⟨l, hl, hlevel, hmin⟩ := calculateLevel_reached a ha
    rw [← hlevel]
    exact calculateLevel_greatest b hl (le_trans hmin hab)
  · have h1 : calculateLevel a = 1 := (calculateLevel_cases a).1 (by linarith [not_le.mp ha])
    rw [h1]
    exact (hrange b).1

/-- Claim C27 at `e = 1200`. -/
theorem level_from_experience_witness :
    (0 : ℚ) ≤ 1200 ∧ 1 ≤ calculateLevel 1200 ∧ calculateLevel 1200 ≤ 8 :=
  ⟨by norm_num, (level_from_experience 1200 (by norm_num)).1,
    (level_from_experience 1200 (by norm_num)).2.1⟩

/-- The result of `getProgressToNextLevel` when both level entries are found. -/
theorem getProgressToNextLevel_of_found (e : ℚ) (level : ℕ) (cur next : LevelData)
    (hlevel : calculateLevel e = level)
    (hnext : levels.find? (fun l => l.level == level + 1) = some next)
    (hcur : levels.find? (fun l => l.level == level) = some cur)
    (hne : next.minExp - cur.minExp ≠ 0) :
    getProgressToNextLevel e =
      some { progress := (e - cur.minExp) / (next.minExp - cur.minExp) * 100,
             pointsNeeded := next.minExp - e } := by
  unfold getProgressToNextLevel
  simp only [hlevel, hnext, hcur]
  rw [if_neg hne]

/-- The result of `getProgressToNextLevel` in an interval `[lo, hi)` between
two levels. -/
theorem getProgressToNextLevel_between (e lo hi : ℚ) (level : ℕ) (cur next : LevelData)
    (hlevel : calculateLevel e = level)
    (hnext : levels.find? (fun l => l.level == level + 1) = some next)
    (hcur : levels.find? (fun l => l.level == level) = some cur)
    (hlo : cur.minExp = lo) (hhi : next.minExp = hi) (h1 : lo ≤ e) (h2 : e < hi) :
    ∃ (p : LevelProgress) (next : LevelData),
      getProgressToNextLevel e = some p ∧
      next ∈ levels ∧ next.level = calculateLevel e + 1 ∧
      0 ≤ p.progress ∧ p.progress < 100 ∧
      p.pointsNeeded = next.minExp - e ∧ 0 < p.pointsNeeded := by
  have hpos : 0 < next.minExp - cur.minExp := by rw [hlo, hhi]; linarith
  refine ⟨_, next, getProgressToNextLevel_of_found e level cur next hlevel hnext hcur
    (ne_of_gt hpos), List.mem_of_find?_eq_some hnext, ?_, ?_, ?_, rfl, ?_⟩
  · have := List.find?_some hnext
    rw [hlevel]
    simpa using this
  · show 0 ≤ (e - cur.minExp) / (next.minExp - cur.minExp) * 100
    have : 0 ≤ (e - cur.minExp) / (next.minExp - cur.minExp) :=
      div_nonneg (by rw [hlo]; linarith) (le_of_lt hpos)
    linarith
  · show (e - cur.minExp) / (next.minExp - cur.minExp) * 100 < 100
    have : (e - cur.minExp) / (next.minExp - cur.minExp) < 1 := by
      rw [div_lt_one hpos, hhi]
      linarith
    linarith
  · show 0 < next.minExp - e
    rw [hhi]
    linarith

/-- Claim C28 (progress to next level).  For `0 ≤ e < 40000`,
`getProgressToNextLevel e` returns a progress in `[0, 100)` and
`pointsNeeded = minExp of the next level - e > 0`; for `e ≥ 40000` the level is
`8` and it returns progress `100` and `pointsNeeded = 0`. -/
theorem progress_to_next_level (e : ℚ) (he : 0 ≤ e) :
    (e < 40000 →
      ∃ (p : LevelProgress) (next : LevelData),
        getProgressToNextLevel e = some p ∧
        next ∈ levels ∧ next.level = calculateLevel e + 1 ∧
        0 ≤ p.progress ∧ p.progress < 100 ∧
        p.pointsNeeded = next.minExp - e ∧ 0 < p.pointsNeeded) ∧
    (40000 ≤ e →
      calculateLevel e = 8 ∧
      getProgressToNextLevel e = some { progress := 100, pointsNeeded := 0 }) := by
  constructor
  · intro hlt
    rcases calculateLevel_interval e with ⟨c, b⟩ | ⟨c, b⟩ | ⟨c, b⟩ | ⟨c, b⟩ | ⟨c, b⟩ | ⟨c, b⟩ |
      ⟨c, b⟩ | ⟨c, b⟩
    · exact getProgressToNextLevel_between e 0 500 1 _ _ c rfl rfl rfl rfl he b
    · exact getProgressToNextLevel_between e 500 1200 2 _ _ c rfl rfl rfl rfl b.1 b.2
    · exact getProgressToNextLevel_between e 1200 2500 3 _ _ c rfl rfl rfl rfl b.1 b.2
    · exact getProgressToNextLevel_between e 2500 5000 4 _ _ c rfl rfl rfl rfl b.1 b.2
    · exact getProgressToNextLevel_between e 5000 10000 5 _ _ c rfl rfl rfl rfl b.1 b.2
    · exact getProgressToNextLevel_between e 10000 20000 6 _ _ c rfl rfl rfl rfl b.1 b.2
    · exact getProgressToNextLevel_between e 20000 40000 7 _ _ c rfl rfl rfl rfl b.1 b.2
    · exact absurd hlt (not_lt.mpr b)
  · intro hge
    rcases calculateLevel_interval e with ⟨c, b⟩ | ⟨c, b⟩ | ⟨c, b⟩ | ⟨c, b⟩ | ⟨c, b⟩ | ⟨c, b⟩ |
      ⟨c, b⟩ | ⟨c, b⟩
    any_goals (exfalso; linarith [b.2])
    · exfalso; linarith
    · refine ⟨c, ?_⟩
      unfold getProgressToNextLevel
      simp only [c]
      rfl

/-- Claim C28 at `e = 750`. -/
theorem progress_to_next_level_witness :
    (0 : ℚ) ≤ 750 ∧
    ∃ (p : LevelProgress) (next : LevelData),
      getProgressToNextLevel 750 = some p ∧
      next ∈ levels ∧ next.level = calculateLevel 750 + 1 ∧
      0 ≤ p.progress ∧ p.progress < 100 ∧
      p.pointsNeeded = next.minExp - 750 ∧ 0 < p.pointsNeeded :=
  ⟨by norm_num, (progress_to_next_level 750 (by norm_num)).1 (by norm_num)⟩

/-- A value found by `lookup` is stored under that key. -/
theorem lookup_mem {key : String} {quest : Quest} :
    ∀ quests : List (String × Quest), quests.lookup key = some quest → (key, quest) ∈ quests := by
  intro quests
  induction quests with
  | nil => intro h; simp at h
  | cons entry rest ih =>
    intro h
    obtain ⟨k, q⟩ := entry
    rw [List.lookup_cons] at h
    cases hk : (key == k) with
    | true =>
      rw [hk] at h
      simp only [Option.some.injEq] at h
      have hkey : key = k := by simpa using hk
      rw [hkey, h]
      exact List.mem_cons_self _ _
    | false =>
      rw [hk] at h
      exact List.mem_cons_of_mem _ (ih h)

/-- After a write to the quest under `key`, `lookup` finds the written quest. -/
theorem lookup_setQuest {key : String} {quest : Quest} (written : Quest) :
    ∀ quests : List (String × Quest), quests.lookup key = some quest →
      (setQuest key written quests).lookup key = some written := by
  intro quests
  induction quests with
  | nil => intro h; simp at h
  | cons entry rest ih =>
    intro h
    obtain ⟨k, q⟩ := entry
    rw [List.lookup_cons] at h
    unfold setQuest
    rw [List.map_cons]
    cases hk : (key == k) with
    | true =>
      have hkey : k = key := by
        have : key = k := by simpa using hk
        exact this.symm
      simp only [hkey, if_true, List.lookup_cons, beq_self_eq_true]
    | false =>
      rw [hk] at h
      have hkey : ¬ k = key := by
        intro hkk
        rw [hkk] at hk
        simp at hk
      simp only [hkey, if_false, List.lookup_cons, hk]
      exact ih h

/-- The entries after a write to the quest under `key`. -/
theorem mem_setQuest {key : String} {written : Quest} {quests : List (String × Quest)}
    {entry : String × Quest} (h : entry ∈ setQuest key written quests) :
    entry ∈ quests ∨ (entry.1 = key ∧ entry.2 = written) := by
  unfold setQuest at h
  obtain ⟨old, hold, heq⟩ := List.mem_map.mp h
  by_cases hk : old.1 = key
  · rw [if_pos hk] at heq
    right
    rw [← heq]
    exact ⟨hk, rfl⟩
  · rw [if_neg hk] at heq
    left
    rw [← heq]
    exact hold

/-- A write to a quest keeps the keys of the map. -/
theorem keys_setQuest (key : String) (written : Quest) (quests : List (String × Quest)) :
    (setQuest key written quests).map (fun entry => entry.1)
      = quests.map (fun entry => entry.1) := by
  unfold setQuest
  rw [List.map_map]
  apply List.map_congr_left
  intro entry _
  show (if entry.1 = key then (entry.1, written) else entry).1 = entry.1
  split <;> rfl

/-- A write that keeps the reward and the completion flag of a quest and leaves
its progress within bounds keeps the invariant. -/
theorem questInv_setQuest {s : QuestState} (h : QuestInv s) {key : String} {quest : Quest}
    (hmem : (key, quest) ∈ s.quests) (written : Quest)
    (hreward : written.reward = quest.reward) (hcompleted : written.completed = quest.completed)
    (h0 : 0 ≤ written.progress) (h1 : written.progress ≤ written.target) :
    QuestInv { s with quests := setQuest key written s.quests } := by
  obtain ⟨i1, i2, i3, i4, i5, i6, i7⟩ := h
  refine ⟨?_, ?_, i3, i4, ?_, i6, ?_⟩
  · intro entry hentry
    rcases mem_setQuest hentry with hold | ⟨_, hw⟩
    · exact i1 entry hold
    · rw [hw]; exact ⟨h0, h1⟩
  · intro entry hentry hfalse
    rcases mem_setQuest hentry with hold | ⟨hk, hw⟩
    · exact i2 entry hold hfalse
    · rw [hw, hcompleted] at hfalse
      rw [hk]
      exact i2 (key, quest) hmem hfalse
  · intro entry hentry
    rcases mem_setQuest hentry with hold | ⟨hk, hw⟩
    · exact i5 entry hold
    · obtain ⟨q0, hq0, hr⟩ := i5 (key, quest) hmem
      exact ⟨q0, by rw [hk]; exact hq0, by rw [hw, hreward]; exact hr⟩
  · show (setQuest key written s.quests).map (fun entry => entry.1) = _
    rw [keys_setQuest]
    exact i7

/-- What `awardBadge` leaves alone. -/
theorem awardBadge_frame (badge : String) (s : QuestState) :
    (awardBadge badge s).quests = s.quests ∧
    (awardBadge badge s).totalPoints = s.totalPoints ∧
    (awardBadge badge s).completions = s.completions := by
  unfold awardBadge
  split <;> exact ⟨rfl, rfl, rfl⟩

/-- The invariant reads only the quests, the points and the completions. -/
theorem questInv_congr {s t : QuestState} (h : QuestInv s) (hq : t.quests = s.quests)
    (hp : t.totalPoints = s.totalPoints) (hc : t.completions = s.completions) : QuestInv t := by
  unfold QuestInv at h ⊢
  rw [hq, hp, hc]
  exact h

/-- The quest state of a new profile satisfies the invariant. -/
theorem questInv_initial : QuestInv initialQuestState := by
  refine ⟨?_, ?_, ?_, ?_, ?_, ?_, rfl⟩
  · intro entry hentry
    simp only [initialQuestState, setupQuestSystem, List.mem_cons, List.mem_singleton,
      List.not_mem_nil, or_false] at hentry
    rcases hentry with rfl | rfl | rfl | rfl <;> norm_num
  · intro entry _ _
    simp [initialQuestState]
  · simp [initialQuestState]
  · simp [initialQuestState]
  · intro entry hentry
    exact ⟨entry.2, hentry, rfl⟩
  · intro c hc
    simp [initialQuestState] at hc

end Gamification

/-! ## Theorems: recommendation engine -/

namespace AIRecommendations

/-- A key that is not inherited reads as an entry of the table or as
`undefined`. -/
theorem getProperty_of_not_inherited {α : Type} (table : List (String × α)) (key : String)
    (h : key ∉ objectPrototypeKeys) :
    getProperty table key = Property.undefined ∨
      ∃ value, (key, value) ∈ table ∧ getProperty table key = Property.own value := by
  unfold getProperty
  cases hl : table.lookup key with
  | none =>
    left
    have hc : objectPrototypeKeys.contains key = false := by
      rw [Bool.eq_false_iff]
      intro hin
      exact h (by simpa using hin)
    simp only [hc, Bool.false_eq_true, if_false]
  | some value =>
    right
    refine ⟨value, ?_, rfl⟩
    clear h
    induction table with
    | nil => simp at hl
    | cons entry rest ih =>
      obtain ⟨k, v⟩ := entry
      rw [List.lookup_cons] at hl
      cases hk : (key == k) with
      | true =>
        rw [hk] at hl
        simp only [Option.some.injEq] at hl
        have hkey : key = k := by simpa using hk
        rw [hkey, hl]
        exact List.mem_cons_self _ _
      | false =>
        rw [hk] at hl
        exact List.mem_cons_of_mem _ (ih hl)

/-- An inherited key that is not an entry of the table reads as an inherited
property. -/
theorem getProperty_inherited {α : Type} (table : List (String × α)) (key : String)
    (h : key ∈ objectPrototypeKeys) (hown : table.lookup key = none) :
    getProperty table key = Property.inherited := by
  unfold getProperty
  rw [hown]
  have hc : objectPrototypeKeys.contains key = true := by simpa using h
  simp only [hc, if_true]

/-- The level of a name that is not inherited is a number between `1` and `3`. -/
theorem levelNumber_of_not_inherited (level : String) (h : level ∉ objectPrototypeKeys) :
    ∃ n : ℚ, levelNumber level = some n ∧ 1 ≤ n ∧ n ≤ 3 := by
  unfold levelNumber
  rcases getProperty_of_not_inherited levelMap level h with hu | ⟨value, hmem, ho⟩
  · rw [hu]
    exact ⟨1, rfl, by norm_num, by norm_num⟩
  · rw [ho]
    simp only [levelMap, List.mem_cons, Prod.mk.injEq, List.mem_singleton, List.not_mem_nil,
      or_false] at hmem
    rcases hmem with ⟨-, rfl⟩ | ⟨-, rfl⟩ | ⟨-, rfl⟩
    · exact ⟨1, by norm_num, by norm_num, by norm_num⟩
    · exact ⟨2, by norm_num, by norm_num, by norm_num⟩
    · exact ⟨3, by norm_num, by norm_num, by norm_num⟩

/-- The skill sub-score is in `[0, 1]`. -/
theorem calculateSkillMatch_range (toLowerCase : String → String) (profile : UserProfile)
    (workshop : Workshop) :
    0 ≤ calculateSkillMatch toLowerCase profile workshop ∧
    calculateSkillMatch toLowerCase profile workshop ≤ 1 := by
  unfold calculateSkillMatch
  by_cases hempty : profile.skills.length = 0
  · simp only [hempty, if_true]
    norm_num
  · simp only [hempty, if_false]
    have hpos : 0 < ((max profile.skills.length workshop.skills.length : ℕ) : ℚ) := by
      have : 0 < max profile.skills.length workshop.skills.length :=
        lt_of_lt_of_le (Nat.pos_of_ne_zero hempty) (le_max_left _ _)
      exact_mod_cast this
    constructor
    · exact div_nonneg (Nat.cast_nonneg _) (le_of_lt hpos)
    · rw [div_le_one hpos]
      have h1 := List.length_filter_le (fun skill =>
        workshop.skills.any (fun ws => stringIncludes (toLowerCase ws) (toLowerCase skill)))
        profile.skills
      have h2 : profile.skills.length ≤ max profile.skills.length workshop.skills.length :=
        le_max_left _ _
      exact_mod_cast le_trans h1 h2

/-- For a category that is not an inherited name the interest sub-score is a
number in `[0, 1]`. -/
theorem calculateInterestAlignment_range (profile : UserProfile) (workshop : Workshop)
    (h : workshop.category ∉ objectPrototypeKeys) :
    ∃ x : ℚ, calculateInterestAlignment profile workshop = Outcome.value x ∧ 0 ≤ x ∧ x ≤ 1 := by
  unfold calculateInterestAlignment
  simp only
  split
  · exact ⟨_, rfl, by norm_num, by norm_num⟩
  · rcases getProperty_of_not_inherited categoryMap workshop.category h with hu | ⟨v, -, ho⟩
    · rw [hu]
      simp only
      split
      · exact ⟨_, rfl, by norm_num, by norm_num⟩
      · exact ⟨_, rfl, by norm_num, by norm_num⟩
    · rw [ho]
      simp only
      split
      · exact ⟨_, rfl, by norm_num, by norm_num⟩
      · exact ⟨_, rfl, by norm_num, by norm_num⟩

/-- For level names that are not inherited the difficulty sub-score is a number
in `[0, 1]`. -/
theorem calculateDifficultyFit_range (profile : UserProfile) (workshop : Workshop)
    (hp : profile.experienceLevel ∉ objectPrototypeKeys)
    (hw : workshop.difficulty ∉ objectPrototypeKeys) :
    ∃ x : ℚ, calculateDifficultyFit profile workshop = some x ∧ 0 ≤ x ∧ x ≤ 1 := by
  obtain ⟨u, hu, -, -⟩ := levelNumber_of_not_inherited _ hp
  obtain ⟨w, hw', -, -⟩ := levelNumber_of_not_inherited _ hw
  unfold calculateDifficultyFit
  simp only [hu, hw']
  refine ⟨_, rfl, le_max_left _ _, ?_⟩
  apply max_le (by norm_num)
  have := abs_nonneg (u - w)
  linarith

/-- The time score for a range of `preferenceMap` is in `[0, 1]`. -/
theorem timeScore_range (d : ℚ) (range : ℚ × ℚ) :
    0 ≤ (if d ≥ range.1 ∧ d ≤ range.2 then (1.0 : ℚ)
          else max 0 (1 - min |d - range.1| |d - range.2| * 0.2)) ∧
    (if d ≥ range.1 ∧ d ≤ range.2 then (1.0 : ℚ)
          else max 0 (1 - min |d - range.1| |d - range.2| * 0.2)) ≤ 1 := by
  split
  · norm_num
  · constructor
    · exact le_max_left _ _
    · apply max_le (by norm_num)
      have : 0 ≤ min |d - range.1| |d - range.2| := le_min (abs_nonneg _) (abs_nonneg _)
      linarith

/-- For a preference that is not an inherited name the time sub-score is a number
in `[0, 1]`. -/
theorem calculateTimePreference_range (profile : UserProfile) (workshop : Workshop)
    (h : profile.preferredDuration ∉ objectPrototypeKeys) :
    ∃ x : ℚ, calculateTimePreference profile workshop = some x ∧ 0 ≤ x ∧ x ≤ 1 := by
  unfold calculateTimePreference
  simp only
  rcases getProperty_of_not_inherited preferenceMap profile.preferredDuration h with
    hu | ⟨v, -, ho⟩
  · rw [hu]
    exact ⟨_, rfl, timeScore_range (parseDuration workshop.duration : ℚ) (3, 6)⟩
  · rw [ho]
    exact ⟨_, rfl, timeScore_range (parseDuration workshop.duration : ℚ) v⟩


/-- With plain keys the score is a number. -/
theorem calculateRecommendationScore_number (toLowerCase : String → String)
    (profile : UserProfile) (workshop : Workshop) (hkeys : PlainKeys profile workshop) :
    ∃ interest difficulty time : ℚ,
      (0 ≤ interest ∧ interest ≤ 1) ∧ (0 ≤ difficulty ∧ difficulty ≤ 1) ∧
      (0 ≤ time ∧ time ≤ 1) ∧
      calculateRecommendationScore toLowerCase profile workshop =
        Outcome.value (some
          (calculateSkillMatch toLowerCase profile workshop * modelWeights.skillMatch +
            interest * modelWeights.interestAlignment +
            difficulty * modelWeights.difficultyFit +
            workshop.completionRate * modelWeights.completionRate +
            time * modelWeights.timePreference)) := by
  obtain ⟨hlevel, hpref, hdiff, hcat⟩ := hkeys
  obtain ⟨i, hi, i0, i1⟩ := calculateInterestAlignment_range profile workshop hcat
  obtain ⟨d, hd, d0, d1⟩ := calculateDifficultyFit_range profile workshop hlevel hdiff
  obtain ⟨t, ht, t0, t1⟩ := calculateTimePreference_range profile workshop hpref
  refine ⟨i, d, t, ⟨i0, i1⟩, ⟨d0, d1⟩, ⟨t0, t1⟩, ?_⟩
  unfold calculateRecommendationScore
  simp only [hi, hd, ht]

/-- Claim C26, amended (recommendation score range).  For every profile and
every workshop whose `completionRate` is in `[0, 1]` and whose keys
(`experienceLevel`, `preferredDuration`, `difficulty`, `category`) are not names
inherited from `Object.prototype`, `calculateRecommendationScore` returns a
number in `[0, 1]` and the confidence badge is between `0` and `100`; the five
weights are non-negative and sum to `1`. -/
theorem recommendation_score_range (toLowerCase : String → String) (profile : UserProfile)
    (workshop : Workshop) (h0 : 0 ≤ workshop.completionRate)
    (h1 : workshop.completionRate ≤ 1) (hkeys : PlainKeys profile workshop) :
    (∃ score : ℚ,
      calculateRecommendationScore toLowerCase profile workshop = Outcome.value (some score) ∧
      0 ≤ score ∧ score ≤ 1 ∧
      ∃ c : ℤ, confidence ⟨workshop, some score⟩ = some c ∧ 0 ≤ c ∧ c ≤ 100) ∧
    (0 ≤ modelWeights.skillMatch ∧ 0 ≤ modelWeights.interestAlignment ∧
      0 ≤ modelWeights.difficultyFit ∧ 0 ≤ modelWeights.completionRate ∧
      0 ≤ modelWeights.timePreference) ∧
    modelWeights.skillMatch + modelWeights.interestAlignment + modelWeights.difficultyFit
      + modelWeights.completionRate + modelWeights.timePreference = 1 := by
  obtain ⟨s0, s1⟩ := calculateSkillMatch_range toLowerCase profile workshop
  obtain ⟨i, d, t, ⟨i0, i1⟩, ⟨d0, d1⟩, ⟨t0, t1⟩, hscore⟩ :=
    calculateRecommendationScore_number toLowerCase profile workshop hkeys
  refine ⟨⟨_, hscore, ?_, ?_, ?_⟩, ?_, ?_⟩
  · unfold modelWeights
    simp only
    norm_num
    linarith
  · unfold modelWeights
    simp only
    norm_num
    linarith
  · generalize hS : calculateSkillMatch toLowerCase profile workshop * modelWeights.skillMatch +
      i * modelWeights.interestAlignment + d * modelWeights.difficultyFit +
      workshop.completionRate * modelWeights.completionRate +
      t * modelWeights.timePreference = S
    have hlow : 0 ≤ S := by
      rw [← hS]
      unfold modelWeights
      simp only
      norm_num
      linarith
    have hhigh : S ≤ 1 := by
      rw [← hS]
      unfold modelWeights
      simp only
      norm_num
      linarith
    refine ⟨DataVisualization.mathRound (S * 100), rfl, ?_, ?_⟩
    · unfold DataVisualization.mathRound
      apply Int.floor_nonneg.mpr
      linarith
    · show ⌊S * 100 + 1 / 2⌋ ≤ 100
      have : ⌊S * 100 + 1 / 2⌋ < 100 + 1 := by
        rw [Int.floor_lt]
        push_cast
        linarith
      omega
  · unfold modelWeights
    norm_num
  · unfold modelWeights
    norm_num

/-- The amended claim C26 at the default profile and the workshop with id `3`. -/
theorem recommendation_score_range_witness :
    (0 : ℚ) ≤ 0.92 ∧ (0.92 : ℚ) ≤ 1 ∧
    PlainKeys defaultProfile
      { id := 3, title := "Web Development with JavaScript",
        skills := ["javascript", "html", "css", "react"],
        difficulty := "beginner", duration := "4 hours", category := "web-development",
        prerequisites := [], rating := 4.6, completionRate := 0.92,
        features := [0.6, 0.7, 0.4, 0.9, 0.8] } ∧
    ∃ score : ℚ,
      calculateRecommendationScore String.toLower defaultProfile
        { id := 3, title := "Web Development with JavaScript",
          skills := ["javascript", "html", "css", "react"],
          difficulty := "beginner", duration := "4 hours", category := "web-development",
          prerequisites := [], rating := 4.6, completionRate := 0.92,
          features := [0.6, 0.7, 0.4, 0.9, 0.8] } = Outcome.value (some score) ∧
      0 ≤ score ∧ score ≤ 1 ∧
      ∃ c : ℤ,
        confidence
          ⟨{ id := 3, title := "Web Development with JavaScript",
             skills := ["javascript", "html", "css", "react"],
             difficulty := "beginner", duration := "4 hours", category := "web-development",
             prerequisites := [], rating := 4.6, completionRate := 0.92,
             features := [0.6, 0.7, 0.4, 0.9, 0.8] }, some score⟩ = some c ∧ 0 ≤ c ∧ c ≤ 100 :=
  ⟨by norm_num, by norm_num, by unfold PlainKeys; decide,
   (recommendation_score_range String.toLower defaultProfile
      { id := 3, title := "Web Development with JavaScript",
        skills := ["javascript", "html", "css", "react"],
        difficulty := "beginner", duration := "4 hours", category := "web-development",
        prerequisites := [], rating := 4.6, completionRate := 0.92,
        features := [0.6, 0.7, 0.4, 0.9, 0.8] } (by norm_num) (by norm_num)
      (by unfold PlainKeys; decide)).1⟩

/-- The level `constructor` is an inherited property, not a number. -/
theorem levelNumber_constructor : levelNumber "constructor" = none := by
  unfold levelNumber
  rw [getProperty_inherited levelMap "constructor" (by decide) (by decide)]

/-- With the experience level `constructor` every difficulty fit is `NaN`. -/
theorem calculateDifficultyFit_constructor (workshop : Workshop) :
    calculateDifficultyFit constructorProfile workshop = none := by
  unfold calculateDifficultyFit
  show (match levelNumber "constructor", levelNumber workshop.difficulty with
    | some userLevelNum, some workshopLevelNum =>
      some (max 0 (1 - |userLevelNum - workshopLevelNum| * 0.3))
    | _, _ => none) = none
  rw [levelNumber_constructor]

/-- With the experience level `constructor` every score is `NaN`. -/
theorem calculateRecommendationScore_constructor (toLowerCase : String → String)
    (workshop : Workshop) :
    calculateRecommendationScore toLowerCase constructorProfile workshop
      = Outcome.value none := by
  unfold calculateRecommendationScore
  have hinterest : calculateInterestAlignment constructorProfile workshop = Outcome.value 0.3 := by
    unfold calculateInterestAlignment
    show (if ([] : List String).contains workshop.category then Outcome.value (1.0 : ℚ)
      else _) = _
    rw [if_neg (by simp)]
    cases getProperty categoryMap workshop.category <;> rfl
  simp only [hinterest, calculateDifficultyFit_constructor]

/-- Claim C26 as stated fails: for the stored experience level `constructor` and
the workshop with id `3`, whose `completionRate` is `0.92`, the score is `NaN`
and the badge reads `NaN% match`; for a workshop of category `constructor` and a
profile with an interest, `calculateRecommendationScore` throws a `TypeError`. -/
theorem recommendation_score_counterexample :
    (0 : ℚ) ≤ 0.92 ∧ (0.92 : ℚ) ≤ 1 ∧
    calculateRecommendationScore String.toLower constructorProfile
      { id := 3, title := "Web Development with JavaScript",
        skills := ["javascript", "html", "css", "react"],
        difficulty := "beginner", duration := "4 hours", category := "web-development",
        prerequisites := [], rating := 4.6, completionRate := 0.92,
        features := [0.6, 0.7, 0.4, 0.9, 0.8] } = Outcome.value none ∧
    confidence
      ⟨{ id := 3, title := "Web Development with JavaScript",
         skills := ["javascript", "html", "css", "react"],
         difficulty := "beginner", duration := "4 hours", category := "web-development",
         prerequisites := [], rating := 4.6, completionRate := 0.92,
         features := [0.6, 0.7, 0.4, 0.9, 0.8] }, none⟩ = none ∧
    calculateRecommendationScore String.toLower { defaultProfile with interests := ["ai-ml"] }
      { id := 3, title := "Web Development with JavaScript",
        skills := ["javascript", "html", "css", "react"],
        difficulty := "beginner", duration := "4 hours", category := "constructor",
        prerequisites := [], rating := 4.6, completionRate := 0.92,
        features := [0.6, 0.7, 0.4, 0.9, 0.8] } = Outcome.typeError := by
  refine ⟨by norm_num, by norm_num, calculateRecommendationScore_constructor _ _, rfl, ?_⟩
  have hinterest : calculateInterestAlignment { defaultProfile with interests := ["ai-ml"] }
      { id := 3, title := "Web Development with JavaScript",
        skills := ["javascript", "html", "css", "react"],
        difficulty := "beginner", duration := "4 hours", category := "constructor",
        prerequisites := [], rating := 4.6, completionRate := 0.92,
        features := [0.6, 0.7, 0.4, 0.9, 0.8] } = Outcome.typeError := by
    unfold calculateInterestAlignment
    simp only
    rw [getProperty_inherited categoryMap "constructor" (by decide) (by decide)]
    simp [defaultProfile]
  unfold calculateRecommendationScore
  simp only [hinterest]

/-- A stable sort by a decreasing key is ordered by that key. -/
theorem pairwise_insertionSort_key {β : Type} (key : β → ℚ) (l : List β) :
    (l.insertionSort (fun a b => key b ≤ key a)).Pairwise (fun a b => key b ≤ key a) := by
  haveI : IsTotal β (fun a b => key b ≤ key a) := ⟨fun a b => le_total (key b) (key a)⟩
  haveI : IsTrans β (fun a b => key b ≤ key a) := ⟨fun _ _ _ hab hbc => le_trans hbc hab⟩
  exact List.sorted_insertionSort (fun a b => key b ≤ key a) l

/-- The first elements of an ordered list dominate those left out. -/
theorem take_dominates {β : Type} (key : β → ℚ) (l : List β) (n : ℕ)
    (h : l.Pairwise (fun a b => key b ≤ key a)) :
    ∀ a ∈ l.take n, ∀ b ∈ l.drop n, key b ≤ key a := by
  have h' : (l.take n ++ l.drop n).Pairwise (fun a b => key b ≤ key a) := by
    rw [List.take_append_drop]
    exact h
  exact (List.pairwise_append.mp h').2.2

/-- The sort of a list whose keys are all numbers. -/
theorem sortDescending_of_numbers {β : Type} (key : β → Option ℚ) (l : List β)
    (h : ∀ b ∈ l, (key b).isSome = true) :
    sortDescending key l
      = Outcome.value (l.insertionSort (fun a b => (key b).getD 0 ≤ (key a).getD 0)) := by
  unfold sortDescending
  rw [if_pos (List.all_eq_true.mpr h)]

/-- The sort of a list whose keys are all `NaN` leaves the list as it is. -/
theorem sortDescending_of_nan {β : Type} (key : β → Option ℚ) (l : List β)
    (h : ∀ b ∈ l, key b = none) : sortDescending key l = Outcome.value l := by
  cases l with
  | nil => rfl
  | cons b rest =>
    unfold sortDescending
    have hb : key b = none := h b (List.mem_cons_self _ _)
    have hnot : ¬ ((b :: rest).all (fun b => (key b).isSome) = true) := by
      rw [List.all_eq_true]
      intro hall
      have := hall b (List.mem_cons_self _ _)
      rw [hb] at this
      exact absurd this (by decide)
    have hall : (b :: rest).all (fun b => (key b).isNone) = true := by
      rw [List.all_eq_true]
      intro c hc
      rw [h c hc]
      rfl
    rw [if_neg hnot, if_pos hall]

/-- Claim C25, amended (learning path is the top 5).  For every profile and
workshop list whose experience level and difficulties are not names inherited
from `Object.prototype`, `getPersonalizedLearningPath` returns `5` workshops of
the list, or all that are not completed when these are fewer, each taken at most
as often as it is in the list, none of them completed, ordered by non-increasing
difficulty fit, and every workshop left out is completed or has a difficulty fit
no greater than that of every workshop returned. -/
theorem learning_path_top_five (profile : UserProfile) (workshopData : List Workshop)
    (hlevel : profile.experienceLevel ∉ objectPrototypeKeys)
    (hdifficulty : ∀ w ∈ workshopData, w.difficulty ∉ objectPrototypeKeys) :
    ∃ (path : List Workshop) (fit : Workshop → ℚ),
      getPersonalizedLearningPath profile workshopData = Outcome.value path ∧
      (∀ w ∈ workshopData, calculateDifficultyFit profile w = some (fit w)) ∧
      path.length = min 5
        (workshopData.filter (fun w => !profile.completedWorkshops.contains w.id)).length ∧
      path.Subperm
        (workshopData.filter (fun w => !profile.completedWorkshops.contains w.id)) ∧
      (∀ w ∈ path, w ∈ workshopData ∧ w.id ∉ profile.completedWorkshops) ∧
      path.Pairwise (fun a b => fit b ≤ fit a) ∧
      (∀ w ∈ workshopData, w ∉ path →
        w.id ∈ profile.completedWorkshops ∨ ∀ v ∈ path, fit w ≤ fit v) := by
  have hfit : ∀ w ∈ workshopData,
      calculateDifficultyFit profile w = some ((calculateDifficultyFit profile w).getD 0) := by
    intro w hw
    obtain ⟨x, hx, -, -⟩ := calculateDifficultyFit_range profile w hlevel (hdifficulty w hw)
    rw [hx]
    rfl
  have hsort := sortDescending_of_numbers (calculateDifficultyFit profile)
    (workshopData.filter (fun w => !profile.completedWorkshops.contains w.id))
    (by
      intro w hw
      rw [hfit w (List.mem_of_mem_filter hw)]
      rfl)
  have hsorted := pairwise_insertionSort_key
    (fun w => (calculateDifficultyFit profile w).getD 0)
    (workshopData.filter (fun w => !profile.completedWorkshops.contains w.id))
  have hperm := List.perm_insertionSort
    (fun a b : Workshop =>
      (calculateDifficultyFit profile b).getD 0 ≤ (calculateDifficultyFit profile a).getD 0)
    (workshopData.filter (fun w => !profile.completedWorkshops.contains w.id))
  have hmem : ∀ w, w ∈ (workshopData.filter (fun w =>
        !profile.completedWorkshops.contains w.id)).insertionSort
        (fun a b => (calculateDifficultyFit profile b).getD 0
          ≤ (calculateDifficultyFit profile a).getD 0) ↔
      w ∈ workshopData ∧ w.id ∉ profile.completedWorkshops := by
    intro w
    rw [List.mem_insertionSort, List.mem_filter]
    simp
  refine ⟨((workshopData.filter (fun w => !profile.completedWorkshops.contains w.id)).insertionSort
      (fun a b => (calculateDifficultyFit profile b).getD 0
        ≤ (calculateDifficultyFit profile a).getD 0)).take 5,
    fun w => (calculateDifficultyFit profile w).getD 0, ?_, hfit, ?_, ?_, ?_, ?_, ?_⟩
  · unfold getPersonalizedLearningPath
    rw [hsort]
  · rw [List.length_take, hperm.length_eq]
  · exact (List.take_sublist 5 _).subperm.trans hperm.subperm
  · intro w hw
    exact (hmem w).mp (List.mem_of_mem_take hw)
  · exact hsorted.sublist (List.take_sublist 5 _)
  · intro w hw hout
    by_cases hdone : w.id ∈ profile.completedWorkshops
    · exact Or.inl hdone
    · right
      have hin := (hmem w).mpr ⟨hw, hdone⟩
      rw [← List.take_append_drop 5 (List.insertionSort _ _)] at hin
      rcases List.mem_append.mp hin with h | h
      · exact absurd h hout
      · intro v hv
        exact take_dominates (fun w => (calculateDifficultyFit profile w).getD 0) _ 5 hsorted
          v hv w h

/-- The amended claim C25 at the default profile and the workshops of
`loadWorkshopData`. -/
theorem learning_path_top_five_witness :
    defaultProfile.experienceLevel ∉ objectPrototypeKeys ∧
    (∀ w ∈ loadWorkshopData, w.difficulty ∉ objectPrototypeKeys) ∧
    ∃ (path : List Workshop) (fit : Workshop → ℚ),
      getPersonalizedLearningPath defaultProfile loadWorkshopData = Outcome.value path ∧
      (∀ w ∈ loadWorkshopData, calculateDifficultyFit defaultProfile w = some (fit w)) ∧
      path.length = min 5
        (loadWorkshopData.filter
          (fun w => !defaultProfile.completedWorkshops.contains w.id)).length ∧
      path.Subperm
        (loadWorkshopData.filter
          (fun w => !defaultProfile.completedWorkshops.contains w.id)) ∧
      (∀ w ∈ path, w ∈ loadWorkshopData ∧ w.id ∉ defaultProfile.completedWorkshops) ∧
      path.Pairwise (fun a b => fit b ≤ fit a) ∧
      (∀ w ∈ loadWorkshopData, w ∉ path →
        w.id ∈ defaultProfile.completedWorkshops ∨ ∀ v ∈ path, fit w ≤ fit v) :=
  ⟨by decide, by decide,
   learning_path_top_five defaultProfile loadWorkshopData (by decide) (by decide)⟩

/-- Claim C25 as stated fails: for the stored experience level `constructor`
every difficulty fit is `NaN`, every comparison of the sort is `NaN`, and the
path is the workshop list in its own order, `1, 2, 3`, while the fits of these
workshops for a beginner are `0.7`, `0.4` and `1`. -/
theorem learning_path_counterexample :
    (∀ w : Workshop, calculateDifficultyFit constructorProfile w = none) ∧
    getPersonalizedLearningPath constructorProfile loadWorkshopData
      = Outcome.value loadWorkshopData ∧
    loadWorkshopData.map (fun w => w.id) = [1, 2, 3] ∧
    loadWorkshopData.map (calculateDifficultyFit defaultProfile)
      = [some 0.7, some 0.4, some 1] := by
  refine ⟨calculateDifficultyFit_constructor, ?_, rfl, ?_⟩
  · unfold getPersonalizedLearningPath
    rw [sortDescending_of_nan _ _ (fun w _ => calculateDifficultyFit_constructor w)]
    rfl
  · have h1 : levelNumber "beginner" = some 1 := by
      simp [levelNumber, getProperty, levelMap, List.lookup]
    have h2 : levelNumber "intermediate" = some 2 := by
      simp [levelNumber, getProperty, levelMap, List.lookup]
    have h3 : levelNumber "advanced" = some 3 := by
      simp [levelNumber, getProperty, levelMap, List.lookup]
    simp only [loadWorkshopData, List.map_cons, List.map_nil, calculateDifficultyFit,
      defaultProfile, h1, h2, h3]
    norm_num [abs_of_nonpos]

/-- With plain keys, the `map` of `generateRecommendations` gives every workshop
its score. -/
theorem scoreAll_of_plain (toLowerCase : String → String) (profile : UserProfile) :
    ∀ workshopData : List Workshop, (∀ w ∈ workshopData, PlainKeys profile w) →
      scoreAll toLowerCase profile workshopData =
        Outcome.value (workshopData.map (fun w =>
          ({ workshop := w,
             recommendationScore :=
               some (match calculateRecommendationScore toLowerCase profile w with
                     | Outcome.value (some score) => score
                     | _ => 0) } : Recommendation))) := by
  intro workshopData
  induction workshopData with
  | nil => intro _; rfl
  | cons w rest ih =>
    intro h
    obtain ⟨i, d, t, -, -, -, hscore⟩ :=
      calculateRecommendationScore_number toLowerCase profile w (h w (List.mem_cons_self _ _))
    rw [scoreAll, ih (fun v hv => h v (List.mem_cons_of_mem _ hv))]
    simp only [hscore, List.map_cons]

/-- Claim C30, amended (recommendations are ranked).  For every profile and
workshop list whose keys (`experienceLevel`, `preferredDuration`, `difficulty`,
`category`) are not names inherited from `Object.prototype`,
`generateRecommendations` returns a permutation of `workshopData`, each entry
extended with its `recommendationScore`, ordered by non-increasing score, and
passes the first `min 3 length` entries of that list to
`displayRecommendations`. -/
theorem recommendations_ranked (toLowerCase : String → String) (profile : UserProfile)
    (workshopData : List Workshop) (hkeys : ∀ w ∈ workshopData, PlainKeys profile w) :
    ∃ (recommendations : Recommendations) (score : Workshop → ℚ),
      generateRecommendations toLowerCase profile workshopData
        = Outcome.value recommendations ∧
      (∀ w ∈ workshopData,
        calculateRecommendationScore toLowerCase profile w = Outcome.value (some (score w))) ∧
      recommendations.returned.Perm
        (workshopData.map (fun w =>
          ({ workshop := w, recommendationScore := some (score w) } : Recommendation))) ∧
      recommendations.returned.Pairwise
        (fun a b => score b.workshop ≤ score a.workshop) ∧
      (recommendations.returned.map (fun r => r.workshop)).Perm workshopData ∧
      recommendations.displayed = recommendations.returned.take 3 ∧
      recommendations.displayed.length = min 3 workshopData.length := by
  let score : Workshop → ℚ := fun w =>
    match calculateRecommendationScore toLowerCase profile w with
    | Outcome.value (some score) => score
    | _ => 0
  let scored : List Recommendation := workshopData.map (fun w =>
    ({ workshop := w, recommendationScore := some (score w) } : Recommendation))
  have hall : scoreAll toLowerCase profile workshopData = Outcome.value scored :=
    scoreAll_of_plain toLowerCase profile workshopData hkeys
  have hsort := sortDescending_of_numbers (fun r : Recommendation => r.recommendationScore)
    scored
    (by
      intro r hr
      obtain ⟨w, -, rfl⟩ := List.mem_map.mp hr
      rfl)
  have hperm := List.perm_insertionSort (fun a b : Recommendation =>
      (b.recommendationScore).getD 0 ≤ (a.recommendationScore).getD 0) scored
  have hsorted := pairwise_insertionSort_key
    (fun r : Recommendation => (r.recommendationScore).getD 0) scored
  have hgen : generateRecommendations toLowerCase profile workshopData =
      Outcome.value
        { displayed := (scored.insertionSort (fun a b : Recommendation =>
            (b.recommendationScore).getD 0 ≤ (a.recommendationScore).getD 0)).take 3,
          returned := scored.insertionSort (fun a b : Recommendation =>
            (b.recommendationScore).getD 0 ≤ (a.recommendationScore).getD 0) } := by
    unfold generateRecommendations
    rw [hall]
    simp only [hsort]
  refine ⟨_, score, hgen, ?_, hperm, ?_, ?_, rfl, ?_⟩
  · intro w hw
    obtain ⟨i, d, t, -, -, -, hscore⟩ :=
      calculateRecommendationScore_number toLowerCase profile w (hkeys w hw)
    show calculateRecommendationScore toLowerCase profile w
      = Outcome.value (some (match calculateRecommendationScore toLowerCase profile w with
          | Outcome.value (some score) => score
          | _ => 0))
    rw [hscore]
  · have hkey : ∀ r ∈ scored.insertionSort (fun a b : Recommendation =>
          (b.recommendationScore).getD 0 ≤ (a.recommendationScore).getD 0),
        (r.recommendationScore).getD 0 = score r.workshop := by
      intro r hr
      rw [List.mem_insertionSort] at hr
      obtain ⟨w, -, rfl⟩ := List.mem_map.mp hr
      rfl
    exact List.Pairwise.imp_of_mem
      (fun {a b} ha hb hab => by rw [← hkey a ha, ← hkey b hb]; exact hab) hsorted
  · have h := hperm.map (fun r : Recommendation => r.workshop)
    rw [List.map_map] at h
    have hid : ((fun r : Recommendation => r.workshop) ∘ fun w =>
        ({ workshop := w, recommendationScore := some (score w) } : Recommendation)) = id := rfl
    rw [hid, List.map_id] at h
    exact h
  · show (List.take 3 _).length = _
    rw [List.length_take, hperm.length_eq, List.length_map]

/-- The amended claim C30 at the default profile and the workshops of
`loadWorkshopData`. -/
theorem recommendations_ranked_witness :
    (∀ w ∈ loadWorkshopData, PlainKeys defaultProfile w) ∧
    ∃ (recommendations : Recommendations) (score : Workshop → ℚ),
      generateRecommendations String.toLower defaultProfile loadWorkshopData
        = Outcome.value recommendations ∧
      (∀ w ∈ loadWorkshopData,
        calculateRecommendationScore String.toLower defaultProfile w
          = Outcome.value (some (score w))) ∧
      recommendations.returned.Perm
        (loadWorkshopData.map (fun w =>
          ({ workshop := w, recommendationScore := some (score w) } : Recommendation))) ∧
      recommendations.returned.Pairwise
        (fun a b => score b.workshop ≤ score a.workshop) ∧
      (recommendations.returned.map (fun r => r.workshop)).Perm loadWorkshopData ∧
      recommendations.displayed = recommendations.returned.take 3 ∧
      recommendations.displayed.length = min 3 loadWorkshopData.length :=
  ⟨by unfold PlainKeys; decide,
   recommendations_ranked String.toLower defaultProfile loadWorkshopData
     (by unfold PlainKeys; decide)⟩

/-- Claim C30 as stated fails: for the stored experience level `constructor`
every score is `NaN`; `generateRecommendations` returns the workshops in their
own order, each with the score `NaN`, a list that is not ordered by score. -/
theorem recommendations_ranked_counterexample :
    generateRecommendations String.toLower constructorProfile loadWorkshopData
      = Outcome.value
          { displayed := loadWorkshopData.map (fun w => ⟨w, none⟩),
            returned := loadWorkshopData.map (fun w => ⟨w, none⟩) } ∧
    (∀ w ∈ loadWorkshopData,
      calculateRecommendationScore String.toLower constructorProfile w = Outcome.value none) ∧
    loadWorkshopData.map (fun w => w.id) = [1, 2, 3] := by
  have hall : scoreAll String.toLower constructorProfile loadWorkshopData
      = Outcome.value (loadWorkshopData.map (fun w => ⟨w, none⟩)) := by
    simp only [loadWorkshopData, scoreAll, calculateRecommendationScore_constructor,
      List.map_cons, List.map_nil]
  refine ⟨?_, fun w _ => calculateRecommendationScore_constructor _ w, rfl⟩
  unfold generateRecommendations
  rw [hall]
  simp only
  rw [sortDescending_of_nan _ _ (by
    intro r hr
    obtain ⟨w, -, rfl⟩ := List.mem_map.mp hr
    rfl)]
  rfl

end AIRecommendations

/-! ## Theorems: dashboard metric animator -/

namespace DataVisualization

/-- The timer of an animation from `0` to `target` over `duration`. -/
theorem newTimer_zero (target duration : ℚ) (decimals : ℕ) (hD : 0 < duration) :
    newTimer 0 target duration decimals =
      some { current := 0, increment := target * 16 / duration, stop := target,
             decimals := decimals, cleared := false } := by
  have hne : duration / 16 ≠ 0 := by positivity
  have hinc : (target - 0) / (duration / 16) = target * 16 / duration := by
    field_simp
  simp only [newTimer, div?_of_ne (target - 0) hne, hinc]

/-- The callback of a timer whose interval has not been cleared. -/
theorem intervalTick_active (i : ℕ) (el : MetricElement) (t : ValueTimer)
    (ht : el.timers.get? i = some t) (hactive : t.cleared = false) :
    intervalTick i el =
      { textContent := displayValue (tickTimer t).current (tickTimer t).decimals,
        timers := el.timers.set i (tickTimer t),
        writes := el.writes ++ [(i, displayValue (tickTimer t).current (tickTimer t).decimals)] } := by
  unfold intervalTick
  simp only [ht, hactive, Bool.false_eq_true, if_false]

/-- A step of a timer that stays below its end value. -/
theorem tickTimer_below (t : ValueTimer) (h : ¬ t.current + t.increment ≥ t.stop) :
    tickTimer t = { t with current := t.current + t.increment } := by
  unfold tickTimer
  simp only [h, if_false]

/-- Claim C21, amended (a restart does not cancel).  A call of `animateValue` on an
element with a running timer `i` adds a timer and leaves timer `i` and the text
as they are; at its next interval timer `i` still writes its own value to the
element.  A timer whose interval has been cleared never writes again. -/
theorem restart_does_not_cancel (start stop duration : ℚ) (decimals i : ℕ)
    (el restarted : MetricElement) (t : ValueTimer)
    (hrestart : animateValue start stop duration decimals el = some restarted)
    (ht : el.timers.get? i = some t) (hactive : t.cleared = false) :
    restarted.timers.length = el.timers.length + 1 ∧
    restarted.timers.get? i = some t ∧
    restarted.textContent = el.textContent ∧
    (intervalTick i restarted).textContent = displayValue (tickTimer t).current t.decimals ∧
    (intervalTick i restarted).writes
      = el.writes ++ [(i, displayValue (tickTimer t).current t.decimals)] ∧
    (∀ (j : ℕ) (done : ValueTimer), restarted.timers.get? j = some done → done.cleared = true →
      intervalTick j restarted = restarted) := by
  unfold animateValue at hrestart
  cases hn : newTimer start stop duration decimals with
  | none => rw [hn] at hrestart; cases hrestart
  | some timer =>
    rw [hn] at hrestart
    simp only [Option.some.injEq] at hrestart
    subst hrestart
    have hi : i < el.timers.length := by
      rw [List.get?_eq_getElem?] at ht
      exact (List.getElem?_eq_some_iff.mp ht).1
    have hget : (el.timers ++ [timer]).get? i = some t := by
      rw [List.get?_eq_getElem?, List.getElem?_append_left hi, ← List.get?_eq_getElem?]
      exact ht
    have hdec : (tickTimer t).decimals = t.decimals := by
      unfold tickTimer
      simp only
      split <;> rfl
    refine ⟨by simp, hget, rfl, ?_, ?_, ?_⟩
    · unfold intervalTick
      simp only [hget, hactive, Bool.false_eq_true, if_false, hdec]
    · unfold intervalTick
      simp only [hget, hactive, Bool.false_eq_true, if_false, hdec]
    · intro j done hj hdone
      unfold intervalTick
      simp only [hj, hdone, if_true]

/-- The amended claim C21 at a restart of the metric `active-users` after one interval. -/
theorem restart_does_not_cancel_witness :
    animateValue 0 1247 2000 0 ⟨"9", [activeUsersTimer (1247 * 16 / 2000)], [(0, "9")]⟩
      = some ⟨"9", [activeUsersTimer (1247 * 16 / 2000), activeUsersTimer 0], [(0, "9")]⟩ ∧
    (intervalTick 0
        ⟨"9", [activeUsersTimer (1247 * 16 / 2000), activeUsersTimer 0], [(0, "9")]⟩).writes
      = [(0, "9")] ++
          [(0, displayValue (tickTimer (activeUsersTimer (1247 * 16 / 2000))).current 0)] := by
  have hstart : animateValue 0 1247 2000 0
        ⟨"9", [activeUsersTimer (1247 * 16 / 2000)], [(0, "9")]⟩
      = some ⟨"9", [activeUsersTimer (1247 * 16 / 2000), activeUsersTimer 0], [(0, "9")]⟩ := by
    unfold animateValue
    rw [newTimer_zero 1247 2000 0 (by norm_num)]
    rfl
  exact ⟨hstart,
    (restart_does_not_cancel 0 1247 2000 0 0
      ⟨"9", [activeUsersTimer (1247 * 16 / 2000)], [(0, "9")]⟩
      ⟨"9", [activeUsersTimer (1247 * 16 / 2000), activeUsersTimer 0], [(0, "9")]⟩
      (activeUsersTimer (1247 * 16 / 2000)) hstart rfl rfl).2.2.2.2.1⟩

/-- A callback of the `active-users` timer while its value stays below `1247`. -/
theorem intervalTick_activeUsers (i : ℕ) (el : MetricElement) (current : ℚ)
    (ht : el.timers.get? i = some (activeUsersTimer current))
    (hbelow : current + 1247 * 16 / 2000 < 1247) :
    intervalTick i el =
      { textContent := displayValue (current + 1247 * 16 / 2000) 0,
        timers := el.timers.set i (activeUsersTimer (current + 1247 * 16 / 2000)),
        writes := el.writes ++ [(i, displayValue (current + 1247 * 16 / 2000) 0)] } := by
  have hstep : tickTimer (activeUsersTimer current)
      = activeUsersTimer (current + 1247 * 16 / 2000) :=
    tickTimer_below (activeUsersTimer current) (not_le.mpr hbelow)
  rw [intervalTick_active i el (activeUsersTimer current) ht rfl, hstep]
  rfl

/-- Claim C21 as stated fails: `animateValue('active-users', 0, 1247, 2000)` is
called, its timer fires once and writes `9`, and the animator is started again
on the same element; then the new timer writes `9` and the earlier timer writes
`19` after it. -/
theorem restart_supersedes_counterexample :
    ∃ first restarted : MetricElement,
      animateValue 0 1247 2000 0 ⟨"0", [], []⟩ = some first ∧
      animateValue 0 1247 2000 0 (intervalTick 0 first) = some restarted ∧
      (intervalTick 0 (intervalTick 1 restarted)).writes = [(0, "9"), (1, "9"), (0, "19")] ∧
      (intervalTick 0 (intervalTick 1 restarted)).textContent = "19" := by
  have h9 : displayValue ((0 : ℚ) + 1247 * 16 / 2000) 0 = "9" := by
    have hfloor : ⌊(0 : ℚ) + 1247 * 16 / 2000⌋ = 9 := by
      rw [Int.floor_eq_iff]
      norm_num
    unfold displayValue
    rw [if_neg (by decide), hfloor]
    decide
  have h19 : displayValue ((0 : ℚ) + 1247 * 16 / 2000 + 1247 * 16 / 2000) 0 = "19" := by
    have hfloor : ⌊(0 : ℚ) + 1247 * 16 / 2000 + 1247 * 16 / 2000⌋ = 19 := by
      rw [Int.floor_eq_iff]
      norm_num
    unfold displayValue
    rw [if_neg (by decide), hfloor]
    decide
  have hstart : ∀ el : MetricElement, animateValue 0 1247 2000 0 el =
      some { el with timers := el.timers ++ [activeUsersTimer 0] } := by
    intro el
    unfold animateValue
    rw [newTimer_zero 1247 2000 0 (by norm_num)]
    rfl
  have htick1 : intervalTick 0 ⟨"0", [activeUsersTimer 0], []⟩
      = ⟨"9", [activeUsersTimer (0 + 1247 * 16 / 2000)], [(0, "9")]⟩ := by
    rw [intervalTick_activeUsers 0 ⟨"0", [activeUsersTimer 0], []⟩ 0 rfl (by norm_num), h9]
    rfl
  have htick2 : intervalTick 1
      ⟨"9", [activeUsersTimer (0 + 1247 * 16 / 2000), activeUsersTimer 0], [(0, "9")]⟩
      = ⟨"9", [activeUsersTimer (0 + 1247 * 16 / 2000), activeUsersTimer (0 + 1247 * 16 / 2000)],
          [(0, "9"), (1, "9")]⟩ := by
    rw [intervalTick_activeUsers 1
      ⟨"9", [activeUsersTimer (0 + 1247 * 16 / 2000), activeUsersTimer 0], [(0, "9")]⟩ 0 rfl
      (by norm_num), h9]
    rfl
  have htick3 : intervalTick 0
      ⟨"9", [activeUsersTimer (0 + 1247 * 16 / 2000), activeUsersTimer (0 + 1247 * 16 / 2000)],
        [(0, "9"), (1, "9")]⟩
      = ⟨"19", [activeUsersTimer (0 + 1247 * 16 / 2000 + 1247 * 16 / 2000),
                activeUsersTimer (0 + 1247 * 16 / 2000)],
          [(0, "9"), (1, "9"), (0, "19")]⟩ := by
    rw [intervalTick_activeUsers 0
      ⟨"9", [activeUsersTimer (0 + 1247 * 16 / 2000), activeUsersTimer (0 + 1247 * 16 / 2000)],
        [(0, "9"), (1, "9")]⟩ (0 + 1247 * 16 / 2000) rfl (by norm_num), h19]
    rfl
  refine ⟨⟨"0", [activeUsersTimer 0], []⟩,
    ⟨"9", [activeUsersTimer (0 + 1247 * 16 / 2000), activeUsersTimer 0], [(0, "9")]⟩,
    hstart _, ?_, ?_, ?_⟩
  · rw [htick1]
    exact hstart _
  · rw [htick2, htick3]
  · rw [htick2, htick3]

end DataVisualization

/-! ## Theorems: frame rate readout -/

namespace WebGL3D

/-- The render loop has counted every frame. -/
theorem startRenderLoop_frameCount (startTime : ℚ) (times : ℕ → ℚ) (fpsCounter : String) :
    ∀ n : ℕ, (startRenderLoop startTime times fpsCounter n).frameCount = n := by
  intro n
  induction n with
  | zero => rfl
  | succ n ih =>
    rw [startRenderLoop]
    unfold render
    simp only [ih]
    split <;> rfl

/-- The readout at a frame whose number is a multiple of `60`. -/
theorem startRenderLoop_fps (startTime : ℚ) (times : ℕ → ℚ) (fpsCounter : String) (n : ℕ)
    (h : (n + 1) % 60 = 0) :
    (startRenderLoop startTime times fpsCounter (n + 1)).fpsCounter
      = fpsText startTime (times n) (n + 1) := by
  rw [startRenderLoop]
  unfold render
  simp only [startRenderLoop_frameCount, h, if_true]

/-- Claim C23 at a constant frame interval of `20` ms: the readout shows `51` at
frame `60` and `43` at frame `120` (whether the first frame runs at the start
time or one interval later), while `round (1000 / 20) = 50`. -/
theorem fps_readout_at_twenty_ms :
    (startRenderLoop 0 (fun j => 20 * (j : ℚ)) "0" 60).fpsCounter = "51" ∧
    (startRenderLoop 0 (fun j => 20 * (j : ℚ)) "0" 120).fpsCounter = "43" ∧
    (startRenderLoop 0 (fun j => 20 * ((j : ℚ) + 1)) "0" 120).fpsCounter = "43" ∧
    DataVisualization.mathRound ((1000 : ℚ) / 20) = 50 := by
  have h51 : DataVisualization.mathRound ((60000 : ℚ) / (20 * ((59 : ℕ) : ℚ)
      - (0 + ((((59 + 1 : ℕ) : ℚ)) - 60) * 16.67))) = 51 := by
    unfold DataVisualization.mathRound
    rw [Int.floor_eq_iff]
    norm_num
  have h43 : DataVisualization.mathRound ((60000 : ℚ) / (20 * ((119 : ℕ) : ℚ)
      - (0 + ((((119 + 1 : ℕ) : ℚ)) - 60) * 16.67))) = 43 := by
    unfold DataVisualization.mathRound
    rw [Int.floor_eq_iff]
    norm_num
  have h43' : DataVisualization.mathRound ((60000 : ℚ) / (20 * (((119 : ℕ) : ℚ) + 1)
      - (0 + ((((119 + 1 : ℕ) : ℚ)) - 60) * 16.67))) = 43 := by
    unfold DataVisualization.mathRound
    rw [Int.floor_eq_iff]
    norm_num
  refine ⟨?_, ?_, ?_, ?_⟩
  · rw [startRenderLoop_fps 0 _ "0" 59 (by decide)]
    unfold fpsText
    simp only
    rw [if_neg (by norm_num), h51]
    decide
  · rw [startRenderLoop_fps 0 _ "0" 119 (by decide)]
    unfold fpsText
    simp only
    rw [if_neg (by norm_num), h43]
    decide
  · rw [startRenderLoop_fps 0 _ "0" 119 (by decide)]
    unfold fpsText
    simp only
    rw [if_neg (by norm_num), h43']
    decide
  · unfold DataVisualization.mathRound
    rw [Int.floor_eq_iff]
    norm_num

end WebGL3D

/-! ## Theorems: particle lifetime -/

namespace WebGL3D

/-- Claim C2 (particle lifetime).  One tick of any engine, whatever its pool,
keeps in order exactly the particles with more than `0.016` of life left, each
with its life lowered by exactly `0.016`, removes every other particle, and
appends only new particles, each with the lifetime of an effect of the table.
With the effects table of `setupParticleEffects`, which no operation changes, no
particle of the pool after the tick has `life ≤ 0`, and no particle of a
reachable engine has; every effect of the table has a positive lifetime. -/
theorem particle_lifetime_monotone (rand : ℕ → ℚ) (time : ℚ) (e : Engine) (ops : List Op) :
    (∃ survivors added : List Particle,
      (updateParticleSystem rand time e).particleSystem.particles = survivors ++ added ∧
      List.Forall₂ (fun p q => updateParticle p = some q ∧ q.life = p.life - 0.016 ∧ 0 < q.life)
        (e.particleSystem.particles.filter (fun p => decide (0 < p.life - 0.016))) survivors ∧
      (∀ q ∈ added, ∃ name effect,
        e.particleSystem.effects.lookup name = some effect ∧ q.life = effect.lifetime)) ∧
    (∀ p ∈ e.particleSystem.particles, p.life - 0.016 ≤ 0 → updateParticle p = none) ∧
    (e.particleSystem.effects = setupParticleEffects →
      ∀ q ∈ (updateParticleSystem rand time e).particleSystem.particles, 0 < q.life) ∧
    (∀ p ∈ (run rand ops).particleSystem.particles, 0 < p.life) ∧
    (∀ name effect, setupParticleEffects.lookup name = some effect → 0 < effect.lifetime) := by
  obtain ⟨-, -, -, -, added, h5, h6, -⟩ := updateParticleSystem_frame rand time e
  have hsurv : List.Forall₂
      (fun p q => updateParticle p = some q ∧ q.life = p.life - 0.016 ∧ 0 < q.life)
      (e.particleSystem.particles.filter (fun p => decide (0 < p.life - 0.016)))
      (e.particleSystem.particles.filterMap updateParticle) :=
    List.Forall₂.imp (fun _ _ h => ⟨h, updateParticle_some h⟩) (filterMap_updateParticle _)
  refine ⟨⟨_, added, h5, hsurv, h6⟩, ?_, ?_, (poolInv_run rand ops).2.2.2,
    fun _ _ h => lifetime_pos h⟩
  · intro p _ hdead
    unfold updateParticle
    simp only [hdead, if_true]
  · intro heff q hq
    rw [h5] at hq
    rcases List.mem_append.mp hq with hold | hnew
    · obtain ⟨p, -, hp⟩ := List.mem_filterMap.mp hold
      exact (updateParticle_some hp).2
    · obtain ⟨name, effect, hl, hlife⟩ := h6 q hnew
      rw [heff] at hl
      rw [hlife]
      exact lifetime_pos hl

/-- Claim C2 at a pool of two particles and no emitter: the particle with life
`2` is kept with life `1.984`, the particle with life `0.01` is removed. -/
theorem particle_lifetime_monotone_witness :
    (updateParticleSystem (fun _ => 0) 0
      { initParticleSystem with
        particleSystem :=
          { initParticleSystem.particleSystem with
            particles :=
              [ { position := ⟨0, 0, 0⟩, velocity := ⟨0, 0, 0⟩, life := 2, size := 3,
                  color := [1, 1, 1, 1], gravity := none },
                { position := ⟨0, 0, 0⟩, velocity := ⟨0, 0, 0⟩, life := 0.01, size := 3,
                  color := [1, 1, 1, 1], gravity := none } ] } }).particleSystem.particles
      = [ { position := ⟨0, 0, 0⟩, velocity := ⟨0, 0, 0⟩, life := 1.984, size := 3,
            color := [1, 1, 1, 1], gravity := none } ] ∧
    ∀ q ∈ (updateParticleSystem (fun _ => 0) 0
      { initParticleSystem with
        particleSystem :=
          { initParticleSystem.particleSystem with
            particles :=
              [ { position := ⟨0, 0, 0⟩, velocity := ⟨0, 0, 0⟩, life := 2, size := 3,
                  color := [1, 1, 1, 1], gravity := none },
                { position := ⟨0, 0, 0⟩, velocity := ⟨0, 0, 0⟩, life := 0.01, size := 3,
                  color := [1, 1, 1, 1], gravity := none } ] } }).particleSystem.particles,
      0 < q.life :=
  ⟨by
    simp only [updateParticleSystem, initParticleSystem, List.foldl_nil, List.filterMap_cons,
      List.filterMap_nil, updateParticle]
    norm_num,
   (particle_lifetime_monotone (fun _ => 0) 0 _ []).2.2.1 rfl⟩

end WebGL3D

/-! ## Theorems: quests -/

namespace Gamification

/-- Completing a quest that is not yet completed keeps the invariant, and the
call throws. -/
theorem questInv_completeQuest {s : QuestState} (h : QuestInv s) {key : String} {quest : Quest}
    (hlookup : s.quests.lookup key = some quest) (hopen : quest.completed = false) :
    QuestInv (completeQuest key s).state ∧ ∃ t, completeQuest key s = Completion.threw t := by
  have hmem : (key, quest) ∈ s.quests := lookup_mem _ hlookup
  obtain ⟨i1, i2, i3, i4, i5, i6, i7⟩ := h
  have hnew : key ∉ s.completions.map (fun c => c.1) := i2 (key, quest) hmem hopen
  have hcore : QuestInv
      { quests := setQuest key { quest with completed := true } s.quests,
        totalPoints := s.totalPoints + quest.reward.points,
        badges := s.badges,
        completions := s.completions ++ [(key, quest.reward.points)] } := by
    refine ⟨?_, ?_, ?_, ?_, ?_, ?_, ?_⟩
    · intro entry hentry
      rcases mem_setQuest hentry with hold | ⟨_, hw⟩
      · exact i1 entry hold
      · rw [hw]; exact i1 (key, quest) hmem
    · intro entry hentry hfalse
      rcases mem_setQuest hentry with hold | ⟨_, hw⟩
      · by_cases hk : entry.1 = key
        · exfalso
          have : entry ∈ setQuest key { quest with completed := true } s.quests → False := by
            intro hin
            unfold setQuest at hin
            obtain ⟨old, _, heq⟩ := List.mem_map.mp hin
            by_cases hok : old.1 = key
            · rw [if_pos hok] at heq
              rw [← heq] at hfalse
              simp at hfalse
            · rw [if_neg hok] at heq
              rw [← heq] at hk
              exact hok hk
          exact this hentry
        · show entry.1 ∉ (s.completions ++ [(key, quest.reward.points)]).map (fun c => c.1)
          rw [List.map_append, List.mem_append]
          rintro (hin | hin)
          · exact i2 entry hold hfalse hin
          · simp only [List.map_cons, List.map_nil, List.mem_singleton] at hin
            exact hk hin
      · rw [hw] at hfalse
        simp at hfalse
    · show ((s.completions ++ [(key, quest.reward.points)]).map (fun c => c.1)).Nodup
      rw [List.map_append, List.map_cons, List.map_nil]
      exact List.Nodup.append i3 (List.nodup_singleton _)
        (by
          intro a ha hb
          rw [List.mem_singleton] at hb
          rw [hb] at ha
          exact hnew ha)
    · show s.totalPoints + quest.reward.points
        = ((s.completions ++ [(key, quest.reward.points)]).map (fun c => c.2)).sum
      rw [List.map_append, List.sum_append, i4]
      simp
    · intro entry hentry
      rcases mem_setQuest hentry with hold | ⟨hk, hw⟩
      · exact i5 entry hold
      · obtain ⟨q0, hq0, hr⟩ := i5 (key, quest) hmem
        exact ⟨q0, by rw [hk]; exact hq0, by rw [hw]; exact hr⟩
    · intro c hc
      rcases List.mem_append.mp hc with hc | hc
      · exact i6 c hc
      · rw [List.mem_singleton] at hc
        obtain ⟨q0, hq0, hr⟩ := i5 (key, quest) hmem
        exact ⟨q0, by rw [hc]; exact hq0, by rw [hc, hr]⟩
    · show (setQuest key { quest with completed := true } s.quests).map (fun entry => entry.1) = _
      rw [keys_setQuest]
      exact i7
  unfold completeQuest
  split
  · rename_i hnone
    rw [hlookup] at hnone
    cases hnone
  · rename_i found hfound
    rw [hlookup] at hfound
    cases hfound
    split
    · rename_i badge _
      obtain ⟨f1, f2, f3⟩ := awardBadge_frame badge
        (awardPoints quest.reward.points
          { s with
            quests := setQuest key { quest with completed := true } s.quests,
            completions := s.completions ++ [(key, quest.reward.points)] })
      exact ⟨questInv_congr hcore f1 f2 f3, _, rfl⟩
    · exact ⟨hcore, _, rfl⟩

/-- One callback of `updateQuestProgress` with a non-negative amount keeps the
invariant, whether it returns or throws. -/
theorem questInv_updateQuest (action : String) (amount : ℚ) (hamount : 0 ≤ amount)
    {s : QuestState} (h : QuestInv s) (key : String) :
    QuestInv (updateQuest action amount s key).state := by
  unfold updateQuest
  cases hlookup : s.quests.lookup key with
  | none => exact h
  | some quest =>
    have hmem : (key, quest) ∈ s.quests := lookup_mem _ hlookup
    have hbounds := h.1 (key, quest) hmem
    by_cases happ : questApplies quest action = true
    · simp only [happ, if_true]
      have hs1 : QuestInv
          { s with
            quests :=
              setQuest key { quest with progress := min (quest.progress + amount) quest.target }
                s.quests } :=
        questInv_setQuest h hmem _ rfl rfl
          (le_min (add_nonneg hbounds.1 hamount) (le_trans hbounds.1 hbounds.2))
          (min_le_right _ _)
      by_cases hdone : min (quest.progress + amount) quest.target ≥ quest.target
          ∧ quest.completed = false
      · rw [if_pos hdone]
        exact (questInv_completeQuest hs1 (lookup_setQuest _ _ hlookup) hdone.2).1
      · rw [if_neg hdone]
        exact hs1
    · simp only [happ]
      exact h

/-- The loop of `updateQuestProgress` with a non-negative amount keeps the
invariant, whether it runs to its end or is left by a throw. -/
theorem questInv_forEachQuest (action : String) (amount : ℚ) (hamount : 0 ≤ amount) :
    ∀ (keys : List String) {s : QuestState}, QuestInv s →
      QuestInv (forEachQuest action amount keys s).state := by
  intro keys
  induction keys with
  | nil => intro s h; exact h
  | cons key rest ih =>
    intro s h
    have hstep := questInv_updateQuest action amount hamount h key
    rw [forEachQuest]
    cases hu : updateQuest action amount s key with
    | returned s1 =>
      rw [hu] at hstep
      exact ih hstep
    | threw s1 =>
      rw [hu] at hstep
      exact hstep

/-- A call of `updateQuestProgress` with a non-negative amount keeps the
invariant. -/
theorem questInv_updateQuestProgress (action : String) (amount : ℚ) (hamount : 0 ≤ amount)
    {s : QuestState} (h : QuestInv s) : QuestInv (updateQuestProgress action amount s).state :=
  questInv_forEachQuest action amount hamount _ h

/-- Claim C29 (quest progress and single reward).  After every sequence of calls
of `updateQuestProgress` with non-negative amounts, from a new profile, the
progress of each quest is within `[0, target]`, no quest has two runs of
`completeQuest` that reached the reward, `totalPoints` is the sum of the rewards
of those runs, each of which is the reward of its quest, and the four quests are
still there.  This holds although every call that completes a quest is left by
the `TypeError` of `completeQuest`. -/
theorem quest_progress_single_reward (calls : List (String × ℚ))
    (hamounts : ∀ call ∈ calls, 0 ≤ call.2) :
    (∀ entry ∈ (runQuests calls).quests,
      0 ≤ entry.2.progress ∧ entry.2.progress ≤ entry.2.target) ∧
    ((runQuests calls).completions.map (fun c => c.1)).Nodup ∧
    (runQuests calls).totalPoints = ((runQuests calls).completions.map (fun c => c.2)).sum ∧
    (∀ c ∈ (runQuests calls).completions,
      ∃ quest, (c.1, quest) ∈ setupQuestSystem ∧ quest.reward.points = c.2) ∧
    (runQuests calls).quests.map (fun entry => entry.1)
      = ["daily_learner", "weekly_warrior", "skill_explorer", "social_learner"] := by
  have hinv : QuestInv (runQuests calls) := by
    unfold runQuests
    induction calls using List.reverseRecOn with
    | nil => exact questInv_initial
    | append_singleton calls call ih =>
      rw [List.foldl_append]
      simp only [List.foldl_cons, List.foldl_nil]
      exact questInv_updateQuestProgress call.1 call.2
        (hamounts call (by simp))
        (ih (fun c hc => hamounts c (List.mem_append_left _ hc)))
  obtain ⟨i1, -, i3, i4, -, i6, i7⟩ := hinv
  exact ⟨i1, i3, i4, i6, i7⟩

/-- Claim C29 at two completed workshops: the first call completes
`daily_learner`, awards its `50` points and is left by the throw before the
later quests are visited; the second call advances `weekly_warrior` and
`skill_explorer` and awards nothing more. -/
theorem quest_progress_single_reward_witness :
    (∀ call ∈ [("workshop_completion", (1 : ℚ)), ("workshop_completion", 1)], 0 ≤ call.2) ∧
    ((runQuests [("workshop_completion", 1), ("workshop_completion", 1)]).completions.map
      (fun c => c.1)).Nodup ∧
    (runQuests [("workshop_completion", 1)]).completions = [("daily_learner", 50)] ∧
    (runQuests [("workshop_completion", 1)]).quests.map (fun entry => entry.2.progress)
      = [1, 0, 0, 0] ∧
    (runQuests [("workshop_completion", 1), ("workshop_completion", 1)]).totalPoints = 50 ∧
    (runQuests [("workshop_completion", 1), ("workshop_completion", 1)]).quests.map
      (fun entry => entry.2.progress) = [1, 1, 1, 0] :=
  ⟨by simp,
   (quest_progress_single_reward [("workshop_completion", 1), ("workshop_completion", 1)]
      (by simp)).2.1,
   by
    simp [runQuests, updateQuestProgress, forEachQuest, updateQuest, completeQuest,
      initialQuestState, setupQuestSystem, questApplies, questActions, setQuest, awardPoints,
      List.lookup, Completion.state],
   by
    simp [runQuests, updateQuestProgress, forEachQuest, updateQuest, completeQuest,
      initialQuestState, setupQuestSystem, questApplies, questActions, setQuest, awardPoints,
      List.lookup, Completion.state],
   by
    simp [runQuests, updateQuestProgress, forEachQuest, updateQuest, completeQuest,
      initialQuestState, setupQuestSystem, questApplies, questActions, setQuest, awardPoints,
      List.lookup, Completion.state],
   by
    simp [runQuests, updateQuestProgress, forEachQuest, updateQuest, completeQuest,
      initialQuestState, setupQuestSystem, questApplies, questActions, setQuest, awardPoints,
      List.lookup, Completion.state]⟩

end Gamification

/-! ## Theorems: double precision arithmetic -/

namespace Float64

/-- The nearest integer is within one half. -/
theorem roundHalfEven_error (q : ℚ) : |(roundHalfEven q : ℚ) - q| ≤ 1 / 2 := by
  unfold roundHalfEven
  have h0 := Int.floor_le q
  have h1 := Int.lt_floor_add_one q
  simp only
  split_ifs with ha hb hc
  · rw [abs_le]; constructor <;> linarith
  · rw [abs_le]; push_cast; constructor <;> linarith
  · rw [abs_le]; constructor <;> linarith
  · rw [abs_le]; push_cast; constructor <;> linarith

/-- A number within less than one half of an integer is rounded to it. -/
theorem roundHalfEven_eq (q : ℚ) (m : ℤ) (h : |q - m| < 1 / 2) : roundHalfEven q = m := by
  rw [abs_lt] at h
  unfold roundHalfEven
  simp only
  by_cases hm : (m : ℚ) ≤ q
  · have hfloor : ⌊q⌋ = m := by
      rw [Int.floor_eq_iff]
      constructor
      · exact hm
      · linarith [h.2]
    rw [hfloor, if_pos (by linarith [h.2])]
  · have hfloor : ⌊q⌋ = m - 1 := by
      rw [Int.floor_eq_iff]
      push_cast
      constructor
      · linarith [h.1]
      · linarith [not_le.mp hm]
    rw [hfloor]
    push_cast
    rw [if_neg (by linarith [h.1]), if_pos (by linarith [h.1])]
    ring

/-- An integer is rounded to itself. -/
theorem roundHalfEven_intCast (m : ℤ) : roundHalfEven (m : ℚ) = m :=
  roundHalfEven_eq _ m (by simp)

/-- The nearest integer of a non-negative number is non-negative. -/
theorem roundHalfEven_nonneg {q : ℚ} (h : 0 ≤ q) : 0 ≤ roundHalfEven q := by
  unfold roundHalfEven
  have h0 : 0 ≤ ⌊q⌋ := Int.floor_nonneg.mpr h
  simp only
  split_ifs <;> omega

/-- The spacing of the doubles is positive. -/
theorem ulp_pos (x : ℚ) : (0 : ℚ) < 2 ^ ulpExponent x := zpow_pos (by norm_num) _

/-- The nearest multiple of the spacing is within half a spacing. -/
theorem nearest_multiple_error (x : ℚ) :
    |(roundHalfEven (x / 2 ^ ulpExponent x) : ℚ) * 2 ^ ulpExponent x - x|
      ≤ 2 ^ ulpExponent x / 2 := by
  have hpos := ulp_pos x
  have herr := roundHalfEven_error (x / 2 ^ ulpExponent x)
  have hx : x = x / 2 ^ ulpExponent x * 2 ^ ulpExponent x := by
    field_simp
  calc |(roundHalfEven (x / 2 ^ ulpExponent x) : ℚ) * 2 ^ ulpExponent x - x|
      = |((roundHalfEven (x / 2 ^ ulpExponent x) : ℚ) - x / 2 ^ ulpExponent x)
          * 2 ^ ulpExponent x| := by
        congr 1
        rw [sub_mul, ← hx]
    _ = |(roundHalfEven (x / 2 ^ ulpExponent x) : ℚ) - x / 2 ^ ulpExponent x|
          * 2 ^ ulpExponent x := by
        rw [abs_mul, abs_of_pos hpos]
    _ ≤ 1 / 2 * 2 ^ ulpExponent x := mul_le_mul_of_nonneg_right herr (le_of_lt hpos)
    _ = 2 ^ ulpExponent x / 2 := by ring

/-- The rounded value is within half a spacing. -/
theorem round_half_ulp {x y : ℚ} (h : round x = some y) :
    |y - x| ≤ 2 ^ ulpExponent x / 2 := by
  unfold round at h
  simp only at h
  split_ifs at h
  simp only [Option.some.injEq] at h
  rw [← h]
  exact nearest_multiple_error x

/-- Zero is a double. -/
theorem round_zero : round 0 = some 0 := by
  unfold round
  simp only [zero_div]
  have h : roundHalfEven 0 = 0 := by
    have := roundHalfEven_intCast 0
    simpa using this
  rw [h]
  simp only [Int.cast_zero, zero_mul, abs_zero]
  rw [if_pos (zpow_pos (by norm_num) _)]

/-- The error of a rounding: at most `2^-53` of the number, or `2^-1075` for a
number below the normal range. -/
theorem round_error {x y : ℚ} (h : round x = some y) :
    |y - x| ≤ 2 ^ (-53 : ℤ) * |x| + 2 ^ (-1075 : ℤ) := by
  have hhalf := round_half_ulp h
  have hxabs := abs_nonneg x
  have h53' : (0 : ℚ) < 2 ^ (-53 : ℤ) := zpow_pos (by norm_num) _
  have h1075' : (0 : ℚ) < 2 ^ (-1075 : ℤ) := zpow_pos (by norm_num) _
  by_cases hzero : x = 0
  · subst hzero
    rw [round_zero] at h
    simp only [Option.some.injEq] at h
    subst h
    simp only [sub_self, abs_zero, mul_zero, zero_add]
    exact le_of_lt h1075'
  by_cases hlog : -1022 ≤ Int.log 2 |x|
  · have hx0 : 0 < |x| := abs_pos.mpr hzero
    have hle : (2 : ℚ) ^ Int.log 2 |x| ≤ |x| := by
      have := Int.zpow_log_le_self (b := 2) (by norm_num) hx0
      exact_mod_cast this
    have hulp : (2 : ℚ) ^ ulpExponent x / 2 = 2 ^ (-53 : ℤ) * 2 ^ Int.log 2 |x| := by
      unfold ulpExponent
      rw [max_eq_left hlog, ← zpow_add₀ (by norm_num : (2 : ℚ) ≠ 0)]
      rw [div_eq_iff (by norm_num : (2 : ℚ) ≠ 0)]
      have : (2 : ℚ) ^ (-53 + Int.log 2 |x|) * 2 = 2 ^ (-53 + Int.log 2 |x| + 1) := by
        rw [zpow_add_one₀ (by norm_num : (2 : ℚ) ≠ 0)]
      rw [this]
      congr 1
      ring
    have h53 : (0 : ℚ) < 2 ^ (-53 : ℤ) := zpow_pos (by norm_num) _
    have h1075 : (0 : ℚ) < 2 ^ (-1075 : ℤ) := zpow_pos (by norm_num) _
    calc |y - x| ≤ 2 ^ ulpExponent x / 2 := hhalf
      _ = 2 ^ (-53 : ℤ) * 2 ^ Int.log 2 |x| := hulp
      _ ≤ 2 ^ (-53 : ℤ) * |x| := mul_le_mul_of_nonneg_left hle (le_of_lt h53)
      _ ≤ 2 ^ (-53 : ℤ) * |x| + 2 ^ (-1075 : ℤ) := by linarith
  · have hulp : (2 : ℚ) ^ ulpExponent x / 2 = 2 ^ (-1075 : ℤ) := by
      unfold ulpExponent
      rw [max_eq_right (le_of_lt (not_le.mp hlog))]
      rw [div_eq_iff (by norm_num : (2 : ℚ) ≠ 0)]
      have : (2 : ℚ) ^ (-1075 : ℤ) * 2 = 2 ^ ((-1075 : ℤ) + 1) := by
        rw [zpow_add_one₀ (by norm_num : (2 : ℚ) ≠ 0)]
      rw [this]
      norm_num
    have h53 : (0 : ℚ) ≤ 2 ^ (-53 : ℤ) * |x| :=
      mul_nonneg (le_of_lt (zpow_pos (by norm_num) _)) hxabs
    calc |y - x| ≤ 2 ^ ulpExponent x / 2 := hhalf
      _ = 2 ^ (-1075 : ℤ) := hulp
      _ ≤ 2 ^ (-53 : ℤ) * |x| + 2 ^ (-1075 : ℤ) := by linarith

/-- The binary exponent of a number at or above the normal range. -/
theorem log_ge_of_normal {x : ℚ} (h : (2 : ℚ) ^ (-1022 : ℤ) ≤ |x|) :
    -1022 ≤ Int.log 2 |x| := by
  have hx0 : 0 < |x| := lt_of_lt_of_le (zpow_pos (by norm_num) _) h
  have := (Int.zpow_le_iff_le_log (b := 2) (by norm_num) hx0 (x := -1022)).mp
    (by exact_mod_cast h)
  exact this

/-- The binary exponent of a number below the normal range. -/
theorem log_lt_of_subnormal {x : ℚ} (h0 : x ≠ 0) (h : |x| < (2 : ℚ) ^ (-1022 : ℤ)) :
    Int.log 2 |x| < -1022 := by
  have hx0 : 0 < |x| := abs_pos.mpr h0
  exact (Int.lt_zpow_iff_log_lt (b := 2) (by norm_num) hx0 (x := -1022)).mp
    (by exact_mod_cast h)

/-- The error of a rounding in the normal range is relative. -/
theorem round_error_normal {x y : ℚ} (hx : (2 : ℚ) ^ (-1022 : ℤ) ≤ |x|)
    (h : round x = some y) : |y - x| ≤ 2 ^ (-53 : ℤ) * |x| := by
  have hhalf := round_half_ulp h
  have hlog := log_ge_of_normal hx
  have hx0 : 0 < |x| := lt_of_lt_of_le (zpow_pos (by norm_num) _) hx
  have hle : (2 : ℚ) ^ Int.log 2 |x| ≤ |x| := by
    have := Int.zpow_log_le_self (b := 2) (by norm_num) hx0
    exact_mod_cast this
  have hulp : (2 : ℚ) ^ ulpExponent x / 2 = 2 ^ (-53 : ℤ) * 2 ^ Int.log 2 |x| := by
    unfold ulpExponent
    rw [max_eq_left hlog, ← zpow_add₀ (by norm_num : (2 : ℚ) ≠ 0)]
    rw [div_eq_iff (by norm_num : (2 : ℚ) ≠ 0)]
    have : (2 : ℚ) ^ (-53 + Int.log 2 |x|) * 2 = 2 ^ (-53 + Int.log 2 |x| + 1) := by
      rw [zpow_add_one₀ (by norm_num : (2 : ℚ) ≠ 0)]
    rw [this]
    congr 1
    ring
  have h53 : (0 : ℚ) < 2 ^ (-53 : ℤ) := zpow_pos (by norm_num) _
  calc |y - x| ≤ 2 ^ ulpExponent x / 2 := hhalf
    _ = 2 ^ (-53 : ℤ) * 2 ^ Int.log 2 |x| := hulp
    _ ≤ 2 ^ (-53 : ℤ) * |x| := mul_le_mul_of_nonneg_left hle (le_of_lt h53)

/-- The spacing of the doubles is a multiple of `2^-1074`. -/
theorem ulp_grid (x : ℚ) : ∃ j : ℕ, (2 : ℚ) ^ ulpExponent x = 2 ^ j * 2 ^ (-1074 : ℤ) := by
  have hge : -1074 ≤ ulpExponent x := by
    unfold ulpExponent
    have := le_max_right (Int.log 2 |x|) (-1022)
    omega
  refine ⟨(ulpExponent x + 1074).toNat, ?_⟩
  have hj : ((ulpExponent x + 1074).toNat : ℤ) = ulpExponent x + 1074 :=
    Int.toNat_of_nonneg (by omega)
  rw [← zpow_natCast, hj, ← zpow_add₀ (by norm_num : (2 : ℚ) ≠ 0)]
  congr 1
  ring

/-- A double is a multiple of `2^-1074`. -/
theorem round_grid {x y : ℚ} (h : round x = some y) : ∃ k : ℤ, y = k * 2 ^ (-1074 : ℤ) := by
  unfold round at h
  simp only at h
  split_ifs at h
  simp only [Option.some.injEq] at h
  obtain ⟨j, hj⟩ := ulp_grid x
  refine ⟨roundHalfEven (x / 2 ^ ulpExponent x) * 2 ^ j, ?_⟩
  rw [← h, hj]
  push_cast
  ring

/-- A multiple of `2^-1074` below the normal range is a double. -/
theorem round_of_grid_subnormal {x : ℚ} (k : ℤ) (hk : x = k * 2 ^ (-1074 : ℤ))
    (hsmall : |x| < 2 ^ (-1022 : ℤ)) : round x = some x := by
  by_cases h0 : x = 0
  · rw [h0]
    exact round_zero
  have hlog := log_lt_of_subnormal h0 hsmall
  have hexp : ulpExponent x = -1074 := by
    unfold ulpExponent
    rw [max_eq_right (le_of_lt hlog)]
    norm_num
  have hpos : (0 : ℚ) < 2 ^ (-1074 : ℤ) := zpow_pos (by norm_num) _
  have hq : x / 2 ^ (-1074 : ℤ) = (k : ℚ) := by
    rw [hk]
    field_simp
  unfold round
  simp only [hexp, hq, roundHalfEven_intCast]
  rw [← hk]
  have hfin : |x| < 2 ^ (1024 : ℤ) := by
    have h2 : (2 : ℚ) ^ (-1022 : ℤ) ≤ 2 ^ (1024 : ℤ) :=
      zpow_le_zpow_right₀ (by norm_num) (by norm_num)
    linarith
  rw [if_pos hfin]

/-- The error of rounding a multiple of `2^-1074`, such as a sum or a difference
of two doubles, is relative. -/
theorem round_error_grid {x y : ℚ} (k : ℤ) (hk : x = k * 2 ^ (-1074 : ℤ))
    (h : round x = some y) : |y - x| ≤ 2 ^ (-53 : ℤ) * |x| := by
  by_cases hsmall : |x| < 2 ^ (-1022 : ℤ)
  · rw [round_of_grid_subnormal k hk hsmall] at h
    simp only [Option.some.injEq] at h
    rw [h, sub_self, abs_zero]
    exact mul_nonneg (le_of_lt (zpow_pos (by norm_num) _)) (abs_nonneg _)
  · exact round_error_normal (not_lt.mp hsmall) h

/-- A number of magnitude at most `2^1023` is rounded to a finite double. -/
theorem round_isSome {x : ℚ} (hx : |x| ≤ 2 ^ (1023 : ℤ)) : ∃ y, round x = some y := by
  have hpos := ulp_pos x
  have h1024 : (2 : ℚ) ^ (1024 : ℤ) = 2 * 2 ^ (1023 : ℤ) := by
    rw [show (1024 : ℤ) = 1023 + 1 from rfl, zpow_add_one₀ (by norm_num : (2 : ℚ) ≠ 0)]
    ring
  have h1023 : (0 : ℚ) < 2 ^ (1023 : ℤ) := zpow_pos (by norm_num) _
  have hulp : (2 : ℚ) ^ ulpExponent x ≤ 2 ^ (971 : ℤ) := by
    have hexp : ulpExponent x ≤ 971 := by
      unfold ulpExponent
      by_cases h0 : x = 0
      · rw [h0]
        simp
      · have hx0 : 0 < |x| := abs_pos.mpr h0
        have hlt : Int.log 2 |x| < 1024 := by
          apply (Int.lt_zpow_iff_log_lt (b := 2) (by norm_num) hx0).mp
          rw [Nat.cast_ofNat, h1024]
          linarith
        have := max_le (le_of_lt hlt) (by norm_num : (-1022 : ℤ) ≤ 1024)
        omega
    exact zpow_le_zpow_right₀ (by norm_num : (1 : ℚ) ≤ 2) hexp
  have h971 : (2 : ℚ) ^ (971 : ℤ) ≤ 2 ^ (1023 : ℤ) :=
    zpow_le_zpow_right₀ (by norm_num) (by norm_num)
  have hy := nearest_multiple_error x
  refine ⟨(roundHalfEven (x / 2 ^ ulpExponent x) : ℚ) * 2 ^ ulpExponent x, ?_⟩
  unfold round
  simp only
  rw [if_pos]
  have habs : |(roundHalfEven (x / 2 ^ ulpExponent x) : ℚ) * 2 ^ ulpExponent x|
      ≤ |x| + 2 ^ ulpExponent x / 2 := by
    have := abs_sub_abs_le_abs_sub
      ((roundHalfEven (x / 2 ^ ulpExponent x) : ℚ) * 2 ^ ulpExponent x) x
    linarith
  linarith

/-- A non-negative number is rounded to a non-negative double. -/
theorem round_nonneg {x y : ℚ} (hx : 0 ≤ x) (h : round x = some y) : 0 ≤ y := by
  unfold round at h
  simp only at h
  split_ifs at h
  simp only [Option.some.injEq] at h
  rw [← h]
  have hq : 0 ≤ x / 2 ^ ulpExponent x := div_nonneg hx (le_of_lt (ulp_pos x))
  have := roundHalfEven_nonneg hq
  exact mul_nonneg (by exact_mod_cast this) (le_of_lt (ulp_pos x))

/-- A number half way between two integers is rounded to the even one. -/
theorem roundHalfEven_tie (q : ℚ) (m : ℤ) (h : q = m + 1 / 2 ∨ q = m - 1 / 2)
    (heven : m % 2 = 0) : roundHalfEven q = m := by
  unfold roundHalfEven
  simp only
  rcases h with h | h
  · have hfloor : ⌊q⌋ = m := by
      rw [Int.floor_eq_iff]
      constructor <;> linarith
    rw [hfloor, h, if_neg (by norm_num), if_neg (by norm_num), if_pos heven]
  · have hfloor : ⌊q⌋ = m - 1 := by
      rw [Int.floor_eq_iff]
      push_cast
      constructor <;> linarith
    have hodd : ¬ (m - 1) % 2 = 0 := by omega
    rw [hfloor, h, if_neg (by push_cast; norm_num), if_neg (by push_cast; norm_num), if_neg hodd]
    ring

/-- The value of a rounding in the normal range, from the rounding of the
quotient by the spacing `ulp = 2^p`. -/
theorem round_eq_of_roundHalfEven {x y : ℚ} (p m : ℤ) (ulp : ℚ) (hulp : ulp = 2 ^ p)
    (hp : -1074 ≤ p) (hp' : p ≤ 970) (hlo : 2 ^ (52 : ℕ) * ulp ≤ |x|)
    (hhi : |x| < 2 ^ (53 : ℕ) * ulp) (hm : roundHalfEven (x / ulp) = m) (hy : y = m * ulp) :
    round x = some y := by
  have hupos : (0 : ℚ) < ulp := by rw [hulp]; exact zpow_pos (by norm_num) _
  have h52 : (2 : ℚ) ^ (52 : ℕ) * ulp = 2 ^ (p + 52) := by
    rw [hulp, ← zpow_natCast, ← zpow_add₀ (by norm_num : (2 : ℚ) ≠ 0)]
    congr 1
    norm_num
    ring
  have h53 : (2 : ℚ) ^ (53 : ℕ) * ulp = 2 ^ (p + 52 + 1) := by
    rw [hulp, ← zpow_natCast, ← zpow_add₀ (by norm_num : (2 : ℚ) ≠ 0)]
    congr 1
    norm_num
    ring
  have hx0 : 0 < |x| := lt_of_lt_of_le (mul_pos (by norm_num) hupos) hlo
  have hlog : Int.log 2 |x| = p + 52 := by
    apply le_antisymm
    · have := (Int.lt_zpow_iff_log_lt (b := 2) (by norm_num) hx0 (x := p + 52 + 1)).mp
        (by rw [Nat.cast_ofNat, ← h53]; exact hhi)
      omega
    · exact (Int.zpow_le_iff_le_log (b := 2) (by norm_num) hx0 (x := p + 52)).mp
        (by rw [Nat.cast_ofNat, ← h52]; exact hlo)
  have hexp : (2 : ℚ) ^ ulpExponent x = ulp := by
    unfold ulpExponent
    rw [hlog, max_eq_left (by omega), hulp]
    congr 1
    ring
  have hq : |x / ulp| < 2 ^ (53 : ℕ) := by
    rw [abs_div, abs_of_pos hupos, div_lt_iff₀ hupos]
    exact hhi
  have hmabs : |(m : ℚ)| < 2 ^ (53 : ℕ) + 1 := by
    have h0 := roundHalfEven_error (x / ulp)
    rw [hm] at h0
    have h1 := abs_sub_abs_le_abs_sub (m : ℚ) (x / ulp)
    linarith
  have hmint : |m| ≤ 2 ^ (53 : ℕ) := by
    have h1 : ((|m| : ℤ) : ℚ) < ((2 ^ (53 : ℕ) + 1 : ℤ) : ℚ) := by
      rw [Int.cast_abs, Int.cast_add, Int.cast_pow, Int.cast_ofNat, Int.cast_one]
      exact hmabs
    have h2 : |m| < 2 ^ (53 : ℕ) + 1 := by exact_mod_cast h1
    omega
  have hfin : |(m : ℚ) * ulp| < 2 ^ (1024 : ℤ) := by
    rw [abs_mul, abs_of_pos hupos]
    have h1 : |(m : ℚ)| ≤ 2 ^ (53 : ℕ) := by
      have : ((|m| : ℤ) : ℚ) ≤ ((2 ^ (53 : ℕ) : ℤ) : ℚ) := by exact_mod_cast hmint
      rw [Int.cast_abs, Int.cast_pow, Int.cast_ofNat] at this
      exact this
    have h2 : |(m : ℚ)| * ulp ≤ 2 ^ (53 : ℕ) * ulp := mul_le_mul_of_nonneg_right h1 (le_of_lt hupos)
    have h3 : (2 : ℚ) ^ (p + 52 + 1) ≤ 2 ^ (1023 : ℤ) :=
      zpow_le_zpow_right₀ (by norm_num) (by omega)
    have h4 : (2 : ℚ) ^ (1023 : ℤ) < 2 ^ (1024 : ℤ) :=
      zpow_lt_zpow_right₀ (by norm_num) (by norm_num)
    linarith
  rw [hy]
  unfold round
  simp only [hexp, hm]
  rw [if_pos hfin]

/-- The value of a rounding in the normal range: for a number `x` with
`2^52 * ulp ≤ |x| < 2^53 * ulp`, where the spacing `ulp` is `2^p` with
`-1074 ≤ p ≤ 970`, the multiple `m * ulp` that is within less than half a
spacing of `x`. -/
theorem round_eq {x : ℚ} (p m : ℤ) (ulp : ℚ) (hulp : ulp = 2 ^ p)
    (hp : -1074 ≤ p) (hp' : p ≤ 970) (hlo : 2 ^ (52 : ℕ) * ulp ≤ |x|)
    (hhi : |x| < 2 ^ (53 : ℕ) * ulp) (hm : |x / ulp - m| < 1 / 2) :
    round x = some (m * ulp) :=
  round_eq_of_roundHalfEven p m ulp hulp hp hp' hlo hhi (roundHalfEven_eq _ m hm) rfl

/-- The rounding of a positive number, from the exponent `p` of the spacing and
the significand `m`. -/
theorem round_eq_of_pos {x y : ℚ} (p m : ℤ) (ulp : ℚ) (hulp : ulp = 2 ^ p)
    (hp : -1074 ≤ p) (hp' : p ≤ 970) (hlo : 2 ^ (52 : ℕ) * ulp ≤ x)
    (hhi : x < 2 ^ (53 : ℕ) * ulp) (hm1 : (m - 1 / 2) * ulp < x) (hm2 : x < (m + 1 / 2) * ulp)
    (hy : y = m * ulp) : round x = some y := by
  have hupos : (0 : ℚ) < ulp := by rw [hulp]; exact zpow_pos (by norm_num) _
  have hx : 0 < x := lt_of_lt_of_le (mul_pos (by norm_num) hupos) hlo
  refine round_eq_of_roundHalfEven p m ulp hulp hp hp' (by rw [abs_of_pos hx]; exact hlo)
    (by rw [abs_of_pos hx]; exact hhi) (roundHalfEven_eq _ m ?_) hy
  rw [abs_lt]
  constructor
  · rw [lt_sub_iff_add_lt, lt_div_iff₀ hupos]
    calc (-(1 / 2) + (m : ℚ)) * ulp = (m - 1 / 2) * ulp := by ring
      _ < x := hm1
  · rw [sub_lt_iff_lt_add, div_lt_iff₀ hupos]
    calc x < (m + 1 / 2) * ulp := hm2
      _ = (1 / 2 + (m : ℚ)) * ulp := by ring

/-- The rounding of a negative number, from the exponent `p` of the spacing and
the significand `m`. -/
theorem round_eq_of_neg {x y : ℚ} (p m : ℤ) (ulp : ℚ) (hulp : ulp = 2 ^ p)
    (hp : -1074 ≤ p) (hp' : p ≤ 970) (hlo : x ≤ -(2 ^ (52 : ℕ) * ulp))
    (hhi : -(2 ^ (53 : ℕ) * ulp) < x) (hm1 : (m - 1 / 2) * ulp < x) (hm2 : x < (m + 1 / 2) * ulp)
    (hy : y = m * ulp) : round x = some y := by
  have hupos : (0 : ℚ) < ulp := by rw [hulp]; exact zpow_pos (by norm_num) _
  have hx : x < 0 :=
    lt_of_le_of_lt hlo (by linarith [mul_pos (by norm_num : (0 : ℚ) < 2 ^ (52 : ℕ)) hupos])
  refine round_eq_of_roundHalfEven p m ulp hulp hp hp' (by rw [abs_of_neg hx]; linarith)
    (by rw [abs_of_neg hx]; linarith) (roundHalfEven_eq _ m ?_) hy
  rw [abs_lt]
  constructor
  · rw [lt_sub_iff_add_lt, lt_div_iff₀ hupos]
    calc (-(1 / 2) + (m : ℚ)) * ulp = (m - 1 / 2) * ulp := by ring
      _ < x := hm1
  · rw [sub_lt_iff_lt_add, div_lt_iff₀ hupos]
    calc x < (m + 1 / 2) * ulp := hm2
      _ = (1 / 2 + (m : ℚ)) * ulp := by ring

/-- The rounding of a positive number half way between two doubles: the one with
the even significand `m`. -/
theorem round_eq_of_tie {x y : ℚ} (p m : ℤ) (ulp : ℚ) (hulp : ulp = 2 ^ p)
    (hp : -1074 ≤ p) (hp' : p ≤ 970) (hlo : 2 ^ (52 : ℕ) * ulp ≤ x)
    (hhi : x < 2 ^ (53 : ℕ) * ulp) (hm : x = (m + 1 / 2) * ulp ∨ x = (m - 1 / 2) * ulp)
    (heven : m % 2 = 0) (hy : y = m * ulp) : round x = some y := by
  have hupos : (0 : ℚ) < ulp := by rw [hulp]; exact zpow_pos (by norm_num) _
  have hx : 0 < x := lt_of_lt_of_le (mul_pos (by norm_num) hupos) hlo
  refine round_eq_of_roundHalfEven p m ulp hulp hp hp' (by rw [abs_of_pos hx]; exact hlo)
    (by rw [abs_of_pos hx]; exact hhi) (roundHalfEven_tie _ m ?_ heven) hy
  rcases hm with h | h
  · left
    rw [h, mul_div_assoc, div_self (ne_of_gt hupos), mul_one]
  · right
    rw [h, mul_div_assoc, div_self (ne_of_gt hupos), mul_one]

/-- The quotient by a number other than zero is the rounded quotient. -/
theorem div_eq_round {a b : ℚ} (hb : b ≠ 0) : div a b = round (a / b) :=
  if_neg hb

/-- The value of a rounding below the normal range: the multiple of `2^-1074`
that is within less than half a spacing. -/
theorem round_eq_subnormal {x : ℚ} (m : ℤ) (hsmall : |x| < 2 ^ (-1022 : ℤ)) (h0 : x ≠ 0)
    (hm : |x / (2 : ℚ) ^ (-1074 : ℤ) - m| < 1 / 2) :
    round x = some (m * (2 : ℚ) ^ (-1074 : ℤ)) := by
  have hlog := log_lt_of_subnormal h0 hsmall
  have hexp : ulpExponent x = -1074 := by
    unfold ulpExponent
    rw [max_eq_right (le_of_lt hlog)]
    norm_num
  have hpos : (0 : ℚ) < 2 ^ (-1074 : ℤ) := zpow_pos (by norm_num) _
  unfold round
  simp only [hexp, roundHalfEven_eq _ m hm]
  rw [if_pos]
  have herr : |(m : ℚ) - x / 2 ^ (-1074 : ℤ)| < 1 / 2 := by rw [abs_sub_comm]; exact hm
  have hxq : |x / 2 ^ (-1074 : ℤ)| < 2 ^ (52 : ℕ) := by
    rw [abs_div, abs_of_pos hpos, div_lt_iff₀ hpos]
    have : (2 : ℚ) ^ (52 : ℕ) * 2 ^ (-1074 : ℤ) = 2 ^ (-1022 : ℤ) := by
      rw [← zpow_natCast, ← zpow_add₀ (by norm_num : (2 : ℚ) ≠ 0)]
      norm_num
    rw [this]
    exact hsmall
  have hmabs : |(m : ℚ)| < 2 ^ (52 : ℕ) + 1 := by
    have := abs_sub_abs_le_abs_sub (m : ℚ) (x / 2 ^ (-1074 : ℤ))
    linarith
  rw [abs_mul, abs_of_pos hpos]
  have h1 : (2 : ℚ) ^ (-1074 : ℤ) ≤ 1 := zpow_le_one_of_nonpos₀ (by norm_num) (by norm_num)
  have h2 : |(m : ℚ)| * 2 ^ (-1074 : ℤ) ≤ |(m : ℚ)| * 1 :=
    mul_le_mul_of_nonneg_left h1 (abs_nonneg _)
  have h3 : (2 : ℚ) ^ (53 : ℤ) ≤ 2 ^ (1024 : ℤ) :=
    zpow_le_zpow_right₀ (by norm_num) (by norm_num)
  have h4 : (2 : ℚ) ^ (52 : ℕ) + 1 < 2 ^ (53 : ℤ) := by norm_num
  linarith

/-- The unit roundoff `2^-53` is between `0` and `1/8`. -/
theorem unit_roundoff_bounds : (0 : ℚ) ≤ 2 ^ (-53 : ℤ) ∧ (2 : ℚ) ^ (-53 : ℤ) ≤ 1 / 8 := by
  constructor
  · exact le_of_lt (zpow_pos (by norm_num) _)
  · have h : (2 : ℚ) ^ (-53 : ℤ) ≤ 2 ^ (-3 : ℤ) :=
      zpow_le_zpow_right₀ (by norm_num) (by norm_num)
    have h3 : (2 : ℚ) ^ (-3 : ℤ) = 1 / 8 := by norm_num
    rw [h3] at h
    exact h

/-- Half the spacing of the subnormal doubles is positive and tiny. -/
theorem underflow_bounds :
    (0 : ℚ) ≤ 2 ^ (-1075 : ℤ) ∧ (2 : ℚ) ^ (-1075 : ℤ) ≤ 2 ^ (-1000 : ℤ) :=
  ⟨le_of_lt (zpow_pos (by norm_num) _), zpow_le_zpow_right₀ (by norm_num) (by norm_num)⟩

/-- The double `Math.PI` is between `3` and `4`. -/
theorem PI_bounds : 3 < PI ∧ PI < 4 := by
  unfold PI
  constructor <;> norm_num

/-- A number of magnitude at most `2^50` is far from overflow. -/
theorem le_two_pow_1023 {x : ℚ} (h : x ≤ 2 ^ (50 : ℤ)) : x ≤ 2 ^ (1023 : ℤ) :=
  le_trans h (zpow_le_zpow_right₀ (by norm_num) (by norm_num))

/-- The rounding of a non-negative number, as two inequalities. -/
theorem round_bounds {x y : ℚ} (hx : 0 ≤ x) (h : round x = some y) :
    |y - x| ≤ 2 ^ (-53 : ℤ) * x + 2 ^ (-1075 : ℤ) := by
  have := round_error h
  rw [abs_of_nonneg hx] at this
  exact this

/-- A double is a multiple of `2^-1074`. -/
theorem isDouble_grid {x : ℚ} (h : IsDouble x) : ∃ k : ℤ, x = k * 2 ^ (-1074 : ℤ) :=
  round_grid h

/-- The sum of two multiples of `2^-1074` is one. -/
theorem grid_add {a b : ℚ} (ha : ∃ k : ℤ, a = k * 2 ^ (-1074 : ℤ))
    (hb : ∃ k : ℤ, b = k * 2 ^ (-1074 : ℤ)) : ∃ k : ℤ, a + b = k * 2 ^ (-1074 : ℤ) := by
  obtain ⟨k1, h1⟩ := ha
  obtain ⟨k2, h2⟩ := hb
  exact ⟨k1 + k2, by rw [h1, h2]; push_cast; ring⟩

/-- Zero is a multiple of `2^-1074`. -/
theorem grid_zero : ∃ k : ℤ, (0 : ℚ) = k * 2 ^ (-1074 : ℤ) := ⟨0, by simp⟩

/-- The sum of two doubles has a relative error. -/
theorem add_error {a b y : ℚ} (ha : ∃ k : ℤ, a = k * 2 ^ (-1074 : ℤ))
    (hb : ∃ k : ℤ, b = k * 2 ^ (-1074 : ℤ)) (h : add a b = some y) :
    |y - (a + b)| ≤ 2 ^ (-53 : ℤ) * |a + b| := by
  obtain ⟨k, hk⟩ := grid_add ha hb
  exact round_error_grid k hk h

/-- Three roundings in a row: a quotient doubled and multiplied by `P`. -/
theorem three_roundings (x0 s d a P u η : ℚ) (hx0 : 0 ≤ x0) (hu : 0 ≤ u) (hu' : u ≤ 1 / 8)
    (hη : 0 ≤ η) (hP : 0 ≤ P) (hP' : P ≤ 4)
    (h1 : |s - x0| ≤ u * x0 + η) (h2 : |d - s * 2| ≤ u * (s * 2) + η)
    (h3 : |a - d * P| ≤ u * (d * P) + η) :
    |a - x0 * (2 * P)| ≤ 4 * u * (x0 * (2 * P)) + 16 * η := by
  rw [abs_le] at h1 h2 h3 ⊢
  obtain ⟨h1l, h1u⟩ := h1
  obtain ⟨h2l, h2u⟩ := h2
  obtain ⟨h3l, h3u⟩ := h3
  have h1p : 0 ≤ 1 + u := by linarith
  have h1m : 0 ≤ 1 - u := by linarith
  have hxP : 0 ≤ x0 * (2 * P) := mul_nonneg hx0 (by linarith)
  have hc3 : (1 + u) ^ 3 ≤ 1 + 4 * u := by
    nlinarith [mul_nonneg hu hu, mul_nonneg hu (mul_nonneg hu hu)]
  have hc3' : 1 - 4 * u ≤ (1 - u) ^ 3 := by
    nlinarith [mul_nonneg hu hu, mul_nonneg hu (mul_nonneg hu hu)]
  have hsu : s ≤ (1 + u) * x0 + η := by linarith
  have hsl : (1 - u) * x0 - η ≤ s := by linarith
  have hdu : d ≤ (1 + u) * 2 * ((1 + u) * x0 + η) + η := by
    have := mul_le_mul_of_nonneg_left hsu (by linarith : 0 ≤ (1 + u) * 2)
    linarith
  have hdl : (1 - u) * 2 * ((1 - u) * x0 - η) - η ≤ d := by
    have := mul_le_mul_of_nonneg_left hsl (by linarith : 0 ≤ (1 - u) * 2)
    linarith
  have hau : a ≤ (1 + u) * P * ((1 + u) * 2 * ((1 + u) * x0 + η) + η) + η := by
    have := mul_le_mul_of_nonneg_left hdu (mul_nonneg h1p hP)
    linarith
  have hal : (1 - u) * P * ((1 - u) * 2 * ((1 - u) * x0 - η) - η) - η ≤ a := by
    have := mul_le_mul_of_nonneg_left hdl (mul_nonneg h1m hP)
    linarith
  have hCu : ((1 + u) ^ 2 * (2 * P) + (1 + u) * P + 1) * η ≤ 16 * η := by
    apply mul_le_mul_of_nonneg_right _ hη
    have h2 : (1 + u) ^ 2 ≤ 81 / 64 := by nlinarith
    nlinarith
  have hCl : ((1 - u) ^ 2 * (2 * P) + (1 - u) * P + 1) * η ≤ 16 * η := by
    apply mul_le_mul_of_nonneg_right _ hη
    have h2 : (1 - u) ^ 2 ≤ 1 := by nlinarith
    nlinarith
  have hmu := mul_le_mul_of_nonneg_right hc3 hxP
  have hml := mul_le_mul_of_nonneg_right hc3' hxP
  constructor
  · have e : (1 - u) * P * ((1 - u) * 2 * ((1 - u) * x0 - η) - η) - η
        = (1 - u) ^ 3 * (x0 * (2 * P)) - ((1 - u) ^ 2 * (2 * P) + (1 - u) * P + 1) * η := by
      ring
    rw [e] at hal
    linarith
  · have e : (1 + u) * P * ((1 + u) * 2 * ((1 + u) * x0 + η) + η) + η
        = (1 + u) ^ 3 * (x0 * (2 * P)) + ((1 + u) ^ 2 * (2 * P) + (1 + u) * P + 1) * η := by
      ring
    rw [e] at hau
    linarith

/-- Two roundings in a row: a quotient multiplied by `100`. -/
theorem two_roundings (x0 s x u η : ℚ) (hx0 : 0 ≤ x0) (hu : 0 ≤ u) (hu' : u ≤ 1 / 8)
    (hη : 0 ≤ η) (h1 : |s - x0| ≤ u * x0 + η) (h2 : |x - s * 100| ≤ u * (s * 100) + η) :
    |x - x0 * 100| ≤ 3 * u * (x0 * 100) + 114 * η := by
  rw [abs_le] at h1 h2 ⊢
  obtain ⟨h1l, h1u⟩ := h1
  obtain ⟨h2l, h2u⟩ := h2
  have h1p : 0 ≤ 1 + u := by linarith
  have h1m : 0 ≤ 1 - u := by linarith
  have hx : 0 ≤ x0 * 100 := by linarith
  have hc2 : (1 + u) ^ 2 ≤ 1 + 3 * u := by nlinarith [mul_nonneg hu hu]
  have hc2' : 1 - 3 * u ≤ (1 - u) ^ 2 := by nlinarith [mul_nonneg hu hu]
  have hsu : s ≤ (1 + u) * x0 + η := by linarith
  have hsl : (1 - u) * x0 - η ≤ s := by linarith
  have hxu : x ≤ (1 + u) * 100 * ((1 + u) * x0 + η) + η := by
    have := mul_le_mul_of_nonneg_left hsu (by linarith : 0 ≤ (1 + u) * 100)
    linarith
  have hxl : (1 - u) * 100 * ((1 - u) * x0 - η) - η ≤ x := by
    have := mul_le_mul_of_nonneg_left hsl (by linarith : 0 ≤ (1 - u) * 100)
    linarith
  have hCu : ((1 + u) * 100 + 1) * η ≤ 114 * η :=
    mul_le_mul_of_nonneg_right (by linarith) hη
  have hCl : ((1 - u) * 100 + 1) * η ≤ 114 * η :=
    mul_le_mul_of_nonneg_right (by linarith) hη
  have hmu := mul_le_mul_of_nonneg_right hc2 hx
  have hml := mul_le_mul_of_nonneg_right hc2' hx
  constructor
  · have e : (1 - u) * 100 * ((1 - u) * x0 - η) - η
        = (1 - u) ^ 2 * (x0 * 100) - ((1 - u) * 100 + 1) * η := by ring
    rw [e] at hxl
    linarith
  · have e : (1 + u) * 100 * ((1 + u) * x0 + η) + η
        = (1 + u) ^ 2 * (x0 * 100) + ((1 + u) * 100 + 1) * η := by ring
    rw [e] at hxu
    linarith

/-- A natural number below `2^53` is a double. -/
theorem isDouble_natCast (n : ℕ) (hn : n < 2 ^ 53) : IsDouble (n : ℚ) := by
  unfold IsDouble
  rcases Nat.eq_zero_or_pos n with h0 | hpos
  · subst h0
    simpa using round_zero
  · have hlo : 2 ^ Nat.log 2 n ≤ n := Nat.pow_log_le_self 2 (Nat.pos_iff_ne_zero.mp hpos)
    have hhi : n < 2 ^ (Nat.log 2 n + 1) := Nat.lt_pow_succ_log_self (by norm_num) n
    generalize Nat.log 2 n = e at hlo hhi
    have he : e ≤ 52 := by
      have h1 : 2 ^ e < 2 ^ 53 := lt_of_le_of_lt hlo hn
      have := (Nat.pow_lt_pow_iff_right (by norm_num : 1 < 2)).mp h1
      omega
    have hulp : (2 : ℚ) ^ ((e : ℤ) - 52) * 2 ^ (52 - e) = 1 := by
      rw [← zpow_natCast, ← zpow_add₀ (by norm_num : (2 : ℚ) ≠ 0)]
      have : (e : ℤ) - 52 + ((52 - e : ℕ) : ℤ) = 0 := by omega
      rw [this, zpow_zero]
    have hupos : (0 : ℚ) < 2 ^ ((e : ℤ) - 52) := zpow_pos (by norm_num) _
    have h52 : (2 : ℚ) ^ (52 : ℕ) * 2 ^ ((e : ℤ) - 52) = 2 ^ e := by
      rw [← zpow_natCast, ← zpow_add₀ (by norm_num : (2 : ℚ) ≠ 0), ← zpow_natCast]
      congr 1
      push_cast
      ring
    have h53 : (2 : ℚ) ^ (53 : ℕ) * 2 ^ ((e : ℤ) - 52) = 2 ^ (e + 1) := by
      rw [← zpow_natCast, ← zpow_add₀ (by norm_num : (2 : ℚ) ≠ 0), ← zpow_natCast]
      congr 1
      push_cast
      ring
    have hq : (n : ℚ) / 2 ^ ((e : ℤ) - 52) = ((n * 2 ^ (52 - e) : ℕ) : ℤ) := by
      rw [div_eq_iff (ne_of_gt hupos)]
      push_cast
      rw [mul_assoc, mul_comm ((2 : ℚ) ^ (52 - e)), hulp, mul_one]
    have h := round_eq (x := (n : ℚ)) ((e : ℤ) - 52) ((n * 2 ^ (52 - e) : ℕ) : ℤ)
      (2 ^ ((e : ℤ) - 52)) rfl (by omega) (by omega)
      (by
        rw [h52, abs_of_nonneg (Nat.cast_nonneg n)]
        exact_mod_cast hlo)
      (by
        rw [h53, abs_of_nonneg (Nat.cast_nonneg n)]
        exact_mod_cast hhi)
      (by
        rw [hq, sub_self, abs_zero]
        norm_num)
    rw [h]
    congr 1
    push_cast
    rw [mul_assoc, mul_comm ((2 : ℚ) ^ (52 - e)), hulp, mul_one]

end Float64

/-! ## Theorems: doughnut chart in double precision -/

namespace DataVisualization.Rounded

/-- A bound on the rounding of a bounded non-negative number. -/
theorem round_le_of_le {x y B : ℚ} (hx : 0 ≤ x) (hB : x ≤ B) (h : Float64.round x = some y) :
    y ≤ B + B / 1024 + 1 / 1024 := by
  have hu10 : (2 : ℚ) ^ (-53 : ℤ) ≤ 1 / 1024 := by
    have h : (2 : ℚ) ^ (-53 : ℤ) ≤ 2 ^ (-10 : ℤ) :=
      zpow_le_zpow_right₀ (by norm_num) (by norm_num)
    have h3 : (2 : ℚ) ^ (-10 : ℤ) = 1 / 1024 := by norm_num
    rw [h3] at h
    exact h
  have he10 : (2 : ℚ) ^ (-1075 : ℤ) ≤ 1 / 1024 := by
    have h : (2 : ℚ) ^ (-1075 : ℤ) ≤ 2 ^ (-10 : ℤ) :=
      zpow_le_zpow_right₀ (by norm_num) (by norm_num)
    have h3 : (2 : ℚ) ^ (-10 : ℤ) = 1 / 1024 := by norm_num
    rw [h3] at h
    exact h
  have h1 := (abs_le.mp (Float64.round_bounds hx h)).2
  have h2 : (2 : ℚ) ^ (-53 : ℤ) * x ≤ 1 / 1024 * B :=
    mul_le_mul hu10 hB hx (by norm_num)
  generalize (2 : ℚ) ^ (-53 : ℤ) * x = m at h1 h2
  generalize (2 : ℚ) ^ (-1075 : ℤ) = η at h1 he10
  linarith

/-- One slice of a chart of non-negative values: it is drawn, its angle and the
number its label rounds are those of the exact quotient `value / total` up to
the rounding of three and of two operations, and its end angle is the rounded
sum of its start angle and its angle. -/
theorem drawSlice_spec (T v c : ℚ) (hT : 0 < T) (hv : 0 ≤ v) (hvT : v ≤ 2 * T)
    (hc : |c| ≤ 2 ^ (40 : ℤ)) (hcg : ∃ k : ℤ, c = k * 2 ^ (-1074 : ℤ)) :
    ∃ s : Slice, drawSlice T v c = some s ∧ s.startAngle = c ∧
      0 ≤ s.sliceAngle ∧ s.sliceAngle ≤ 32 ∧
      |s.sliceAngle - v / T * (2 * Float64.PI)|
        ≤ 4 * 2 ^ (-53 : ℤ) * (v / T * (2 * Float64.PI)) + 16 * 2 ^ (-1075 : ℤ) ∧
      |s.endAngle - (c + s.sliceAngle)| ≤ 2 ^ (-53 : ℤ) * |c + s.sliceAngle| ∧
      (∃ k : ℤ, s.endAngle = k * 2 ^ (-1074 : ℤ)) ∧
      (∃ share scaled : ℚ,
        Float64.div v T = some share ∧ Float64.mul share 100 = some scaled ∧
        s.percent = mathRound scaled ∧
        |scaled - v / T * 100|
          ≤ 3 * 2 ^ (-53 : ℤ) * (v / T * 100) + 114 * 2 ^ (-1075 : ℤ)) ∧
      s.label = toString s.percent ++ "%" := by
  obtain ⟨hu0, hu8⟩ := Float64.unit_roundoff_bounds
  obtain ⟨he0, he1⟩ := Float64.underflow_bounds
  obtain ⟨hP3, hP4⟩ := Float64.PI_bounds
  have h50 : (64 : ℚ) ≤ 2 ^ (50 : ℤ) := by norm_num
  have h4050 : (2 : ℚ) ^ (40 : ℤ) + 32 ≤ 2 ^ (50 : ℤ) := by norm_num
  have hr0 : 0 ≤ v / T := div_nonneg hv (le_of_lt hT)
  have hr2 : v / T ≤ 2 := by
    rw [div_le_iff₀ hT]
    exact hvT
  -- the quotient
  obtain ⟨s1, hs1⟩ := Float64.round_isSome (x := v / T)
    (Float64.le_two_pow_1023 (by rw [abs_of_nonneg hr0]; linarith))
  have hs1e := Float64.round_bounds hr0 hs1
  have hs1n := Float64.round_nonneg hr0 hs1
  have hs1u : s1 ≤ 3 := by
    have := round_le_of_le hr0 hr2 hs1
    linarith
  -- doubled
  have hd0 : 0 ≤ s1 * 2 := by linarith
  obtain ⟨d, hd⟩ := Float64.round_isSome (x := s1 * 2)
    (Float64.le_two_pow_1023 (by rw [abs_of_nonneg hd0]; linarith))
  have hde := Float64.round_bounds hd0 hd
  have hdn := Float64.round_nonneg hd0 hd
  have hdu : d ≤ 7 := by
    have := round_le_of_le hd0 (by linarith : s1 * 2 ≤ 6) hd
    linarith
  -- the angle
  have ha0 : 0 ≤ d * Float64.PI := mul_nonneg hdn (by linarith)
  have ha28 : d * Float64.PI ≤ 28 := by nlinarith
  obtain ⟨a, ha⟩ := Float64.round_isSome (x := d * Float64.PI)
    (Float64.le_two_pow_1023 (by rw [abs_of_nonneg ha0]; linarith))
  have hae := Float64.round_bounds ha0 ha
  have han := Float64.round_nonneg ha0 ha
  have hau : a ≤ 32 := by
    have := round_le_of_le ha0 ha28 ha
    linarith
  have hag := Float64.round_grid ha
  -- the end angle
  have hca : |c + a| ≤ 2 ^ (40 : ℤ) + 32 := by
    have := abs_add c a
    rw [abs_of_nonneg han] at this
    linarith
  obtain ⟨e, hend⟩ := Float64.round_isSome (x := c + a) (Float64.le_two_pow_1023 (le_trans hca h4050))
  have hee := Float64.add_error hcg hag hend
  have heg := Float64.round_grid hend
  -- the percentage
  have hx0 : 0 ≤ s1 * 100 := by linarith
  obtain ⟨x, hx⟩ := Float64.round_isSome (x := s1 * 100)
    (Float64.le_two_pow_1023 (by rw [abs_of_nonneg hx0]; linarith))
  have hxe := Float64.round_bounds hx0 hx
  refine ⟨{ startAngle := c, endAngle := e, sliceAngle := a, percent := mathRound x,
            label := toString (mathRound x) ++ "%" }, ?_, rfl, han, hau, ?_, hee, heg,
          ⟨s1, x, ?_, hx, rfl, ?_⟩, rfl⟩
  · unfold drawSlice Float64.div Float64.mul Float64.add
    rw [if_neg (ne_of_gt hT), hs1, Option.some_bind, hd, Option.some_bind, ha,
      Option.some_bind, hend, Option.some_bind, hx, Option.some_bind]
  · exact Float64.three_roundings (v / T) s1 d a Float64.PI _ _ hr0 hu0 hu8 he0 (by linarith)
      (by linarith) hs1e hde hae
  · unfold Float64.div
    rw [if_neg (ne_of_gt hT)]
    exact hs1
  · exact Float64.two_roundings (v / T) s1 x _ _ hr0 hu0 hu8 he0 hs1e hxe

/-- The slices of a chart of non-negative values: all are drawn, each as
`SliceSpec` says, and each starts where the one before it ends. -/
theorem doughnutSlices_rounded_spec (T : ℚ) (hT : 0 < T) :
    ∀ (rest : List ℚ) (c : ℚ), (∀ v ∈ rest, 0 ≤ v ∧ v ≤ 2 * T) →
      (∃ k : ℤ, c = k * 2 ^ (-1074 : ℤ)) → |c| + 64 * (rest.length : ℚ) ≤ 2 ^ (40 : ℤ) →
      ∃ slices : List Slice, doughnutSlices T rest c = some slices ∧
        List.Forall₂ (SliceSpec T) rest slices ∧
        List.Chain' (fun a b => b.startAngle = a.endAngle) slices ∧
        (∀ s, slices.head? = some s → s.startAngle = c) := by
  intro rest
  induction rest with
  | nil =>
    intro c _ _ _
    exact ⟨[], rfl, List.Forall₂.nil, List.chain'_nil, by simp⟩
  | cons v rest ih =>
    intro c hvals hcg hc
    have hlen : ((v :: rest).length : ℚ) = (rest.length : ℚ) + 1 := by
      rw [List.length_cons]
      push_cast
      ring
    rw [hlen] at hc
    have hrest0 : (0 : ℚ) ≤ (rest.length : ℚ) := Nat.cast_nonneg _
    have hc40 : |c| ≤ 2 ^ (40 : ℤ) := by linarith
    obtain ⟨hv0, hv2⟩ := hvals v (List.mem_cons_self _ _)
    obtain ⟨s, hs, hstart, ha0, ha32, haerr, heerr, heg, hpct, hlabel⟩ :=
      drawSlice_spec T v c hT hv0 hv2 hc40 hcg
    have hend : |s.endAngle| ≤ |c| + 64 := by
      have h1 : |c + s.sliceAngle| ≤ |c| + 32 := by
        have := abs_add c s.sliceAngle
        rw [abs_of_nonneg ha0] at this
        linarith
      have h2 : |s.endAngle| ≤ |c + s.sliceAngle| + 2 ^ (-53 : ℤ) * |c + s.sliceAngle| := by
        have := abs_sub_abs_le_abs_sub s.endAngle (c + s.sliceAngle)
        linarith
      have hu : (2 : ℚ) ^ (-53 : ℤ) * |c + s.sliceAngle| ≤ 2 ^ (-53 : ℤ) * (2 ^ (40 : ℤ) + 32) :=
        mul_le_mul_of_nonneg_left (by linarith) Float64.unit_roundoff_bounds.1
      have hu' : (2 : ℚ) ^ (-53 : ℤ) * (2 ^ (40 : ℤ) + 32) ≤ 32 := by norm_num
      linarith
    obtain ⟨slices, hslices, hall, hchain, hhead⟩ :=
      ih s.endAngle (fun w hw => hvals w (List.mem_cons_of_mem _ hw)) heg (by linarith)
    refine ⟨s :: slices, ?_, ?_, ?_, ?_⟩
    · rw [doughnutSlices, hs]
      simp only [hslices]
    · refine List.Forall₂.cons ⟨ha0, ha32, haerr, ?_, hpct, hlabel⟩ hall
      rw [hstart]
      exact heerr
    · cases slices with
      | nil => exact List.chain'_singleton _
      | cons s' rest' =>
        exact List.chain'_cons.mpr ⟨hhead s' rfl, hchain⟩
    · intro s' hs'
      simp only [List.head?_cons, Option.some.injEq] at hs'
      rw [← hs']
      exact hstart

/-- The slice angles add up to the angle of the sum of the values, up to the
rounding of three operations for each slice. -/
theorem sum_sliceAngle_bound (T : ℚ) (values : List ℚ) (slices : List Slice)
    (h : List.Forall₂ (SliceSpec T) values slices) :
    |(slices.map (fun s => s.sliceAngle)).sum - values.sum / T * (2 * Float64.PI)|
      ≤ 4 * 2 ^ (-53 : ℤ) * (values.sum / T * (2 * Float64.PI))
        + 16 * 2 ^ (-1075 : ℤ) * (values.length : ℚ) := by
  induction h with
  | nil => simp
  | @cons v s values slices hs _ ih =>
    obtain ⟨-, -, herr, -, -, -⟩ := hs
    have hsplit : ((s :: slices).map (fun s => s.sliceAngle)).sum
          - (v :: values).sum / T * (2 * Float64.PI)
        = (s.sliceAngle - v / T * (2 * Float64.PI))
          + ((slices.map (fun s => s.sliceAngle)).sum
              - values.sum / T * (2 * Float64.PI)) := by
      rw [List.map_cons, List.sum_cons, List.sum_cons]
      ring
    have hlen : ((v :: values).length : ℚ) = (values.length : ℚ) + 1 := by
      rw [List.length_cons]
      push_cast
      ring
    rw [hsplit, hlen, List.sum_cons]
    have := abs_add (s.sliceAngle - v / T * (2 * Float64.PI))
      ((slices.map (fun s => s.sliceAngle)).sum - values.sum / T * (2 * Float64.PI))
    have e : 4 * 2 ^ (-53 : ℤ) * ((v + values.sum) / T * (2 * Float64.PI))
        = 4 * 2 ^ (-53 : ℤ) * (v / T * (2 * Float64.PI))
          + 4 * 2 ^ (-53 : ℤ) * (values.sum / T * (2 * Float64.PI)) := by ring
    rw [e]
    linarith

/-- The percentages add up to the percentage of the sum of the values, up to
half a unit and the rounding of two operations for each slice. -/
theorem sum_percent_bound (T : ℚ) (values : List ℚ) (slices : List Slice)
    (h : List.Forall₂ (SliceSpec T) values slices) :
    |(((slices.map (fun s => s.percent)).sum : ℤ) : ℚ) - values.sum / T * 100|
      ≤ (values.length : ℚ) / 2 + 3 * 2 ^ (-53 : ℤ) * (values.sum / T * 100)
        + 114 * 2 ^ (-1075 : ℤ) * (values.length : ℚ) := by
  induction h with
  | nil => simp
  | @cons v s values slices hs _ ih =>
    obtain ⟨-, -, -, -, ⟨share, x, -, -, hp, hx⟩, -⟩ := hs
    have hround : |((s.percent : ℤ) : ℚ) - x| ≤ 1 / 2 := by
      rw [hp]
      unfold mathRound
      have h0 := Int.floor_le (x + 1 / 2)
      have h1 := Int.lt_floor_add_one (x + 1 / 2)
      rw [abs_le]
      constructor <;> linarith
    have hsplit : (((((s :: slices).map (fun s => s.percent)).sum : ℤ)) : ℚ)
          - (v :: values).sum / T * 100
        = (((s.percent : ℤ) : ℚ) - x) + (x - v / T * 100)
          + ((((slices.map (fun s => s.percent)).sum : ℤ) : ℚ) - values.sum / T * 100) := by
      rw [List.map_cons, List.sum_cons, List.sum_cons]
      push_cast
      ring
    have hlen : ((v :: values).length : ℚ) = (values.length : ℚ) + 1 := by
      rw [List.length_cons]
      push_cast
      ring
    rw [hsplit, hlen, List.sum_cons]
    have t1 := abs_add (((s.percent : ℤ) : ℚ) - x + (x - v / T * 100))
      ((((slices.map (fun s => s.percent)).sum : ℤ) : ℚ) - values.sum / T * 100)
    have t2 := abs_add (((s.percent : ℤ) : ℚ) - x) (x - v / T * 100)
    have e : 3 * 2 ^ (-53 : ℤ) * ((v + values.sum) / T * 100)
        = 3 * 2 ^ (-53 : ℤ) * (v / T * 100) + 3 * 2 ^ (-53 : ℤ) * (values.sum / T * 100) := by
      ring
    rw [e]
    linarith

/-- The reduction of no value. -/
theorem total_nil (acc : ℚ) : total [] acc = some acc := rfl

/-- The reduction of a value and the values after it. -/
theorem total_cons (v : ℚ) (rest : List ℚ) (acc : ℚ) :
    total (v :: rest) acc =
      match Float64.add acc v with
      | none => none
      | some next => total rest next := rfl

/-- The total of non-negative doubles: every addition has a relative error of at
most `2^-53`, so the total is the exact sum up to the factor `(1 ± 2^-53)^n`. -/
theorem total_bounds :
    ∀ (data : List ℚ) (acc T : ℚ), (∃ k : ℤ, acc = k * 2 ^ (-1074 : ℤ)) → 0 ≤ acc →
      (∀ v ∈ data, Float64.IsDouble v ∧ 0 ≤ v) → total data acc = some T →
      (acc + data.sum) * (1 - 2 ^ (-53 : ℤ)) ^ data.length ≤ T ∧
      T ≤ (acc + data.sum) * (1 + 2 ^ (-53 : ℤ)) ^ data.length ∧ 0 ≤ T := by
  intro data
  induction data with
  | nil =>
    intro acc T _ hacc _ h
    rw [total_nil] at h
    have hT : acc = T := Option.some.inj h
    rw [← hT, List.sum_nil, add_zero, List.length_nil, pow_zero, pow_zero, mul_one]
    exact ⟨le_refl _, le_refl _, hacc⟩
  | cons v rest ih =>
    intro acc T hg hacc hvals h
    obtain ⟨hu0, hu8⟩ := Float64.unit_roundoff_bounds
    obtain ⟨hvd, hv0⟩ := hvals v (List.mem_cons_self _ _)
    rw [total_cons] at h
    cases hadd : Float64.add acc v with
    | none => rw [hadd] at h; cases h
    | some next =>
      rw [hadd] at h
      simp only at h
      have herr := Float64.add_error hg (Float64.isDouble_grid hvd) hadd
      have hsum0 : 0 ≤ acc + v := by linarith
      rw [abs_of_nonneg hsum0] at herr
      have hnext0 : 0 ≤ next := Float64.round_nonneg hsum0 hadd
      have hng := Float64.round_grid hadd
      obtain ⟨hlo, hhi, hT0⟩ :=
        ih next T hng hnext0 (fun w hw => hvals w (List.mem_cons_of_mem _ hw)) h
      have hrest0 : 0 ≤ rest.sum :=
        List.sum_nonneg (fun w hw => (hvals w (List.mem_cons_of_mem _ hw)).2)
      obtain ⟨hel, heu⟩ := abs_le.mp herr
      clear ih herr
      generalize (2 : ℚ) ^ (-53 : ℤ) = u at *
      have h1m : 0 ≤ 1 - u := by linarith
      have h1p : 0 ≤ 1 + u := by linarith
      refine ⟨?_, ?_, hT0⟩
      · have hstep : (acc + (v + rest.sum)) * (1 - u) ≤ next + rest.sum := by
          have : rest.sum * (1 - u) ≤ rest.sum := by nlinarith
          nlinarith
        calc (acc + (v :: rest).sum) * (1 - u) ^ (v :: rest).length
            = (acc + (v + rest.sum)) * (1 - u) * (1 - u) ^ rest.length := by
              rw [List.sum_cons, List.length_cons, pow_succ]
              ring
          _ ≤ (next + rest.sum) * (1 - u) ^ rest.length :=
              mul_le_mul_of_nonneg_right hstep (pow_nonneg h1m _)
          _ ≤ T := hlo
      · have hstep : next + rest.sum ≤ (acc + (v + rest.sum)) * (1 + u) := by
          have : rest.sum ≤ rest.sum * (1 + u) := by nlinarith
          nlinarith
        calc T ≤ (next + rest.sum) * (1 + u) ^ rest.length := hhi
          _ ≤ (acc + (v + rest.sum)) * (1 + u) * (1 + u) ^ rest.length :=
              mul_le_mul_of_nonneg_right hstep (pow_nonneg h1p _)
          _ = (acc + (v :: rest).sum) * (1 + u) ^ (v :: rest).length := by
              rw [List.sum_cons, List.length_cons, pow_succ]
              ring

/-- Powers of `1 ± u` for `n * u ≤ 1/2`. -/
theorem pow_roundoff_bounds (u : ℚ) (hu : 0 ≤ u) :
    ∀ n : ℕ, (n : ℚ) * u ≤ 1 / 2 →
      1 - (n : ℚ) * u ≤ (1 - u) ^ n ∧ (1 + u) ^ n ≤ 1 + 2 * ((n : ℚ) * u) := by
  intro n
  induction n with
  | zero => intro _; simp
  | succ n ih =>
    intro hn
    have hcast : ((n + 1 : ℕ) : ℚ) = (n : ℚ) + 1 := by push_cast; ring
    rw [hcast] at hn ⊢
    have hn0 : (0 : ℚ) ≤ (n : ℚ) := Nat.cast_nonneg n
    have hnu : 0 ≤ (n : ℚ) * u := mul_nonneg hn0 hu
    have hu1 : u ≤ 1 / 2 := by nlinarith
    obtain ⟨hl, hh⟩ := ih (by nlinarith)
    constructor
    · rw [pow_succ]
      have h1 : (1 - (n : ℚ) * u) * (1 - u) ≤ (1 - u) ^ n * (1 - u) :=
        mul_le_mul_of_nonneg_right hl (by linarith)
      have h2 : 1 - ((n : ℚ) + 1) * u ≤ (1 - (n : ℚ) * u) * (1 - u) := by nlinarith
      linarith
    · rw [pow_succ]
      have h1 : (1 + u) ^ n * (1 + u) ≤ (1 + 2 * ((n : ℚ) * u)) * (1 + u) :=
        mul_le_mul_of_nonneg_right hh (by linarith)
      have h2 : (1 + 2 * ((n : ℚ) * u)) * (1 + u) ≤ 1 + 2 * (((n : ℚ) + 1) * u) := by
        have : (n : ℚ) * u * u ≤ 1 / 2 * u := mul_le_mul_of_nonneg_right (by linarith) hu
        nlinarith
      linarith

/-- The start angle `-Math.PI / 2` is computed exactly. -/
theorem start_angle : Float64.div (-Float64.PI) 2 = some (-Float64.PI / 2) := by
  unfold Float64.div
  rw [if_neg (by norm_num)]
  have h := Float64.round_eq (x := -Float64.PI / 2) (-52) (-7074237752028440)
    (1 / 4503599627370496) (by norm_num) (by norm_num) (by norm_num)
    (by unfold Float64.PI; norm_num [abs_of_neg]) (by unfold Float64.PI; norm_num [abs_of_neg])
    (by unfold Float64.PI; norm_num)
  rw [h]
  unfold Float64.PI
  norm_num

/-- The chart of at most `2^32` non-negative doubles with a positive total: all
the slices are drawn, each as `SliceSpec` says, the first starts at
`-Math.PI / 2`, each later one starts where the one before it ends, and the
total is the exact sum of the values up to a relative error of `2 * n * 2^-53`. -/
theorem drawDoughnutChart_spec (data : List ℚ) (T : ℚ)
    (hvals : ∀ v ∈ data, Float64.IsDouble v ∧ 0 ≤ v) (hlen : data.length ≤ 2 ^ 32)
    (htotal : total data 0 = some T) (hT : 0 < T) :
    ∃ slices : List Slice, drawDoughnutChart data = some slices ∧
      List.Forall₂ (SliceSpec T) data slices ∧
      List.Chain' (fun a b => b.startAngle = a.endAngle) slices ∧
      (∀ s, slices.head? = some s → s.startAngle = -Float64.PI / 2) ∧
      |data.sum / T - 1| ≤ 2 * ((data.length : ℚ) * 2 ^ (-53 : ℤ)) ∧
      0 ≤ data.sum / T := by
  obtain ⟨hu0, hu8⟩ := Float64.unit_roundoff_bounds
  obtain ⟨hP3, hP4⟩ := Float64.PI_bounds
  have hn0 : (0 : ℚ) ≤ (data.length : ℚ) := Nat.cast_nonneg _
  have hn32 : (data.length : ℚ) ≤ 2 ^ (32 : ℕ) := by exact_mod_cast hlen
  have hnu : (data.length : ℚ) * 2 ^ (-53 : ℤ) ≤ 1 / 2097152 := by
    have := mul_le_mul_of_nonneg_right hn32 hu0
    have e : (2 : ℚ) ^ (32 : ℕ) * 2 ^ (-53 : ℤ) = 1 / 2097152 := by norm_num
    linarith
  obtain ⟨hlo, hhi, -⟩ := total_bounds data 0 T Float64.grid_zero (le_refl 0) hvals htotal
  rw [zero_add] at hlo hhi
  obtain ⟨hpl, hph⟩ := pow_roundoff_bounds _ hu0 data.length (by linarith)
  have hS0 : 0 ≤ data.sum := List.sum_nonneg (fun w hw => (hvals w hw).2)
  have hρ0 : 0 ≤ data.sum / T := div_nonneg hS0 (le_of_lt hT)
  -- bounds on the ratio of the exact sum to the total
  have hnu0 : 0 ≤ (data.length : ℚ) * 2 ^ (-53 : ℤ) := mul_nonneg hn0 hu0
  have hratio : |data.sum / T - 1| ≤ 2 * ((data.length : ℚ) * 2 ^ (-53 : ℤ))
      ∧ data.sum ≤ 2 * T := by
    generalize (data.length : ℚ) * 2 ^ (-53 : ℤ) = x at hnu hnu0 hpl hph ⊢
    generalize (1 - (2 : ℚ) ^ (-53 : ℤ)) ^ data.length = a at hlo hpl
    generalize (1 + (2 : ℚ) ^ (-53 : ℤ)) ^ data.length = b at hhi hph
    have h1 : data.sum * (1 - x) ≤ T := le_trans (mul_le_mul_of_nonneg_left hpl hS0) hlo
    have h2 : T ≤ data.sum * (1 + 2 * x) := le_trans hhi (mul_le_mul_of_nonneg_left hph hS0)
    have hS2 : data.sum ≤ 2 * T := by nlinarith
    refine ⟨?_, hS2⟩
    rw [abs_le]
    constructor
    · rw [le_sub_iff_add_le, le_div_iff₀ hT]
      nlinarith
    · rw [sub_le_iff_le_add, div_le_iff₀ hT]
      nlinarith
  have hv2 : ∀ v ∈ data, 0 ≤ v ∧ v ≤ 2 * T := by
    intro v hv
    refine ⟨(hvals v hv).2, le_trans ?_ hratio.2⟩
    exact List.single_le_sum (fun w hw => (hvals w hw).2) v hv
  have hstart := start_angle
  have hcg := Float64.round_grid (x := -Float64.PI / 2) (y := -Float64.PI / 2) (by
    have := start_angle
    unfold Float64.div at this
    rw [if_neg (by norm_num)] at this
    exact this)
  have hc : |-Float64.PI / 2| + 64 * (data.length : ℚ) ≤ 2 ^ (40 : ℤ) := by
    have h1 : |-Float64.PI / 2| ≤ 2 := by
      rw [abs_le]
      constructor <;> linarith
    have h2 : (2 : ℚ) + 64 * 2 ^ (32 : ℕ) ≤ 2 ^ (40 : ℤ) := by norm_num
    linarith
  obtain ⟨slices, hs, hall, hchain, hhead⟩ :=
    doughnutSlices_rounded_spec T hT data (-Float64.PI / 2) hv2 hcg hc
  refine ⟨slices, ?_, hall, hchain, hhead, hratio.1, hρ0⟩
  unfold drawDoughnutChart
  rw [hstart]
  simp only [htotal]
  exact hs

/-- What a drawn slice is made of: the operations of the callback, each with a
finite result. -/
theorem drawSlice_eq_some {T v c : ℚ} {s : Slice} (h : drawSlice T v c = some s) :
    ∃ share doubled scaled : ℚ,
      Float64.div v T = some share ∧ Float64.mul share 2 = some doubled ∧
      Float64.mul doubled Float64.PI = some s.sliceAngle ∧
      Float64.add c s.sliceAngle = some s.endAngle ∧
      Float64.mul share 100 = some scaled ∧
      s.startAngle = c ∧ s.percent = mathRound scaled ∧
      s.label = toString (mathRound scaled) ++ "%" := by
  unfold drawSlice at h
  simp only [Option.bind_eq_some] at h
  obtain ⟨share, h1, doubled, h2, angle, h3, e, h4, scaled, h5, h6⟩ := h
  simp only [Option.some.injEq] at h6
  subst h6
  exact ⟨share, doubled, scaled, h1, h2, h3, h4, h5, rfl, rfl, rfl⟩

/-- The slices drawn for a list of values: one callback for each value. -/
theorem doughnutSlices_eq_some (T : ℚ) :
    ∀ (rest : List ℚ) (c : ℚ) (slices : List Slice), doughnutSlices T rest c = some slices →
      List.Forall₂ (fun v s => ∃ c', drawSlice T v c' = some s) rest slices := by
  intro rest
  induction rest with
  | nil =>
    intro c slices h
    rw [doughnutSlices] at h
    simp only [Option.some.injEq] at h
    rw [← h]
    exact List.Forall₂.nil
  | cons v rest ih =>
    intro c slices h
    rw [doughnutSlices] at h
    cases hs : drawSlice T v c with
    | none => rw [hs] at h; cases h
    | some s =>
      rw [hs] at h
      simp only at h
      cases hr : doughnutSlices T rest s.endAngle with
      | none => rw [hr] at h; cases h
      | some ss =>
        rw [hr] at h
        simp only [Option.some.injEq] at h
        rw [← h]
        exact List.Forall₂.cons ⟨c, hs⟩ (ih _ _ hr)

/-- The number a label prints is within one half of the double it rounds. -/
theorem mathRound_error (x : ℚ) : |((mathRound x : ℤ) : ℚ) - x| ≤ 1 / 2 := by
  unfold mathRound
  have h0 := Int.floor_le (x + 1 / 2)
  have h1 := Int.lt_floor_add_one (x + 1 / 2)
  rw [abs_le]
  constructor <;> linarith

/-- The slices and labels of a chart whose computed total `T` is positive: every
slice is drawn; its angle is `(value / T) * 2 * Math.PI` up to the rounding of
three operations (a relative error of `4 * 2^-53`); its label is `Math.round` of
the double `(value / T) * 100`, which is the exact product up to the rounding of
two operations, followed by `%`, so the number printed is within
`1/2 + 3 * 2^-53 * 100 * value / T` of `100 * value / T`. -/
theorem drawDoughnutChart_labels (data : List ℚ) (T : ℚ)
    (hvals : ∀ v ∈ data, Float64.IsDouble v ∧ 0 ≤ v) (hlen : data.length ≤ 2 ^ 32)
    (htotal : total data 0 = some T) (hT : 0 < T) :
    ∃ slices : List Slice, drawDoughnutChart data = some slices ∧
      List.Forall₂
        (fun value s =>
          |s.sliceAngle - value / T * (2 * Float64.PI)|
            ≤ 4 * 2 ^ (-53 : ℤ) * (value / T * (2 * Float64.PI)) + 16 * 2 ^ (-1075 : ℤ) ∧
          (∃ share scaled : ℚ,
            Float64.div value T = some share ∧ Float64.mul share 100 = some scaled ∧
            s.percent = mathRound scaled ∧
            |scaled - value / T * 100|
              ≤ 3 * 2 ^ (-53 : ℤ) * (value / T * 100) + 114 * 2 ^ (-1075 : ℤ)) ∧
          |(s.percent : ℚ) - value / T * 100|
            ≤ 1 / 2 + 3 * 2 ^ (-53 : ℤ) * (value / T * 100) + 114 * 2 ^ (-1075 : ℤ) ∧
          s.label = toString s.percent ++ "%") data slices := by
  obtain ⟨slices, hs, hall, -, -, -, -⟩ := drawDoughnutChart_spec data T hvals hlen htotal hT
  refine ⟨slices, hs, List.Forall₂.imp ?_ hall⟩
  intro v s h
  obtain ⟨-, -, hangle, -, ⟨share, scaled, h1, h2, hp, hx⟩, hlabel⟩ := h
  refine ⟨hangle, ⟨share, scaled, h1, h2, hp, hx⟩, ?_, hlabel⟩
  have hr := mathRound_error scaled
  rw [← hp] at hr
  have := abs_add ((s.percent : ℚ) - scaled) (scaled - v / T * 100)
  have e : (s.percent : ℚ) - scaled + (scaled - v / T * 100) = (s.percent : ℚ) - v / T * 100 := by
    ring
  rw [e] at this
  linarith

/-- The end angle of the last slice is the start angle of the first plus the
slice angles, up to the rounding of one addition for each slice. -/
theorem chain_end_bound (u : ℚ) (hu : 0 ≤ u) :
    ∀ (slices : List Slice) (c : ℚ),
      List.Chain' (fun a b => b.startAngle = a.endAngle) slices →
      (∀ s, slices.head? = some s → s.startAngle = c) →
      (∀ s ∈ slices, 0 ≤ s.sliceAngle ∧
        |s.endAngle - (s.startAngle + s.sliceAngle)| ≤ u * |s.startAngle + s.sliceAngle|) →
      ∀ last, slices.getLast? = some last →
        |last.endAngle - (c + (slices.map (fun s => s.sliceAngle)).sum)|
          ≤ ((1 + u) ^ slices.length - 1) * (|c| + (slices.map (fun s => s.sliceAngle)).sum) := by
  intro slices
  induction slices with
  | nil =>
    intro c _ _ _ last hlast
    simp at hlast
  | cons s rest ih =>
    intro c hchain hhead hall last hlast
    have hstart : s.startAngle = c := hhead s rfl
    obtain ⟨ha0, herr⟩ := hall s (List.mem_cons_self _ _)
    rw [hstart] at herr
    have hca : |c + s.sliceAngle| ≤ |c| + s.sliceAngle := by
      have := abs_add c s.sliceAngle
      rw [abs_of_nonneg ha0] at this
      exact this
    have hc0 := abs_nonneg c
    cases rest with
    | nil =>
      simp only [List.getLast?_singleton, Option.some.injEq] at hlast
      rw [← hlast]
      simp only [List.map_cons, List.map_nil, List.sum_cons, List.sum_nil, add_zero,
        List.length_singleton, pow_one]
      have : u * |c + s.sliceAngle| ≤ u * (|c| + s.sliceAngle) :=
        mul_le_mul_of_nonneg_left hca hu
      have e : (1 + u - 1) * (|c| + s.sliceAngle) = u * (|c| + s.sliceAngle) := by ring
      rw [e]
      linarith
    | cons s' rest' =>
      have hchain' := List.chain'_cons.mp hchain
      rw [List.getLast?_cons_cons] at hlast
      have hrest0 : 0 ≤ ((s' :: rest').map (fun s => s.sliceAngle)).sum :=
        List.sum_nonneg (by
          intro x hx
          obtain ⟨t, ht, rfl⟩ := List.mem_map.mp hx
          exact (hall t (List.mem_cons_of_mem _ ht)).1)
      have hih := ih s.endAngle hchain'.2
        (by
          intro t ht
          simp only [List.head?_cons, Option.some.injEq] at ht
          rw [← ht]
          exact hchain'.1)
        (fun t ht => hall t (List.mem_cons_of_mem _ ht)) last hlast
      have hend : |s.endAngle| ≤ (1 + u) * (|c| + s.sliceAngle) := by
        have h1 := abs_sub_abs_le_abs_sub s.endAngle (c + s.sliceAngle)
        have h2 : u * |c + s.sliceAngle| ≤ u * (|c| + s.sliceAngle) :=
          mul_le_mul_of_nonneg_left hca hu
        nlinarith
      have hpow1 : 1 ≤ (1 + u) ^ (s' :: rest').length := one_le_pow₀ (by linarith)
      have hlen : (s :: s' :: rest').length = (s' :: rest').length + 1 := rfl
      rw [List.map_cons, List.sum_cons, hlen, pow_succ]
      generalize ((s' :: rest').map (fun s => s.sliceAngle)).sum = A at hih hrest0 ⊢
      generalize (1 + u) ^ (s' :: rest').length = p at hih hpow1 ⊢
      have hsplit : last.endAngle - (c + (s.sliceAngle + A))
          = (last.endAngle - (s.endAngle + A)) + (s.endAngle - (c + s.sliceAngle)) := by ring
      rw [hsplit]
      have htri := abs_add (last.endAngle - (s.endAngle + A)) (s.endAngle - (c + s.sliceAngle))
      have h3 : (p - 1) * (|s.endAngle| + A) ≤ (p - 1) * ((1 + u) * (|c| + s.sliceAngle) + A) :=
        mul_le_mul_of_nonneg_left (by linarith) (by linarith)
      have h4 : u * |c + s.sliceAngle| ≤ u * (|c| + s.sliceAngle) :=
        mul_le_mul_of_nonneg_left hca hu
      have h5 : 0 ≤ (p - 1) * (u * A) :=
        mul_nonneg (by linarith) (mul_nonneg hu hrest0)
      have h6 : 0 ≤ u * A := mul_nonneg hu hrest0
      have e : (p * (1 + u) - 1) * (|c| + (s.sliceAngle + A))
          = (p - 1) * ((1 + u) * (|c| + s.sliceAngle) + A) + u * (|c| + s.sliceAngle)
            + (p - 1) * (u * A) + u * A := by ring
      rw [e]
      linarith

/-- The total of natural numbers below `2^53` is their exact sum. -/
theorem total_natCast :
    ∀ (values : List ℕ) (acc : ℕ), acc + values.sum < 2 ^ 53 →
      total (List.map (fun n : ℕ => (n : ℚ)) values) acc = some ((acc + values.sum : ℕ) : ℚ) := by
  intro values
  induction values with
  | nil =>
    intro acc _
    simp [total_nil]
  | cons v rest ih =>
    intro acc h
    rw [List.sum_cons] at h
    have hadd : Float64.add (acc : ℚ) (v : ℚ) = some (((acc + v : ℕ)) : ℚ) := by
      have := Float64.isDouble_natCast (acc + v) (by omega)
      unfold Float64.IsDouble at this
      unfold Float64.add
      rw [← Nat.cast_add]
      exact this
    simp only [List.map_cons]
    rw [total_cons, hadd]
    simp only
    rw [ih (acc + v) (by omega), List.sum_cons, Nat.add_assoc]

/-- The callback of the `forEach` from the results of its five operations. -/
theorem drawSlice_eval {T v c share doubled a e scaled : ℚ}
    (h1 : Float64.div v T = some share) (h2 : Float64.mul share 2 = some doubled)
    (h3 : Float64.mul doubled Float64.PI = some a) (h4 : Float64.add c a = some e)
    (h5 : Float64.mul share 100 = some scaled) (percent : ℤ) (label : String)
    (h6 : mathRound scaled = percent) (h7 : toString percent ++ "%" = label) :
    drawSlice T v c = some ⟨c, e, a, percent, label⟩ := by
  unfold drawSlice
  rw [h1, Option.some_bind, h2, Option.some_bind, h3, Option.some_bind, h4, Option.some_bind,
    h5, Option.some_bind, h6, h7]

/-- The `forEach` over no value. -/
theorem doughnutSlices_nil (T c : ℚ) : doughnutSlices T [] c = some [] := rfl

/-- The `forEach` from its first callback and the rest. -/
theorem doughnutSlices_cons_eval {T v c : ℚ} {rest : List ℚ} {s : Slice} {slices : List Slice}
    (h : drawSlice T v c = some s) (hr : doughnutSlices T rest s.endAngle = some slices) :
    doughnutSlices T (v :: rest) c = some (s :: slices) := by
  have e : doughnutSlices T (v :: rest) c =
      match drawSlice T v c with
      | none => none
      | some slice =>
        match doughnutSlices T rest slice.endAngle with
        | none => none
        | some slices => some (slice :: slices) := rfl
  rw [e, h]
  simp only
  rw [hr]

/-- The chart from its total and its slices. -/
theorem drawDoughnutChart_eval {data : List ℚ} {T : ℚ} {slices : List Slice}
    (ht : total data 0 = some T) (hs : doughnutSlices T data (-Float64.PI / 2) = some slices) :
    drawDoughnutChart data = some slices := by
  unfold drawDoughnutChart
  rw [start_angle]
  simp only
  rw [ht]
  simp only
  exact hs

/-- The total of non-negative doubles is finite when their exact sum, with the
rounding of every addition, stays below `2^1023`. -/
theorem total_isSome :
    ∀ (data : List ℚ) (acc : ℚ), (∃ k : ℤ, acc = k * 2 ^ (-1074 : ℤ)) → 0 ≤ acc →
      (∀ v ∈ data, Float64.IsDouble v ∧ 0 ≤ v) →
      (acc + data.sum) * (1 + 2 ^ (-53 : ℤ)) ^ data.length ≤ 2 ^ (1023 : ℤ) →
      ∃ T, total data acc = some T := by
  intro data
  induction data with
  | nil =>
    intro acc _ _ _ _
    exact ⟨acc, total_nil acc⟩
  | cons v rest ih =>
    intro acc hg hacc hvals hfin
    obtain ⟨hu0, hu8⟩ := Float64.unit_roundoff_bounds
    obtain ⟨hvd, hv0⟩ := hvals v (List.mem_cons_self _ _)
    have hrest0 : 0 ≤ rest.sum :=
      List.sum_nonneg (fun w hw => (hvals w (List.mem_cons_of_mem _ hw)).2)
    have hsum0 : 0 ≤ acc + v := by linarith
    have h1p : (1 : ℚ) ≤ 1 + 2 ^ (-53 : ℤ) := by linarith
    have hpow1 : 1 ≤ (1 + (2 : ℚ) ^ (-53 : ℤ)) ^ rest.length := one_le_pow₀ h1p
    rw [List.sum_cons, List.length_cons, pow_succ] at hfin
    have hle : acc + v ≤ 2 ^ (1023 : ℤ) := by
      have h1 : acc + v ≤ acc + (v + rest.sum) := by linarith
      have h2 : acc + (v + rest.sum)
          ≤ (acc + (v + rest.sum)) * ((1 + 2 ^ (-53 : ℤ)) ^ rest.length * (1 + 2 ^ (-53 : ℤ))) :=
        le_mul_of_one_le_right (by linarith) (one_le_mul_of_one_le_of_one_le hpow1 h1p)
      linarith
    obtain ⟨next, hadd⟩ : ∃ y, Float64.add acc v = some y :=
      Float64.round_isSome (by rw [abs_of_nonneg hsum0]; exact hle)
    have herr := Float64.add_error hg (Float64.isDouble_grid hvd) hadd
    rw [abs_of_nonneg hsum0] at herr
    have hnext0 : 0 ≤ next := Float64.round_nonneg hsum0 hadd
    obtain ⟨-, heu⟩ := abs_le.mp herr
    have hstep : next + rest.sum ≤ (acc + (v + rest.sum)) * (1 + 2 ^ (-53 : ℤ)) := by
      have : 0 ≤ rest.sum * 2 ^ (-53 : ℤ) := mul_nonneg hrest0 hu0
      linarith
    obtain ⟨T, hT⟩ := ih next (Float64.round_grid hadd) hnext0
      (fun w hw => hvals w (List.mem_cons_of_mem _ hw))
      (calc (next + rest.sum) * (1 + 2 ^ (-53 : ℤ)) ^ rest.length
          ≤ (acc + (v + rest.sum)) * (1 + 2 ^ (-53 : ℤ)) * (1 + 2 ^ (-53 : ℤ)) ^ rest.length :=
            mul_le_mul_of_nonneg_right hstep (by linarith)
        _ = (acc + (v + rest.sum)) * ((1 + 2 ^ (-53 : ℤ)) ^ rest.length * (1 + 2 ^ (-53 : ℤ))) := by
            ring
        _ ≤ 2 ^ (1023 : ℤ) := hfin)
    refine ⟨T, ?_⟩
    rw [total_cons, hadd]
    exact hT

/-- The computed total of at most `2^32` non-negative doubles whose exact sum is
positive and at most `2^1022` is a positive double. -/
theorem total_pos (data : List ℚ) (hvals : ∀ v ∈ data, Float64.IsDouble v ∧ 0 ≤ v)
    (hlen : data.length ≤ 2 ^ 32) (hpos : 0 < data.sum) (hfin : data.sum ≤ 2 ^ (1022 : ℤ)) :
    ∃ T, total data 0 = some T ∧ 0 < T := by
  obtain ⟨hu0, hu8⟩ := Float64.unit_roundoff_bounds
  have hn0 : (0 : ℚ) ≤ (data.length : ℚ) := Nat.cast_nonneg _
  have hn32 : (data.length : ℚ) ≤ 4294967296 := by
    have : (data.length : ℚ) ≤ ((2 ^ 32 : ℕ) : ℚ) := by exact_mod_cast hlen
    simpa using this
  have hu : (2 : ℚ) ^ (-53 : ℤ) = 1 / 9007199254740992 := by norm_num
  have hnu : (data.length : ℚ) * 2 ^ (-53 : ℤ) ≤ 1 / 2 := by
    rw [hu]
    linarith
  have hnu4 : (data.length : ℚ) * 2 ^ (-53 : ℤ) ≤ 1 / 4 := by
    rw [hu]
    linarith
  obtain ⟨hlow, hpow⟩ := pow_roundoff_bounds _ hu0 data.length hnu
  have h1023 : (2 : ℚ) ^ (1023 : ℤ) = 2 ^ (1022 : ℤ) * 2 := by
    rw [show (1023 : ℤ) = 1022 + 1 from rfl, zpow_add_one₀ (by norm_num : (2 : ℚ) ≠ 0)]
  have hp2 : (1 + (2 : ℚ) ^ (-53 : ℤ)) ^ data.length ≤ 2 := by
    generalize (1 + (2 : ℚ) ^ (-53 : ℤ)) ^ data.length = p at hpow
    generalize (data.length : ℚ) * 2 ^ (-53 : ℤ) = x at hpow hnu4
    linarith
  have hp0 : 0 ≤ (1 + (2 : ℚ) ^ (-53 : ℤ)) ^ data.length := pow_nonneg (by linarith) _
  have hq0 : 0 < (1 - (2 : ℚ) ^ (-53 : ℤ)) ^ data.length := by
    generalize (1 - (2 : ℚ) ^ (-53 : ℤ)) ^ data.length = q at hlow ⊢
    generalize (data.length : ℚ) * 2 ^ (-53 : ℤ) = x at hlow hnu4
    linarith
  obtain ⟨T, hT⟩ := total_isSome data 0 Float64.grid_zero (le_refl 0) hvals (by
    rw [zero_add, h1023]
    exact mul_le_mul hfin hp2 hp0 (le_of_lt (zpow_pos (by norm_num) _)))
  refine ⟨T, hT, ?_⟩
  obtain ⟨hlo, -, -⟩ := total_bounds data 0 T Float64.grid_zero (le_refl 0) hvals hT
  rw [zero_add] at hlo
  exact lt_of_lt_of_le (mul_pos hpos hq0) hlo

/-- The chart of the skills data 35, 28, 22, 18, 15, 12 of `loadData`, operation by
operation in double precision. -/
theorem drawDoughnutChart_skills :
    drawDoughnutChart [35, 28, 22, 18, 15, 12] = some
      [⟨(-884279719003555 / 562949953421312), (272086067385709 / 2251799813685248), (3809204943399929 / 2251799813685248), 27, "27%"⟩,
       ⟨(272086067385709 / 2251799813685248), (6638900044211305 / 4503599627370496), (6094727909439887 / 4503599627370496), 22, "22%"⟩,
       ⟨(6638900044211305 / 4503599627370496), (2856903707549947 / 1125899906842624), (4788714785988483 / 4503599627370496), 17, "17%"⟩,
       ⟨(2856903707549947 / 1125899906842624), (959103387534625 / 281474976710656), (3918039370354213 / 4503599627370496), 14, "14%"⟩,
       ⟨(959103387534625 / 281474976710656), (1163167938073907 / 281474976710656), (3265032808628511 / 4503599627370496), 12, "12%"⟩,
       ⟨(1163167938073907 / 281474976710656), (2652839157010665 / 562949953421312), (2612026246902809 / 4503599627370496), 9, "9%"⟩] := by
  have h1 : Float64.div 35 130 = some (4850030367937457 / 18014398509481984) :=
    (if_neg
      (by norm_num : ¬ (130 : ℚ) = 0)).trans (Float64.round_eq_of_pos (-54) 4850030367937457 (1 / 18014398509481984)
      (by norm_num) (by norm_num) (by norm_num) (by norm_num) (by norm_num) (by norm_num)
      (by norm_num) (by norm_num))
  have h2 : Float64.mul (4850030367937457 / 18014398509481984) 2 = some (4850030367937457 / 9007199254740992) :=
    Float64.round_eq_of_pos (-53) 4850030367937457 (1 / 9007199254740992) (by norm_num)
      (by norm_num) (by norm_num) (by norm_num) (by norm_num) (by norm_num) (by norm_num)
      (by norm_num)
  have h3 : Float64.mul (4850030367937457 / 9007199254740992) (884279719003555 / 281474976710656) = some (3809204943399929 / 2251799813685248) :=
    Float64.round_eq_of_pos (-52) 7618409886799858 (1 / 4503599627370496) (by norm_num)
      (by norm_num) (by norm_num) (by norm_num) (by norm_num) (by norm_num) (by norm_num)
      (by norm_num)
  have h4 : Float64.add (-884279719003555 / 562949953421312) (3809204943399929 / 2251799813685248) = some (272086067385709 / 2251799813685248) :=
    Float64.round_eq_of_pos (-56) 8706754156342688 (1 / 72057594037927936) (by norm_num)
      (by norm_num) (by norm_num) (by norm_num) (by norm_num) (by norm_num) (by norm_num)
      (by norm_num)
  have h5 : Float64.mul (4850030367937457 / 18014398509481984) 100 = some (7578172449902277 / 281474976710656) :=
    Float64.round_eq_of_pos (-48) 7578172449902277 (1 / 281474976710656) (by norm_num)
      (by norm_num) (by norm_num) (by norm_num) (by norm_num) (by norm_num) (by norm_num)
      (by norm_num)
  have h6 : mathRound ((7578172449902277 / 281474976710656) : ℚ) = 27 :=
    by
      unfold mathRound
      rw [Int.floor_eq_iff]
      norm_num
  have h7 : Float64.div 28 130 = some (1940012147174983 / 9007199254740992) :=
    (if_neg
      (by norm_num : ¬ (130 : ℚ) = 0)).trans (Float64.round_eq_of_pos (-55) 7760048588699932 (1 / 36028797018963968)
      (by norm_num) (by norm_num) (by norm_num) (by norm_num) (by norm_num) (by norm_num)
      (by norm_num) (by norm_num))
  have h8 : Float64.mul (1940012147174983 / 9007199254740992) 2 = some (1940012147174983 / 4503599627370496) :=
    Float64.round_eq_of_pos (-54) 7760048588699932 (1 / 18014398509481984) (by norm_num)
      (by norm_num) (by norm_num) (by norm_num) (by norm_num) (by norm_num) (by norm_num)
      (by norm_num)
  have h9 : Float64.mul (1940012147174983 / 4503599627370496) (884279719003555 / 281474976710656) = some (6094727909439887 / 4503599627370496) :=
    Float64.round_eq_of_pos (-52) 6094727909439887 (1 / 4503599627370496) (by norm_num)
      (by norm_num) (by norm_num) (by norm_num) (by norm_num) (by norm_num) (by norm_num)
      (by norm_num)
  have h10 : Float64.add (272086067385709 / 2251799813685248) (6094727909439887 / 4503599627370496) = some (6638900044211305 / 4503599627370496) :=
    Float64.round_eq_of_pos (-52) 6638900044211305 (1 / 4503599627370496) (by norm_num)
      (by norm_num) (by norm_num) (by norm_num) (by norm_num) (by norm_num) (by norm_num)
      (by norm_num)
  have h11 : Float64.mul (1940012147174983 / 9007199254740992) 100 = some (3031268979960911 / 140737488355328) :=
    Float64.round_eq_of_pos (-48) 6062537959921822 (1 / 281474976710656) (by norm_num)
      (by norm_num) (by norm_num) (by norm_num) (by norm_num) (by norm_num) (by norm_num)
      (by norm_num)
  have h12 : mathRound ((3031268979960911 / 140737488355328) : ℚ) = 22 :=
    by
      unfold mathRound
      rw [Int.floor_eq_iff]
      norm_num
  have h13 : Float64.div 22 130 = some (3048590516989259 / 18014398509481984) :=
    (if_neg
      (by norm_num : ¬ (130 : ℚ) = 0)).trans (Float64.round_eq_of_pos (-55) 6097181033978518 (1 / 36028797018963968)
      (by norm_num) (by norm_num) (by norm_num) (by norm_num) (by norm_num) (by norm_num)
      (by norm_num) (by norm_num))
  have h14 : Float64.mul (3048590516989259 / 18014398509481984) 2 = some (3048590516989259 / 9007199254740992) :=
    Float64.round_eq_of_pos (-54) 6097181033978518 (1 / 18014398509481984) (by norm_num)
      (by norm_num) (by norm_num) (by norm_num) (by norm_num) (by norm_num) (by norm_num)
      (by norm_num)
  have h15 : Float64.mul (3048590516989259 / 9007199254740992) (884279719003555 / 281474976710656) = some (4788714785988483 / 4503599627370496) :=
    Float64.round_eq_of_pos (-52) 4788714785988483 (1 / 4503599627370496) (by norm_num)
      (by norm_num) (by norm_num) (by norm_num) (by norm_num) (by norm_num) (by norm_num)
      (by norm_num)
  have h16 : Float64.add (6638900044211305 / 4503599627370496) (4788714785988483 / 4503599627370496) = some (2856903707549947 / 1125899906842624) :=
    Float64.round_eq_of_pos (-51) 5713807415099894 (1 / 2251799813685248) (by norm_num)
      (by norm_num) (by norm_num) (by norm_num) (by norm_num) (by norm_num) (by norm_num)
      (by norm_num)
  have h17 : Float64.mul (3048590516989259 / 18014398509481984) 100 = some (4763422682795717 / 281474976710656) :=
    Float64.round_eq_of_pos (-48) 4763422682795717 (1 / 281474976710656) (by norm_num)
      (by norm_num) (by norm_num) (by norm_num) (by norm_num) (by norm_num) (by norm_num)
      (by norm_num)
  have h18 : mathRound ((4763422682795717 / 281474976710656) : ℚ) = 17 :=
    by
      unfold mathRound
      rw [Int.floor_eq_iff]
      norm_num
  have h19 : Float64.div 18 130 = some (2494301332082121 / 18014398509481984) :=
    (if_neg
      (by norm_num : ¬ (130 : ℚ) = 0)).trans (Float64.round_eq_of_pos (-55) 4988602664164242 (1 / 36028797018963968)
      (by norm_num) (by norm_num) (by norm_num) (by norm_num) (by norm_num) (by norm_num)
      (by norm_num) (by norm_num))
  have h20 : Float64.mul (2494301332082121 / 18014398509481984) 2 = some (2494301332082121 / 9007199254740992) :=
    Float64.round_eq_of_pos (-54) 4988602664164242 (1 / 18014398509481984) (by norm_num)
      (by norm_num) (by norm_num) (by norm_num) (by norm_num) (by norm_num) (by norm_num)
      (by norm_num)
  have h21 : Float64.mul (2494301332082121 / 9007199254740992) (884279719003555 / 281474976710656) = some (3918039370354213 / 4503599627370496) :=
    Float64.round_eq_of_pos (-53) 7836078740708426 (1 / 9007199254740992) (by norm_num)
      (by norm_num) (by norm_num) (by norm_num) (by norm_num) (by norm_num) (by norm_num)
      (by norm_num)
  have h22 : Float64.add (2856903707549947 / 1125899906842624) (3918039370354213 / 4503599627370496) = some (959103387534625 / 281474976710656) :=
    Float64.round_eq_of_tie (-51) 7672827100277000 (1 / 2251799813685248) (by norm_num)
      (by norm_num) (by norm_num) (by norm_num) (by norm_num) (by norm_num) (by decide)
      (by norm_num)
  have h23 : Float64.mul (2494301332082121 / 18014398509481984) 100 = some (1948672915689157 / 140737488355328) :=
    Float64.round_eq_of_pos (-49) 7794691662756628 (1 / 562949953421312) (by norm_num)
      (by norm_num) (by norm_num) (by norm_num) (by norm_num) (by norm_num) (by norm_num)
      (by norm_num)
  have h24 : mathRound ((1948672915689157 / 140737488355328) : ℚ) = 14 :=
    by
      unfold mathRound
      rw [Int.floor_eq_iff]
      norm_num
  have h25 : Float64.div 15 130 = some (4157168886803535 / 36028797018963968) :=
    (if_neg
      (by norm_num : ¬ (130 : ℚ) = 0)).trans (Float64.round_eq_of_pos (-56) 8314337773607070 (1 / 72057594037927936)
      (by norm_num) (by norm_num) (by norm_num) (by norm_num) (by norm_num) (by norm_num)
      (by norm_num) (by norm_num))
  have h26 : Float64.mul (4157168886803535 / 36028797018963968) 2 = some (4157168886803535 / 18014398509481984) :=
    Float64.round_eq_of_pos (-55) 8314337773607070 (1 / 36028797018963968) (by norm_num)
      (by norm_num) (by norm_num) (by norm_num) (by norm_num) (by norm_num) (by norm_num)
      (by norm_num)
  have h27 : Float64.mul (4157168886803535 / 18014398509481984) (884279719003555 / 281474976710656) = some (3265032808628511 / 4503599627370496) :=
    Float64.round_eq_of_pos (-53) 6530065617257022 (1 / 9007199254740992) (by norm_num)
      (by norm_num) (by norm_num) (by norm_num) (by norm_num) (by norm_num) (by norm_num)
      (by norm_num)
  have h28 : Float64.add (959103387534625 / 281474976710656) (3265032808628511 / 4503599627370496) = some (1163167938073907 / 281474976710656) :=
    Float64.round_eq_of_pos (-50) 4652671752295628 (1 / 1125899906842624) (by norm_num)
      (by norm_num) (by norm_num) (by norm_num) (by norm_num) (by norm_num) (by norm_num)
      (by norm_num)
  have h29 : Float64.mul (4157168886803535 / 36028797018963968) 100 = some (6495576385630523 / 562949953421312) :=
    Float64.round_eq_of_pos (-49) 6495576385630523 (1 / 562949953421312) (by norm_num)
      (by norm_num) (by norm_num) (by norm_num) (by norm_num) (by norm_num) (by norm_num)
      (by norm_num)
  have h30 : mathRound ((6495576385630523 / 562949953421312) : ℚ) = 12 :=
    by
      unfold mathRound
      rw [Int.floor_eq_iff]
      norm_num
  have h31 : Float64.div 12 130 = some (831433777360707 / 9007199254740992) :=
    (if_neg
      (by norm_num : ¬ (130 : ℚ) = 0)).trans (Float64.round_eq_of_pos (-56) 6651470218885656 (1 / 72057594037927936)
      (by norm_num) (by norm_num) (by norm_num) (by norm_num) (by norm_num) (by norm_num)
      (by norm_num) (by norm_num))
  have h32 : Float64.mul (831433777360707 / 9007199254740992) 2 = some (831433777360707 / 4503599627370496) :=
    Float64.round_eq_of_pos (-55) 6651470218885656 (1 / 36028797018963968) (by norm_num)
      (by norm_num) (by norm_num) (by norm_num) (by norm_num) (by norm_num) (by norm_num)
      (by norm_num)
  have h33 : Float64.mul (831433777360707 / 4503599627370496) (884279719003555 / 281474976710656) = some (2612026246902809 / 4503599627370496) :=
    Float64.round_eq_of_pos (-53) 5224052493805618 (1 / 9007199254740992) (by norm_num)
      (by norm_num) (by norm_num) (by norm_num) (by norm_num) (by norm_num) (by norm_num)
      (by norm_num)
  have h34 : Float64.add (1163167938073907 / 281474976710656) (2612026246902809 / 4503599627370496) = some (2652839157010665 / 562949953421312) :=
    Float64.round_eq_of_pos (-50) 5305678314021330 (1 / 1125899906842624) (by norm_num)
      (by norm_num) (by norm_num) (by norm_num) (by norm_num) (by norm_num) (by norm_num)
      (by norm_num)
  have h35 : Float64.mul (831433777360707 / 9007199254740992) 100 = some (5196461108504419 / 562949953421312) :=
    Float64.round_eq_of_pos (-49) 5196461108504419 (1 / 562949953421312) (by norm_num)
      (by norm_num) (by norm_num) (by norm_num) (by norm_num) (by norm_num) (by norm_num)
      (by norm_num)
  have h36 : mathRound ((5196461108504419 / 562949953421312) : ℚ) = 9 :=
    by
      unfold mathRound
      rw [Int.floor_eq_iff]
      norm_num
  have hpi : Float64.PI = (884279719003555 / 281474976710656) := rfl
  have ht : total [35, 28, 22, 18, 15, 12] 0 = some 130 := by
    have h := total_natCast [35, 28, 22, 18, 15, 12] 0 (by norm_num)
    simpa using h
  have hstart : -Float64.PI / 2 = (-884279719003555 / 562949953421312) := by
    rw [hpi]
    norm_num
  refine drawDoughnutChart_eval ht ?_
  rw [hstart]
  refine doughnutSlices_cons_eval
    (drawSlice_eval h1 h2 (by rw [hpi]; exact h3) h4 h5 27 "27%" h6 (by decide)) ?_
  refine doughnutSlices_cons_eval
    (drawSlice_eval h7 h8 (by rw [hpi]; exact h9) h10 h11 22 "22%" h12 (by decide)) ?_
  refine doughnutSlices_cons_eval
    (drawSlice_eval h13 h14 (by rw [hpi]; exact h15) h16 h17 17 "17%" h18 (by decide)) ?_
  refine doughnutSlices_cons_eval
    (drawSlice_eval h19 h20 (by rw [hpi]; exact h21) h22 h23 14 "14%" h24 (by decide)) ?_
  refine doughnutSlices_cons_eval
    (drawSlice_eval h25 h26 (by rw [hpi]; exact h27) h28 h29 12 "12%" h30 (by decide)) ?_
  refine doughnutSlices_cons_eval
    (drawSlice_eval h31 h32 (by rw [hpi]; exact h33) h34 h35 9 "9%" h36 (by decide)) ?_
  exact doughnutSlices_nil _ _

/-- The chart of six equal values, operation by operation in double precision. -/
theorem drawDoughnutChart_six_ones :
    drawDoughnutChart [1, 1, 1, 1, 1, 1] = some
      [⟨(-884279719003555 / 562949953421312), (-2358079250676147 / 4503599627370496), (4716158501352293 / 4503599627370496), 17, "17%"⟩,
       ⟨(-2358079250676147 / 4503599627370496), (1179039625338073 / 2251799813685248), (4716158501352293 / 4503599627370496), 17, "17%"⟩,
       ⟨(1179039625338073 / 2251799813685248), (7074237752028439 / 4503599627370496), (4716158501352293 / 4503599627370496), 17, "17%"⟩,
       ⟨(7074237752028439 / 4503599627370496), (2947599063345183 / 1125899906842624), (4716158501352293 / 4503599627370496), 17, "17%"⟩,
       ⟨(2947599063345183 / 1125899906842624), (515829836085407 / 140737488355328), (4716158501352293 / 4503599627370496), 17, "17%"⟩,
       ⟨(515829836085407 / 140737488355328), (5305678314021329 / 1125899906842624), (4716158501352293 / 4503599627370496), 17, "17%"⟩] := by
  have h1 : Float64.div 1 6 = some (6004799503160661 / 36028797018963968) :=
    (if_neg
      (by norm_num : ¬ (6 : ℚ) = 0)).trans (Float64.round_eq_of_pos (-55) 6004799503160661 (1 / 36028797018963968)
      (by norm_num) (by norm_num) (by norm_num) (by norm_num) (by norm_num) (by norm_num)
      (by norm_num) (by norm_num))
  have h2 : Float64.mul (6004799503160661 / 36028797018963968) 2 = some (6004799503160661 / 18014398509481984) :=
    Float64.round_eq_of_pos (-54) 6004799503160661 (1 / 18014398509481984) (by norm_num)
      (by norm_num) (by norm_num) (by norm_num) (by norm_num) (by norm_num) (by norm_num)
      (by norm_num)
  have h3 : Float64.mul (6004799503160661 / 18014398509481984) (884279719003555 / 281474976710656) = some (4716158501352293 / 4503599627370496) :=
    Float64.round_eq_of_pos (-52) 4716158501352293 (1 / 4503599627370496) (by norm_num)
      (by norm_num) (by norm_num) (by norm_num) (by norm_num) (by norm_num) (by norm_num)
      (by norm_num)
  have h4 : Float64.add (-884279719003555 / 562949953421312) (4716158501352293 / 4503599627370496) = some (-2358079250676147 / 4503599627370496) :=
    Float64.round_eq_of_neg (-53) (-4716158501352294) (1 / 9007199254740992) (by norm_num)
      (by norm_num) (by norm_num) (by norm_num) (by norm_num) (by norm_num) (by norm_num)
      (by norm_num)
  have h5 : Float64.mul (6004799503160661 / 36028797018963968) 100 = some (2345624805922133 / 140737488355328) :=
    Float64.round_eq_of_pos (-48) 4691249611844266 (1 / 281474976710656) (by norm_num)
      (by norm_num) (by norm_num) (by norm_num) (by norm_num) (by norm_num) (by norm_num)
      (by norm_num)
  have h6 : mathRound ((2345624805922133 / 140737488355328) : ℚ) = 17 :=
    by
      unfold mathRound
      rw [Int.floor_eq_iff]
      norm_num
  have h7 : Float64.add (-2358079250676147 / 4503599627370496) (4716158501352293 / 4503599627370496) = some (1179039625338073 / 2251799813685248) :=
    Float64.round_eq_of_pos (-53) 4716158501352292 (1 / 9007199254740992) (by norm_num)
      (by norm_num) (by norm_num) (by norm_num) (by norm_num) (by norm_num) (by norm_num)
      (by norm_num)
  have h8 : Float64.add (1179039625338073 / 2251799813685248) (4716158501352293 / 4503599627370496) = some (7074237752028439 / 4503599627370496) :=
    Float64.round_eq_of_pos (-52) 7074237752028439 (1 / 4503599627370496) (by norm_num)
      (by norm_num) (by norm_num) (by norm_num) (by norm_num) (by norm_num) (by norm_num)
      (by norm_num)
  have h9 : Float64.add (7074237752028439 / 4503599627370496) (4716158501352293 / 4503599627370496) = some (2947599063345183 / 1125899906842624) :=
    Float64.round_eq_of_pos (-51) 5895198126690366 (1 / 2251799813685248) (by norm_num)
      (by norm_num) (by norm_num) (by norm_num) (by norm_num) (by norm_num) (by norm_num)
      (by norm_num)
  have h10 : Float64.add (2947599063345183 / 1125899906842624) (4716158501352293 / 4503599627370496) = some (515829836085407 / 140737488355328) :=
    Float64.round_eq_of_tie (-51) 8253277377366512 (1 / 2251799813685248) (by norm_num)
      (by norm_num) (by norm_num) (by norm_num) (by norm_num) (by norm_num) (by decide)
      (by norm_num)
  have h11 : Float64.add (515829836085407 / 140737488355328) (4716158501352293 / 4503599627370496) = some (5305678314021329 / 1125899906842624) :=
    Float64.round_eq_of_pos (-50) 5305678314021329 (1 / 1125899906842624) (by norm_num)
      (by norm_num) (by norm_num) (by norm_num) (by norm_num) (by norm_num) (by norm_num)
      (by norm_num)
  have hpi : Float64.PI = (884279719003555 / 281474976710656) := rfl
  have ht : total [1, 1, 1, 1, 1, 1] 0 = some 6 := by
    have h := total_natCast [1, 1, 1, 1, 1, 1] 0 (by norm_num)
    simpa using h
  have hstart : -Float64.PI / 2 = (-884279719003555 / 562949953421312) := by
    rw [hpi]
    norm_num
  refine drawDoughnutChart_eval ht ?_
  rw [hstart]
  refine doughnutSlices_cons_eval
    (drawSlice_eval h1 h2 (by rw [hpi]; exact h3) h4 h5 17 "17%" h6 (by decide)) ?_
  refine doughnutSlices_cons_eval
    (drawSlice_eval h1 h2 (by rw [hpi]; exact h3) h7 h5 17 "17%" h6 (by decide)) ?_
  refine doughnutSlices_cons_eval
    (drawSlice_eval h1 h2 (by rw [hpi]; exact h3) h8 h5 17 "17%" h6 (by decide)) ?_
  refine doughnutSlices_cons_eval
    (drawSlice_eval h1 h2 (by rw [hpi]; exact h3) h9 h5 17 "17%" h6 (by decide)) ?_
  refine doughnutSlices_cons_eval
    (drawSlice_eval h1 h2 (by rw [hpi]; exact h3) h10 h5 17 "17%" h6 (by decide)) ?_
  refine doughnutSlices_cons_eval
    (drawSlice_eval h1 h2 (by rw [hpi]; exact h3) h11 h5 17 "17%" h6 (by decide)) ?_
  exact doughnutSlices_nil _ _

/-- The chart of the values 29, 29, 29, 113, operation by operation in double
precision. -/
theorem drawDoughnutChart_uneven :
    drawDoughnutChart [29, 29, 29, 113] = some
      [⟨(-884279719003555 / 562949953421312), (-2971179855851945 / 4503599627370496), (4103057896176495 / 4503599627370496), 14, "14%"⟩,
       ⟨(-2971179855851945 / 4503599627370496), (565939020162275 / 2251799813685248), (4103057896176495 / 4503599627370496), 14, "14%"⟩,
       ⟨(565939020162275 / 2251799813685248), (5234935936501045 / 4503599627370496), (4103057896176495 / 4503599627370496), 14, "14%"⟩,
       ⟨(5234935936501045 / 4503599627370496), (5305678314021329 / 1125899906842624), (999236082474017 / 281474976710656), 56, "56%"⟩] := by
  have h1 : Float64.div 29 200 = some (5224175567749775 / 36028797018963968) :=
    (if_neg
      (by norm_num : ¬ (200 : ℚ) = 0)).trans (Float64.round_eq_of_pos (-55) 5224175567749775 (1 / 36028797018963968)
      (by norm_num) (by norm_num) (by norm_num) (by norm_num) (by norm_num) (by norm_num)
      (by norm_num) (by norm_num))
  have h2 : Float64.mul (5224175567749775 / 36028797018963968) 2 = some (5224175567749775 / 18014398509481984) :=
    Float64.round_eq_of_pos (-54) 5224175567749775 (1 / 18014398509481984) (by norm_num)
      (by norm_num) (by norm_num) (by norm_num) (by norm_num) (by norm_num) (by norm_num)
      (by norm_num)
  have h3 : Float64.mul (5224175567749775 / 18014398509481984) (884279719003555 / 281474976710656) = some (4103057896176495 / 4503599627370496) :=
    Float64.round_eq_of_pos (-53) 8206115792352990 (1 / 9007199254740992) (by norm_num)
      (by norm_num) (by norm_num) (by norm_num) (by norm_num) (by norm_num) (by norm_num)
      (by norm_num)
  have h4 : Float64.add (-884279719003555 / 562949953421312) (4103057896176495 / 4503599627370496) = some (-2971179855851945 / 4503599627370496) :=
    Float64.round_eq_of_neg (-53) (-5942359711703890) (1 / 9007199254740992) (by norm_num)
      (by norm_num) (by norm_num) (by norm_num) (by norm_num) (by norm_num) (by norm_num)
      (by norm_num)
  have h5 : Float64.mul (5224175567749775 / 36028797018963968) 100 = some (8162774324609023 / 562949953421312) :=
    Float64.round_eq_of_pos (-49) 8162774324609023 (1 / 562949953421312) (by norm_num)
      (by norm_num) (by norm_num) (by norm_num) (by norm_num) (by norm_num) (by norm_num)
      (by norm_num)
  have h6 : mathRound ((8162774324609023 / 562949953421312) : ℚ) = 14 :=
    by
      unfold mathRound
      rw [Int.floor_eq_iff]
      norm_num
  have h7 : Float64.add (-2971179855851945 / 4503599627370496) (4103057896176495 / 4503599627370496) = some (565939020162275 / 2251799813685248) :=
    Float64.round_eq_of_pos (-54) 4527512161298200 (1 / 18014398509481984) (by norm_num)
      (by norm_num) (by norm_num) (by norm_num) (by norm_num) (by norm_num) (by norm_num)
      (by norm_num)
  have h8 : Float64.add (565939020162275 / 2251799813685248) (4103057896176495 / 4503599627370496) = some (5234935936501045 / 4503599627370496) :=
    Float64.round_eq_of_pos (-52) 5234935936501045 (1 / 4503599627370496) (by norm_num)
      (by norm_num) (by norm_num) (by norm_num) (by norm_num) (by norm_num) (by norm_num)
      (by norm_num)
  have h9 : Float64.div 113 200 = some (1272266894732165 / 2251799813685248) :=
    (if_neg
      (by norm_num : ¬ (200 : ℚ) = 0)).trans (Float64.round_eq_of_pos (-53) 5089067578928660 (1 / 9007199254740992)
      (by norm_num) (by norm_num) (by norm_num) (by norm_num) (by norm_num) (by norm_num)
      (by norm_num) (by norm_num))
  have h10 : Float64.mul (1272266894732165 / 2251799813685248) 2 = some (1272266894732165 / 1125899906842624) :=
    Float64.round_eq_of_pos (-52) 5089067578928660 (1 / 4503599627370496) (by norm_num)
      (by norm_num) (by norm_num) (by norm_num) (by norm_num) (by norm_num) (by norm_num)
      (by norm_num)
  have h11 : Float64.mul (1272266894732165 / 1125899906842624) (884279719003555 / 281474976710656) = some (999236082474017 / 281474976710656) :=
    Float64.round_eq_of_pos (-51) 7993888659792136 (1 / 2251799813685248) (by norm_num)
      (by norm_num) (by norm_num) (by norm_num) (by norm_num) (by norm_num) (by norm_num)
      (by norm_num)
  have h12 : Float64.add (5234935936501045 / 4503599627370496) (999236082474017 / 281474976710656) = some (5305678314021329 / 1125899906842624) :=
    Float64.round_eq_of_pos (-50) 5305678314021329 (1 / 1125899906842624) (by norm_num)
      (by norm_num) (by norm_num) (by norm_num) (by norm_num) (by norm_num) (by norm_num)
      (by norm_num)
  have h13 : Float64.mul (1272266894732165 / 2251799813685248) 100 = some (7951668092076031 / 140737488355328) :=
    Float64.round_eq_of_pos (-47) 7951668092076031 (1 / 140737488355328) (by norm_num)
      (by norm_num) (by norm_num) (by norm_num) (by norm_num) (by norm_num) (by norm_num)
      (by norm_num)
  have h14 : mathRound ((7951668092076031 / 140737488355328) : ℚ) = 56 :=
    by
      unfold mathRound
      rw [Int.floor_eq_iff]
      norm_num
  have hpi : Float64.PI = (884279719003555 / 281474976710656) := rfl
  have ht : total [29, 29, 29, 113] 0 = some 200 := by
    have h := total_natCast [29, 29, 29, 113] 0 (by norm_num)
    simpa using h
  have hstart : -Float64.PI / 2 = (-884279719003555 / 562949953421312) := by
    rw [hpi]
    norm_num
  refine drawDoughnutChart_eval ht ?_
  rw [hstart]
  refine doughnutSlices_cons_eval
    (drawSlice_eval h1 h2 (by rw [hpi]; exact h3) h4 h5 14 "14%" h6 (by decide)) ?_
  refine doughnutSlices_cons_eval
    (drawSlice_eval h1 h2 (by rw [hpi]; exact h3) h7 h5 14 "14%" h6 (by decide)) ?_
  refine doughnutSlices_cons_eval
    (drawSlice_eval h1 h2 (by rw [hpi]; exact h3) h8 h5 14 "14%" h6 (by decide)) ?_
  refine doughnutSlices_cons_eval
    (drawSlice_eval h9 h10 (by rw [hpi]; exact h11) h12 h13 56 "56%" h14 (by decide)) ?_
  exact doughnutSlices_nil _ _

/-- The chart of the values 29 and 171, operation by operation in double precision. -/
theorem drawDoughnutChart_two_values :
    drawDoughnutChart [29, 171] = some
      [⟨(-884279719003555 / 562949953421312), (-2971179855851945 / 4503599627370496), (4103057896176495 / 4503599627370496), 14, "14%"⟩,
       ⟨(-2971179855851945 / 4503599627370496), (2652839157010665 / 562949953421312), (1512118319496079 / 281474976710656), 86, "86%"⟩] := by
  have h1 : Float64.div 29 200 = some (5224175567749775 / 36028797018963968) :=
    (if_neg
      (by norm_num : ¬ (200 : ℚ) = 0)).trans (Float64.round_eq_of_pos (-55) 5224175567749775 (1 / 36028797018963968)
      (by norm_num) (by norm_num) (by norm_num) (by norm_num) (by norm_num) (by norm_num)
      (by norm_num) (by norm_num))
  have h2 : Float64.mul (5224175567749775 / 36028797018963968) 2 = some (5224175567749775 / 18014398509481984) :=
    Float64.round_eq_of_pos (-54) 5224175567749775 (1 / 18014398509481984) (by norm_num)
      (by norm_num) (by norm_num) (by norm_num) (by norm_num) (by norm_num) (by norm_num)
      (by norm_num)
  have h3 : Float64.mul (5224175567749775 / 18014398509481984) (884279719003555 / 281474976710656) = some (4103057896176495 / 4503599627370496) :=
    Float64.round_eq_of_pos (-53) 8206115792352990 (1 / 9007199254740992) (by norm_num)
      (by norm_num) (by norm_num) (by norm_num) (by norm_num) (by norm_num) (by norm_num)
      (by norm_num)
  have h4 : Float64.add (-884279719003555 / 562949953421312) (4103057896176495 / 4503599627370496) = some (-2971179855851945 / 4503599627370496) :=
    Float64.round_eq_of_neg (-53) (-5942359711703890) (1 / 9007199254740992) (by norm_num)
      (by norm_num) (by norm_num) (by norm_num) (by norm_num) (by norm_num) (by norm_num)
      (by norm_num)
  have h5 : Float64.mul (5224175567749775 / 36028797018963968) 100 = some (8162774324609023 / 562949953421312) :=
    Float64.round_eq_of_pos (-49) 8162774324609023 (1 / 562949953421312) (by norm_num)
      (by norm_num) (by norm_num) (by norm_num) (by norm_num) (by norm_num) (by norm_num)
      (by norm_num)
  have h6 : mathRound ((8162774324609023 / 562949953421312) : ℚ) = 14 :=
    by
      unfold mathRound
      rw [Int.floor_eq_iff]
      norm_num
  have h7 : Float64.div 171 200 = some (1925288840700887 / 2251799813685248) :=
    (if_neg
      (by norm_num : ¬ (200 : ℚ) = 0)).trans (Float64.round_eq_of_pos (-53) 7701155362803548 (1 / 9007199254740992)
      (by norm_num) (by norm_num) (by norm_num) (by norm_num) (by norm_num) (by norm_num)
      (by norm_num) (by norm_num))
  have h8 : Float64.mul (1925288840700887 / 2251799813685248) 2 = some (1925288840700887 / 1125899906842624) :=
    Float64.round_eq_of_pos (-52) 7701155362803548 (1 / 4503599627370496) (by norm_num)
      (by norm_num) (by norm_num) (by norm_num) (by norm_num) (by norm_num) (by norm_num)
      (by norm_num)
  have h9 : Float64.mul (1925288840700887 / 1125899906842624) (884279719003555 / 281474976710656) = some (1512118319496079 / 281474976710656) :=
    Float64.round_eq_of_pos (-50) 6048473277984316 (1 / 1125899906842624) (by norm_num)
      (by norm_num) (by norm_num) (by norm_num) (by norm_num) (by norm_num) (by norm_num)
      (by norm_num)
  have h10 : Float64.add (-2971179855851945 / 4503599627370496) (1512118319496079 / 281474976710656) = some (2652839157010665 / 562949953421312) :=
    Float64.round_eq_of_pos (-50) 5305678314021330 (1 / 1125899906842624) (by norm_num)
      (by norm_num) (by norm_num) (by norm_num) (by norm_num) (by norm_num) (by norm_num)
      (by norm_num)
  have h11 : Float64.mul (1925288840700887 / 2251799813685248) 100 = some (171 / 2) :=
    Float64.round_eq_of_pos (-46) 6016527627190272 (1 / 70368744177664) (by norm_num)
      (by norm_num) (by norm_num) (by norm_num) (by norm_num) (by norm_num) (by norm_num)
      (by norm_num)
  have h12 : mathRound ((171 / 2) : ℚ) = 86 :=
    by
      unfold mathRound
      rw [Int.floor_eq_iff]
      norm_num
  have hpi : Float64.PI = (884279719003555 / 281474976710656) := rfl
  have ht : total [29, 171] 0 = some 200 := by
    have h := total_natCast [29, 171] 0 (by norm_num)
    simpa using h
  have hstart : -Float64.PI / 2 = (-884279719003555 / 562949953421312) := by
    rw [hpi]
    norm_num
  refine drawDoughnutChart_eval ht ?_
  rw [hstart]
  refine doughnutSlices_cons_eval
    (drawSlice_eval h1 h2 (by rw [hpi]; exact h3) h4 h5 14 "14%" h6 (by decide)) ?_
  refine doughnutSlices_cons_eval
    (drawSlice_eval h7 h8 (by rw [hpi]; exact h9) h10 h11 86 "86%" h12 (by decide)) ?_
  exact doughnutSlices_nil _ _

/-- Every slice of a chart satisfies what holds of every value and its slice. -/
theorem forall₂_right {R : ℚ → Slice → Prop} {P : Slice → Prop} (hP : ∀ v s, R v s → P s) :
    ∀ {values : List ℚ} {slices : List Slice}, List.Forall₂ R values slices →
      ∀ s ∈ slices, P s := by
  intro values slices h
  induction h with
  | nil =>
    intro s hs
    simp at hs
  | cons hab _ ih =>
    intro s hs
    rcases List.mem_cons.mp hs with rfl | hs'
    · exact hP _ _ hab
    · exact ih s hs'

/-- Claim C5, amended (doughnut percentage labels in double precision).  For
`n ≤ 2^32` non-negative doubles whose sum is positive and at most `2^1022`,
the computed total `T` is positive, every slice is drawn with the label
`percent%`, where `percent` is `Math.round` of the double `(value / T) * 100`, and
the percentages add up to `100` within half a unit for each slice, both bounds
included: `|sum - 100| ≤ n / 2`. -/
theorem doughnut_percent_sum (data : List ℚ)
    (hvals : ∀ v ∈ data, Float64.IsDouble v ∧ 0 ≤ v) (hlen : data.length ≤ 2 ^ 32)
    (hpos : 0 < data.sum) (hfin : data.sum ≤ 2 ^ (1022 : ℤ)) :
    ∃ (T : ℚ) (slices : List Slice),
      total data 0 = some T ∧ 0 < T ∧ drawDoughnutChart data = some slices ∧
      List.Forall₂
        (fun value s =>
          (∃ share scaled : ℚ,
            Float64.div value T = some share ∧ Float64.mul share 100 = some scaled ∧
            s.percent = mathRound scaled) ∧
          s.label = toString s.percent ++ "%") data slices ∧
      200 - (data.length : ℤ) ≤ 2 * (slices.map (fun s => s.percent)).sum ∧
      2 * (slices.map (fun s => s.percent)).sum ≤ 200 + (data.length : ℤ) := by
  obtain ⟨T, htotal, hT⟩ := total_pos data hvals hlen hpos hfin
  obtain ⟨slices, hdraw, hspec, -, -, hratio, hratio0⟩ :=
    drawDoughnutChart_spec data T hvals hlen htotal hT
  have hsum := sum_percent_bound T data slices hspec
  refine ⟨T, slices, htotal, hT, hdraw,
    hspec.imp (fun v s h => ⟨by
      obtain ⟨share, scaled, h1, h2, h3, -⟩ := h.2.2.2.2.1
      exact ⟨share, scaled, h1, h2, h3⟩, h.2.2.2.2.2⟩), ?_⟩
  have hn0 : (0 : ℚ) ≤ (data.length : ℚ) := Nat.cast_nonneg _
  have hn32 : (data.length : ℚ) ≤ 4294967296 := by
    have : (data.length : ℚ) ≤ ((2 ^ 32 : ℕ) : ℚ) := by exact_mod_cast hlen
    simpa using this
  have hu : (2 : ℚ) ^ (-53 : ℤ) = 1 / 9007199254740992 := by norm_num
  obtain ⟨hη0, hη1⟩ := Float64.underflow_bounds
  have hη2 : (2 : ℚ) ^ (-1000 : ℤ) ≤ 2 ^ (-100 : ℤ) :=
    zpow_le_zpow_right₀ (by norm_num) (by norm_num)
  have hη3 : (2 : ℚ) ^ (-100 : ℤ) = 1 / 1267650600228229401496703205376 := by norm_num
  have hηn : (2 : ℚ) ^ (-1075 : ℤ) * (data.length : ℚ)
      ≤ 1 / 1267650600228229401496703205376 * (data.length : ℚ) :=
    mul_le_mul_of_nonneg_right (by linarith) hn0
  rw [hu] at hsum hratio
  rw [mul_assoc 114] at hsum
  generalize (2 : ℚ) ^ (-1075 : ℤ) * (data.length : ℚ) = z at hsum hηn
  generalize data.sum / T = r at hsum hratio hratio0
  generalize (slices.map (fun s => s.percent)).sum = P at hsum ⊢
  rw [abs_le] at hsum hratio
  obtain ⟨hs1, hs2⟩ := hsum
  obtain ⟨hr1, hr2⟩ := hratio
  constructor
  · have hq : ((200 - (data.length : ℤ) - 2 * P : ℤ) : ℚ) < 1 := by
      push_cast
      linarith
    have : 200 - (data.length : ℤ) - 2 * P < 1 := by exact_mod_cast hq
    omega
  · have hq : ((2 * P - 200 - (data.length : ℤ) : ℤ) : ℚ) < 1 := by
      push_cast
      linarith
    have : 2 * P - 200 - (data.length : ℤ) < 1 := by exact_mod_cast hq
    omega

/-- Claim C4, amended (doughnut partition in double precision).  For `n ≤ 2^32`
non-negative doubles whose sum is positive and at most `2^1022`, every slice is
drawn, the
first slice starts at `-Math.PI / 2`, each later slice starts exactly where the
one before it ends, the slice angles add up to `2 * Math.PI` within the relative
error `(n + 5) * Number.EPSILON`, and the last slice ends at `3 * Math.PI / 2`
within `(3 * n + 5) * Number.EPSILON * 2 * Math.PI`. -/
theorem doughnut_partition (data : List ℚ)
    (hvals : ∀ v ∈ data, Float64.IsDouble v ∧ 0 ≤ v) (hlen : data.length ≤ 2 ^ 32)
    (hpos : 0 < data.sum) (hfin : data.sum ≤ 2 ^ (1022 : ℤ)) :
    ∃ slices : List Slice, drawDoughnutChart data = some slices ∧
      slices.length = data.length ∧
      (∀ first, slices.head? = some first → first.startAngle = -Float64.PI / 2) ∧
      List.Chain' (fun a b => b.startAngle = a.endAngle) slices ∧
      |(slices.map (fun s => s.sliceAngle)).sum - 2 * Float64.PI|
        ≤ ((data.length : ℚ) + 5) * Float64.epsilon * (2 * Float64.PI) ∧
      (∀ last, slices.getLast? = some last →
        |last.endAngle - 3 * Float64.PI / 2|
          ≤ (3 * (data.length : ℚ) + 5) * Float64.epsilon * (2 * Float64.PI)) := by
  obtain ⟨T, htotal, hT⟩ := total_pos data hvals hlen hpos hfin
  obtain ⟨slices, hdraw, hspec, hchain, hhead, hratio, hratio0⟩ :=
    drawDoughnutChart_spec data T hvals hlen htotal hT
  have hsum := sum_sliceAngle_bound T data slices hspec
  have hlenS : slices.length = data.length := hspec.length_eq.symm
  have hn0 : (0 : ℚ) ≤ (data.length : ℚ) := Nat.cast_nonneg _
  have hn32 : (data.length : ℚ) ≤ 4294967296 := by
    have : (data.length : ℚ) ≤ ((2 ^ 32 : ℕ) : ℚ) := by exact_mod_cast hlen
    simpa using this
  have hn1 : (1 : ℚ) ≤ (data.length : ℚ) := by
    have : 1 ≤ data.length := by
      cases data with
      | nil =>
        rw [total_nil] at htotal
        have : (0 : ℚ) = T := Option.some.inj htotal
        linarith
      | cons v rest => simp
    exact_mod_cast this
  have hu : (2 : ℚ) ^ (-53 : ℤ) = 1 / 9007199254740992 := by norm_num
  have hε : Float64.epsilon = 1 / 4503599627370496 := by
    unfold Float64.epsilon
    norm_num
  have hpi : Float64.PI = 884279719003555 / 281474976710656 := rfl
  obtain ⟨hu0, -⟩ := Float64.unit_roundoff_bounds
  obtain ⟨hη0, hη1⟩ := Float64.underflow_bounds
  have hη2 : (2 : ℚ) ^ (-1000 : ℤ) ≤ 2 ^ (-100 : ℤ) :=
    zpow_le_zpow_right₀ (by norm_num) (by norm_num)
  have hη3 : (2 : ℚ) ^ (-100 : ℤ) = 1 / 1267650600228229401496703205376 := by norm_num
  have hηn : (2 : ℚ) ^ (-1075 : ℤ) * (data.length : ℚ)
      ≤ 1 / 1267650600228229401496703205376 * (data.length : ℚ) :=
    mul_le_mul_of_nonneg_right (by linarith) hn0
  -- the end of the last slice against the sum of the angles
  have hend := chain_end_bound (2 ^ (-53 : ℤ)) hu0 slices (-Float64.PI / 2) hchain hhead
    (forall₂_right
      (P := fun s => 0 ≤ s.sliceAngle ∧
        |s.endAngle - (s.startAngle + s.sliceAngle)|
          ≤ 2 ^ (-53 : ℤ) * |s.startAngle + s.sliceAngle|)
      (fun v s h => ⟨h.1, h.2.2.2.1⟩) hspec)
  have hnu : (data.length : ℚ) * 2 ^ (-53 : ℤ) ≤ 1 / 2 := by
    rw [hu]
    linarith
  obtain ⟨-, hpow⟩ := pow_roundoff_bounds _ hu0 data.length hnu
  have hpow1 : 1 ≤ (1 + (2 : ℚ) ^ (-53 : ℤ)) ^ data.length := one_le_pow₀ (by linarith)
  have hA0 : 0 ≤ (slices.map (fun s => s.sliceAngle)).sum :=
    List.sum_nonneg (by
      intro x hx
      obtain ⟨s, hs, rfl⟩ := List.mem_map.mp hx
      exact forall₂_right (P := fun s => 0 ≤ s.sliceAngle) (fun v s h => h.1) hspec s hs)
  have hcabs : |-Float64.PI / 2| = Float64.PI / 2 := by
    rw [hpi]
    norm_num [abs_of_neg]
  rw [hlenS, hcabs] at hend
  refine ⟨slices, hdraw, hlenS, ?_, hchain, ?_⟩
  · intro first hfirst
    rw [hhead first hfirst]
  rw [hu] at hsum hratio hpow hpow1 hend
  rw [mul_assoc 16] at hsum
  rw [hε]
  generalize (2 : ℚ) ^ (-1075 : ℤ) * (data.length : ℚ) = z at hsum hηn
  generalize data.sum / T = r at hsum hratio hratio0
  generalize (slices.map (fun s => s.sliceAngle)).sum = A at hsum hend hA0 ⊢
  generalize (1 + (1 / 9007199254740992 : ℚ)) ^ data.length = p at hpow hpow1 hend
  rw [hpi] at hsum hend ⊢
  rw [abs_le] at hsum hratio
  obtain ⟨hs1, hs2⟩ := hsum
  obtain ⟨hr1, hr2⟩ := hratio
  have hAbound : |A - 2 * (884279719003555 / 281474976710656)|
      ≤ ((data.length : ℚ) + 5) * (1 / 4503599627370496)
        * (2 * (884279719003555 / 281474976710656)) := by
    rw [abs_le]
    constructor <;> linarith
  refine ⟨hAbound, ?_⟩
  intro last hlast
  have h1 := hend last hlast
  rw [abs_le] at hAbound
  have hA7 : 884279719003555 / 281474976710656 / 2 + A ≤ 8 := by linarith
  have hprod : (p - 1) * (884279719003555 / 281474976710656 / 2 + A)
      ≤ 2 * ((data.length : ℚ) * (1 / 9007199254740992)) * 8 :=
    mul_le_mul (by linarith) hA7 (by linarith) (by linarith)
  rw [abs_le] at h1 ⊢
  constructor <;> linarith

/-- Natural numbers below `2^53` are non-negative doubles. -/
theorem isDouble_nat_values (values : List ℕ) (h : ∀ n ∈ values, n < 2 ^ 53) :
    ∀ v ∈ List.map (fun n : ℕ => (n : ℚ)) values, Float64.IsDouble v ∧ 0 ≤ v := by
  intro v hv
  obtain ⟨n, hn, rfl⟩ := List.mem_map.mp hv
  exact ⟨Float64.isDouble_natCast n (h n hn), Nat.cast_nonneg n⟩

/-- The quotient by a zero total is not a finite number, so no slice of a chart
with a zero total has finite angles. -/
theorem drawSlice_zero_total (v c : ℚ) : drawSlice 0 v c = none := by
  unfold drawSlice
  have h : Float64.div v 0 = none := if_pos rfl
  rw [h]
  rfl

/-- A chart with values whose computed total is zero divides by that total. -/
theorem drawDoughnutChart_zero_total (data : List ℚ) (hne : data ≠ [])
    (h : total data 0 = some 0) : drawDoughnutChart data = none := by
  unfold drawDoughnutChart
  rw [start_angle]
  simp only
  rw [h]
  simp only
  cases data with
  | nil => exact absurd rfl hne
  | cons v rest =>
    have e : doughnutSlices 0 (v :: rest) (-Float64.PI / 2) =
        match drawSlice 0 v (-Float64.PI / 2) with
        | none => none
        | some slice =>
          match doughnutSlices 0 rest slice.endAngle with
          | none => none
          | some slices => some (slice :: slices) := rfl
    rw [e, drawSlice_zero_total]

/-- The total of `1e16`, `1` and `-1e16` in double precision is zero: the sum
`1e16 + 1` is rounded to `1e16`. -/
theorem total_cancellation :
    total [10000000000000000, 1, -10000000000000000] 0 = some 0 := by
  have h1 : Float64.add 0 10000000000000000 = some 10000000000000000 :=
    Float64.round_eq_of_pos 1 5000000000000000 2 (by norm_num) (by norm_num) (by norm_num)
      (by norm_num) (by norm_num) (by norm_num) (by norm_num) (by norm_num)
  have h2 : Float64.add 10000000000000000 1 = some 10000000000000000 :=
    Float64.round_eq_of_tie 1 5000000000000000 2 (by norm_num) (by norm_num) (by norm_num)
      (by norm_num) (by norm_num) (by norm_num) (by decide) (by norm_num)
  have h3 : Float64.add 10000000000000000 (-10000000000000000) = some 0 := by
    unfold Float64.add
    rw [show (10000000000000000 : ℚ) + -10000000000000000 = 0 by norm_num]
    exact Float64.round_zero
  rw [total_cons, h1]
  simp only
  rw [total_cons, h2]
  simp only
  rw [total_cons, h3]
  simp only
  exact total_nil 0

/-- Claim C9, amended (doughnut slice and label in double precision).  For
`n ≤ 2^32` non-negative doubles whose sum is positive and at most `2^1022`, the
computed total `T` is positive and every slice is drawn; its angle is the double
`(value / T) * 2 * Math.PI`, the exact product up to the rounding of three
operations (a relative error of `4 * 2^-53`); its label is `Math.round` of the
double `(value / T) * 100`, which is the exact product up to the rounding of two
operations, followed by `%`, so the number printed is within
`1/2 + 3 * 2^-53 * 100 * value / T` of `100 * value / T`: it is
`round (100 * value / T)` or, next to a half, its neighbour.  For the data
35, 28, 22, 18, 15, 12 (total 130) the slice for 35 spans the double
`1.691626813471427`, within `2^-52` of `35 / 130 * 2 * Math.PI`, and its label is
`27%`. -/
theorem doughnut_slice_and_label (data : List ℚ)
    (hvals : ∀ v ∈ data, Float64.IsDouble v ∧ 0 ≤ v) (hlen : data.length ≤ 2 ^ 32)
    (hpos : 0 < data.sum) (hfin : data.sum ≤ 2 ^ (1022 : ℤ)) :
    (∃ (T : ℚ) (slices : List Slice),
      total data 0 = some T ∧ 0 < T ∧ drawDoughnutChart data = some slices ∧
      List.Forall₂
        (fun value s =>
          |s.sliceAngle - value / T * (2 * Float64.PI)|
            ≤ 4 * 2 ^ (-53 : ℤ) * (value / T * (2 * Float64.PI)) + 16 * 2 ^ (-1075 : ℤ) ∧
          (∃ share scaled : ℚ,
            Float64.div value T = some share ∧ Float64.mul share 100 = some scaled ∧
            s.percent = mathRound scaled ∧
            |scaled - value / T * 100|
              ≤ 3 * 2 ^ (-53 : ℤ) * (value / T * 100) + 114 * 2 ^ (-1075 : ℤ)) ∧
          |(s.percent : ℚ) - value / T * 100|
            ≤ 1 / 2 + 3 * 2 ^ (-53 : ℤ) * (value / T * 100) + 114 * 2 ^ (-1075 : ℤ) ∧
          s.label = toString s.percent ++ "%") data slices) ∧
    (∃ (first : Slice) (others : List Slice),
      total [35, 28, 22, 18, 15, 12] 0 = some 130 ∧
      drawDoughnutChart [35, 28, 22, 18, 15, 12] = some (first :: others) ∧
      first.sliceAngle = 3809204943399929 / 2251799813685248 ∧
      |first.sliceAngle - 35 / 130 * (2 * Float64.PI)| ≤ 2 ^ (-52 : ℤ) ∧
      first.percent = 27 ∧ first.label = "27%") := by
  constructor
  · obtain ⟨T, htotal, hT⟩ := total_pos data hvals hlen hpos hfin
    obtain ⟨slices, hdraw, hall⟩ := drawDoughnutChart_labels data T hvals hlen htotal hT
    exact ⟨T, slices, htotal, hT, hdraw, hall⟩
  · refine ⟨_, _, ?_, drawDoughnutChart_skills, rfl, ?_, rfl, rfl⟩
    · have h := total_natCast [35, 28, 22, 18, 15, 12] 0 (by norm_num)
      simpa using h
    · have hpi : Float64.PI = 884279719003555 / 281474976710656 := rfl
      rw [hpi]
      norm_num [abs_le]

/-- Claim C9 at the skills data of `loadData`. -/
theorem doughnut_slice_and_label_witness :
    (∀ v ∈ ([35, 28, 22, 18, 15, 12] : List ℚ), Float64.IsDouble v ∧ 0 ≤ v) ∧
    ([35, 28, 22, 18, 15, 12] : List ℚ).length ≤ 2 ^ 32 ∧
    0 < ([35, 28, 22, 18, 15, 12] : List ℚ).sum ∧
    ([35, 28, 22, 18, 15, 12] : List ℚ).sum ≤ 2 ^ (1022 : ℤ) ∧
    (∃ (T : ℚ) (slices : List Slice),
      total [35, 28, 22, 18, 15, 12] 0 = some T ∧ 0 < T ∧ drawDoughnutChart [35, 28, 22, 18, 15, 12] = some slices ∧
      List.Forall₂
        (fun value s =>
          |s.sliceAngle - value / T * (2 * Float64.PI)|
            ≤ 4 * 2 ^ (-53 : ℤ) * (value / T * (2 * Float64.PI)) + 16 * 2 ^ (-1075 : ℤ) ∧
          (∃ share scaled : ℚ,
            Float64.div value T = some share ∧ Float64.mul share 100 = some scaled ∧
            s.percent = mathRound scaled ∧
            |scaled - value / T * 100|
              ≤ 3 * 2 ^ (-53 : ℤ) * (value / T * 100) + 114 * 2 ^ (-1075 : ℤ)) ∧
          |(s.percent : ℚ) - value / T * 100|
            ≤ 1 / 2 + 3 * 2 ^ (-53 : ℤ) * (value / T * 100) + 114 * 2 ^ (-1075 : ℤ) ∧
          s.label = toString s.percent ++ "%") [35, 28, 22, 18, 15, 12] slices) ∧
    (∃ (first : Slice) (others : List Slice),
      total [35, 28, 22, 18, 15, 12] 0 = some 130 ∧
      drawDoughnutChart [35, 28, 22, 18, 15, 12] = some (first :: others) ∧
      first.sliceAngle = 3809204943399929 / 2251799813685248 ∧
      |first.sliceAngle - 35 / 130 * (2 * Float64.PI)| ≤ 2 ^ (-52 : ℤ) ∧
      first.percent = 27 ∧ first.label = "27%") := by
  have h1 : ∀ v ∈ ([35, 28, 22, 18, 15, 12] : List ℚ), Float64.IsDouble v ∧ 0 ≤ v := by
    simpa using isDouble_nat_values [35, 28, 22, 18, 15, 12] (by decide)
  have h2 : ([35, 28, 22, 18, 15, 12] : List ℚ).length ≤ 2 ^ 32 := by
    simp
  have h3 : 0 < ([35, 28, 22, 18, 15, 12] : List ℚ).sum := by
    norm_num
  have h4 : ([35, 28, 22, 18, 15, 12] : List ℚ).sum ≤ 2 ^ (1022 : ℤ) :=
    le_trans (by norm_num : _ ≤ (2 : ℚ) ^ (50 : ℤ)) (zpow_le_zpow_right₀ (by norm_num) (by norm_num))
  exact ⟨h1, h2, h3, h4, doughnut_slice_and_label [35, 28, 22, 18, 15, 12] h1 h2 h3 h4⟩

/-- Claim C9 as first stated fails at the data 29, 171 (total 200): the claim
labels the slice for 29 with `round (100 * 29 / 200) = round 14.5`, which is
`15%`; the code rounds the double `(29 / 200) * 100 = 14.499999999999998` and
prints `14%`. -/
theorem doughnut_slice_and_label_counterexample :
    0 < ([29, 171] : List ℚ).sum ∧
    (drawDoughnutChart [29, 171]).map (fun slices => slices.map (fun s => s.label))
      = some ["14%", "86%"] ∧
    Float64.div 29 200 = some (5224175567749775 / 36028797018963968) ∧
    Float64.mul (5224175567749775 / 36028797018963968) 100 = some (8162774324609023 / 562949953421312) ∧
    ((8162774324609023 / 562949953421312) : ℚ) < 29 / 2 ∧
    mathRound ((29 : ℚ) / 200 * 100) = 15 ∧
    toString (mathRound ((29 : ℚ) / 200 * 100)) ++ "%" = "15%" := by
  have h15 : mathRound ((29 : ℚ) / 200 * 100) = 15 := by
    unfold mathRound
    rw [Int.floor_eq_iff]
    norm_num
  refine ⟨by norm_num, ?_, ?_, ?_, by norm_num, h15, ?_⟩
  · rw [drawDoughnutChart_two_values]
    rfl
  · exact (Float64.div_eq_round (by norm_num)).trans
      (Float64.round_eq_of_pos (-55) 5224175567749775 (1 / 36028797018963968) (by norm_num)
        (by norm_num) (by norm_num) (by norm_num) (by norm_num) (by norm_num) (by norm_num)
        (by norm_num))
  · exact Float64.round_eq_of_pos (-49) 8162774324609023 (1 / 562949953421312) (by norm_num)
        (by norm_num) (by norm_num) (by norm_num) (by norm_num) (by norm_num) (by norm_num)
        (by norm_num)
  · rw [h15]
    decide

/-- Claim C5 at the data 29, 29, 29, 113, where the lower bound is attained: the
labels are 14, 14, 14 and 56, with sum 98. -/
theorem doughnut_percent_sum_witness :
    (∀ v ∈ ([29, 29, 29, 113] : List ℚ), Float64.IsDouble v ∧ 0 ≤ v) ∧
    ([29, 29, 29, 113] : List ℚ).length ≤ 2 ^ 32 ∧
    0 < ([29, 29, 29, 113] : List ℚ).sum ∧
    ([29, 29, 29, 113] : List ℚ).sum ≤ 2 ^ (1022 : ℤ) ∧
    (∃ (T : ℚ) (slices : List Slice),
      total ([29, 29, 29, 113] : List ℚ) 0 = some T ∧ 0 < T ∧ drawDoughnutChart ([29, 29, 29, 113] : List ℚ) = some slices ∧
      List.Forall₂
        (fun value s =>
          (∃ share scaled : ℚ,
            Float64.div value T = some share ∧ Float64.mul share 100 = some scaled ∧
            s.percent = mathRound scaled) ∧
          s.label = toString s.percent ++ "%") ([29, 29, 29, 113] : List ℚ) slices ∧
      200 - (([29, 29, 29, 113] : List ℚ).length : ℤ) ≤ 2 * (slices.map (fun s => s.percent)).sum ∧
      2 * (slices.map (fun s => s.percent)).sum ≤ 200 + (([29, 29, 29, 113] : List ℚ).length : ℤ)) ∧
    (drawDoughnutChart [29, 29, 29, 113]).map (fun slices => slices.map (fun s => s.percent))
      = some [14, 14, 14, 56] := by
  have h1 : ∀ v ∈ ([29, 29, 29, 113] : List ℚ), Float64.IsDouble v ∧ 0 ≤ v := by
    simpa using isDouble_nat_values [29, 29, 29, 113] (by decide)
  have h2 : ([29, 29, 29, 113] : List ℚ).length ≤ 2 ^ 32 := by
    simp
  have h3 : 0 < ([29, 29, 29, 113] : List ℚ).sum := by
    norm_num
  have h4 : ([29, 29, 29, 113] : List ℚ).sum ≤ 2 ^ (1022 : ℤ) :=
    le_trans (by norm_num : _ ≤ (2 : ℚ) ^ (50 : ℤ)) (zpow_le_zpow_right₀ (by norm_num) (by norm_num))
  refine ⟨h1, h2, h3, h4, doughnut_percent_sum [29, 29, 29, 113] h1 h2 h3 h4, ?_⟩
  rw [drawDoughnutChart_uneven]
  rfl

/-- Claim C5 as first stated fails: six equal values are each labelled `17%`,
with sum 102, and the values 29, 29, 29, 113 are labelled 14, 14, 14 and 56,
with sum 98. -/
theorem doughnut_percent_sum_counterexample :
    (∀ v ∈ ([1, 1, 1, 1, 1, 1] : List ℚ), 0 ≤ v) ∧
    0 < ([1, 1, 1, 1, 1, 1] : List ℚ).sum ∧
    (drawDoughnutChart [1, 1, 1, 1, 1, 1]).map (fun slices => slices.map (fun s => s.label))
      = some ["17%", "17%", "17%", "17%", "17%", "17%"] ∧
    (drawDoughnutChart [1, 1, 1, 1, 1, 1]).map
      (fun slices => (slices.map (fun s => s.percent)).sum) = some 102 ∧
    (∀ v ∈ ([29, 29, 29, 113] : List ℚ), 0 ≤ v) ∧
    0 < ([29, 29, 29, 113] : List ℚ).sum ∧
    (drawDoughnutChart [29, 29, 29, 113]).map
      (fun slices => (slices.map (fun s => s.percent)).sum) = some 98 := by
  refine ⟨by simp, by norm_num, ?_, ?_, by simp, by norm_num, ?_⟩
  · rw [drawDoughnutChart_six_ones]
    rfl
  · rw [drawDoughnutChart_six_ones]
    rfl
  · rw [drawDoughnutChart_uneven]
    rfl

/-- Claim C4 at the skills data of `loadData`. -/
theorem doughnut_partition_witness :
    (∀ v ∈ ([35, 28, 22, 18, 15, 12] : List ℚ), Float64.IsDouble v ∧ 0 ≤ v) ∧
    ([35, 28, 22, 18, 15, 12] : List ℚ).length ≤ 2 ^ 32 ∧
    0 < ([35, 28, 22, 18, 15, 12] : List ℚ).sum ∧
    ([35, 28, 22, 18, 15, 12] : List ℚ).sum ≤ 2 ^ (1022 : ℤ) ∧
    (∃ slices : List Slice, drawDoughnutChart ([35, 28, 22, 18, 15, 12] : List ℚ) = some slices ∧
      slices.length = ([35, 28, 22, 18, 15, 12] : List ℚ).length ∧
      (∀ first, slices.head? = some first → first.startAngle = -Float64.PI / 2) ∧
      List.Chain' (fun a b => b.startAngle = a.endAngle) slices ∧
      |(slices.map (fun s => s.sliceAngle)).sum - 2 * Float64.PI|
        ≤ ((([35, 28, 22, 18, 15, 12] : List ℚ).length : ℚ) + 5) * Float64.epsilon * (2 * Float64.PI) ∧
      (∀ last, slices.getLast? = some last →
        |last.endAngle - 3 * Float64.PI / 2|
          ≤ (3 * (([35, 28, 22, 18, 15, 12] : List ℚ).length : ℚ) + 5) * Float64.epsilon * (2 * Float64.PI))) := by
  have h1 : ∀ v ∈ ([35, 28, 22, 18, 15, 12] : List ℚ), Float64.IsDouble v ∧ 0 ≤ v := by
    simpa using isDouble_nat_values [35, 28, 22, 18, 15, 12] (by decide)
  have h2 : ([35, 28, 22, 18, 15, 12] : List ℚ).length ≤ 2 ^ 32 := by
    simp
  have h3 : 0 < ([35, 28, 22, 18, 15, 12] : List ℚ).sum := by
    norm_num
  have h4 : ([35, 28, 22, 18, 15, 12] : List ℚ).sum ≤ 2 ^ (1022 : ℤ) :=
    le_trans (by norm_num : _ ≤ (2 : ℚ) ^ (50 : ℤ)) (zpow_le_zpow_right₀ (by norm_num) (by norm_num))
  exact ⟨h1, h2, h3, h4, doughnut_partition [35, 28, 22, 18, 15, 12] h1 h2 h3 h4⟩

/-- Claim C4 as first stated fails.  For six equal values the slice angles add up
to `2 * Math.PI - 2^-51` and the last slice ends at the double
`4.712388980384689`, which is `3 * Math.PI / 2 - 2^-50`.  For the values `1e16`,
`1`, `-1e16`, whose sum is 1, the computed total is 0 and no angle is finite. -/
theorem doughnut_partition_counterexample :
    0 < ([1, 1, 1, 1, 1, 1] : List ℚ).sum ∧
    (∃ (slices : List Slice) (last : Slice),
      drawDoughnutChart [1, 1, 1, 1, 1, 1] = some slices ∧
      (slices.map (fun s => s.sliceAngle)).sum = 2 * Float64.PI - 2 ^ (-51 : ℤ) ∧
      (slices.map (fun s => s.sliceAngle)).sum ≠ 2 * Float64.PI ∧
      slices.getLast? = some last ∧
      last.endAngle = 5305678314021329 / 1125899906842624 ∧
      last.endAngle = 3 * Float64.PI / 2 - 2 ^ (-50 : ℤ) ∧
      last.endAngle ≠ 3 * Float64.PI / 2) ∧
    0 < ([10000000000000000, 1, -10000000000000000] : List ℚ).sum ∧
    total [10000000000000000, 1, -10000000000000000] 0 = some 0 ∧
    drawDoughnutChart [10000000000000000, 1, -10000000000000000] = none := by
  have hpi : Float64.PI = 884279719003555 / 281474976710656 := rfl
  refine ⟨by norm_num, ⟨_, _, drawDoughnutChart_six_ones, ?_, ?_, rfl, rfl, ?_, ?_⟩,
    by norm_num, total_cancellation,
    drawDoughnutChart_zero_total _ (by simp) total_cancellation⟩
  · rw [hpi]
    norm_num
  · rw [hpi]
    norm_num
  · rw [hpi]
    norm_num
  · rw [hpi]
    norm_num

/-- Claim C16 (zero-total doughnut dataset).  The method has no check of the
total.  For the empty dataset it draws no slice and computes no angle.  For a
dataset with values whose computed total is 0, the two zeros included, it is not
rejected: the callback divides the value by the zero total, and `0 / 0` is not a
finite number. -/
theorem doughnut_zero_total :
    drawDoughnutChart [] = some [] ∧
    total [0, 0] 0 = some 0 ∧
    Float64.div 0 0 = none ∧
    (∀ c : ℚ, drawSlice 0 0 c = none) ∧
    drawDoughnutChart [0, 0] = none ∧
    (∀ data : List ℚ, data ≠ [] → total data 0 = some 0 → drawDoughnutChart data = none) := by
  have ht : total [0, 0] 0 = some 0 := by
    have h := total_natCast [0, 0] 0 (by norm_num)
    simpa using h
  refine ⟨drawDoughnutChart_eval (total_nil 0) (doughnutSlices_nil _ _), ht, if_pos rfl,
    drawSlice_zero_total 0, drawDoughnutChart_zero_total _ (by simp) ht,
    drawDoughnutChart_zero_total⟩

end DataVisualization.Rounded

/-! ## Theorems: metric animator in double precision -/

namespace Script.Rounded

/-- The error of `easeOutQuart` against the exact curve, from the errors of its
three operations. -/
theorem ease_error (u η p r y e : ℚ) (hu : 0 ≤ u) (hu' : u ≤ 1 / 1024) (hη : 0 ≤ η)
    (hη' : η ≤ 1 / 1024) (hp0 : 0 ≤ p) (hp1 : p ≤ 1) (hr0 : 0 ≤ r)
    (hr : |r - (1 - p)| ≤ u * |1 - p| + η)
    (hy : |y - r ^ 4| ≤ 2 * u * r ^ 4 + 2 * η)
    (he : |e - (1 - y)| ≤ u * |1 - y| + η) :
    |e - (1 - (1 - p) ^ 4)| ≤ 12 * u + 8 * η ∧ |e| ≤ 2 := by
  have ha0 : 0 ≤ 1 - p := by linarith
  have ha1 : 1 - p ≤ 1 := by linarith
  rw [abs_of_nonneg ha0] at hr
  generalize 1 - p = a at ha0 ha1 hr ⊢
  have hua : u * a ≤ u := by
    have := mul_le_mul_of_nonneg_left ha1 hu
    linarith
  obtain ⟨hr1, hr2⟩ := abs_le.mp hr
  have hr9 : r ≤ 9 / 8 := by linarith
  -- the powers
  have hr2' : r ^ 2 ≤ (9 / 8) ^ 2 := pow_le_pow_left₀ hr0 hr9 2
  have hr3' : r ^ 3 ≤ (9 / 8) ^ 3 := pow_le_pow_left₀ hr0 hr9 3
  have hr4' : r ^ 4 ≤ (9 / 8) ^ 4 := pow_le_pow_left₀ hr0 hr9 4
  have ha2 : a ^ 2 ≤ 1 := pow_le_one₀ ha0 ha1
  have ha3 : a ^ 3 ≤ 1 := pow_le_one₀ ha0 ha1
  have ha4 : a ^ 4 ≤ 1 := pow_le_one₀ ha0 ha1
  have ha4' : 0 ≤ a ^ 4 := pow_nonneg ha0 4
  have hr4'' : 0 ≤ r ^ 4 := pow_nonneg hr0 4
  have hS0 : 0 ≤ r ^ 3 + r ^ 2 * a + r * a ^ 2 + a ^ 3 := by positivity
  have hS5 : r ^ 3 + r ^ 2 * a + r * a ^ 2 + a ^ 3 ≤ 5 := by
    have h1 : r ^ 2 * a ≤ (9 / 8) ^ 2 * 1 := mul_le_mul hr2' ha1 ha0 (by norm_num)
    have h2 : r * a ^ 2 ≤ 9 / 8 * 1 := mul_le_mul hr9 ha2 (by positivity) (by norm_num)
    norm_num at hr3' h1 h2
    linarith
  have hfac : r ^ 4 - a ^ 4 = (r - a) * (r ^ 3 + r ^ 2 * a + r * a ^ 2 + a ^ 3) := by ring
  have hpow : |r ^ 4 - a ^ 4| ≤ 5 * (u + η) := by
    rw [hfac, abs_mul, abs_of_nonneg hS0]
    have h1 : |r - a| ≤ u + η := by linarith
    have := mul_le_mul h1 hS5 hS0 (by linarith)
    linarith
  have hur4 : 2 * u * r ^ 4 ≤ 4 * u := by
    norm_num at hr4'
    have := mul_le_mul_of_nonneg_left hr4' (by linarith : 0 ≤ 2 * u)
    nlinarith
  have hya : |y - a ^ 4| ≤ 9 * u + 7 * η := by
    have h1 := abs_add (y - r ^ 4) (r ^ 4 - a ^ 4)
    have e1 : y - r ^ 4 + (r ^ 4 - a ^ 4) = y - a ^ 4 := by ring
    rw [e1] at h1
    linarith
  obtain ⟨hy1, hy2⟩ := abs_le.mp hya
  have h1y : |1 - y| ≤ 2 := by
    rw [abs_le]
    constructor <;> linarith
  have hu1y : u * |1 - y| ≤ 2 * u := by
    have := mul_le_mul_of_nonneg_left h1y hu
    linarith
  have hfinal : |e - (1 - a ^ 4)| ≤ 12 * u + 8 * η := by
    obtain ⟨he1, he2⟩ := abs_le.mp (le_trans he (by linarith : u * |1 - y| + η ≤ 2 * u + η))
    rw [abs_le]
    constructor <;> linarith
  refine ⟨hfinal, ?_⟩
  obtain ⟨hf1, hf2⟩ := abs_le.mp hfinal
  rw [abs_le]
  constructor <;> linarith

/-- The error of `start + (target - start) * easeOutQuart` against the exact
product, from the errors of its three operations and of `easeOutQuart`. -/
theorem product_error (u η T range e E prod V : ℚ) (hu : 0 ≤ u) (hu' : u ≤ 1 / 1024)
    (hη : 0 ≤ η) (hrange : |range - T| ≤ u * |T| + η) (he2 : |e| ≤ 2)
    (heE : |e - E| ≤ 12 * u + 8 * η)
    (hprod : |prod - range * e| ≤ u * |range * e| + η)
    (hV : |V - (0 + prod)| ≤ u * |0 + prod| + η) :
    |V - T * E| ≤ 21 * u * |T| + 8 * η * |T| + 6 * η ∧ |range * e| ≤ 3 * |T| + 2 * η ∧
      |prod| ≤ 4 * |T| + 4 * η := by
  rw [zero_add] at hV
  have ht0 := abs_nonneg T
  have he0 := abs_nonneg e
  generalize hTt : |T| = t at *
  have hut : u * t ≤ t / 1024 := by
    have := mul_le_mul_of_nonneg_right hu' ht0
    linarith
  have hut0 : 0 ≤ u * t := mul_nonneg hu ht0
  have huη : u * η ≤ η / 1024 := by
    have := mul_le_mul_of_nonneg_right hu' hη
    linarith
  have huη0 : 0 ≤ u * η := mul_nonneg hu hη
  have hR : |range| ≤ t + u * t + η := by
    have h1 := abs_sub_abs_le_abs_sub range T
    rw [hTt] at h1
    linarith
  have hRe : |range * e| ≤ 3 * t + 2 * η := by
    rw [abs_mul]
    have h1 : |range| * |e| ≤ (t + u * t + η) * 2 :=
      mul_le_mul hR he2 he0 (by linarith)
    linarith
  have hP1 : |prod - range * e| ≤ 3 * (u * t) + 2 * η := by
    have h1 := mul_le_mul_of_nonneg_left hRe hu
    have e1 : u * (3 * t + 2 * η) = 3 * (u * t) + 2 * (u * η) := by ring
    linarith
  have hP : |prod| ≤ 4 * t + 4 * η := by
    have h1 := abs_sub_abs_le_abs_sub prod (range * e)
    linarith
  have hV1 : |V - prod| ≤ 4 * (u * t) + 2 * η := by
    have h1 := mul_le_mul_of_nonneg_left hP hu
    have e1 : u * (4 * t + 4 * η) = 4 * (u * t) + 4 * (u * η) := by ring
    linarith
  have hA : |(range - T) * e| ≤ 2 * (u * t) + 2 * η := by
    rw [abs_mul]
    have h1 : |range - T| * |e| ≤ (u * t + η) * 2 :=
      mul_le_mul hrange he2 he0 (by linarith)
    linarith
  have hB : |T * (e - E)| ≤ 12 * (u * t) + 8 * (η * t) := by
    rw [abs_mul, hTt]
    have h1 := mul_le_mul_of_nonneg_left heE ht0
    have e1 : t * (12 * u + 8 * η) = 12 * (u * t) + 8 * (η * t) := by ring
    linarith
  refine ⟨?_, hRe, hP⟩
  have hsplit : V - T * E = (V - prod) + (prod - range * e) + ((range - T) * e + T * (e - E)) := by
    ring
  rw [hsplit]
  have h1 := abs_add ((V - prod) + (prod - range * e)) ((range - T) * e + T * (e - E))
  have h2 := abs_add (V - prod) (prod - range * e)
  have h3 := abs_add ((range - T) * e) (T * (e - E))
  have e2 : 21 * u * t + 8 * η * t + 6 * η = 21 * (u * t) + 8 * (η * t) + 6 * η := by ring
  rw [e2]
  linarith

/-- The value of `progress` from the results of its two operations. -/
theorem progress_eq {duration startTime currentTime elapsed q : ℚ}
    (h1 : Float64.sub currentTime startTime = some elapsed)
    (h2 : Float64.div elapsed duration = some q) :
    progress duration startTime currentTime = some (min q 1) := by
  unfold progress
  rw [h1, Option.some_bind, h2, Option.some_bind]

/-- The value of `easeOutQuart` from the results of its three operations. -/
theorem easeOutQuart_eq {pow : ℚ → ℕ → Option ℚ} {p r y e : ℚ}
    (h1 : Float64.sub 1 p = some r) (h2 : pow r 4 = some y) (h3 : Float64.sub 1 y = some e) :
    easeOutQuart pow p = some e := by
  unfold easeOutQuart
  rw [h1, Option.some_bind, h2, Option.some_bind, h3]

/-- The argument of `Math.floor` from the results of its three operations. -/
theorem eased_eq {target : ℤ} {e range prod V : ℚ}
    (h1 : Float64.sub (target : ℚ) 0 = some range) (h2 : Float64.mul range e = some prod)
    (h3 : Float64.add 0 prod = some V) : eased target e = some V := by
  unfold eased
  simp only
  rw [h1, Option.some_bind, h2, Option.some_bind, h3]

/-- The value of `current` from `easeOutQuart` and the argument of `Math.floor`. -/
theorem currentValue_eq {pow : ℚ → ℕ → Option ℚ} {target : ℤ} {p e V : ℚ}
    (h1 : easeOutQuart pow p = some e) (h2 : eased target e = some V) :
    currentValue pow target p = some ⌊V⌋ := by
  unfold currentValue
  rw [h1, Option.some_bind, h2, Option.some_bind]

/-- Before `progress` reaches `1` the callback writes `current` and requests
another frame. -/
theorem animate_running_eq {pow : ℚ → ℕ → Option ℚ} {target current : ℤ}
    {duration startTime currentTime p : ℚ} (s : Animation)
    (h1 : progress duration startTime currentTime = some p)
    (h2 : currentValue pow target p = some current) (hp : p < 1) :
    animate pow target duration startTime currentTime s =
      some { textContent := toLocaleString current, frameRequested := true,
             requests := s.requests + 1 } := by
  unfold animate
  rw [h1, Option.some_bind, h2, Option.some_bind]
  simp only [hp, if_true]

/-- Once `progress` is `1` the callback writes the target and requests no
frame. -/
theorem animate_done_eq {pow : ℚ → ℕ → Option ℚ} {target current : ℤ}
    {duration startTime currentTime p : ℚ} (s : Animation)
    (h1 : progress duration startTime currentTime = some p)
    (h2 : currentValue pow target p = some current) (hp : ¬ p < 1) :
    animate pow target duration startTime currentTime s =
      some { textContent := toLocaleString target, frameRequested := false,
             requests := s.requests } := by
  unfold animate
  rw [h1, Option.some_bind, h2, Option.some_bind]
  simp only [hp, if_false]

/-- A correctly rounded `Math.pow` is accurate. -/
theorem pow_accurate : PowAccurate Float64.pow := by
  intro x hx0 hx2
  have hx4 : x ^ 4 ≤ 2 ^ 4 := pow_le_pow_left₀ hx0 hx2 4
  have hx40 : 0 ≤ x ^ 4 := pow_nonneg hx0 4
  obtain ⟨y, hy⟩ := Float64.round_isSome (x := x ^ 4) (by
    rw [abs_of_nonneg hx40]
    exact Float64.le_two_pow_1023 (le_trans hx4 (by norm_num)))
  refine ⟨y, hy, ?_⟩
  have herr := Float64.round_error hy
  rw [abs_of_nonneg hx40] at herr
  have h1 : (2 : ℚ) ^ (-53 : ℤ) ≤ 2 ^ (-52 : ℤ) :=
    zpow_le_zpow_right₀ (by norm_num) (by norm_num)
  have h2 : (2 : ℚ) ^ (-1075 : ℤ) ≤ 2 ^ (-1074 : ℤ) :=
    zpow_le_zpow_right₀ (by norm_num) (by norm_num)
  have h3 := mul_le_mul_of_nonneg_right h1 hx40
  linarith

/-- The callback `animate` in double precision, for an accurate `Math.pow`, an
integer target of magnitude at most `2^53`, a positive duration and a
non-negative elapsed time: all its numbers are finite; the argument `V` of
`Math.floor` is the exact value of the curve at the computed progress up to
`2^-48 * |target|`; a frame with progress below `1` displays `⌊V⌋` and requests
another frame; a frame with progress `1` displays the target and requests
none. -/
theorem animate_spec (pow : ℚ → ℕ → Option ℚ) (hpow : PowAccurate pow) (target : ℤ)
    (duration startTime currentTime elapsed : ℚ) (s : Animation)
    (hT : |target| ≤ 2 ^ 53) (hD : 0 < duration)
    (helapsed : Float64.sub currentTime startTime = some elapsed) (h0 : 0 ≤ elapsed)
    (hq : elapsed / duration ≤ 2 ^ (1000 : ℤ)) :
    ∃ q : ℚ,
      Float64.div elapsed duration = some q ∧ 0 ≤ q ∧
      |q - elapsed / duration| ≤ 2 ^ (-53 : ℤ) * (elapsed / duration) + 2 ^ (-1075 : ℤ) ∧
      ∃ V : ℚ,
      (∃ ease, easeOutQuart pow (min q 1) = some ease ∧ eased target ease = some V) ∧
      |V - target * (1 - (1 - min q 1) ^ 4)|
        ≤ 2 ^ (-48 : ℤ) * |(target : ℚ)| + 2 ^ (-1000 : ℤ) ∧
      (q < 1 → animate pow target duration startTime currentTime s =
        some { textContent := toLocaleString ⌊V⌋, frameRequested := true,
               requests := s.requests + 1 }) ∧
      (1 ≤ q → animate pow target duration startTime currentTime s =
        some { textContent := toLocaleString target, frameRequested := false,
               requests := s.requests }) := by
  have hu : (2 : ℚ) ^ (-53 : ℤ) = 1 / 9007199254740992 := by norm_num
  have h48 : (2 : ℚ) ^ (-48 : ℤ) = 1 / 281474976710656 := by norm_num
  have hbig : (1024 : ℚ) ≤ 2 ^ (1023 : ℤ) :=
    le_trans (by norm_num : (1024 : ℚ) ≤ 2 ^ (50 : ℤ))
      (zpow_le_zpow_right₀ (by norm_num) (by norm_num))
  have hbig' : (72057594037927936 : ℚ) ≤ 2 ^ (1023 : ℤ) :=
    le_trans (by norm_num : (72057594037927936 : ℚ) ≤ 2 ^ (60 : ℤ))
      (zpow_le_zpow_right₀ (by norm_num) (by norm_num))
  have hTq : |(target : ℚ)| ≤ 9007199254740992 := by
    have h1 : ((|target| : ℤ) : ℚ) ≤ ((2 ^ 53 : ℤ) : ℚ) := by exact_mod_cast hT
    rw [Int.cast_abs] at h1
    norm_num at h1
    exact h1
  have hx0 : 0 ≤ elapsed / duration := div_nonneg h0 (le_of_lt hD)
  -- the progress
  obtain ⟨q, hq'⟩ := Float64.round_isSome (x := elapsed / duration) (by
    rw [abs_of_nonneg hx0]
    exact le_trans hq (zpow_le_zpow_right₀ (by norm_num) (by norm_num)))
  have hdiv : Float64.div elapsed duration = some q :=
    (Float64.div_eq_round (ne_of_gt hD)).trans hq'
  have hq0 : 0 ≤ q := Float64.round_nonneg hx0 hq'
  have hqerr := Float64.round_error hq'
  rw [abs_of_nonneg hx0] at hqerr
  -- the unit roundoff as a number, the underflow threshold as a variable
  have hηfin : 144115188075855872 * (2 : ℚ) ^ (-1075 : ℤ) ≤ 2 ^ (-1000 : ℤ) := by
    have e : (144115188075855872 : ℚ) = 2 ^ (57 : ℤ) := by norm_num
    rw [e, ← zpow_add₀ (by norm_num : (2 : ℚ) ≠ 0)]
    exact zpow_le_zpow_right₀ (by norm_num) (by norm_num)
  have hη10 : (2 : ℚ) ^ (-1075 : ℤ) ≤ 1 / 1024 :=
    le_trans (zpow_le_zpow_right₀ (by norm_num) (by norm_num) :
      (2 : ℚ) ^ (-1075 : ℤ) ≤ 2 ^ (-10 : ℤ)) (by norm_num)
  have hη0 : (0 : ℚ) ≤ 2 ^ (-1075 : ℤ) := Float64.underflow_bounds.1
  have e52 : (2 : ℚ) ^ (-52 : ℤ) = 2 * (1 / 9007199254740992) := by norm_num
  have e1074 : (2 : ℚ) ^ (-1074 : ℤ) = 2 * 2 ^ (-1075 : ℤ) := by
    rw [show (-1074 : ℤ) = -1075 + 1 from rfl, zpow_add_one₀ (by norm_num : (2 : ℚ) ≠ 0)]
    ring
  have herr : ∀ {x y : ℚ}, Float64.round x = some y →
      |y - x| ≤ 1 / 9007199254740992 * |x| + 2 ^ (-1075 : ℤ) := by
    intro x y h
    have := Float64.round_error h
    rw [hu] at this
    exact this
  unfold PowAccurate at hpow
  rw [e52, e1074] at hpow
  refine ⟨q, hdiv, hq0, hqerr, ?_⟩
  rw [h48]
  generalize (2 : ℚ) ^ (-1000 : ℤ) = w at hηfin ⊢
  generalize (2 : ℚ) ^ (-1075 : ℤ) = η at hηfin hη10 hη0 herr hpow
  clear hqerr hq e1074
  have hprogress := progress_eq helapsed hdiv
  have hp0 : 0 ≤ min q 1 := le_min hq0 (by norm_num)
  have hp1 : min q 1 ≤ 1 := min_le_right _ _
  have hplt : min q 1 < 1 ↔ q < 1 := by
    rw [min_lt_iff]
    constructor
    · rintro (h | h)
      · exact h
      · exact absurd h (lt_irrefl 1)
    · exact fun h => Or.inl h
  generalize min q 1 = p at hprogress hp0 hp1 hplt ⊢
  -- the rest `1 - progress`
  have h1p0 : 0 ≤ 1 - p := by linarith
  have h1p : |1 - p| ≤ 1 := by
    rw [abs_of_nonneg h1p0]
    linarith
  obtain ⟨r, hr⟩ := Float64.round_isSome (x := 1 - p) (by linarith)
  have hr0 : 0 ≤ r := Float64.round_nonneg h1p0 hr
  have hrerr := herr hr
  have hr2 : r ≤ 2 := by
    obtain ⟨-, h2⟩ := abs_le.mp hrerr
    linarith
  -- the power
  obtain ⟨y, hy, hyerr⟩ := hpow r hr0 hr2
  have hr4 : r ^ 4 ≤ 16 := by
    have := pow_le_pow_left₀ hr0 hr2 4
    norm_num at this
    exact this
  have hr40 : 0 ≤ r ^ 4 := pow_nonneg hr0 4
  have h1y : |1 - y| ≤ 1024 := by
    obtain ⟨h2, h3⟩ := abs_le.mp hyerr
    rw [abs_le]
    constructor <;> linarith
  obtain ⟨e, he⟩ := Float64.round_isSome (x := 1 - y) (by linarith)
  have heerr := herr he
  obtain ⟨hease, he2⟩ := ease_error _ _ p r y e (by norm_num) (by norm_num) hη0 hη10 hp0 hp1 hr0
    hrerr hyerr heerr
  have hEase : easeOutQuart pow p = some e := easeOutQuart_eq hr hy he
  -- the range `target - start`
  obtain ⟨range, hrange⟩ := Float64.round_isSome (x := (target : ℚ) - 0) (by
    rw [sub_zero]
    linarith)
  have hrangeerr := herr hrange
  rw [sub_zero] at hrangeerr
  have hR : |range| ≤ 18014398509481984 := by
    have h1 := abs_sub_abs_le_abs_sub range (target : ℚ)
    linarith
  have hRe : |range * e| ≤ 36028797018963968 := by
    rw [abs_mul]
    have := mul_le_mul hR he2 (abs_nonneg e) (by norm_num)
    linarith
  obtain ⟨prod, hprod⟩ := Float64.round_isSome (x := range * e) (by linarith)
  have hproderr := herr hprod
  have hP : |0 + prod| ≤ 72057594037927936 := by
    rw [zero_add]
    have h1 := abs_sub_abs_le_abs_sub prod (range * e)
    linarith
  obtain ⟨V, hV⟩ := Float64.round_isSome (x := 0 + prod) (by linarith)
  have hVerr := herr hV
  have hEased : eased target e = some V := eased_eq hrange hprod hV
  have hcurrent := currentValue_eq hEase hEased
  obtain ⟨hfinal, -, -⟩ := product_error _ _ (target : ℚ) range e (1 - (1 - p) ^ 4) prod V
    (by norm_num) (by norm_num) hη0 hrangeerr he2 hease hproderr hVerr
  refine ⟨V, ⟨e, hEase, hEased⟩, ?_, ?_, ?_⟩
  · have hηt := mul_le_mul_of_nonneg_left hTq hη0
    have ht0 := abs_nonneg (target : ℚ)
    have e1 : 8 * η * |(target : ℚ)| = 8 * (η * |(target : ℚ)|) := by ring
    rw [e1] at hfinal
    generalize η * |(target : ℚ)| = z at hηt hfinal
    linarith
  · intro hlt
    exact animate_running_eq s hprogress hcurrent (hplt.mpr hlt)
  · intro hge
    exact animate_done_eq s hprogress hcurrent (fun h => absurd (hplt.mp h) (not_lt.mpr hge))

/-- The instance of the claim: target `1247` and duration `2000` at the elapsed
time `1000`, for every accurate `Math.pow`. -/
theorem animate_midpoint (pow : ℚ → ℕ → Option ℚ) (hpow : PowAccurate pow)
    (startTime currentTime : ℚ) (s : Animation)
    (helapsed : Float64.sub currentTime startTime = some 1000) :
    animate pow 1247 2000 startTime currentTime s =
      some { textContent := "1,169", frameRequested := true, requests := s.requests + 1 } := by
  have hdiv : Float64.div 1000 2000 = some (1 / 2) :=
    (Float64.div_eq_round (by norm_num)).trans
      (Float64.round_eq_of_pos (-53) 4503599627370496 (1 / 9007199254740992) (by norm_num)
        (by norm_num) (by norm_num) (by norm_num) (by norm_num) (by norm_num) (by norm_num)
        (by norm_num))
  obtain ⟨q, hq, -, -, V, -, hV, hrun, -⟩ := animate_spec pow hpow 1247 2000 startTime
    currentTime 1000 s (by norm_num) (by norm_num) helapsed (by norm_num)
    (le_trans (by norm_num : (1000 : ℚ) / 2000 ≤ 2 ^ (50 : ℤ))
      (zpow_le_zpow_right₀ (by norm_num) (by norm_num)))
  rw [hdiv] at hq
  have hq2 : q = 1 / 2 := (Option.some.inj hq).symm
  subst hq2
  rw [hrun (by norm_num)]
  have hmin : min ((1 : ℚ) / 2) 1 = 1 / 2 := min_eq_left (by norm_num)
  have h48 : (2 : ℚ) ^ (-48 : ℤ) = 1 / 281474976710656 := by norm_num
  have h1000 : (2 : ℚ) ^ (-1000 : ℤ) ≤ 1 / 1024 :=
    le_trans (zpow_le_zpow_right₀ (by norm_num) (by norm_num) :
      (2 : ℚ) ^ (-1000 : ℤ) ≤ 2 ^ (-10 : ℤ)) (by norm_num)
  rw [hmin, h48] at hV
  have hfloor : ⌊V⌋ = 1169 := by
    rw [Int.floor_eq_iff]
    obtain ⟨h1, h2⟩ := abs_le.mp hV
    norm_num at h1 h2 ⊢
    constructor <;> linarith
  rw [hfloor]
  have htext : toLocaleString 1169 = "1,169" := by decide
  rw [htext]

/-- The instance of the claim: target `1247` and duration `2000` at the elapsed
time `2000`, for every accurate `Math.pow`. -/
theorem animate_end (pow : ℚ → ℕ → Option ℚ) (hpow : PowAccurate pow)
    (startTime currentTime : ℚ) (s : Animation)
    (helapsed : Float64.sub currentTime startTime = some 2000) :
    animate pow 1247 2000 startTime currentTime s =
      some { textContent := "1,247", frameRequested := false, requests := s.requests } := by
  have hdiv : Float64.div 2000 2000 = some 1 :=
    (Float64.div_eq_round (by norm_num)).trans
      (Float64.round_eq_of_pos (-52) 4503599627370496 (1 / 4503599627370496) (by norm_num)
        (by norm_num) (by norm_num) (by norm_num) (by norm_num) (by norm_num) (by norm_num)
        (by norm_num))
  obtain ⟨q, hq, -, -, V, -, -, -, hdone⟩ := animate_spec pow hpow 1247 2000 startTime
    currentTime 2000 s (by norm_num) (by norm_num) helapsed (by norm_num)
    (le_trans (by norm_num : (2000 : ℚ) / 2000 ≤ 2 ^ (50 : ℤ))
      (zpow_le_zpow_right₀ (by norm_num) (by norm_num)))
  rw [hdiv] at hq
  have hq2 : q = 1 := (Option.some.inj hq).symm
  subst hq2
  rw [hdone (le_refl 1)]
  have htext : toLocaleString 1247 = "1,247" := by decide
  rw [htext]

/-- Claim C8, amended (ease-out quartic in double precision).  For an accurate
`Math.pow`, an integer target `T` with `|T| ≤ 2^53`, a positive duration `D` and
a frame whose elapsed time `t ≥ 0` has a finite quotient `t / D`: the progress
is `p = min q 1` with `q` the double `t / D`; the callback computes the double
`V = 0 + (T - 0) * (1 - Math.pow(1 - p, 4))`, which is `T * (1 - (1 - p)^4)` up to
`2^-48 * |T| + 2^-1000`; with `p < 1` it displays `⌊V⌋`, which lies between the
floors of `T * (1 - (1 - p)^4)` less and plus that tolerance, and requests
another frame; once `p = 1` it displays exactly the target and requests none.
For `T = 1247` and `D = 2000` it shows `1,169` at `t = 1000` and `1,247` at
`t = 2000`. -/
theorem ease_out_quartic (pow : ℚ → ℕ → Option ℚ) (hpow : PowAccurate pow) (target : ℤ)
    (duration startTime currentTime elapsed : ℚ) (s : Animation)
    (hT : |target| ≤ 2 ^ 53) (hD : 0 < duration)
    (helapsed : Float64.sub currentTime startTime = some elapsed) (h0 : 0 ≤ elapsed)
    (hq : elapsed / duration ≤ 2 ^ (1000 : ℤ)) :
    (∃ q : ℚ,
      Float64.div elapsed duration = some q ∧ 0 ≤ q ∧
      |q - elapsed / duration| ≤ 2 ^ (-53 : ℤ) * (elapsed / duration) + 2 ^ (-1075 : ℤ) ∧
      ∃ V : ℚ,
      (∃ ease, easeOutQuart pow (min q 1) = some ease ∧ eased target ease = some V) ∧
      |V - target * (1 - (1 - min q 1) ^ 4)|
        ≤ 2 ^ (-48 : ℤ) * |(target : ℚ)| + 2 ^ (-1000 : ℤ) ∧
      ⌊(target : ℚ) * (1 - (1 - min q 1) ^ 4)
          - (2 ^ (-48 : ℤ) * |(target : ℚ)| + 2 ^ (-1000 : ℤ))⌋ ≤ ⌊V⌋ ∧
      ⌊V⌋ ≤ ⌊(target : ℚ) * (1 - (1 - min q 1) ^ 4)
          + (2 ^ (-48 : ℤ) * |(target : ℚ)| + 2 ^ (-1000 : ℤ))⌋ ∧
      (q < 1 → animate pow target duration startTime currentTime s =
        some { textContent := toLocaleString ⌊V⌋, frameRequested := true,
               requests := s.requests + 1 }) ∧
      (1 ≤ q → animate pow target duration startTime currentTime s =
        some { textContent := toLocaleString target, frameRequested := false,
               requests := s.requests })) ∧
    (∀ (startTime currentTime : ℚ) (s : Animation),
      Float64.sub currentTime startTime = some 1000 →
      animate pow 1247 2000 startTime currentTime s =
        some { textContent := "1,169", frameRequested := true, requests := s.requests + 1 }) ∧
    (∀ (startTime currentTime : ℚ) (s : Animation),
      Float64.sub currentTime startTime = some 2000 →
      animate pow 1247 2000 startTime currentTime s =
        some { textContent := "1,247", frameRequested := false, requests := s.requests }) := by
  refine ⟨?_, animate_midpoint pow hpow, animate_end pow hpow⟩
  obtain ⟨q, hdiv, hq0, hqerr, V, hease, hV, hrun, hdone⟩ :=
    animate_spec pow hpow target duration startTime currentTime elapsed s hT hD helapsed h0 hq
  refine ⟨q, hdiv, hq0, hqerr, V, hease, hV, ?_, ?_, hrun, hdone⟩
  · obtain ⟨h1, -⟩ := abs_le.mp hV
    exact Int.floor_mono (by linarith)
  · obtain ⟨-, h2⟩ := abs_le.mp hV
    exact Int.floor_mono (by linarith)

/-- Claim C8 for target `1247` and duration `2000`, at the elapsed time `1000` of
an animation started at time `0`, with the correctly rounded `Math.pow`. -/
theorem ease_out_quartic_witness :
    PowAccurate Float64.pow ∧ |(1247 : ℤ)| ≤ 2 ^ 53 ∧ (0 : ℚ) < 2000 ∧
    Float64.sub 1000 0 = some 1000 ∧ (0 : ℚ) ≤ 1000 ∧
    (1000 : ℚ) / 2000 ≤ 2 ^ (1000 : ℤ) ∧
    animate Float64.pow 1247 2000 0 1000 (animateNumber "0") =
      some { textContent := "1,169", frameRequested := true,
             requests := (animateNumber "0").requests + 1 } := by
  have h1 : |(1247 : ℤ)| ≤ 2 ^ 53 := by decide
  have h2 : Float64.sub 1000 0 = some 1000 :=
    Float64.round_eq_of_pos (-43) 8796093022208000 (1 / 8796093022208) (by norm_num) (by norm_num)
      (by norm_num) (by norm_num) (by norm_num) (by norm_num) (by norm_num) (by norm_num)
  have h3 : (1000 : ℚ) / 2000 ≤ 2 ^ (1000 : ℤ) :=
    le_trans (by norm_num : (1000 : ℚ) / 2000 ≤ 2 ^ (50 : ℤ))
      (zpow_le_zpow_right₀ (by norm_num) (by norm_num))
  exact ⟨pow_accurate, h1, by norm_num, h2, by norm_num, h3,
    (ease_out_quartic Float64.pow pow_accurate 1247 2000 0 1000 1000 (animateNumber "0") h1
      (by norm_num) h2 (by norm_num) h3).2.1 0 1000 (animateNumber "0") h2⟩

/-- Claim C8 as first stated fails at target `625`, duration `2000` and elapsed
time `400`: the claim displays `⌊625 * (1 - (1 - 0.2)^4)⌋ = ⌊369⌋ = 369`; the code
computes the doubles `1 - 0.2 = 0.8`, `Math.pow(0.8, 4) = 0.4096000000000001`,
`1 - 0.4096000000000001 = 0.5903999999999999` and
`625 * 0.5903999999999999 = 368.99999999999994`, and displays `368`. -/
theorem ease_out_quartic_counterexample :
    ⌊(625 : ℚ) * (1 - (1 - min ((400 : ℚ) / 2000) 1) ^ 4)⌋ = 369 ∧
    progress 2000 0 400 = some (3602879701896397 / 18014398509481984) ∧
    easeOutQuart Float64.pow (3602879701896397 / 18014398509481984) = some (5317850439999081 / 9007199254740992) ∧
    eased 625 (5317850439999081 / 9007199254740992) = some (6491516650389503 / 17592186044416) ∧
    ((6491516650389503 / 17592186044416) : ℚ) < 369 ∧
    currentValue Float64.pow 625 (3602879701896397 / 18014398509481984) = some 368 ∧
    ∀ s : Animation, animate Float64.pow 625 2000 0 400 s =
      some { textContent := "368", frameRequested := true, requests := s.requests + 1 } := by
  have h1 : Float64.sub 400 0 = some 400 :=
    Float64.round_eq_of_pos (-44) 7036874417766400 (1 / 17592186044416) (by norm_num)
      (by norm_num) (by norm_num) (by norm_num) (by norm_num) (by norm_num) (by norm_num)
      (by norm_num)
  have h2 : Float64.div 400 2000 = some (3602879701896397 / 18014398509481984) :=
    (Float64.div_eq_round (by norm_num)).trans
      (Float64.round_eq_of_pos (-55) 7205759403792794 (1 / 36028797018963968) (by norm_num)
        (by norm_num) (by norm_num) (by norm_num) (by norm_num) (by norm_num) (by norm_num)
        (by norm_num))
  have h3 : Float64.sub 1 (3602879701896397 / 18014398509481984) = some (3602879701896397 / 4503599627370496) :=
    Float64.round_eq_of_tie (-53) 7205759403792794 (1 / 9007199254740992) (by norm_num)
      (by norm_num) (by norm_num) (by norm_num) (by norm_num) (by norm_num) (by decide)
      (by norm_num)
  have h4 : Float64.pow (3602879701896397 / 4503599627370496) 4 = some (3689348814741911 / 9007199254740992) :=
    Float64.round_eq_of_pos (-54) 7378697629483822 (1 / 18014398509481984) (by norm_num)
      (by norm_num) (by norm_num) (by norm_num) (by norm_num) (by norm_num) (by norm_num)
      (by norm_num)
  have h5 : Float64.sub 1 (3689348814741911 / 9007199254740992) = some (5317850439999081 / 9007199254740992) :=
    Float64.round_eq_of_pos (-53) 5317850439999081 (1 / 9007199254740992) (by norm_num)
      (by norm_num) (by norm_num) (by norm_num) (by norm_num) (by norm_num) (by norm_num)
      (by norm_num)
  have h6 : Float64.sub ((625 : ℤ) : ℚ) 0 = some 625 := by
    rw [show ((625 : ℤ) : ℚ) = 625 by norm_num]
    exact Float64.round_eq_of_pos (-43) 5497558138880000 (1 / 8796093022208) (by norm_num) (by norm_num)
      (by norm_num) (by norm_num) (by norm_num) (by norm_num) (by norm_num) (by norm_num)
  have h7 : Float64.mul 625 (5317850439999081 / 9007199254740992) = some (6491516650389503 / 17592186044416) :=
    Float64.round_eq_of_pos (-44) 6491516650389503 (1 / 17592186044416) (by norm_num)
      (by norm_num) (by norm_num) (by norm_num) (by norm_num) (by norm_num) (by norm_num)
      (by norm_num)
  have h8 : Float64.add 0 (6491516650389503 / 17592186044416) = some (6491516650389503 / 17592186044416) :=
    Float64.round_eq_of_pos (-44) 6491516650389503 (1 / 17592186044416) (by norm_num)
      (by norm_num) (by norm_num) (by norm_num) (by norm_num) (by norm_num) (by norm_num)
      (by norm_num)
  have hmin : min ((3602879701896397 / 18014398509481984) : ℚ) 1 = (3602879701896397 / 18014398509481984) := min_eq_left (by norm_num)
  have hprogress : progress 2000 0 400 = some (3602879701896397 / 18014398509481984) := by
    have h := progress_eq h1 h2
    rw [hmin] at h
    exact h
  have hease := easeOutQuart_eq h3 h4 h5
  have heased := eased_eq h6 h7 h8
  have hfloor : ⌊((6491516650389503 / 17592186044416) : ℚ)⌋ = 368 := by
    rw [Int.floor_eq_iff]
    norm_num
  have hcurrent : currentValue Float64.pow 625 (3602879701896397 / 18014398509481984) = some 368 := by
    have h := currentValue_eq hease heased
    rw [hfloor] at h
    exact h
  refine ⟨?_, hprogress, hease, heased, by norm_num, hcurrent, ?_⟩
  · rw [Int.floor_eq_iff]
    norm_num
  · intro s
    rw [animate_running_eq s hprogress hcurrent (by norm_num)]
    have htext : toLocaleString 368 = "368" := by decide
    rw [htext]

end Script.Rounded

/-! ## Theorems: dashboard animator in double precision -/

namespace DataVisualization.Rounded

/-- The callback while the sum stays below the end value. -/
theorem tickTimer_running {c inc stop c1 : ℚ} (decimals : ℕ)
    (h : Float64.add c inc = some c1) (hlt : c1 < stop) :
    tickTimer ⟨c, inc, stop, decimals, false⟩ = some ⟨c1, inc, stop, decimals, false⟩ := by
  unfold tickTimer
  simp only
  rw [h, Option.some_bind, if_neg (not_le.mpr hlt)]

/-- The callback when the sum reaches the end value: the value becomes the end
value and the interval is cleared. -/
theorem tickTimer_clearing {c inc stop c1 : ℚ} (decimals : ℕ)
    (h : Float64.add c inc = some c1) (hge : stop ≤ c1) :
    tickTimer ⟨c, inc, stop, decimals, false⟩ = some ⟨stop, inc, stop, decimals, true⟩ := by
  unfold tickTimer
  simp only
  rw [h, Option.some_bind, if_pos hge]

/-- No interval has elapsed. -/
theorem ticks_zero (t : ValueTimer) : ticks 0 t = some t := rfl

/-- One more interval of a timer that has not been cleared. -/
theorem ticks_succ_running {k : ℕ} {t t1 : ValueTimer} (h : ticks k t = some t1)
    (hc : t1.cleared = false) : ticks (k + 1) t = tickTimer t1 := by
  have e : ticks (k + 1) t =
      (ticks k t).bind fun t1 => if t1.cleared then some t1 else tickTimer t1 := rfl
  rw [e, h, Option.some_bind, hc]
  simp

/-- One more interval of a timer that has been cleared. -/
theorem ticks_succ_cleared {k : ℕ} {t t1 : ValueTimer} (h : ticks k t = some t1)
    (hc : t1.cleared = true) : ticks (k + 1) t = some t1 := by
  have e : ticks (k + 1) t =
      (ticks k t).bind fun t1 => if t1.cleared then some t1 else tickTimer t1 := rfl
  rw [e, h, Option.some_bind, hc]
  simp

/-- A cleared timer stays as it is. -/
theorem ticks_cleared_stable {n : ℕ} {t t1 : ValueTimer} (h : ticks n t = some t1)
    (hc : t1.cleared = true) : ∀ k : ℕ, n ≤ k → ticks k t = some t1 := by
  intro k hk
  induction k, hk using Nat.le_induction with
  | base => exact h
  | succ k _ ih => exact ticks_succ_cleared ih hc

/-- The timer of `animateValue` from `0`, for a target that is a double between
`2^-500` and `2^500` and a duration between `16` and `2^29`: every number is
finite, and the increment is `16 * target / duration` up to the rounding of two
divisions. -/
theorem newTimer_spec (target duration : ℚ) (decimals : ℕ)
    (hT : Float64.IsDouble target) (hT0 : 2 ^ (-500 : ℤ) ≤ target)
    (hT1 : target ≤ 2 ^ (500 : ℤ)) (hD0 : 16 ≤ duration) (hD1 : duration ≤ 2 ^ (29 : ℤ)) :
    ∃ inc : ℚ,
      newTimer 0 target duration decimals = some ⟨0, inc, target, decimals, false⟩ ∧
      (∃ k : ℤ, inc = k * 2 ^ (-1074 : ℤ)) ∧
      target / (duration / 16) * (1 - 2 * 2 ^ (-53 : ℤ)) ≤ inc ∧
      inc ≤ target / (duration / 16) * (1 + 3 * 2 ^ (-53 : ℤ)) := by
  have hu : (2 : ℚ) ^ (-53 : ℤ) = 1 / 9007199254740992 := by norm_num
  have h29 : (2 : ℚ) ^ (29 : ℤ) = 536870912 := by norm_num
  have hTpos : 0 < target := lt_of_lt_of_le (zpow_pos (by norm_num) _) hT0
  rw [h29] at hD1
  -- the range
  have hrange : Float64.sub target 0 = some target := by
    unfold Float64.sub
    rw [sub_zero]
    exact hT
  -- the number of steps
  have hx1 : (1 : ℚ) ≤ duration / 16 := by
    rw [le_div_iff₀ (by norm_num)]
    linarith
  have hx1' : duration / 16 ≤ 33554432 := by
    rw [div_le_iff₀ (by norm_num)]
    linarith
  have hx1pos : 0 < duration / 16 := by linarith
  obtain ⟨steps, hsteps⟩ := Float64.round_isSome (x := duration / 16) (by
    rw [abs_of_pos hx1pos]
    exact Float64.le_two_pow_1023 (le_trans hx1' (by norm_num)))
  have hstepsdiv : Float64.div duration 16 = some steps :=
    (Float64.div_eq_round (by norm_num)).trans hsteps
  have hstepserr := Float64.round_error_normal (x := duration / 16) (by
    rw [abs_of_pos hx1pos]
    exact le_trans (zpow_le_zpow_right₀ (by norm_num) (by norm_num) :
      (2 : ℚ) ^ (-1022 : ℤ) ≤ 2 ^ (0 : ℤ)) (by simpa using hx1)) hsteps
  rw [abs_of_pos hx1pos, hu] at hstepserr
  obtain ⟨hs1, hs2⟩ := abs_le.mp hstepserr
  have hsteps1 : 1 / 2 ≤ steps := by linarith
  have hsteps2 : steps ≤ 67108864 := by linarith
  have hstepspos : 0 < steps := by linarith
  -- the increment
  have hx2pos : 0 < target / steps := div_pos hTpos hstepspos
  have hx2hi : target / steps ≤ 2 ^ (1023 : ℤ) := by
    rw [div_le_iff₀ hstepspos]
    have h1 : (2 : ℚ) ^ (500 : ℤ) ≤ 2 ^ (1022 : ℤ) :=
      zpow_le_zpow_right₀ (by norm_num) (by norm_num)
    have h2 : (2 : ℚ) ^ (1023 : ℤ) = 2 ^ (1022 : ℤ) * 2 := by
      rw [show (1023 : ℤ) = 1022 + 1 from rfl, zpow_add_one₀ (by norm_num : (2 : ℚ) ≠ 0)]
    have h3 : (2 : ℚ) ^ (1022 : ℤ) * 2 * (1 / 2) ≤ 2 ^ (1022 : ℤ) * 2 * steps :=
      mul_le_mul_of_nonneg_left hsteps1 (by positivity)
    rw [h2]
    linarith
  have hx2lo : (2 : ℚ) ^ (-1022 : ℤ) ≤ target / steps := by
    rw [le_div_iff₀ hstepspos]
    have h1 : (2 : ℚ) ^ (-1022 : ℤ) * steps ≤ 2 ^ (-1022 : ℤ) * 2 ^ (26 : ℤ) :=
      mul_le_mul_of_nonneg_left (by
        have : (2 : ℚ) ^ (26 : ℤ) = 67108864 := by norm_num
        rw [this]
        exact hsteps2) (le_of_lt (zpow_pos (by norm_num) _))
    rw [← zpow_add₀ (by norm_num : (2 : ℚ) ≠ 0)] at h1
    have h2 : (2 : ℚ) ^ ((-1022 : ℤ) + 26) ≤ 2 ^ (-500 : ℤ) :=
      zpow_le_zpow_right₀ (by norm_num) (by norm_num)
    linarith
  obtain ⟨inc, hinc⟩ := Float64.round_isSome (x := target / steps) (by
    rw [abs_of_pos hx2pos]
    exact hx2hi)
  have hincdiv : Float64.div target steps = some inc :=
    (Float64.div_eq_round (ne_of_gt hstepspos)).trans hinc
  have hincerr := Float64.round_error_normal (x := target / steps) (by
    rw [abs_of_pos hx2pos]
    exact hx2lo) hinc
  rw [abs_of_pos hx2pos, hu] at hincerr
  obtain ⟨hi1, hi2⟩ := abs_le.mp hincerr
  refine ⟨inc, ?_, Float64.round_grid hinc, ?_, ?_⟩
  · unfold newTimer
    rw [hrange, Option.some_bind, hstepsdiv, Option.some_bind, hincdiv, Option.some_bind]
  · rw [hu]
    have hkey : target / (duration / 16) * (1 - 2 * (1 / 9007199254740992))
        ≤ target / steps * (1 - 1 / 9007199254740992) := by
      rw [div_mul_eq_mul_div, div_mul_eq_mul_div, div_le_div_iff₀ hx1pos hstepspos]
      have h1 : (1 - 2 * (1 / 9007199254740992)) * steps
          ≤ (1 - 1 / 9007199254740992) * (duration / 16) := by nlinarith
      have h2 := mul_le_mul_of_nonneg_left h1 (le_of_lt hTpos)
      calc target * (1 - 2 * (1 / 9007199254740992)) * steps
          = target * ((1 - 2 * (1 / 9007199254740992)) * steps) := by ring
        _ ≤ target * ((1 - 1 / 9007199254740992) * (duration / 16)) := h2
        _ = target * (1 - 1 / 9007199254740992) * (duration / 16) := by ring
    linarith
  · rw [hu]
    have hkey : target / steps * (1 + 1 / 9007199254740992)
        ≤ target / (duration / 16) * (1 + 3 * (1 / 9007199254740992)) := by
      rw [div_mul_eq_mul_div, div_mul_eq_mul_div, div_le_div_iff₀ hstepspos hx1pos]
      have h1 : (1 + 1 / 9007199254740992) * (duration / 16)
          ≤ (1 + 3 * (1 / 9007199254740992)) * steps := by nlinarith
      have h2 := mul_le_mul_of_nonneg_left h1 (le_of_lt hTpos)
      calc target * (1 + 1 / 9007199254740992) * (duration / 16)
          = target * ((1 + 1 / 9007199254740992) * (duration / 16)) := by ring
        _ ≤ target * ((1 + 3 * (1 / 9007199254740992)) * steps) := h2
        _ = target * (1 + 3 * (1 / 9007199254740992)) * steps := by ring
    linarith

/-- The timer after `k` intervals: either it has been cleared and holds the end
value, which takes a sum that can reach it, or it holds the rounded sum of `k`
increments, below the end value. -/
theorem ticks_invariant (inc target : ℚ) (decimals : ℕ)
    (hinc : ∃ k : ℤ, inc = k * 2 ^ (-1074 : ℤ)) (hinc0 : 0 ≤ inc)
    (hinc1 : inc ≤ 2 ^ (1000 : ℤ)) (hT0 : 0 < target) (hT1 : target ≤ 2 ^ (1000 : ℤ)) :
    ∀ k : ℕ, ∃ t : ValueTimer, ticks k ⟨0, inc, target, decimals, false⟩ = some t ∧
      ((t = ⟨target, inc, target, decimals, true⟩ ∧
          ∃ j : ℕ, 1 ≤ j ∧ j ≤ k ∧ target ≤ j * inc * (1 + 2 ^ (-53 : ℤ)) ^ j) ∨
       (∃ c : ℚ, t = ⟨c, inc, target, decimals, false⟩ ∧
          (∃ m : ℤ, c = m * 2 ^ (-1074 : ℤ)) ∧ 0 ≤ c ∧ c < target ∧
          k * inc * (1 - 2 ^ (-53 : ℤ)) ^ k ≤ c ∧ c ≤ k * inc * (1 + 2 ^ (-53 : ℤ)) ^ k)) := by
  obtain ⟨hu0, hu8⟩ := Float64.unit_roundoff_bounds
  intro k
  induction k with
  | zero =>
    refine ⟨_, ticks_zero _, Or.inr ⟨0, rfl, Float64.grid_zero, le_refl 0, hT0, ?_, ?_⟩⟩
    · simp
    · simp
  | succ k ih =>
    obtain ⟨t, ht, hcase⟩ := ih
    rcases hcase with ⟨rfl, j, hj1, hjk, hj⟩ | ⟨c, rfl, hcg, hc0, hcT, hlo, hhi⟩
    · exact ⟨_, ticks_succ_cleared ht rfl, Or.inl ⟨rfl, j, hj1, Nat.le_succ_of_le hjk, hj⟩⟩
    · have hsum0 : 0 ≤ c + inc := by linarith
      have h1001 : (2 : ℚ) ^ (1000 : ℤ) + 2 ^ (1000 : ℤ) ≤ 2 ^ (1023 : ℤ) := by
        have h1 : (2 : ℚ) ^ (1000 : ℤ) + 2 ^ (1000 : ℤ) = 2 ^ (1001 : ℤ) := by
          rw [show (1001 : ℤ) = 1000 + 1 from rfl, zpow_add_one₀ (by norm_num : (2 : ℚ) ≠ 0)]
          ring
        rw [h1]
        exact zpow_le_zpow_right₀ (by norm_num) (by norm_num)
      obtain ⟨c1, hc1⟩ : ∃ y, Float64.add c inc = some y :=
        Float64.round_isSome (by
          rw [abs_of_nonneg hsum0]
          exact le_trans (add_le_add (le_trans (le_of_lt hcT) hT1) hinc1) h1001)
      have herr := Float64.add_error hcg hinc hc1
      rw [abs_of_nonneg hsum0] at herr
      obtain ⟨he1, he2⟩ := abs_le.mp herr
      have hc10 : 0 ≤ c1 := Float64.round_nonneg hsum0 hc1
      have hstep := ticks_succ_running ht (rfl : (⟨c, inc, target, decimals, false⟩ :
        ValueTimer).cleared = false)
      have hk0 : (0 : ℚ) ≤ (k : ℚ) := Nat.cast_nonneg k
      generalize (2 : ℚ) ^ (-53 : ℤ) = u at hu0 hu8 he1 he2 hlo hhi ⊢
      have h1m : 0 ≤ 1 - u := by linarith
      have h1p : 1 ≤ 1 + u := by linarith
      -- the bounds of the new sum
      have hupper : c1 ≤ ((k + 1 : ℕ) : ℚ) * inc * (1 + u) ^ (k + 1) := by
        have hp1 : 1 ≤ (1 + u) ^ k := one_le_pow₀ h1p
        have h1 : inc ≤ inc * (1 + u) ^ k := le_mul_of_one_le_right hinc0 hp1
        have h2 : c + inc ≤ (k + 1) * inc * (1 + u) ^ k := by
          have e : ((k : ℚ) + 1) * inc * (1 + u) ^ k
              = k * inc * (1 + u) ^ k + inc * (1 + u) ^ k := by ring
          rw [e]
          linarith
        have h3 : (c + inc) * (1 + u) ≤ (k + 1) * inc * (1 + u) ^ k * (1 + u) :=
          mul_le_mul_of_nonneg_right h2 (by linarith)
        have e : ((k + 1 : ℕ) : ℚ) * inc * (1 + u) ^ (k + 1)
            = (k + 1) * inc * (1 + u) ^ k * (1 + u) := by
          rw [pow_succ, Nat.cast_add, Nat.cast_one]
          ring
        rw [e]
        have e2 : (c + inc) * (1 + u) = c + inc + u * (c + inc) := by ring
        linarith
      have hlower : ((k + 1 : ℕ) : ℚ) * inc * (1 - u) ^ (k + 1) ≤ c1 := by
        have hp1 : (1 - u) ^ k ≤ 1 := pow_le_one₀ h1m (by linarith)
        have h1 : inc * (1 - u) ^ k ≤ inc := mul_le_of_le_one_right hinc0 hp1
        have h2 : (k + 1) * inc * (1 - u) ^ k ≤ c + inc := by
          have e : ((k : ℚ) + 1) * inc * (1 - u) ^ k
              = k * inc * (1 - u) ^ k + inc * (1 - u) ^ k := by ring
          rw [e]
          linarith
        have h3 : (k + 1) * inc * (1 - u) ^ k * (1 - u) ≤ (c + inc) * (1 - u) :=
          mul_le_mul_of_nonneg_right h2 h1m
        have e : ((k + 1 : ℕ) : ℚ) * inc * (1 - u) ^ (k + 1)
            = (k + 1) * inc * (1 - u) ^ k * (1 - u) := by
          rw [pow_succ, Nat.cast_add, Nat.cast_one]
          ring
        rw [e]
        have e2 : (c + inc) * (1 - u) = c + inc - u * (c + inc) := by ring
        linarith
      by_cases hreach : target ≤ c1
      · refine ⟨_, hstep.trans (tickTimer_clearing decimals hc1 hreach),
          Or.inl ⟨rfl, k + 1, Nat.succ_le_succ (Nat.zero_le k), le_refl _, ?_⟩⟩
        exact le_trans hreach hupper
      · exact ⟨_, hstep.trans (tickTimer_running decimals hc1 (not_le.mp hreach)),
          Or.inr ⟨c1, rfl, Float64.round_grid hc1, hc10, not_le.mp hreach, hlower, hupper⟩⟩

/-- The text shown after `k` intervals, from the timer after `k` intervals. -/
theorem shownText_eq {k : ℕ} {t t1 : ValueTimer} (h : ticks k t = some t1) :
    shownText k t = some (displayValue t1.current t1.decimals) := by
  unfold shownText
  rw [h]
  rfl

/-- Powers of `1 ± 2^-53` up to `2^26` factors. -/
theorem pow_unit_roundoff (k : ℕ) (hk : (k : ℚ) ≤ 67108864) :
    1 - (k : ℚ) * (1 / 9007199254740992) ≤ (1 - (2 : ℚ) ^ (-53 : ℤ)) ^ k ∧
    (1 + (2 : ℚ) ^ (-53 : ℤ)) ^ k ≤ 1 + 2 * ((k : ℚ) * (1 / 9007199254740992)) := by
  have hu : (2 : ℚ) ^ (-53 : ℤ) = 1 / 9007199254740992 := by norm_num
  rw [hu]
  exact pow_roundoff_bounds _ (by norm_num) k (by linarith)

/-- The rounded sum of `k ≤ 2^26` increments is `k` times the exact increment `I`
up to the relative error `(k + 2) * 2^-52`. -/
theorem running_value_bound (I inc c : ℚ) (k : ℕ) (hI : 0 ≤ I)
    (hlo : I * (1 - 2 * (1 / 9007199254740992)) ≤ inc)
    (hhi : inc ≤ I * (1 + 3 * (1 / 9007199254740992)))
    (hk26 : (k : ℚ) ≤ 67108864)
    (hclo : k * inc * (1 - (2 : ℚ) ^ (-53 : ℤ)) ^ k ≤ c)
    (hchi : c ≤ k * inc * (1 + (2 : ℚ) ^ (-53 : ℤ)) ^ k) :
    |c - k * I| ≤ ((k : ℚ) + 2) * (1 / 4503599627370496) * (k * I) := by
  have hk0 : (0 : ℚ) ≤ (k : ℚ) := Nat.cast_nonneg k
  obtain ⟨hq, hp⟩ := pow_unit_roundoff k hk26
  have hX0 : 0 ≤ (k : ℚ) * I := mul_nonneg hk0 hI
  have hp0 : (0 : ℚ) ≤ (1 + (2 : ℚ) ^ (-53 : ℤ)) ^ k :=
    pow_nonneg (by linarith [Float64.unit_roundoff_bounds.1]) k
  -- upper bound
  have h1 : (k : ℚ) * inc ≤ k * (I * (1 + 3 * (1 / 9007199254740992))) :=
    mul_le_mul_of_nonneg_left hhi hk0
  have h2 : (k : ℚ) * inc * (1 + (2 : ℚ) ^ (-53 : ℤ)) ^ k
      ≤ k * (I * (1 + 3 * (1 / 9007199254740992)))
        * (1 + 2 * ((k : ℚ) * (1 / 9007199254740992))) :=
    mul_le_mul h1 hp hp0 (by positivity)
  have h3 : (1 + 3 * (1 / 9007199254740992)) * (1 + 2 * ((k : ℚ) * (1 / 9007199254740992)))
      ≤ 1 + ((k : ℚ) + 2) * (1 / 4503599627370496) := by
    nlinarith only [hk0, hk26]
  have h4 := mul_le_mul_of_nonneg_left h3 hX0
  -- lower bound
  have h5 : (k : ℚ) * (I * (1 - 2 * (1 / 9007199254740992))) ≤ k * inc :=
    mul_le_mul_of_nonneg_left hlo hk0
  have h6 : (k : ℚ) * (I * (1 - 2 * (1 / 9007199254740992)))
        * (1 - (k : ℚ) * (1 / 9007199254740992))
      ≤ k * inc * (1 - (2 : ℚ) ^ (-53 : ℤ)) ^ k :=
    mul_le_mul h5 hq (by linarith only [hk26]) (le_trans (by positivity) h5)
  have h7 : 1 - ((k : ℚ) + 2) * (1 / 4503599627370496)
      ≤ (1 - 2 * (1 / 9007199254740992)) * (1 - (k : ℚ) * (1 / 9007199254740992)) := by
    nlinarith only [hk0, hk26]
  have h8 := mul_le_mul_of_nonneg_left h7 hX0
  generalize (k : ℚ) * inc * (1 + (2 : ℚ) ^ (-53 : ℤ)) ^ k = hi at hchi h2
  generalize (k : ℚ) * inc * (1 - (2 : ℚ) ^ (-53 : ℤ)) ^ k = lo at hclo h6
  rw [abs_le]
  constructor
  · have e1 : (k : ℚ) * I * ((1 - 2 * (1 / 9007199254740992))
        * (1 - (k : ℚ) * (1 / 9007199254740992)))
        = k * (I * (1 - 2 * (1 / 9007199254740992)))
          * (1 - (k : ℚ) * (1 / 9007199254740992)) := by ring
    have e2 : (k : ℚ) * I * (1 - ((k : ℚ) + 2) * (1 / 4503599627370496))
        = k * I - ((k : ℚ) + 2) * (1 / 4503599627370496) * (k * I) := by ring
    rw [e1, e2] at h8
    linarith only [h8, h6, hclo]
  · have e1 : (k : ℚ) * I * ((1 + 3 * (1 / 9007199254740992))
        * (1 + 2 * ((k : ℚ) * (1 / 9007199254740992))))
        = k * (I * (1 + 3 * (1 / 9007199254740992)))
          * (1 + 2 * ((k : ℚ) * (1 / 9007199254740992))) := by ring
    have e2 : (k : ℚ) * I * (1 + ((k : ℚ) + 2) * (1 / 4503599627370496))
        = k * I + ((k : ℚ) + 2) * (1 / 4503599627370496) * (k * I) := by ring
    rw [e1, e2] at h4
    linarith only [h4, h2, hchi]

/-- A sum of `j ≤ 2^26` increments can reach the target only when `j` is at least
`(1 - 2^-20) * x`, where the exact increment is `target / x`. -/
theorem clearing_tick_lower (I inc target x : ℚ) (j : ℕ) (hIpos : 0 < I)
    (hIx : I * x = target) (hhi : inc ≤ I * (1 + 3 * (1 / 9007199254740992)))
    (hj26 : (j : ℚ) ≤ 67108864)
    (hj : target ≤ j * inc * (1 + (2 : ℚ) ^ (-53 : ℤ)) ^ j) :
    (1 - 1 / 1048576) * x ≤ j := by
  have hj0 : (0 : ℚ) ≤ (j : ℚ) := Nat.cast_nonneg j
  obtain ⟨-, hp⟩ := pow_unit_roundoff j hj26
  have hp0 : (0 : ℚ) ≤ (1 + (2 : ℚ) ^ (-53 : ℤ)) ^ j :=
    pow_nonneg (by linarith [Float64.unit_roundoff_bounds.1]) j
  have h1 : (j : ℚ) * inc ≤ j * (I * (1 + 3 * (1 / 9007199254740992))) :=
    mul_le_mul_of_nonneg_left hhi hj0
  have h2 : (j : ℚ) * inc * (1 + (2 : ℚ) ^ (-53 : ℤ)) ^ j
      ≤ j * (I * (1 + 3 * (1 / 9007199254740992)))
        * (1 + 2 * ((j : ℚ) * (1 / 9007199254740992))) :=
    mul_le_mul h1 hp hp0 (by positivity)
  have h3 : 1 + 2 * ((j : ℚ) * (1 / 9007199254740992)) ≤ 1 + 1 / 67108864 := by
    linarith only [hj26]
  have h4 : (j : ℚ) * (I * (1 + 3 * (1 / 9007199254740992)))
        * (1 + 2 * ((j : ℚ) * (1 / 9007199254740992)))
      ≤ j * (I * (1 + 3 * (1 / 9007199254740992))) * (1 + 1 / 67108864) :=
    mul_le_mul_of_nonneg_left h3 (by positivity)
  generalize (j : ℚ) * inc * (1 + (2 : ℚ) ^ (-53 : ℤ)) ^ j = hi at hj h2
  have h5 : I * x ≤ I * (j * ((1 + 3 * (1 / 9007199254740992)) * (1 + 1 / 67108864))) := by
    have e : I * ((j : ℚ) * ((1 + 3 * (1 / 9007199254740992)) * (1 + 1 / 67108864)))
        = j * (I * (1 + 3 * (1 / 9007199254740992))) * (1 + 1 / 67108864) := by ring
    rw [hIx, e]
    linarith only [hj, h2, h4]
  have h6 := le_of_mul_le_mul_left h5 hIpos
  linarith only [h6, hj0]

/-- A sum of `K ≤ 2^26` increments reaches the target when `K` is at least
`(1 + 2^-20) * x`, where the exact increment is `target / x`. -/
theorem clearing_tick_upper (I inc target x : ℚ) (K : ℕ) (hT : 0 < target) (hI : 0 ≤ I)
    (hIx : I * x = target) (hlo : I * (1 - 2 * (1 / 9007199254740992)) ≤ inc)
    (hK1 : (1 + 1 / 1048576) * x ≤ K) (hK26 : (K : ℚ) ≤ 67108864) :
    target ≤ K * inc * (1 - (2 : ℚ) ^ (-53 : ℤ)) ^ K := by
  obtain ⟨hq, -⟩ := pow_unit_roundoff K hK26
  have hA : (1 + 1 / 1048576) * (1 - 2 * (1 / 9007199254740992)) * target ≤ K * inc := by
    have h1 : (K : ℚ) * (I * (1 - 2 * (1 / 9007199254740992))) ≤ K * inc :=
      mul_le_mul_of_nonneg_left hlo (Nat.cast_nonneg K)
    have h2 : (1 + 1 / 1048576) * x * (I * (1 - 2 * (1 / 9007199254740992)))
        ≤ (K : ℚ) * (I * (1 - 2 * (1 / 9007199254740992))) :=
      mul_le_mul_of_nonneg_right hK1 (mul_nonneg hI (by norm_num))
    have e : (1 + 1 / 1048576) * x * (I * (1 - 2 * (1 / 9007199254740992)))
        = (1 + 1 / 1048576) * (1 - 2 * (1 / 9007199254740992)) * (I * x) := by ring
    rw [e, hIx] at h2
    linarith only [h1, h2]
  have hB : (1 - 1 / 134217728 : ℚ) ≤ (1 - (2 : ℚ) ^ (-53 : ℤ)) ^ K := by
    linarith only [hq, hK26]
  have hAB := mul_le_mul hA hB (by norm_num)
    (le_trans (mul_nonneg (by norm_num) (le_of_lt hT)) hA)
  generalize (K : ℚ) * inc * (1 - (2 : ℚ) ^ (-53 : ℤ)) ^ K = v at hAB ⊢
  nlinarith only [hAB, hT]

/-- Claim C22, amended (the dashboard animator is linear, in double precision).
For a target that is a double between `2^-500` and `2^500` and a duration between
`16` and `2^29` milliseconds, `animateValue` from `0` sets up a timer whose
increment is the double `target / (duration / 16)`, within the relative error
`2^-51` of `16 * target / duration`.  There is a tick `N ≥ 1`, with
`16 * N / duration ≥ 1 - 2^-20` and `16 * (N - 1) / duration ≤ 1 + 2^-20`, such that
before tick `N` the timer is running and holds after `k` ticks the rounded sum of
`k` increments, which is below the target and within the relative error
`(k + 2) * 2^-52` of `target * 16 * k / duration` (linear, no easing), and from tick
`N` on the timer is cleared and holds exactly the target.  The element shows the
value held with the requested number of decimals. -/
theorem dashboard_animator_linear (target duration : ℚ) (decimals : ℕ)
    (hT : Float64.IsDouble target) (hT0 : 2 ^ (-500 : ℤ) ≤ target)
    (hT1 : target ≤ 2 ^ (500 : ℤ)) (hD0 : 16 ≤ duration) (hD1 : duration ≤ 2 ^ (29 : ℤ)) :
    ∃ (inc : ℚ) (N : ℕ),
      newTimer 0 target duration decimals = some ⟨0, inc, target, decimals, false⟩ ∧
      |inc - 16 * target / duration| ≤ 2 ^ (-51 : ℤ) * (16 * target / duration) ∧
      1 ≤ N ∧ (1 - 2 ^ (-20 : ℤ)) * (duration / 16) ≤ N ∧
      (N : ℚ) ≤ (1 + 2 ^ (-20 : ℤ)) * (duration / 16) + 1 ∧
      (∀ k : ℕ, k < N → ∃ c : ℚ,
        ticks k ⟨0, inc, target, decimals, false⟩ = some ⟨c, inc, target, decimals, false⟩ ∧
        shownText k ⟨0, inc, target, decimals, false⟩ = some (displayValue c decimals) ∧
        0 ≤ c ∧ c < target ∧
        |c - target * (16 * k / duration)|
          ≤ ((k : ℚ) + 2) * 2 ^ (-52 : ℤ) * (target * (16 * k / duration))) ∧
      (∀ k : ℕ, N ≤ k →
        ticks k ⟨0, inc, target, decimals, false⟩
          = some ⟨target, inc, target, decimals, true⟩ ∧
        shownText k ⟨0, inc, target, decimals, false⟩
          = some (displayValue target decimals)) := by
  classical
  have hu : (2 : ℚ) ^ (-53 : ℤ) = 1 / 9007199254740992 := by norm_num
  have h51 : (2 : ℚ) ^ (-51 : ℤ) = 1 / 2251799813685248 := by norm_num
  have h52 : (2 : ℚ) ^ (-52 : ℤ) = 1 / 4503599627370496 := by norm_num
  have h20 : (2 : ℚ) ^ (-20 : ℤ) = 1 / 1048576 := by norm_num
  have h29 : (2 : ℚ) ^ (29 : ℤ) = 536870912 := by norm_num
  have hTpos : 0 < target := lt_of_lt_of_le (zpow_pos (by norm_num) _) hT0
  have hT1000 : target ≤ 2 ^ (1000 : ℤ) :=
    le_trans hT1 (zpow_le_zpow_right₀ (by norm_num) (by norm_num))
  obtain ⟨inc, hnew, hgrid, hlo, hhi⟩ :=
    newTimer_spec target duration decimals hT hT0 hT1 hD0 hD1
  rw [h29] at hD1
  rw [hu] at hlo hhi
  have hx1 : (1 : ℚ) ≤ duration / 16 := by
    rw [le_div_iff₀ (by norm_num)]
    linarith only [hD0]
  have hx1' : duration / 16 ≤ 33554432 := by
    rw [div_le_iff₀ (by norm_num)]
    linarith only [hD1]
  have hx1pos : 0 < duration / 16 := lt_of_lt_of_le (by norm_num) hx1
  have hDne : duration ≠ 0 := by
    intro h
    rw [h] at hD0
    norm_num at hD0
  have hIeq : 16 * target / duration = target / (duration / 16) := by
    field_simp
    ring
  have hIk : ∀ k : ℕ, target * (16 * k / duration) = k * (target / (duration / 16)) := by
    intro k
    field_simp
    ring
  have hIx : target / (duration / 16) * (duration / 16) = target :=
    div_mul_cancel₀ target (ne_of_gt hx1pos)
  have hIpos : 0 < target / (duration / 16) := div_pos hTpos hx1pos
  have hIle : target / (duration / 16) ≤ target := div_le_self (le_of_lt hTpos) hx1
  generalize hI : target / (duration / 16) = I at hlo hhi hIeq hIk hIx hIpos hIle
  generalize duration / 16 = x at hx1 hx1' hx1pos hIx ⊢
  have hincpos : 0 < inc := lt_of_lt_of_le (mul_pos hIpos (by norm_num)) hlo
  have hinc1000 : inc ≤ 2 ^ (1000 : ℤ) := by
    have h1 : inc ≤ 2 * target := by nlinarith only [hhi, hIle, hIpos]
    have h2 : (2 : ℚ) * 2 ^ (500 : ℤ) = 2 ^ (501 : ℤ) := by
      rw [show (501 : ℤ) = 500 + 1 from rfl, zpow_add_one₀ (by norm_num : (2 : ℚ) ≠ 0)]
      ring
    have h3 : (2 : ℚ) ^ (501 : ℤ) ≤ 2 ^ (1000 : ℤ) :=
      zpow_le_zpow_right₀ (by norm_num) (by norm_num)
    have h4 : 2 * target ≤ 2 * 2 ^ (500 : ℤ) := mul_le_mul_of_nonneg_left hT1 (by norm_num)
    exact le_trans h1 (le_trans h4 (le_trans (le_of_eq h2) h3))
  have hinv := ticks_invariant inc target decimals hgrid (le_of_lt hincpos) hinc1000 hTpos hT1000
  -- a tick by which the timer has been cleared
  have hK1 := Nat.le_ceil ((1 + 1 / 1048576) * x)
  have hK2 := Nat.ceil_lt_add_one (a := (1 + 1 / 1048576) * x)
    (mul_nonneg (by norm_num) (le_of_lt hx1pos))
  generalize ⌈(1 + 1 / 1048576) * x⌉₊ = K at hK1 hK2
  have hK26 : (K : ℚ) ≤ 67108864 := by linarith only [hK2, hx1']
  have hIx' : I * x = target := hIx
  have hPK : ∃ t, ticks K ⟨0, inc, target, decimals, false⟩ = some t ∧ t.cleared = true := by
    obtain ⟨t, ht, hcase⟩ := hinv K
    rcases hcase with ⟨rfl, -⟩ | ⟨c, rfl, -, -, hcT, hclo, -⟩
    · exact ⟨_, ht, rfl⟩
    · exact absurd (le_trans (clearing_tick_upper I inc target x K hTpos (le_of_lt hIpos)
        hIx' hlo hK1 hK26) hclo) (not_le.mpr hcT)
  have hex : ∃ k t, ticks k ⟨0, inc, target, decimals, false⟩ = some t ∧ t.cleared = true :=
    ⟨K, hPK⟩
  have hNspec := Nat.find_spec hex
  have hNmin : ∀ m, m < Nat.find hex →
      ¬ ∃ t, ticks m ⟨0, inc, target, decimals, false⟩ = some t ∧ t.cleared = true :=
    fun m hm => Nat.find_min hex hm
  have hNK : Nat.find hex ≤ K := Nat.find_min' hex hPK
  generalize Nat.find hex = N at hNspec hNmin hNK
  -- the timer at the clearing tick
  obtain ⟨tN, htN, hclN⟩ := hNspec
  obtain ⟨t, ht, hcase⟩ := hinv N
  rw [htN] at ht
  have htt : tN = t := Option.some.inj ht
  subst htt
  rcases hcase with ⟨rfl, j, hj1, hjN, hj⟩ | ⟨c, rfl, -⟩
  swap
  · exact absurd hclN (by simp)
  have hN1 : 1 ≤ N := le_trans hj1 hjN
  have hNK' : (N : ℚ) ≤ K := by exact_mod_cast hNK
  have hjN' : (j : ℚ) ≤ N := by exact_mod_cast hjN
  have hlower : (1 - 1 / 1048576) * x ≤ N :=
    le_trans (clearing_tick_lower I inc target x j hIpos hIx' hhi
      (le_trans hjN' (le_trans hNK' hK26)) hj) hjN'
  refine ⟨inc, N, hnew, ?_, hN1, ?_, ?_, ?_, ?_⟩
  · rw [hIeq, h51, abs_le]
    constructor
    · linarith only [hlo, hIpos]
    · linarith only [hhi, hIpos]
  · rw [h20]
    exact hlower
  · rw [h20]
    linarith only [hNK', hK2]
  · intro k hk
    obtain ⟨t, ht, hcase⟩ := hinv k
    rcases hcase with ⟨rfl, -⟩ | ⟨c, rfl, -, hc0, hcT, hclo, hchi⟩
    · exact absurd ⟨_, ht, rfl⟩ (hNmin k hk)
    · refine ⟨c, ht, shownText_eq ht, hc0, hcT, ?_⟩
      have hkN : (k : ℚ) ≤ N := by exact_mod_cast (le_of_lt hk)
      rw [hIk k, h52]
      exact running_value_bound I inc c k (le_of_lt hIpos) hlo hhi
        (le_trans hkN (le_trans hNK' hK26)) hclo hchi
  · intro k hk
    have h := ticks_cleared_stable htN
      (rfl : (⟨target, inc, target, decimals, true⟩ : ValueTimer).cleared = true) k hk
    exact ⟨h, shownText_eq h⟩

/-- Claim C22 at the metric `active-users`: target `1247` over `2000`
milliseconds, no decimals. -/
theorem dashboard_animator_linear_witness :
    Float64.IsDouble 1247 ∧ (2 : ℚ) ^ (-500 : ℤ) ≤ 1247 ∧ (1247 : ℚ) ≤ 2 ^ (500 : ℤ) ∧
    (16 : ℚ) ≤ 2000 ∧ (2000 : ℚ) ≤ 2 ^ (29 : ℤ) ∧
    ∃ (inc : ℚ) (N : ℕ),
      newTimer 0 (1247 : ℚ) (2000 : ℚ) 0 = some ⟨0, inc, (1247 : ℚ), 0, false⟩ ∧
      |inc - 16 * (1247 : ℚ) / (2000 : ℚ)| ≤ 2 ^ (-51 : ℤ) * (16 * (1247 : ℚ) / (2000 : ℚ)) ∧
      1 ≤ N ∧ (1 - 2 ^ (-20 : ℤ)) * ((2000 : ℚ) / 16) ≤ N ∧
      (N : ℚ) ≤ (1 + 2 ^ (-20 : ℤ)) * ((2000 : ℚ) / 16) + 1 ∧
      (∀ k : ℕ, k < N → ∃ c : ℚ,
        ticks k ⟨0, inc, (1247 : ℚ), 0, false⟩ = some ⟨c, inc, (1247 : ℚ), 0, false⟩ ∧
        shownText k ⟨0, inc, (1247 : ℚ), 0, false⟩ = some (displayValue c 0) ∧
        0 ≤ c ∧ c < (1247 : ℚ) ∧
        |c - (1247 : ℚ) * (16 * k / (2000 : ℚ))|
          ≤ ((k : ℚ) + 2) * 2 ^ (-52 : ℤ) * ((1247 : ℚ) * (16 * k / (2000 : ℚ)))) ∧
      (∀ k : ℕ, N ≤ k →
        ticks k ⟨0, inc, (1247 : ℚ), 0, false⟩
          = some ⟨(1247 : ℚ), inc, (1247 : ℚ), 0, true⟩ ∧
        shownText k ⟨0, inc, (1247 : ℚ), 0, false⟩
          = some (displayValue (1247 : ℚ) 0)) := by
  have h1 : Float64.IsDouble 1247 := by
    simpa using Float64.isDouble_natCast 1247 (by norm_num)
  have h2 : (2 : ℚ) ^ (-500 : ℤ) ≤ 1247 :=
    le_trans (zpow_le_zpow_right₀ (by norm_num) (by norm_num) :
      (2 : ℚ) ^ (-500 : ℤ) ≤ 2 ^ (0 : ℤ)) (by norm_num)
  have h3 : (1247 : ℚ) ≤ 2 ^ (500 : ℤ) :=
    le_trans (by norm_num : (1247 : ℚ) ≤ 2 ^ (50 : ℤ))
      (zpow_le_zpow_right₀ (by norm_num) (by norm_num))
  have h4 : (2000 : ℚ) ≤ 2 ^ (29 : ℤ) := by norm_num
  exact ⟨h1, h2, h3, by norm_num, h4,
    dashboard_animator_linear 1247 2000 0 h1 h2 h3 (by norm_num) h4⟩

/-- Claim C22 as first stated fails.  The call
`animateValue('active-users', 0, 1247, 2000)` holds the double `9.976` after its
first interval and shows `9`, while the quartic curve
`1247 * (1 - (1 - 16/2000)^4)` gives `39`.  The call `animateValue(id, 0, 1, 160)`
has the increment `0.1`; after ten intervals, when `16 * 10 / 160 = 1`, it holds
`0.9999999999999999`, is not cleared and shows `0`; it is cleared and shows `1`
after the eleventh. -/
theorem dashboard_animator_counterexample :
    newTimer 0 1247 2000 0 = some ⟨0, (5615988735331009 / 562949953421312), 1247, 0, false⟩ ∧
    ticks 1 ⟨0, (5615988735331009 / 562949953421312), 1247, 0, false⟩ = some ⟨(5615988735331009 / 562949953421312), (5615988735331009 / 562949953421312), 1247, 0, false⟩ ∧
    shownText 1 ⟨0, (5615988735331009 / 562949953421312), 1247, 0, false⟩ = some "9" ∧
    ⌊(1247 : ℚ) * (1 - (1 - min (16 * 1 / 2000) 1) ^ 4)⌋ = 39 ∧
    newTimer 0 1 160 0 = some ⟨0, (3602879701896397 / 36028797018963968), 1, 0, false⟩ ∧
    min ((16 : ℚ) * 10 / 160) 1 = 1 ∧
    ticks 10 ⟨0, (3602879701896397 / 36028797018963968), 1, 0, false⟩ = some ⟨(9007199254740991 / 9007199254740992), (3602879701896397 / 36028797018963968), 1, 0, false⟩ ∧
    shownText 10 ⟨0, (3602879701896397 / 36028797018963968), 1, 0, false⟩ = some "0" ∧
    ticks 11 ⟨0, (3602879701896397 / 36028797018963968), 1, 0, false⟩ = some ⟨1, (3602879701896397 / 36028797018963968), 1, 0, true⟩ ∧
    shownText 11 ⟨0, (3602879701896397 / 36028797018963968), 1, 0, false⟩ = some "1" := by
  have hfirst : newTimer 0 1247 2000 0 = some ⟨0, (5615988735331009 / 562949953421312), 1247, 0, false⟩ ∧
      ticks 1 ⟨0, (5615988735331009 / 562949953421312), 1247, 0, false⟩ = some ⟨(5615988735331009 / 562949953421312), (5615988735331009 / 562949953421312), 1247, 0, false⟩ := by
    have hn1 : Float64.sub 1247 0 = some 1247 :=
      Float64.round_eq_of_pos (-42) 5484363999346688 (1 / 4398046511104) (by norm_num) (by norm_num)
        (by norm_num) (by norm_num) (by norm_num) (by norm_num) (by norm_num) (by norm_num)
    have hn2 : Float64.div 2000 16 = some 125 :=
      (Float64.div_eq_round (by norm_num)).trans
        (Float64.round_eq_of_pos (-46) 8796093022208000 (1 / 70368744177664) (by norm_num)
          (by norm_num) (by norm_num) (by norm_num) (by norm_num) (by norm_num) (by norm_num)
          (by norm_num))
    have hn3 : Float64.div 1247 125 = some (5615988735331009 / 562949953421312) :=
      (Float64.div_eq_round (by norm_num)).trans
        (Float64.round_eq_of_pos (-49) 5615988735331009 (1 / 562949953421312) (by norm_num)
          (by norm_num) (by norm_num) (by norm_num) (by norm_num) (by norm_num) (by norm_num)
          (by norm_num))
    have hnew : newTimer 0 1247 2000 0 = some ⟨0, (5615988735331009 / 562949953421312), 1247, 0, false⟩ := by
      unfold newTimer
      rw [hn1, Option.some_bind, hn2, Option.some_bind, hn3, Option.some_bind]
    have hA0 : ticks 0 ⟨0, (5615988735331009 / 562949953421312), 1247, 0, false⟩ = some ⟨0, (5615988735331009 / 562949953421312), 1247, 0, false⟩ :=
      ticks_zero _
    have hAa1 : Float64.add 0 (5615988735331009 / 562949953421312) = some (5615988735331009 / 562949953421312) :=
      Float64.round_eq_of_pos (-49) 5615988735331009 (1 / 562949953421312) (by norm_num)
        (by norm_num) (by norm_num) (by norm_num) (by norm_num) (by norm_num) (by norm_num)
        (by norm_num)
    have hA1 : ticks 1 ⟨0, (5615988735331009 / 562949953421312), 1247, 0, false⟩ = some ⟨(5615988735331009 / 562949953421312), (5615988735331009 / 562949953421312), 1247, 0, false⟩ :=
      (ticks_succ_running hA0 rfl).trans (tickTimer_running 0 hAa1 (by norm_num))
    exact ⟨hnew, hA1⟩
  have hsecond : newTimer 0 1 160 0 = some ⟨0, (3602879701896397 / 36028797018963968), 1, 0, false⟩ ∧
      ticks 10 ⟨0, (3602879701896397 / 36028797018963968), 1, 0, false⟩ = some ⟨(9007199254740991 / 9007199254740992), (3602879701896397 / 36028797018963968), 1, 0, false⟩ ∧
      ticks 11 ⟨0, (3602879701896397 / 36028797018963968), 1, 0, false⟩ = some ⟨1, (3602879701896397 / 36028797018963968), 1, 0, true⟩ := by
    have hn1 : Float64.sub 1 0 = some 1 :=
      Float64.round_eq_of_pos (-52) 4503599627370496 (1 / 4503599627370496) (by norm_num)
        (by norm_num) (by norm_num) (by norm_num) (by norm_num) (by norm_num) (by norm_num)
        (by norm_num)
    have hn2 : Float64.div 160 16 = some 10 :=
      (Float64.div_eq_round (by norm_num)).trans
        (Float64.round_eq_of_pos (-49) 5629499534213120 (1 / 562949953421312) (by norm_num)
          (by norm_num) (by norm_num) (by norm_num) (by norm_num) (by norm_num) (by norm_num)
          (by norm_num))
    have hn3 : Float64.div 1 10 = some (3602879701896397 / 36028797018963968) :=
      (Float64.div_eq_round (by norm_num)).trans
        (Float64.round_eq_of_pos (-56) 7205759403792794 (1 / 72057594037927936) (by norm_num)
          (by norm_num) (by norm_num) (by norm_num) (by norm_num) (by norm_num) (by norm_num)
          (by norm_num))
    have hnew : newTimer 0 1 160 0 = some ⟨0, (3602879701896397 / 36028797018963968), 1, 0, false⟩ := by
      unfold newTimer
      rw [hn1, Option.some_bind, hn2, Option.some_bind, hn3, Option.some_bind]
    have hB0 : ticks 0 ⟨0, (3602879701896397 / 36028797018963968), 1, 0, false⟩ = some ⟨0, (3602879701896397 / 36028797018963968), 1, 0, false⟩ :=
      ticks_zero _
    have hBa1 : Float64.add 0 (3602879701896397 / 36028797018963968) = some (3602879701896397 / 36028797018963968) :=
      Float64.round_eq_of_pos (-56) 7205759403792794 (1 / 72057594037927936) (by norm_num)
        (by norm_num) (by norm_num) (by norm_num) (by norm_num) (by norm_num) (by norm_num)
        (by norm_num)
    have hB1 : ticks 1 ⟨0, (3602879701896397 / 36028797018963968), 1, 0, false⟩ = some ⟨(3602879701896397 / 36028797018963968), (3602879701896397 / 36028797018963968), 1, 0, false⟩ :=
      (ticks_succ_running hB0 rfl).trans (tickTimer_running 0 hBa1 (by norm_num))
    have hBa2 : Float64.add (3602879701896397 / 36028797018963968) (3602879701896397 / 36028797018963968) = some (3602879701896397 / 18014398509481984) :=
      Float64.round_eq_of_pos (-55) 7205759403792794 (1 / 36028797018963968) (by norm_num)
        (by norm_num) (by norm_num) (by norm_num) (by norm_num) (by norm_num) (by norm_num)
        (by norm_num)
    have hB2 : ticks 2 ⟨0, (3602879701896397 / 36028797018963968), 1, 0, false⟩ = some ⟨(3602879701896397 / 18014398509481984), (3602879701896397 / 36028797018963968), 1, 0, false⟩ :=
      (ticks_succ_running hB1 rfl).trans (tickTimer_running 0 hBa2 (by norm_num))
    have hBa3 : Float64.add (3602879701896397 / 18014398509481984) (3602879701896397 / 36028797018963968) = some (1351079888211149 / 4503599627370496) :=
      Float64.round_eq_of_tie (-54) 5404319552844596 (1 / 18014398509481984) (by norm_num)
        (by norm_num) (by norm_num) (by norm_num) (by norm_num) (by norm_num) (by decide)
        (by norm_num)
    have hB3 : ticks 3 ⟨0, (3602879701896397 / 36028797018963968), 1, 0, false⟩ = some ⟨(1351079888211149 / 4503599627370496), (3602879701896397 / 36028797018963968), 1, 0, false⟩ :=
      (ticks_succ_running hB2 rfl).trans (tickTimer_running 0 hBa3 (by norm_num))
    have hBa4 : Float64.add (1351079888211149 / 4503599627370496) (3602879701896397 / 36028797018963968) = some (3602879701896397 / 9007199254740992) :=
      Float64.round_eq_of_tie (-54) 7205759403792794 (1 / 18014398509481984) (by norm_num)
        (by norm_num) (by norm_num) (by norm_num) (by norm_num) (by norm_num) (by decide)
        (by norm_num)
    have hB4 : ticks 4 ⟨0, (3602879701896397 / 36028797018963968), 1, 0, false⟩ = some ⟨(3602879701896397 / 9007199254740992), (3602879701896397 / 36028797018963968), 1, 0, false⟩ :=
      (ticks_succ_running hB3 rfl).trans (tickTimer_running 0 hBa4 (by norm_num))
    have hBa5 : Float64.add (3602879701896397 / 9007199254740992) (3602879701896397 / 36028797018963968) = some (1 / 2) :=
      Float64.round_eq_of_pos (-53) 4503599627370496 (1 / 9007199254740992) (by norm_num)
        (by norm_num) (by norm_num) (by norm_num) (by norm_num) (by norm_num) (by norm_num)
        (by norm_num)
    have hB5 : ticks 5 ⟨0, (3602879701896397 / 36028797018963968), 1, 0, false⟩ = some ⟨(1 / 2), (3602879701896397 / 36028797018963968), 1, 0, false⟩ :=
      (ticks_succ_running hB4 rfl).trans (tickTimer_running 0 hBa5 (by norm_num))
    have hBa6 : Float64.add (1 / 2) (3602879701896397 / 36028797018963968) = some (5404319552844595 / 9007199254740992) :=
      Float64.round_eq_of_pos (-53) 5404319552844595 (1 / 9007199254740992) (by norm_num)
        (by norm_num) (by norm_num) (by norm_num) (by norm_num) (by norm_num) (by norm_num)
        (by norm_num)
    have hB6 : ticks 6 ⟨0, (3602879701896397 / 36028797018963968), 1, 0, false⟩ = some ⟨(5404319552844595 / 9007199254740992), (3602879701896397 / 36028797018963968), 1, 0, false⟩ :=
      (ticks_succ_running hB5 rfl).trans (tickTimer_running 0 hBa6 (by norm_num))
    have hBa7 : Float64.add (5404319552844595 / 9007199254740992) (3602879701896397 / 36028797018963968) = some (3152519739159347 / 4503599627370496) :=
      Float64.round_eq_of_pos (-53) 6305039478318694 (1 / 9007199254740992) (by norm_num)
        (by norm_num) (by norm_num) (by norm_num) (by norm_num) (by norm_num) (by norm_num)
        (by norm_num)
    have hB7 : ticks 7 ⟨0, (3602879701896397 / 36028797018963968), 1, 0, false⟩ = some ⟨(3152519739159347 / 4503599627370496), (3602879701896397 / 36028797018963968), 1, 0, false⟩ :=
      (ticks_succ_running hB6 rfl).trans (tickTimer_running 0 hBa7 (by norm_num))
    have hBa8 : Float64.add (3152519739159347 / 4503599627370496) (3602879701896397 / 36028797018963968) = some (7205759403792793 / 9007199254740992) :=
      Float64.round_eq_of_pos (-53) 7205759403792793 (1 / 9007199254740992) (by norm_num)
        (by norm_num) (by norm_num) (by norm_num) (by norm_num) (by norm_num) (by norm_num)
        (by norm_num)
    have hB8 : ticks 8 ⟨0, (3602879701896397 / 36028797018963968), 1, 0, false⟩ = some ⟨(7205759403792793 / 9007199254740992), (3602879701896397 / 36028797018963968), 1, 0, false⟩ :=
      (ticks_succ_running hB7 rfl).trans (tickTimer_running 0 hBa8 (by norm_num))
    have hBa9 : Float64.add (7205759403792793 / 9007199254740992) (3602879701896397 / 36028797018963968) = some (2026619832316723 / 2251799813685248) :=
      Float64.round_eq_of_pos (-53) 8106479329266892 (1 / 9007199254740992) (by norm_num)
        (by norm_num) (by norm_num) (by norm_num) (by norm_num) (by norm_num) (by norm_num)
        (by norm_num)
    have hB9 : ticks 9 ⟨0, (3602879701896397 / 36028797018963968), 1, 0, false⟩ = some ⟨(2026619832316723 / 2251799813685248), (3602879701896397 / 36028797018963968), 1, 0, false⟩ :=
      (ticks_succ_running hB8 rfl).trans (tickTimer_running 0 hBa9 (by norm_num))
    have hBa10 : Float64.add (2026619832316723 / 2251799813685248) (3602879701896397 / 36028797018963968) = some (9007199254740991 / 9007199254740992) :=
      Float64.round_eq_of_pos (-53) 9007199254740991 (1 / 9007199254740992) (by norm_num)
        (by norm_num) (by norm_num) (by norm_num) (by norm_num) (by norm_num) (by norm_num)
        (by norm_num)
    have hB10 : ticks 10 ⟨0, (3602879701896397 / 36028797018963968), 1, 0, false⟩ = some ⟨(9007199254740991 / 9007199254740992), (3602879701896397 / 36028797018963968), 1, 0, false⟩ :=
      (ticks_succ_running hB9 rfl).trans (tickTimer_running 0 hBa10 (by norm_num))
    have hBa11 : Float64.add (9007199254740991 / 9007199254740992) (3602879701896397 / 36028797018963968) = some (4953959590107545 / 4503599627370496) :=
      Float64.round_eq_of_pos (-52) 4953959590107545 (1 / 4503599627370496) (by norm_num)
        (by norm_num) (by norm_num) (by norm_num) (by norm_num) (by norm_num) (by norm_num)
        (by norm_num)
    have hB11 : ticks 11 ⟨0, (3602879701896397 / 36028797018963968), 1, 0, false⟩ = some ⟨1, (3602879701896397 / 36028797018963968), 1, 0, true⟩ :=
      (ticks_succ_running hB10 rfl).trans (tickTimer_clearing 0 hBa11 (by norm_num))
    exact ⟨hnew, hB10, hB11⟩
  have ht9 : displayValue (5615988735331009 / 562949953421312) 0 = "9" := by
    have hfloor : ⌊((5615988735331009 / 562949953421312) : ℚ)⌋ = 9 := by
      rw [Int.floor_eq_iff]
      norm_num
    unfold displayValue
    rw [if_neg (by decide), hfloor]
    decide
  have ht0 : displayValue (9007199254740991 / 9007199254740992) 0 = "0" := by
    have hfloor : ⌊((9007199254740991 / 9007199254740992) : ℚ)⌋ = 0 := by
      rw [Int.floor_eq_iff]
      norm_num
    unfold displayValue
    rw [if_neg (by decide), hfloor]
    decide
  have ht1 : displayValue 1 0 = "1" := by
    have hfloor : ⌊(1 : ℚ)⌋ = 1 := Int.floor_one
    unfold displayValue
    rw [if_neg (by decide), hfloor]
    decide
  refine ⟨hfirst.1, hfirst.2, ?_, ?_, hsecond.1, ?_, hsecond.2.1, ?_, hsecond.2.2, ?_⟩
  · rw [shownText_eq hfirst.2]
    exact congrArg some ht9
  · rw [Int.floor_eq_iff]
    norm_num
  · norm_num
  · rw [shownText_eq hsecond.2.1]
    exact congrArg some ht0
  · rw [shownText_eq hsecond.2.2]
    exact congrArg some ht1

end DataVisualization.Rounded

end Fossee
